import Mathlib

/-!
Tutka playback engine: buffer sink and tick engine

A shallow embedding of `buffermidiinterface.cpp` and of the playback engine in
`player.cpp` (with the accessors of `song.cpp` and `instrument.cpp` it uses),
followed by the properties established about them.

Conventions of the embedding

* C integers are `Nat`/`Int`; a reduction modulo `2^w` is written where the
  declared width can be exceeded.
* `unsigned long` is 64 bits wide (LP64), `unsigned int` 32 bits, `char` is signed.
* A null-pointer dereference, an out-of-range `QList`/`QVector` index and a
  division by zero are faults: the embedded function returns `none`.
* A loop whose number of iterations is not bounded by the text is given fuel;
  running out of fuel is `none`.
-/

namespace Tutka

/-! ## Buffer sink (`buffermidiinterface.cpp`) -/

/-- The loop `while ((value >>= 7)) { varlen <<= 8; varlen |= ((value & 0x7F) | 0x80); }`
of `BufferMIDIInterface::write` on 64-bit `unsigned long` operands.  A 64-bit value is zero
after ten shifts by seven, so the callers pass fuel 10. -/
def varlenLoop : Nat → Nat → Nat → Nat
  | 0, _, varlen => varlen
  | fuel + 1, value, varlen =>
    if value >>> 7 ≠ 0 then
      varlenLoop fuel (value >>> 7)
        (((varlen <<< 8) % 2 ^ 64) ||| (((value >>> 7) &&& 0x7F) ||| 0x80))
    else varlen

/-- The loop `for (l = 1; l <= 4; l++) { if (value & 0x80) value >>= 8; else break; }`;
the result is the value of `l` after the loop (`varlenCount 4 1 value`). -/
def varlenCount : Nat → Nat → Nat → Nat
  | 0, l, _ => l
  | n + 1, l, value => if value &&& 0x80 ≠ 0 then varlenCount n (l + 1) (value >>> 8) else l

/-- The loop `for (i = 1; i <= 4; i++) { append(varlen & 0xff); if (varlen & 0x80) varlen >>= 8;
else break; }`: the bytes it appends (`writeVarlen 4 varlen`). -/
def writeVarlen : Nat → Nat → List Nat
  | 0, _ => []
  | n + 1, varlen =>
    (varlen &&& 0xff) :: (if varlen &&& 0x80 ≠ 0 then writeVarlen n (varlen >>> 8) else [])

/-- The state of a `BufferMIDIInterface`: the current tick of the base class
(set by `setTick`), `oldTick` and the byte buffer `data_`. -/
structure BufferMIDIInterface where
  tick : Nat
  oldTick : Nat
  data_ : List Nat
  deriving DecidableEq, Repr

namespace BufferMIDIInterface

/-- The constructor: `oldTick(0)`, an empty buffer.  The base class `MIDIInterface` is not
among the sources; its tick is taken to start at 0. -/
def fresh : BufferMIDIInterface := { tick := 0, oldTick := 0, data_ := [] }

/-- Modelled from the spec: `MIDIInterface::setTick` (midiinterface.cpp is not among the
sources), the "current-tick setter" of the sink, an `unsigned int`. -/
def setTick (s : BufferMIDIInterface) (t : Nat) : BufferMIDIInterface :=
  { s with tick := t % 2 ^ 32 }

/-- `BufferMIDIInterface::write`.  Bytes are numbers below 256.  The SysEx branch calls
`write` again on the rewritten message; the recursion is given fuel.  When the length loop
does not break (`l = 5`) the byte at index 5 of `newmessage` is never written; it is taken
as 0 here. -/
def write : Nat → BufferMIDIInterface → List Nat → Option BufferMIDIInterface
  | 0, _, _ => none
  | fuel + 1, s, dataArray =>
    let length := dataArray.length
    if 0 < length ∧ dataArray.head? = some 0xf0 then
      let value := length - 1
      let varlen := varlenLoop 10 value (value &&& 0x7F)
      let l := varlenCount 4 1 varlen
      let newmessage :=
        [0xf0] ++ writeVarlen 4 varlen ++ (if l = 5 then [0] else []) ++ dataArray.tail
      write fuel s (newmessage.take (length + l))
    else
      let delta := (s.tick + 2 ^ 32 - s.oldTick) % 2 ^ 32
      let varlen := varlenLoop 10 delta (delta &&& 0x7F)
      some { s with oldTick := s.tick, data_ := s.data_ ++ writeVarlen 4 varlen ++ dataArray }

/-- `BufferMIDIInterface::tempo`; the division by a zero tempo is a fault.  The call of the
base class `MIDIInterface::tempo` does not touch the buffer. -/
def tempo (fuel : Nat) (s : BufferMIDIInterface) (tempo : Nat) : Option BufferMIDIInterface :=
  if tempo = 0 then none
  else
    let ms := 60000000 / tempo
    write fuel s [0xff, 0x51, 0x03, (ms >>> 16) &&& 0xff, (ms >>> 8) &&& 0xff, ms &&& 0xff]

end BufferMIDIInterface

/-! ### The standard variable-length quantity, as the specification words it -/

/-- The 7-bit groups of `d`, most significant first, without leading zero groups
(the number 0 is the single group 0). -/
def vlqGroups : Nat → Nat → List Nat
  | 0, d => [d % 128]
  | fuel + 1, d => if d < 128 then [d] else vlqGroups fuel (d / 128) ++ [d % 128]

/-- The most significant bit is set on every byte except the last. -/
def vlqMark : List Nat → List Nat
  | [] => []
  | [g] => [g]
  | g :: gs => (g + 128) :: vlqMark gs

/-- The standard MIDI variable-length encoding of `d`. -/
def vlqEncode (d : Nat) : List Nat := vlqMark (vlqGroups d d)

/-- Decoding of a variable-length quantity at the head of a byte string: seven bits per
byte, up to and including the first byte whose most significant bit is clear.  The result
is the number and the bytes that follow it. -/
def vlqDecodeFrom : Nat → List Nat → Option (Nat × List Nat)
  | _, [] => none
  | acc, b :: bs =>
    if b < 128 then some (acc * 128 + b, bs) else vlqDecodeFrom (acc * 128 + b % 128) bs

/-- Decoding from the start. -/
def vlqDecode (bs : List Nat) : Option (Nat × List Nat) := vlqDecodeFrom 0 bs

/-- A call on the sink, as far as the buffer is concerned. -/
inductive SinkCall where
  | setTick (t : Nat)
  | write (payload : List Nat)
  deriving DecidableEq, Repr

/-- A sequence of calls on a sink, in order. -/
def BufferMIDIInterface.calls (fuel : Nat) :
    BufferMIDIInterface → List SinkCall → Option BufferMIDIInterface
  | s, [] => some s
  | s, SinkCall.setTick t :: cs => calls fuel (s.setTick t) cs
  | s, SinkCall.write p :: cs => (s.write fuel p).bind (fun s1 => calls fuel s1 cs)

/-- The (delta, payload) pairs the specification assigns to a sequence of calls: the delta
of a write is the tick in force at it minus the tick in force at the write before it. -/
def sinkEvents : Nat → Nat → List SinkCall → List (Nat × List Nat)
  | _, _, [] => []
  | _, old, SinkCall.setTick t :: cs => sinkEvents t old cs
  | tick, old, SinkCall.write p :: cs => (tick - old, p) :: sinkEvents tick tick cs

/-- The serialisation of (delta, payload) pairs: for each pair the variable-length delta,
then the payload. -/
def serialise : List (Nat × List Nat) → List Nat
  | [] => []
  | (d, p) :: es => vlqEncode d ++ p ++ serialise es

/-- Decoding of a buffer into (delta, payload) pairs when the length of each payload is
known (a reader of MIDI events knows it from the status byte). -/
def deserialise : List Nat → List Nat → Option (List (Nat × List Nat))
  | [], [] => some []
  | [], _ :: _ => none
  | n :: ns, bs =>
    match vlqDecode bs with
    | none => none
    | some (d, rest) =>
      if rest.length < n then none
      else (deserialise ns (rest.drop n)).map (fun es => (d, rest.take n) :: es)

/-- Tick values of the `setTick` calls are non-decreasing, starting from `t`, and below
`bound`. -/
def ticksMonotone (bound : Nat) : Nat → List SinkCall → Prop
  | _, [] => True
  | t, SinkCall.setTick u :: cs => t ≤ u ∧ u < bound ∧ ticksMonotone bound u cs
  | t, SinkCall.write _ :: cs => ticksMonotone bound t cs

/-- No written payload starts with the SysEx byte `0xF0`. -/
def noSysEx : List SinkCall → Prop
  | [] => True
  | SinkCall.setTick _ :: cs => noSysEx cs
  | SinkCall.write p :: cs => p.head? ≠ some 0xf0 ∧ noSysEx cs

/-- The tick in force after a sequence of calls that starts with tick `t`. -/
def tickInForce : Nat → List SinkCall → Nat
  | t, [] => t
  | _, SinkCall.setTick u :: cs => tickInForce u cs
  | t, SinkCall.write _ :: cs => tickInForce t cs

/-! ## C conversions and `float` arithmetic -/

/-- Conversion of an `int` to `unsigned int`. -/
def toUInt (i : Int) : Nat := (i % 2 ^ 32).toNat

/-- Conversion to a (signed) `char`. -/
def toChar (i : Int) : Int := if i % 256 < 128 then i % 256 else i % 256 - 256

/-- Conversion to a `short`. -/
def toShort (i : Int) : Int := if i % 65536 < 32768 then i % 65536 else i % 65536 - 65536

/-- The value of `ticksPerLine() - 1` in `unsigned int` arithmetic. -/
def tplMinus1 (ticksPerLine : Nat) : Nat := (ticksPerLine + 2 ^ 32 - 1) % 2 ^ 32

/-- Floor of the binary logarithm, by halving (`log2f n n` for `n ≥ 1`). -/
def log2f : Nat → Nat → Nat
  | 0, _ => 0
  | fuel + 1, n => if 2 ≤ n then log2f fuel (n / 2) + 1 else 0

/-- A value of type `float`, kept exactly as the fraction `num / den`. -/
structure F32 where
  num : Int
  den : Nat
  deriving DecidableEq, Repr

namespace F32

/-- The fraction `num / den` rounded to the nearest number with a 24-bit significand, ties
to the even significand: IEEE-754 binary32 rounding, as `float` operations perform it on
x86-64 and AArch64.  The exponent range is not limited (the engine's values are far from
overflow and underflow); a zero denominator gives 0. -/
def round (num : Int) (den : Nat) : F32 :=
  let a := num.natAbs
  if a = 0 ∨ den = 0 then ⟨0, 1⟩
  else
    let la := log2f a a
    let ld := log2f den den
    let adj := if den * 2 ^ la ≤ a * 2 ^ ld then 0 else 1
    let n := a * 2 ^ (23 + ld + adj)
    let d := den * 2 ^ la
    let q := n / d
    let r := n % d
    let m := if d < 2 * r ∨ (2 * r = d ∧ q % 2 = 1) then q + 1 else q
    ⟨(if num < 0 then -1 else 1) * ((m * 2 ^ la : Nat) : Int), 2 ^ (23 + ld + adj)⟩

/-- Conversion of an integer to `float`. -/
def ofInt (i : Int) : F32 := round i 1

/-- Division of two `float` values (a zero divisor gives 0 here). -/
def div (x y : F32) : F32 :=
  round (x.num * y.den * (if y.num < 0 then -1 else 1)) (x.den * y.num.natAbs)

/-- Multiplication of two `float` values. -/
def mul (x y : F32) : F32 := round (x.num * y.num) (x.den * y.den)

/-- Addition of two `float` values. -/
def add (x y : F32) : F32 := round (x.num * y.den + y.num * x.den) (x.den * y.den)

/-- Conversion of a `float` to an integer type: truncation toward zero. -/
def toInt (x : F32) : Int := Int.tdiv x.num x.den

end F32

/-- The expression `base + (tick + 1) * delta` with
`float delta = (target - origin) / (float)ticksPerLine`, converted to an integer, as
`handleCommand` writes it for every interpolated command. -/
def interpolate (base origin target : Int) (tick ticksPerLine : Nat) : Int :=
  let delta := F32.div (F32.ofInt (target - origin)) (F32.ofInt ticksPerLine)
  F32.toInt (F32.add (F32.ofInt base) (F32.mul (F32.ofInt ((tick + 1) % 2 ^ 32)) delta))

/-! ## Score model (`song.cpp`, `instrument.cpp`; declarations of `block.h`, `track.h`,
`playseq.h`, `message.h` as the engine uses them) -/

/-- A block: its dimensions and its cell accessors `note(line, track)`,
`instrument(line, track)`, `command(line, track, page)`, `commandValue(line, track, page)`
(block.cpp is not among the sources; the accessors are parameters, their results are
reduced to `unsigned char` where they are read). -/
structure Block where
  tracks : Nat
  length : Nat
  commandPages : Nat
  note : Nat → Nat → Nat
  instrument : Nat → Nat → Nat
  command : Nat → Nat → Nat → Nat
  commandValue : Nat → Nat → Nat → Nat

/-- An instrument (`instrument.cpp`): `midiInterface` is the `int` the stored
`unsigned int` converts to, `transpose` a signed `char`. -/
structure Instrument where
  midiInterface : Int
  midiChannel : Nat
  defaultVelocity : Nat
  transpose : Int
  hold : Nat
  arpeggio : Option Block
  arpeggioBaseNote : Nat

/-- A track of the song: mute and solo flags and the volume. -/
structure Track where
  muted : Bool
  solo : Bool
  volume : Nat
  deriving DecidableEq, Repr

/-- A playing sequence: an ordered list of block numbers. -/
structure Playseq where
  blocks : List Nat
  deriving DecidableEq, Repr

/-- A System Exclusive message of the song. -/
structure Message where
  data : List Nat
  autoSend : Bool
  deriving DecidableEq, Repr

/-- The song, as far as the engine reads and writes it. -/
structure Song where
  tempo : Nat
  ticksPerLine : Nat
  masterVolume : Nat
  sendSync : Bool
  sections : List Nat
  playseqs : List Playseq
  blocks : List Block
  instruments : List Instrument
  tracks : List Track
  messages : List Message

namespace Song

/-- `Song::block`: the block, or `NULL` (`none`) when out of range. -/
def block (s : Song) (number : Nat) : Option Block := s.blocks[number]?

/-- `Song::track`. -/
def track (s : Song) (number : Nat) : Option Track := s.tracks[number]?

/-- `Song::playseq`. -/
def playseq (s : Song) (number : Nat) : Option Playseq := s.playseqs[number]?

/-- `Song::section`: `sections_[pos]`, a fault when out of range. -/
def section_ (s : Song) (pos : Nat) : Option Nat := s.sections[pos]?

/-- `Song::instrument(unsigned int number)`; the argument is converted to `unsigned int`. -/
def instrument (s : Song) (number : Int) : Option Instrument := s.instruments[toUInt number]?

/-- `Song::message`. -/
def message (s : Song) (number : Nat) : Option Message := s.messages[number]?

/-- `Song::maxTracks`. -/
def maxTracks (s : Song) : Nat := s.tracks.length

/-- `Song::setTPL`. -/
def setTPL (s : Song) (ticksPerLine : Nat) : Song := { s with ticksPerLine := ticksPerLine }

/-- `Song::setTempo`. -/
def setTempo (s : Song) (tempo : Nat) : Song := { s with tempo := tempo }

/-- `Track::setVolume` on track `number` (which exists at the call). -/
def setTrackVolume (s : Song) (number : Nat) (volume : Int) : Song :=
  match s.tracks[number]? with
  | none => s
  | some t => { s with tracks := s.tracks.set number { t with volume := volume.toNat } }

/-- `Instrument::setDefaultVelocity` on instrument `number` (which exists at the call); the
stored value is an `unsigned char`. -/
def setDefaultVelocity (s : Song) (number : Int) (velocity : Int) : Song :=
  match s.instruments[toUInt number]? with
  | none => s
  | some i =>
    let i1 := { i with defaultVelocity := (velocity % 256).toNat }
    { s with instruments := s.instruments.set (toUInt number) i1 }

/-- `Instrument::setMidiInterface(0)` on every instrument. -/
def setAllMidiInterfaces (s : Song) (midiInterface : Int) : Song :=
  let all := s.instruments.map (fun i => { i with midiInterface := midiInterface })
  { s with instruments := all }

end Song

/-! ## Engine state (`player.cpp`; declarations of `player.h` taken from the specification) -/

/-- Modelled from the spec: the command bytes of `player.h` (not among the sources), §4.G. -/
def CommandPreviousCommandValue : Nat := 0x01
/-- Modelled from the spec: command byte of `player.h`, §4.G. -/
def CommandPitchWheel : Nat := 0x02
/-- Modelled from the spec: command byte of `player.h`, §4.G. -/
def CommandProgramChange : Nat := 0x03
/-- Modelled from the spec: command byte of `player.h`, §4.G. -/
def CommandEndBlock : Nat := 0x04
/-- Modelled from the spec: command byte of `player.h`, §4.G. -/
def CommandPlayseqPosition : Nat := 0x05
/-- Modelled from the spec: command byte of `player.h`, §4.G. -/
def CommandSendMessage : Nat := 0x06
/-- Modelled from the spec: command byte of `player.h`, §4.G. -/
def CommandHold : Nat := 0x07
/-- Modelled from the spec: command byte of `player.h`, §4.G. -/
def CommandRetrigger : Nat := 0x08
/-- Modelled from the spec: command byte of `player.h`, §4.G. -/
def CommandDelay : Nat := 0x09
/-- Modelled from the spec: command byte of `player.h`, §4.G. -/
def CommandVelocity : Nat := 0x0A
/-- Modelled from the spec: command byte of `player.h`, §4.G. -/
def CommandChannelPressure : Nat := 0x0B
/-- Modelled from the spec: command byte of `player.h`, §4.G. -/
def CommandTicksPerLine : Nat := 0x0C
/-- Modelled from the spec: command byte of `player.h`, §4.G. -/
def CommandTempo : Nat := 0x0D
/-- Modelled from the spec: command byte of `player.h`, §4.G. -/
def CommandTrackVolume : Nat := 0x0E
/-- Modelled from the spec: command byte of `player.h`, §4.G. -/
def CommandInstrumentVolume : Nat := 0x0F
/-- Modelled from the spec: command byte of `player.h`, §4.G. -/
def CommandMidiControllers : Nat := 0x10

/-- Modelled from the spec: `Player::TrackStatus` (§3, "Track status"); the index of the
track (`TrackStatus::track`) is the position of the entry in `trackStatuses`. -/
structure TrackStatus where
  instrument : Int
  line : Int
  previousCommand : Nat
  note : Int
  midiChannel : Int
  midiInterface : Int
  volume : Int
  hold : Int
  baseNote : Nat
  deriving DecidableEq, Repr

/-- `Player::TrackStatus::reset`. -/
def TrackStatus.reset (ts : TrackStatus) : TrackStatus :=
  { ts with instrument := -1, line := -1, previousCommand := 0, note := -1, midiChannel := -1,
            midiInterface := -1, volume := -1, hold := -1 }

/-- A call on a MIDI output (`MIDIInterface`), with the arguments as the engine passes them. -/
inductive MidiMsg where
  | noteOff (channel note velocity : Int)
  | noteOn (channel note velocity : Int)
  | aftertouch (channel note value : Int)
  | controller (channel number value : Int)
  | programChange (channel program : Int)
  | channelPressure (channel value : Int)
  | pitchWheel (channel value : Int)
  | writeRaw (data : List Nat)
  | clock
  | tempo (tempo : Nat)
  | setTick (tick : Nat)
  deriving DecidableEq, Repr

/-- One call `midi_->output(output)->msg`.  `track` is an annotation that is not in the
program: the track whose processing made the call (`none` for calls of the tick itself). -/
structure Event where
  track : Option Nat
  output : Int
  msg : MidiMsg
  deriving DecidableEq, Repr

/-- `Player::NoteOn`, a postponed note-on; `track` is the same annotation as in `Event`. -/
structure NoteOn where
  track : Nat
  midiInterface : Int
  midiChannel : Int
  note : Int
  volume : Int
  deriving DecidableEq, Repr

/-- `Player::Mode`. -/
inductive Mode where
  | ModeIdle
  | ModePlaySong
  | ModePlayBlock
  deriving DecidableEq, Repr

/-- The state of the `Player`.  `outputs` is `midi_->outputs()`; `VALUES` and the three
`VALUES_*` slots are the constants of `player.h`, taken as parameters; `syncMode = 0` is
`Off`; `midiOut` is the sequence of calls made on the MIDI outputs so far. -/
structure Player where
  song : Song
  section_ : Nat
  playseq_ : Nat
  position_ : Nat
  block_ : Nat
  line_ : Nat
  tick : Nat
  mode_ : Mode
  syncMode : Nat
  ticksSoFar : Nat
  externalSyncTicks : Nat
  killThread : Bool
  solo : Bool
  postCommand : Nat
  postValue : Nat
  killWhenLooped : Bool
  trackStatuses : List TrackStatus
  midiControllerValues : List (List Nat)
  postponedNotes : List NoteOn
  outputs : Nat
  VALUES : Nat
  VALUES_PITCH_WHEEL : Nat
  VALUES_AFTERTOUCH : Nat
  VALUES_CHANNEL_PRESSURE : Nat
  midiOut : List Event

/-- The `out` parameters `volume`, `delay`, `repeat`, `hold` of `handleCommand`, locals of
the track loop of `run`. -/
structure Locals where
  volume : Nat
  delay : Int
  repeat_ : Int
  hold : Int
  deriving DecidableEq, Repr

/-- A counted loop `for (i = start; i < start + count; i++) body(i)` over a state; a fault
of the body is a fault of the loop. -/
def loopFrom {σ : Type} (body : Nat → σ → Option σ) : Nat → Nat → σ → Option σ
  | 0, _, s => some s
  | count + 1, i, s => (body i s).bind (loopFrom body count (i + 1))

namespace Player

/-- A call on output `output`, made while track `track` is processed. -/
def emit (p : Player) (track : Option Nat) (output : Int) (msg : MidiMsg) : Player :=
  { p with midiOut := p.midiOut ++ [⟨track, output, msg⟩] }

/-- Assignment through the pointer `trackStatuses[track]`. -/
def setTrackStatus (p : Player) (track : Nat) (ts : TrackStatus) : Player :=
  { p with trackStatuses := p.trackStatuses.set track ts }

/-- Read of `midiControllerValues[midiInterface][index]`; an index out of range is a fault. -/
def cacheGet (p : Player) (midiInterface index : Int) : Option Nat :=
  if midiInterface < 0 ∨ index < 0 then none
  else (p.midiControllerValues[midiInterface.toNat]?).bind (fun row => row[index.toNat]?)

/-- Write of `midiControllerValues[midiInterface][index]` (an `unsigned char`); an index
out of range is a fault. -/
def cacheSet (p : Player) (midiInterface index : Int) (value : Int) : Option Player :=
  if midiInterface < 0 ∨ index < 0 then none
  else
    match p.midiControllerValues[midiInterface.toNat]? with
    | none => none
    | some row =>
      if index.toNat < row.length then
        let row1 := row.set index.toNat (value % 256).toNat
        some { p with midiControllerValues := p.midiControllerValues.set midiInterface.toNat row1 }
      else none

/-- The test `!song->track(track)->isMuted() && (!solo || (solo && song->track(track)->isSolo()))`
of `run` and `playNote`; a missing track is a fault. -/
def audible (p : Player) (track : Nat) : Option Bool :=
  (p.song.track track).map (fun t => !t.muted && (!p.solo || (p.solo && t.solo)))

/-- `Player::updateLocation` (the signals it emits are left out). -/
def updateLocation (p : Player) : Option Player :=
  let section1 := if p.section_ ≥ p.song.sections.length then 0 else p.section_
  (p.song.section_ section1).bind fun playseq0 =>
  let playseq1 :=
    if playseq0 ≥ p.song.playseqs.length then (p.song.playseqs.length + 2 ^ 32 - 1) % 2 ^ 32
    else playseq0
  (p.song.playseq playseq1).bind fun ps =>
  let position1 := if p.position_ ≥ ps.blocks.length then 0 else p.position_
  (ps.blocks[position1]?).bind fun block0 =>
  let block1 :=
    if block0 ≥ p.song.blocks.length then (p.song.blocks.length + 2 ^ 32 - 1) % 2 ^ 32
    else block0
  some { p with section_ := section1, playseq_ := playseq1, position_ := position1,
                block_ := block1 }

/-- `Player::nextSection`: the new state and whether the section looped. -/
def nextSection (p : Player) : Player × Bool :=
  let section1 := (p.section_ + 1) % 2 ^ 32
  let looped := decide (section1 ≥ p.song.sections.length)
  ({ p with section_ := if looped then 0 else section1 }, looped)

/-- `Player::nextPosition`: the new state and whether the song looped. -/
def nextPosition (p : Player) : Option (Player × Bool) :=
  let position1 := (p.position_ + 1) % 2 ^ 32
  (p.song.playseq p.playseq_).map fun ps =>
  let looped := decide (position1 ≥ ps.blocks.length)
  let p1 := { p with position_ := if looped then 0 else position1 }
  if looped then p1.nextSection else (p1, false)

end Player
/-! ## Command interpreter (`Player::handleCommand`) -/

/-- The common text of the PitchWheel, ChannelPressure and MIDI-controller cases of
`handleCommand`: `slot` is the index of the command's cache slot within the channel's row
part and `msg` the call made on the output. -/
def knob (track : Nat) (output midiInterface midiChannel slot : Int) (msg : Int → MidiMsg)
    (value : Nat) (p : Player) : Option Player :=
  if midiChannel ≠ -1 then
    if value < 0x80 then
      if p.tick = 0 then
        (p.emit (some track) output (msg value)).cacheSet midiInterface
          (midiChannel * p.VALUES + slot) value
      else some p
    else if p.tick < tplMinus1 p.song.ticksPerLine then
      (p.cacheGet midiInterface (midiChannel * p.VALUES + slot)).map fun c =>
        p.emit (some track) output
          (msg (interpolate c c ((value : Int) - 0x80) p.tick p.song.ticksPerLine))
    else
      (p.emit (some track) output (msg ((value : Int) - 0x80))).cacheSet midiInterface
        (midiChannel * p.VALUES + slot) ((value : Int) - 0x80)
  else some p

/-- The `CommandVelocity` case of `handleCommand`; `ts` is the track's status. -/
def handleVelocity (track note value : Nat) (output midiInterface midiChannel : Int)
    (ts : TrackStatus) (loc : Locals) (p : Player) : Option (Locals × Player) :=
  if note ≠ 0 then
    if midiChannel ≠ -1 then
      (p.cacheSet midiInterface (midiChannel * p.VALUES + p.VALUES_AFTERTOUCH) value).map
        fun p1 => ({ loc with volume := value }, p1)
    else some ({ loc with volume := value }, p)
  else if ts.midiChannel ≠ -1 then
    if value < 0x80 then
      if p.tick = 0 then
        if value > 0 then
          ((p.emit (some track) output (MidiMsg.aftertouch ts.midiChannel ts.note value)).cacheSet
            midiInterface (ts.midiChannel * p.VALUES + p.VALUES_AFTERTOUCH) value).map
            fun p1 => (loc, p1)
        else
          some (loc, (p.emit (some track) output
            (MidiMsg.noteOff ts.midiChannel ts.note 127)).setTrackStatus track
              { ts with note := -1, line := -1 })
      else some (loc, p)
    else if p.tick < tplMinus1 p.song.ticksPerLine then
      (p.cacheGet midiInterface (ts.midiChannel * p.VALUES + p.VALUES_AFTERTOUCH)).map fun c =>
        (loc, p.emit (some track) output (MidiMsg.aftertouch ts.midiChannel ts.note
          (interpolate c c ((value : Int) - 0x80) p.tick p.song.ticksPerLine)))
    else
      ((p.emit (some track) output
          (MidiMsg.aftertouch ts.midiChannel ts.note ((value : Int) - 0x80))).cacheSet
        midiInterface (ts.midiChannel * p.VALUES + p.VALUES_AFTERTOUCH)
          ((value : Int) - 0x80)).map fun p1 => (loc, p1)
  else some (loc, p)

/-- The `CommandTrackVolume` case; `track->` is a fault when the track is missing. -/
def handleTrackVolume (track value : Nat) (p : Player) : Option Player :=
  if value < 0x80 then
    if p.tick = 0 then
      (p.song.track track).map fun _ => { p with song := p.song.setTrackVolume track value }
    else some p
  else
    (p.song.track track).map fun t =>
      if p.tick < tplMinus1 p.song.ticksPerLine then
        let v := interpolate t.volume t.volume ((value : Int) - 0x80) p.tick p.song.ticksPerLine
        { p with song := p.song.setTrackVolume track v }
      else { p with song := p.song.setTrackVolume track ((value : Int) - 0x80) }

/-- The `CommandInstrumentVolume` case; `trackInstrument` is a `char`. -/
def handleInstrumentVolume (track instrument value : Nat) (ts : TrackStatus) (p : Player) :
    Option Player :=
  let trackInstrument : Int :=
    toChar (if instrument ≠ 0 then (instrument : Int) - 1 else ts.instrument)
  match p.song.instrument trackInstrument with
  | none => some p
  | some instr =>
    if value < 0x80 then
      if p.tick = 0 then
        some { p with song := p.song.setDefaultVelocity trackInstrument value }
      else some p
    else if p.tick < tplMinus1 p.song.ticksPerLine then
      (p.song.track track).map fun t =>
        let v := interpolate t.volume instr.defaultVelocity ((value : Int) - 0x80) p.tick
          p.song.ticksPerLine
        { p with song := p.song.setDefaultVelocity trackInstrument v }
    else some { p with song := p.song.setDefaultVelocity trackInstrument ((value : Int) - 0x80) }

/-- The `switch (command)` of `handleCommand` and the MIDI-controller text after it
(the two exclude each other: the switch has no case from `CommandMidiControllers` on). -/
def handleSwitch (track note instrument command value : Nat)
    (output midiInterface midiChannel : Int) (ts : TrackStatus) (loc : Locals) (p : Player) :
    Option (Locals × Player) :=
  if command = CommandPitchWheel then
    (knob track output midiInterface midiChannel p.VALUES_PITCH_WHEEL
      (fun v => MidiMsg.pitchWheel midiChannel v) value p).map fun p1 => (loc, p1)
  else if command = CommandProgramChange then
    if midiChannel ≠ -1 ∧ p.tick = 0 then
      some (loc, p.emit (some track) output (MidiMsg.programChange midiChannel ((value &&& 0x7f : Nat) : Int)))
    else some (loc, p)
  else if command = CommandEndBlock then
    if p.tick = tplMinus1 p.song.ticksPerLine then
      some (loc, { p with postCommand := CommandEndBlock, postValue := value })
    else some (loc, p)
  else if command = CommandPlayseqPosition then
    if p.tick = tplMinus1 p.song.ticksPerLine then
      some (loc, { p with postCommand := CommandPlayseqPosition, postValue := value })
    else some (loc, p)
  else if command = CommandSendMessage then
    if p.tick = 0 ∧ value < p.song.messages.length then
      (p.song.message value).map fun m => (loc, p.emit (some track) output (MidiMsg.writeRaw m.data))
    else some (loc, p)
  else if command = CommandHold then
    some ({ loc with hold := value }, p)
  else if command = CommandRetrigger then
    some ({ loc with delay := ((value &&& 0xf0) >>> 4 : Nat), repeat_ := (value &&& 0x0f : Nat) }, p)
  else if command = CommandDelay then
    some ({ loc with delay := value, repeat_ := -1 }, p)
  else if command = CommandVelocity then
    handleVelocity track note value output midiInterface midiChannel ts loc p
  else if command = CommandChannelPressure then
    (knob track output midiInterface midiChannel p.VALUES_CHANNEL_PRESSURE
      (fun v => MidiMsg.channelPressure midiChannel v) value p).map fun p1 => (loc, p1)
  else if command = CommandTicksPerLine then
    if value = 0 then
      if p.tick = tplMinus1 p.song.ticksPerLine then
        some (loc, { p with postCommand := CommandTicksPerLine })
      else some (loc, p)
    else some (loc, { p with song := p.song.setTPL value })
  else if command = CommandTempo then
    if value = 0 then
      if p.tick = tplMinus1 p.song.ticksPerLine then
        some (loc, { p with postCommand := CommandTempo })
      else some (loc, p)
    else
      some (loc, { p with song := p.song.setTempo value }.emit (some track) output
        (MidiMsg.tempo value))
  else if command = CommandTrackVolume then
    (handleTrackVolume track value p).map fun p1 => (loc, p1)
  else if command = CommandInstrumentVolume then
    (handleInstrumentVolume track instrument value ts p).map fun p1 => (loc, p1)
  else if command ≥ CommandMidiControllers then
    (knob track output midiInterface midiChannel ((command : Int) - CommandMidiControllers)
      (fun v => MidiMsg.controller midiChannel ((command : Int) - CommandMidiControllers) v)
      value p).map fun p1 => (loc, p1)
  else some (loc, p)

/-- The command a cell's command byte stands for: `0x01` with a non-zero value stands for
the track's previous command. -/
def effectiveCommand (ts : TrackStatus) (command value : Nat) : Nat :=
  if command = CommandPreviousCommandValue then
    (if value ≠ 0 then ts.previousCommand else command)
  else command

/-- The assignment `trackStatus->previousCommand = command` made for every command byte
other than `0x01`. -/
def rememberCommand (track command : Nat) (ts : TrackStatus) (p : Player) : Player :=
  if command = CommandPreviousCommandValue then p
  else p.setTrackStatus track { ts with previousCommand := command }

/-- "Check which MIDI interface/channel pairs the command will affect": the interface and
the channel of the cell's instrument when the cell names one (a fault when that instrument
is missing), else those of the note playing on the track. -/
def commandTarget (instrument : Nat) (ts : TrackStatus) (p : Player) : Option (Int × Int) :=
  if instrument ≠ 0 then
    (p.song.instrument ((instrument : Int) - 1)).map fun i =>
      (i.midiInterface, (i.midiChannel : Int))
  else some (ts.midiInterface, ts.midiChannel)

/-- `Player::handleCommand(trackStatus, note, instrument, command, value, &volume, &delay,
&repeat, &hold)` for the status of track `track`.  The output is the one of the target
interface, or output 0 when that interface is not known (negative). -/
def handleCommand (track note instrument command value : Nat) (loc : Locals) (p : Player) :
    Option (Locals × Player) :=
  if command = 0 ∧ value = 0 then some (loc, p)
  else
    (p.trackStatuses[track]?).bind fun ts =>
    (commandTarget instrument ts p).bind fun ic =>
    let ts1 :=
      if command = CommandPreviousCommandValue then ts else { ts with previousCommand := command }
    handleSwitch track note instrument (effectiveCommand ts command value) value
      (if 0 ≤ ic.1 then ic.1 else 0) ic.1 ic.2 ts1 loc (rememberCommand track command ts p)

/-- `shouldPlayNote(unsigned int tick, int delay, int repeat)`; the comparisons and the
remainder are made after conversion of `delay` and `repeat` to `unsigned int`. -/
def shouldPlayNote (tick : Nat) (delay repeat_ : Int) : Bool :=
  (decide (0 ≤ delay) && decide (tick = toUInt delay))
    || (decide (repeat_ = 0) && decide (tick = 0))
    || (decide (0 < repeat_) && decide (toUInt delay ≤ tick)
        && decide (((tick + 2 ^ 32 - toUInt delay) % 2 ^ 32) % toUInt repeat_ = 0))

/-! ## Notes (`Player::playNote`, `Player::stopNotes`) -/

/-- The velocity `playNote` stores in `trackStatus->volume`: the product is formed with
truncating divisions, the last factor in `unsigned int`, and the result is a `short`;
a negative result becomes 127. -/
def resolveVolume (defaultVelocity volume trackVolume masterVolume : Nat) : Int :=
  let v := toShort ((defaultVelocity * volume / 127 * trackVolume / 127 * masterVolume
    % 2 ^ 32 / 127 : Nat) : Int)
  if v < 0 then 127 else v

/-- `Player::playNote(instrumentNumber, note, volume, track, postpone)`. -/
def playNote (instrumentNumber : Int) (note volume track : Nat) (postpone : Bool) (p : Player) :
    Option Player :=
  (p.audible track).bind fun a =>
  if a then
    (p.trackStatuses[track]?).bind fun ts =>
    let p1 :=
      if ts.note ≠ -1 then
        p.emit (some track) ts.midiInterface (MidiMsg.noteOff ts.midiChannel ts.note 127)
      else p
    let ts1 := if ts.note ≠ -1 then { ts with note := -1 } else ts
    match p1.song.instrument instrumentNumber with
    | none => some (p1.setTrackStatus track ts1)
    | some instr =>
      (p1.song.track track).bind fun t =>
      let vol := resolveVolume instr.defaultVelocity volume t.volume p1.song.masterVolume
      let ts2 : TrackStatus :=
        { ts1 with instrument := toUInt instrumentNumber, volume := vol,
                   midiChannel := instr.midiChannel,
                   midiInterface := toShort instr.midiInterface,
                   hold := if instr.hold > 0 then instr.hold else -1 }
      if vol ≠ 0 then
        let ts3 := { ts2 with note := (note : Int) + instr.transpose }
        if postpone then
          let noteOn : NoteOn := ⟨track, instr.midiInterface, ts3.midiChannel, ts3.note, ts3.volume⟩
          some { p1.setTrackStatus track ts3 with postponedNotes := p1.postponedNotes ++ [noteOn] }
        else
          some ((p1.setTrackStatus track ts3).emit (some track) instr.midiInterface
            (MidiMsg.noteOn ts3.midiChannel ts3.note ts3.volume))
      else some (p1.setTrackStatus track { ts2 with note := -1 })
  else some p

/-- The body of the loop of `Player::stopNotes` for one track. -/
def stopNotesTrack (track : Nat) (p : Player) : Option Player :=
  (p.trackStatuses[track]?).map fun ts =>
    let p1 :=
      if ts.note ≠ -1 then
        p.emit (some track) ts.midiInterface (MidiMsg.noteOff ts.midiChannel ts.note 127)
      else p
    p1.setTrackStatus track ts.reset

/-- `Player::stopNotes`. -/
def stopNotes (p : Player) : Option Player :=
  loopFrom stopNotesTrack p.song.maxTracks 0 p
/-! ## Engine loop (`Player::run`) -/

/-- The locals of the track loop of `run` that are set when the cell is read. -/
structure Cell where
  basenote : Nat
  instrument : Nat
  note : Nat
  arpeggio : Option Block

/-- Reading of the cell of `track` on the current line: base note and instrument, restart
of the arpeggio on tick 0 of a note, and the note after the arpeggio of the effective
instrument is applied (`unsigned char` arithmetic, `(char)` casts of the arpeggio note and
the arpeggio base note).  `song->instrument(arpeggioInstrument)->` is a fault when that
instrument is missing. -/
def readCell (block : Block) (track : Nat) (ts : TrackStatus) (p : Player) :
    Option (Cell × TrackStatus) :=
  let basenote0 := block.note p.line_ track % 256
  let instrument := block.instrument p.line_ track % 256
  let ts1 := if basenote0 ≠ 0 ∧ p.tick = 0 then { ts with line := 0 } else ts
  let basenote := if basenote0 ≠ 0 then basenote0 else ts.baseNote
  let arpeggioInstrument : Int :=
    if basenote0 ≠ 0 ∧ instrument > 0 then (instrument : Int) - 1 else ts1.instrument
  if 0 ≤ arpeggioInstrument ∧ 0 ≤ ts1.line then
    (p.song.instrument arpeggioInstrument).map fun instr =>
      match instr.arpeggio with
      | none => (⟨basenote, instrument, basenote0, none⟩, ts1)
      | some arpeggio =>
        let arpeggioNote := arpeggio.note (toUInt ts1.line) 0 % 256
        let note : Nat :=
          if arpeggioNote ≠ 0 then
            (((basenote : Int) + (toChar arpeggioNote - toChar instr.arpeggioBaseNote)) % 256).toNat
          else 0
        (⟨basenote, instrument, note, some arpeggio⟩, ts1)
  else some (⟨basenote, instrument, basenote0, none⟩, ts1)

/-- One iteration of the loop of `run` that looks for Retrigger and Delay commands before
a note is played ("Stop notes if there are new notes about to be played"). -/
def preScanPage (block : Block) (track commandPage : Nat) (s : Locals × Player) :
    Option (Locals × Player) :=
  let command := block.command s.2.line_ track commandPage % 256
  let value := block.commandValue s.2.line_ track commandPage % 256
  if command ≠ 0 ∨ value ≠ 0 then
    (s.2.trackStatuses[track]?).map fun ts =>
      let cmd := effectiveCommand ts command value
      let p1 := rememberCommand track command ts s.2
      if cmd = CommandRetrigger then
        ({ s.1 with delay := ((value &&& 0xf0) >>> 4 : Nat), repeat_ := (value &&& 0x0f : Nat) }, p1)
      else if cmd = CommandDelay then
        ({ s.1 with delay := value, repeat_ := -1 }, p1)
      else (s.1, p1)
  else some s

/-- "Stop currently playing note": the note-off made when `shouldPlayNote` holds for the
Retrigger/Delay values found by the scan. -/
def preGate (track : Nat) (loc : Locals) (p : Player) : Option Player :=
  if shouldPlayNote p.tick loc.delay loc.repeat_ then
    (p.trackStatuses[track]?).map fun ts =>
      if ts.note ≠ -1 then
        (p.emit (some track) ts.midiInterface
          (MidiMsg.noteOff ts.midiChannel ts.note 127)).setTrackStatus track { ts with note := -1 }
      else p
  else some p

/-- One iteration of "Handle commands on all arpeggio command pages"; the arpeggio line is
read from the track's status at each iteration. -/
def arpeggioCommandPage (arpeggio : Block) (track note instrument commandPage : Nat)
    (s : Locals × Player) : Option (Locals × Player) :=
  (s.2.trackStatuses[track]?).bind fun ts =>
    handleCommand track note instrument
      (arpeggio.command (toUInt ts.line) 0 commandPage % 256)
      (arpeggio.commandValue (toUInt ts.line) 0 commandPage % 256) s.1 s.2

/-- One iteration of "Handle commands on all command pages". -/
def blockCommandPage (block : Block) (track note instrument commandPage : Nat)
    (s : Locals × Player) : Option (Locals × Player) :=
  handleCommand track note instrument
    (block.command s.2.line_ track commandPage % 256)
    (block.commandValue s.2.line_ track commandPage % 256) s.1 s.2

/-- "Set the channel base note and instrument regardless of whether there's an actual note
to be played right now". -/
def rememberBase (track : Nat) (cell : Cell) (p : Player) : Option Player :=
  if cell.basenote ≠ 0 then
    (p.trackStatuses[track]?).map fun ts =>
      p.setTrackStatus track
        { ts with baseNote := cell.basenote,
                  instrument := if cell.instrument ≠ 0 then (cell.instrument : Int) - 1
                                else ts.instrument }
  else some p

/-- "Is there a note to play?": the note is played through `playNote` (postponed), then
the hold time is set.  The results are the values of the locals `note` and `instrument`
after the text, and the state. -/
def fireNote (track : Nat) (cell : Cell) (hadVolume : Bool) (loc : Locals) (p : Player) :
    Option (Nat × Nat × Player) :=
  if cell.note ≠ 0 ∧ shouldPlayNote p.tick loc.delay loc.repeat_ = true then
    (p.trackStatuses[track]?).bind fun ts =>
    let note := cell.note - 1
    let instrument : Nat :=
      if cell.instrument = 0 then ((ts.instrument + 1) % 256).toNat else cell.instrument
    if instrument ≠ 0 then
      (playNote ((instrument : Int) - 1) note (loc.volume % 256) (track % 256) true p).bind
        fun p1 =>
        if instrument ≤ p1.song.instruments.length then
          match p1.song.instrument ((instrument : Int) - 1) with
          | none => some (note, instrument, p1)
          | some instr =>
            (p1.trackStatuses[track]?).map fun ts1 =>
              let hold : Int := if loc.hold = -1 then instr.hold else loc.hold
              let ts2 := { ts1 with hold := if hold = 0 then -1 else hold }
              let ts3 := if hadVolume ∧ loc.volume = 0 then { ts2 with line := -1 } else ts2
              (note, instrument, p1.setTrackStatus track ts3)
        else some (note, instrument, p1)
    else some (note, instrument, p)
  else some (cell.note, cell.instrument, p)

/-- "First tick, no note but instrument defined?": the instrument's hold time is added to
the hold time of the track (a `short`). -/
def extendHold (track note instrument : Nat) (p : Player) : Option Player :=
  (p.trackStatuses[track]?).bind fun ts =>
    if p.tick = 0 ∧ note = 0 ∧ instrument > 0 ∧ 0 ≤ ts.hold then
      (p.song.instrument ((instrument : Int) - 1)).map fun instr =>
        if toUInt instr.midiInterface = toUInt ts.midiInterface then
          p.setTrackStatus track { ts with hold := toShort (ts.hold + instr.hold) }
        else p
    else some p

/-- The body of the track loop of `run` for one track of the current block. -/
def runTrack (block : Block) (track : Nat) (p : Player) : Option Player :=
  (p.trackStatuses[track]?).bind fun ts =>
  (p.audible track).bind fun a =>
  if a then
    (readCell block track ts p).bind fun ct =>
    let cell := ct.1
    let p1 := p.setTrackStatus track ct.2
    let loc0 : Locals := ⟨127, 0, -1, -1⟩
    (if cell.note ≠ 0 then
        (loopFrom (preScanPage block track) block.commandPages 0 (loc0, p1)).bind fun s =>
          (preGate track s.1 s.2).map fun p2 => (s.1, p2)
      else some (loc0, p1)).bind fun s1 =>
    (match cell.arpeggio with
      | none => some s1
      | some arpeggio =>
        loopFrom (arpeggioCommandPage arpeggio track cell.note cell.instrument)
          arpeggio.commandPages 0 s1).bind fun s2 =>
    let hadVolume := decide (s2.1.volume > 0)
    (loopFrom (blockCommandPage block track cell.note cell.instrument)
      block.commandPages 0 s2).bind fun s3 =>
    (rememberBase track cell s3.2).bind fun p4 =>
    (fireNote track cell hadVolume s3.1 p4).bind fun r =>
    extendHold track r.1 r.2.1 r.2.2
  else some p

/-- "Play notes scheduled to be played". -/
def flushPostponed (p : Player) : Player :=
  { p with
    midiOut := p.midiOut ++ p.postponedNotes.map (fun n =>
      Event.mk (some n.track) n.midiInterface (MidiMsg.noteOn n.midiChannel n.note n.volume)),
    postponedNotes := [] }

/-- One iteration of "Decrement hold times of notes and stop notes that should be stopped". -/
def holdTrack (track : Nat) (p : Player) : Option Player :=
  (p.trackStatuses[track]?).map fun ts =>
    if 0 ≤ ts.hold then
      let ts1 := { ts with hold := ts.hold - 1 }
      if ts1.hold < 0 ∧ ts1.note ≠ -1 then
        (p.emit (some track) ts1.midiInterface
          (MidiMsg.noteOff ts1.midiChannel ts1.note 127)).setTrackStatus track
            { ts1 with note := -1 }
      else p.setTrackStatus track ts1
    else p

/-- One iteration of "Advance arpeggios"; a missing instrument and an arpeggio of length
0 are faults. -/
def advanceArpeggio (track : Nat) (p : Player) : Option Player :=
  (p.trackStatuses[track]?).bind fun ts =>
    if 0 ≤ ts.instrument ∧ 0 ≤ ts.line then
      (p.song.instrument ts.instrument).bind fun instr =>
        match instr.arpeggio with
        | none => some p
        | some arpeggio =>
          if arpeggio.length = 0 then none
          else some (p.setTrackStatus track { ts with line := (ts.line + 1) % arpeggio.length })
    else some p

/-- The `switch (postCommand)` of `run` at a line wrap, with the reset of the post command
and the call of `updateLocation`; the result carries `looped`. -/
def postCommands (p : Player) : Option (Player × Bool) :=
  (if p.postCommand = CommandEndBlock then
      if p.mode_ = Mode.ModePlaySong then
        (Player.nextPosition { p with line_ := p.postValue }).map fun r => (r.1, r.2, true)
      else some ({ p with line_ := p.postValue }, false, false)
    else if p.postCommand = CommandPlayseqPosition then
      (p.song.playseq p.playseq_).map fun ps =>
        if p.postValue ≥ ps.blocks.length then
          let r := Player.nextSection { p with line_ := 0, position_ := 0 }
          (r.1, r.2, true)
        else ({ p with line_ := 0, position_ := p.postValue }, false, true)
    else if p.postCommand = CommandTempo then
      some ({ p with killThread := true }, false, false)
    else
      (p.song.block p.block_).bind fun b =>
        if p.line_ ≥ b.length then
          if p.mode_ = Mode.ModePlaySong then
            (Player.nextPosition { p with line_ := 0 }).map fun r => (r.1, r.2, true)
          else some ({ p with line_ := 0 }, false, false)
        else some (p, false, false)).bind fun r =>
  let p1 := { r.1 with postCommand := 0, postValue := 0 }
  if r.2.2 then p1.updateLocation.map fun p2 => (p2, r.2.1) else some (p1, r.2.1)

/-- "Next tick" and "Advance and handle post commands if ticksperline ticks have passed". -/
def advance (p : Player) : Option (Player × Bool) :=
  if p.song.ticksPerLine = 0 then none
  else
    let p1 := { p with ticksSoFar := (p.ticksSoFar + 1) % 2 ^ 32,
                       tick := ((p.tick + 1) % 2 ^ 32) % p.song.ticksPerLine }
    if p1.tick = 0 then
      (loopFrom advanceArpeggio p1.song.maxTracks 0
        { p1 with line_ := (p1.line_ + 1) % 2 ^ 32 }).bind postCommands
    else some (p1, false)

/-- "Handle this tick", up to the flush of the postponed notes and the hold loop: the tick
setters, the MIDI clock, the line clamp, the track loop, the postponed note-ons and the
hold times. -/
def handleTick (p : Player) : Option Player :=
  let p1 := { p with midiOut := p.midiOut ++
    (List.range p.outputs).map (fun o => Event.mk none (o : Int) (MidiMsg.setTick p.ticksSoFar)) }
  (p1.song.block p1.block_).bind fun block =>
  let p2 :=
    if p1.song.sendSync then
      { p1 with midiOut := p1.midiOut ++
        (List.range p1.outputs).map (fun o => Event.mk none (o : Int) MidiMsg.clock) }
    else p1
  (if p2.line_ ≥ block.length then
      (if block.length = 0 then none else some { p2 with line_ := p2.line_ % block.length })
    else some p2).bind fun p3 =>
  (loopFrom (runTrack block) block.tracks 0 p3).bind fun p4 =>
  loopFrom holdTrack p4.song.maxTracks 0 (flushPostponed p4)

/-- One iteration of the `while (true)` loop of `run` with external sync off and no
scheduler: the tick and the advance; the result carries `looped`. -/
def tickStep (p : Player) : Option (Player × Bool) :=
  (handleTick p).bind advance

/-- The `while (true)` loop of `run`; the loop is left when `killThread` is set or the
song looped and `killWhenLooped` is set. -/
def runLoop : Nat → Player → Option Player
  | 0, _ => none
  | fuel + 1, p =>
    (tickStep p).bind fun r =>
      if r.1.killThread ∨ (r.1.killWhenLooped ∧ r.2) then some r.1 else runLoop fuel r.1

/-- `Player::run` with external sync off and no scheduler: the loop, then `stopNotes`. -/
def run (fuel : Nat) (p : Player) : Option Player :=
  (runLoop fuel { p with tick := 0, ticksSoFar := 0 }).bind stopNotes

/-- `Player::playWithoutScheduling`. -/
def playWithoutScheduling (fuel : Nat) (p : Player) : Option Player :=
  let p1 := { p with mode_ := Mode.ModePlaySong, killWhenLooped := true,
                     song := p.song.setAllMidiInterfaces 0 }
  (run fuel (p1.emit none 0 (MidiMsg.tempo p1.song.tempo))).bind stopNotes
/-! ## Export through the buffer sink -/

/-- Modelled from the spec: the bytes a `MIDIInterface` hands to `write` for a call
(midiinterface.cpp is not among the sources).  Channel messages are the standard MIDI
messages, as scenario S6 of the specification shows them (`90 30 64` for a note-on on
channel 0, `80 30 7F` for a note-off); data bytes are reduced to seven bits, the pitch
wheel value is sent as the most significant of the two data bytes.  `none` for the calls
that are not written as a message of their own (`setTick`, `tempo`). -/
def midiBytes : MidiMsg → Option (List Nat)
  | MidiMsg.noteOff c n v => some [0x80 + toUInt c % 16, toUInt n % 128, toUInt v % 128]
  | MidiMsg.noteOn c n v => some [0x90 + toUInt c % 16, toUInt n % 128, toUInt v % 128]
  | MidiMsg.aftertouch c n v => some [0xa0 + toUInt c % 16, toUInt n % 128, toUInt v % 128]
  | MidiMsg.controller c n v => some [0xb0 + toUInt c % 16, toUInt n % 128, toUInt v % 128]
  | MidiMsg.programChange c v => some [0xc0 + toUInt c % 16, toUInt v % 128]
  | MidiMsg.channelPressure c v => some [0xd0 + toUInt c % 16, toUInt v % 128]
  | MidiMsg.pitchWheel c v => some [0xe0 + toUInt c % 16, 0, toUInt v % 128]
  | MidiMsg.writeRaw data => some data
  | MidiMsg.clock => some [0xf8]
  | MidiMsg.tempo _ => none
  | MidiMsg.setTick _ => none

/-- A call on the buffer sink. -/
def sinkCall (fuel : Nat) (s : BufferMIDIInterface) (msg : MidiMsg) : Option BufferMIDIInterface :=
  match msg with
  | MidiMsg.setTick t => some (s.setTick t)
  | MidiMsg.tempo t => s.tempo fuel t
  | m =>
    match midiBytes m with
    | none => some s
    | some bytes => s.write fuel bytes

/-- The buffer sink at output `output` after the calls the engine made on that output. -/
def sinkAfter (fuel : Nat) (output : Int) :
    BufferMIDIInterface → List Event → Option BufferMIDIInterface
  | s, [] => some s
  | s, e :: es =>
    if e.output = output then (sinkCall fuel s e.msg).bind fun s1 => sinkAfter fuel output s1 es
    else sinkAfter fuel output s es

/-! ## Scenarios of the specification -/

/-- A block with one cell content on every line of track 0: `cells` lists, line by line,
the note, instrument, command and value of the cell (one command page). -/
def blockOfCells (tracks : Nat) (cells : List (Nat × Nat × Nat × Nat)) : Block :=
  { tracks := tracks, length := cells.length, commandPages := 1,
    note := fun line track => if track = 0 then (cells.getD line (0, 0, 0, 0)).1 else 0,
    instrument := fun line track => if track = 0 then (cells.getD line (0, 0, 0, 0)).2.1 else 0,
    command := fun line track page =>
      if track = 0 ∧ page = 0 then (cells.getD line (0, 0, 0, 0)).2.2.1 else 0,
    commandValue := fun line track page =>
      if track = 0 ∧ page = 0 then (cells.getD line (0, 0, 0, 0)).2.2.2 else 0 }

/-- A freshly created track status (`TrackStatus::TrackStatus`): the constructor calls
`reset()`.  Neither the constructor nor `reset()` assigns `baseNote`, so this field holds
the value `baseNote` that the memory of the new status happens to hold; `run` reads it for
a cell without note. -/
def TrackStatus.create (baseNote : Nat) : TrackStatus :=
  TrackStatus.reset ⟨0, 0, 0, 0, 0, 0, 0, 0, baseNote⟩

/-- The freshly created track status of the scenarios: they take 0 for the `baseNote` that
the constructor leaves unassigned. -/
def freshStatus : TrackStatus := TrackStatus.create 0

/-- A song with one section, one playing sequence that plays `sequence`, the given blocks
and instruments and `tracks` unmuted tracks of volume 127; tempo 120, master volume 127. -/
def songOf (ticksPerLine : Nat) (sequence : List Nat) (blocks : List Block)
    (instruments : List Instrument) (tracks : Nat) : Song :=
  { tempo := 120, ticksPerLine := ticksPerLine, masterVolume := 127, sendSync := false,
    sections := [0], playseqs := [⟨sequence⟩], blocks := blocks, instruments := instruments,
    tracks := List.replicate tracks ⟨false, false, 127⟩, messages := [] }

/-- A player at the start of `song` in the given mode, with one MIDI output, fresh track
statuses and a zeroed controller cache; the cache has `131` slots per channel: the 128
controllers, then aftertouch, channel pressure and pitch wheel. -/
def playerOf (song : Song) (mode : Mode) (killWhenLooped : Bool) : Player :=
  { song := song, section_ := 0, playseq_ := 0, position_ := 0, block_ := 0, line_ := 0,
    tick := 0, mode_ := mode, syncMode := 0, ticksSoFar := 0, externalSyncTicks := 0,
    killThread := false, solo := false, postCommand := 0, postValue := 0,
    killWhenLooped := killWhenLooped,
    trackStatuses := List.replicate song.tracks.length freshStatus,
    midiControllerValues := [List.replicate (16 * 131) 0], postponedNotes := [],
    outputs := 1, VALUES := 131, VALUES_PITCH_WHEEL := 130, VALUES_AFTERTOUCH := 128,
    VALUES_CHANNEL_PRESSURE := 129, midiOut := [] }

/-- An instrument on channel 0 of output 0 without arpeggio. -/
def plainInstrument (defaultVelocity : Nat) (transpose : Int) (hold : Nat) : Instrument :=
  { midiInterface := 0, midiChannel := 0, defaultVelocity := defaultVelocity,
    transpose := transpose, hold := hold, arpeggio := none, arpeggioBaseNote := 49 }

/-- Scenario S1: one block of length 1 with one track and the cell `{note=49, instrument=1}`;
instrument 1 on channel 0 with default velocity 100, transpose 0, hold 1; tempo 120,
6 ticks per line, master volume 127. -/
def songS1 : Song :=
  songOf 6 [0] [blockOfCells 1 [(49, 1, 0, 0)]] [plainInstrument 100 0 1] 1
/-! ## What the interpretation of a cell leaves untouched -/

/-- The part of an instrument that no command changes (all but the default velocity). -/
def Instrument.fixed (i : Instrument) : Instrument := { i with defaultVelocity := 0 }

/-- The relation between the state before and a state after commands of track `track` were
interpreted: the cursors, the flags, the postponed notes, the score apart from tempo, ticks
per line, track volumes and default velocities, and the statuses of the other tracks are
the same; of the track's own status the instrument, channel, interface, volume, hold and
base note are the same; and every call made on an output is annotated with `track`. -/
structure CommandFrame (track : Nat) (p q : Player) : Prop where
  tick : q.tick = p.tick
  line_ : q.line_ = p.line_
  block_ : q.block_ = p.block_
  position_ : q.position_ = p.position_
  playseq_ : q.playseq_ = p.playseq_
  section_ : q.section_ = p.section_
  mode_ : q.mode_ = p.mode_
  solo : q.solo = p.solo
  killThread : q.killThread = p.killThread
  killWhenLooped : q.killWhenLooped = p.killWhenLooped
  ticksSoFar : q.ticksSoFar = p.ticksSoFar
  postponedNotes : q.postponedNotes = p.postponedNotes
  blocks : q.song.blocks = p.song.blocks
  sections : q.song.sections = p.song.sections
  playseqs : q.song.playseqs = p.song.playseqs
  masterVolume : q.song.masterVolume = p.song.masterVolume
  tracks : q.song.tracks.map (fun t => (t.muted, t.solo))
    = p.song.tracks.map (fun t => (t.muted, t.solo))
  instruments : q.song.instruments.map Instrument.fixed = p.song.instruments.map Instrument.fixed
  others : ∀ u, u ≠ track → q.trackStatuses[u]? = p.trackStatuses[u]?
  own : ∀ ts, p.trackStatuses[track]? = some ts →
    ∃ ts1, q.trackStatuses[track]? = some ts1 ∧ ts1.instrument = ts.instrument ∧
      ts1.midiChannel = ts.midiChannel ∧ ts1.midiInterface = ts.midiInterface ∧
      ts1.volume = ts.volume ∧ ts1.hold = ts.hold ∧ ts1.baseNote = ts.baseNote
  out : ∃ evs, q.midiOut = p.midiOut ++ evs ∧ ∀ e ∈ evs, e.track = some track

/-- The values of the locals `volume`, `delay`, `repeat`, `hold` after a command was
interpreted for a cell whose note is `note`. -/
def localsAfter (command note value : Nat) (loc : Locals) : Locals :=
  if command = CommandHold then { loc with hold := value }
  else if command = CommandRetrigger then
    { loc with delay := ((value &&& 0xf0) >>> 4 : Nat), repeat_ := (value &&& 0x0f : Nat) }
  else if command = CommandDelay then { loc with delay := value, repeat_ := -1 }
  else if command = CommandVelocity ∧ note ≠ 0 then { loc with volume := value }
  else loc

/-- The retrigger/delay gate as the specification words it (§4.G): a note fires on tick
`t` iff `t = d`, or `r = 0` and `t = 0`, or `r > 0`, `t ≥ d` and `(t - d) mod r = 0`. -/
def gate (t : Nat) (d r : Int) : Prop :=
  (t : Int) = d ∨ (r = 0 ∧ t = 0) ∨ (0 < r ∧ d ≤ (t : Int) ∧ ((t : Int) - d) % r = 0)

/-- The delay and repeat of a cell as the specification words them: `(value >> 4,
value & 15)` for a Retrigger command, `(value, -1)` for a Delay command, `(0, -1)` for a
cell without Retrigger/Delay command. -/
def gateParams (command value : Nat) : Int × Int :=
  if command = CommandRetrigger then (((value >>> 4 : Nat) : Int), ((value &&& 15 : Nat) : Int))
  else if command = CommandDelay then ((value : Int), -1)
  else (0, -1)

/-- The command pages of the cell of `track` on `line` of a block, in page order: the
command byte and the value of each page, as `block->command(line, track, commandPage)` and
`block->commandValue(line, track, commandPage)` return them (`unsigned char`). -/
def Block.pages (b : Block) (line track : Nat) : List (Nat × Nat) :=
  (List.range b.commandPages).map fun page =>
    (b.command line track page % 256, b.commandValue line track page % 256)

/-- The command a page stands for when the previous command of the track is `previous`:
the command byte `0x01` with a non-zero value stands for the previous command. -/
def commandOf (previous : Nat) (cv : Nat × Nat) : Nat :=
  if cv.1 = CommandPreviousCommandValue ∧ cv.2 ≠ 0 then previous else cv.1

/-- The previous command of the track after a page: the command byte of the page, unless
the page is empty (command 0, value 0) or its command byte is `0x01`. -/
def previousAfter (previous : Nat) (cv : Nat × Nat) : Nat :=
  if (cv.1 = 0 ∧ cv.2 = 0) ∨ cv.1 = CommandPreviousCommandValue then previous else cv.1

/-- The previous command, the delay and the repeat after one more command page: a page that
stands for a Retrigger or a Delay command sets the delay and the repeat as the specification
words them, every other page leaves them. -/
def gateStep (s : Nat × Int × Int) (cv : Nat × Nat) : Nat × Int × Int :=
  (previousAfter s.1 cv,
    if commandOf s.1 cv = CommandRetrigger ∨ commandOf s.1 cv = CommandDelay
    then gateParams (commandOf s.1 cv) cv.2 else s.2)

/-- The delay and repeat of a cell with the command pages `pages`, for a track whose
previous command is `previous` when the pages are read: `(0, -1)` when no page stands for a
Retrigger or Delay command, otherwise `(value >> 4, value & 15)` resp. `(value, -1)` of
the last page, in page order, that stands for a Retrigger resp. Delay command. -/
def cellGate (previous : Nat) (pages : List (Nat × Nat)) : Int × Int :=
  (pages.foldl gateStep (previous, 0, -1)).2

/-- The previous command and the value of the last Hold command after one more command
page. -/
def holdStep (s : Nat × Option Nat) (cv : Nat × Nat) : Nat × Option Nat :=
  (previousAfter s.1 cv, if commandOf s.1 cv = CommandHold then some cv.2 else s.2)

/-- The value of the last page, in page order, that stands for a Hold command, for a track
whose previous command is `previous` when the pages are read; `none` when no page does. -/
def cellHold (previous : Nat) (pages : List (Nat × Nat)) : Option Nat :=
  (pages.foldl holdStep (previous, none)).2

/-- The local `hold` of the track loop of `run` for the value of the last Hold command. -/
def holdInt : Option Nat → Int
  | none => -1
  | some v => (v : Int)

/-- The previous command of the track and the locals `volume`, `delay`, `repeat`, `hold`
after `handleCommand` interpreted one more command page of a cell whose note is `note`. -/
def localsStep (note : Nat) (s : Nat × Locals) (cv : Nat × Nat) : Nat × Locals :=
  (previousAfter s.1 cv,
    if cv.1 = 0 ∧ cv.2 = 0 then s.2 else localsAfter (commandOf s.1 cv) note cv.2 s.2)

/-- The previous command of the track and the locals after one more iteration of the scan
for Retrigger and Delay commands that precedes a note. -/
def scanStep (s : Nat × Locals) (cv : Nat × Nat) : Nat × Locals :=
  (previousAfter s.1 cv,
    if cv.1 ≠ 0 ∨ cv.2 ≠ 0 then
      (if commandOf s.1 cv = CommandRetrigger then
          { s.2 with delay := (((cv.2 &&& 0xf0) >>> 4 : Nat) : Int),
                     repeat_ := ((cv.2 &&& 0x0f : Nat) : Int) }
        else if commandOf s.1 cv = CommandDelay then
          { s.2 with delay := (cv.2 : Nat), repeat_ := -1 }
        else s.2)
    else s.2)

/-- The block of scenario S2: one cell `{note=61, instrument=1, Retrigger 0x23}`. -/
def blockS2 : Block := blockOfCells 1 [(61, 1, 0x08, 0x23)]

/-- Scenario S2: the block of S2 with 8 ticks per line; instrument 1 has hold 0. -/
def songS2 : Song := songOf 8 [0] [blockS2] [plainInstrument 100 0 0] 1

/-- Two lines on one track with 8 ticks per line; instrument 1 has hold 0.  Line 0 holds the
cell of scenario S2, `{note=61, instrument=1, Retrigger 0x23}`; line 1 holds the same note
with the command byte `0x01` and the value `0x23`. -/
def songPreviousRetrigger : Song :=
  songOf 8 [0] [blockOfCells 1 [(61, 1, 0x08, 0x23), (61, 1, 0x01, 0x23)]]
    [plainInstrument 100 0 0] 1

/-- Scenario S3: a cell `{PitchWheel 0xC0}` on instrument 1 with 4 ticks per line. -/
def songS3 : Song :=
  songOf 4 [0] [blockOfCells 1 [(0, 1, 0x02, 0xC0)]] [plainInstrument 100 0 1] 1

/-- A state in the middle of a line: the tick is set to `t` (`Player::setTick`). -/
def Player.atTick (p : Player) (t : Nat) : Player := { p with tick := t }

/-! ## Note balance -/

/-- The note-offs counted since the last note-on of `key` (track, output, channel, note) in
the calls `events`, scanned from the oldest; `none` while the key had no note-on.  The
result is `false` as soon as a note-on of a key follows the previous note-on of the same
key with a number of note-offs between them that is not one. -/
def noteBalanceFrom (seen : List ((Option Nat × Int × Int × Int) × Nat)) : List Event → Bool
  | [] => true
  | e :: es =>
    match e.msg with
    | MidiMsg.noteOn c n _ =>
      let key := (e.track, e.output, c, n)
      match seen.lookup key with
      | some k => k == 1 && noteBalanceFrom ((key, 0) :: seen.filter (fun s => s.1 != key)) es
      | none => noteBalanceFrom ((key, 0) :: seen) es
    | MidiMsg.noteOff c n _ =>
      let key := (e.track, e.output, c, n)
      noteBalanceFrom (seen.map (fun s => if s.1 == key then (s.1, s.2 + 1) else s)) es
    | _ => noteBalanceFrom seen es

/-- The note balance of the specification on the calls of a run: between two consecutive
note-ons of a track on one (interface, channel, note number) there is exactly one note-off
on the same triple. -/
def noteBalance (events : List Event) : Bool := noteBalanceFrom [] events

/-- Three lines on one track with one tick per line: a note of instrument 1, a cell without
note that names instrument 2 and carries the Velocity command with value 0, and the same
note of instrument 1 again.  Instrument 1 is on output 0, instrument 2 on output 1, both on
channel 0 with hold 0. -/
def songVelocityOff : Song :=
  songOf 1 [0] [blockOfCells 1 [(49, 1, 0, 0), (0, 2, CommandVelocity, 0), (49, 1, 0, 0)]]
    [plainInstrument 100 0 0, { plainInstrument 100 0 0 with midiInterface := 1 }] 1

/-- A player with two MIDI outputs at the start of `songVelocityOff`. -/
def playerVelocityOff : Player :=
  { playerOf songVelocityOff Mode.ModePlaySong true with
    outputs := 2,
    midiControllerValues := [List.replicate (16 * 131) 0, List.replicate (16 * 131) 0] }

/-- Two lines on one track with one tick per line, each with the lowest note (1) of
instrument 1, whose transpose is -1 and hold 0. -/
def songLowestNote : Song :=
  songOf 1 [0] [blockOfCells 1 [(1, 1, 0, 0), (1, 1, 0, 0)]] [plainInstrument 100 (-1) 0] 1

/-! ## Hold times -/

/-- Whether a call is a note-off. -/
def MidiMsg.isNoteOff : MidiMsg → Bool
  | MidiMsg.noteOff _ _ _ => true
  | _ => false

/-- The note-offs among `events` that were made while `track` was processed. -/
def noteOffsOf (track : Nat) (events : List Event) : List Event :=
  events.filter fun e => decide (e.track = some track) && e.msg.isNoteOff

/-- The state at the start of the `j`-th tick after the tick that starts in `p`, in the
loop of `run`: `none` when a tick faults or the loop is left before that tick. -/
def stateAt : Nat → Player → Option Player
  | 0, p => some p
  | j + 1, p =>
    (tickStep p).bind fun r =>
      if r.1.killThread ∨ (r.1.killWhenLooped ∧ r.2) then none else stateAt j r.1

/-- The line the track loop reads in the tick that starts in `p` ("The block may have
changed, make sure the line won't overflow"). -/
def Player.cursor (p : Player) (block : Block) : Nat :=
  if p.line_ ≥ block.length then p.line_ % block.length else p.line_

/-- The command pages of the arpeggio line that the track loop interprets for a cell that
was read: line `trackStatus->line` of track 0 of the arpeggio block of the effective
instrument; no page when that instrument has no arpeggio. -/
def Cell.arpeggioPages (cell : Cell) (ts : TrackStatus) : List (Nat × Nat) :=
  match cell.arpeggio with
  | none => []
  | some arpeggio => arpeggio.pages (toUInt ts.line) 0

/-- The command pages that set the delay and the repeat with which the firing test of the
track loop is made, in the order in which the track loop goes through them: the pages of the
cell (the scan that precedes a note), the pages of the arpeggio line, and the pages of the
cell again (the interpretation of the commands). -/
def Cell.gatePages (cell : Cell) (ts : TrackStatus) (block : Block) (line track : Nat) :
    List (Nat × Nat) :=
  block.pages line track ++ (cell.arpeggioPages ts ++ block.pages line track)

/-- The cell of `track` on the line read in state `p` leaves the note of the track alone;
`ts` is the track's status.  The cell is read without fault, and either it resolves no
note, names no instrument on tick 0 of a line, and neither the arpeggio line nor the cell
carries a Velocity command with value 0; or it resolves a note and `shouldPlayNote` is
closed on this tick both for the delay and repeat that the scan of the cell's pages finds
and for the delay and repeat with which the firing test is made. -/
def quietAt (block : Block) (track : Nat) (ts : TrackStatus) (p : Player) : Bool :=
  match readCell block track ts p with
  | some (cell, ts1) =>
    if cell.note = 0 then
      (decide (cell.instrument = 0) || decide (p.tick ≠ 0)) &&
      (cell.arpeggioPages ts1 ++ block.pages p.line_ track).all
        (fun cv => !(decide (cv.1 = CommandVelocity) && decide (cv.2 = 0)))
    else
      !(shouldPlayNote p.tick
          (cellGate ts.previousCommand (block.pages p.line_ track)).1
          (cellGate ts.previousCommand (block.pages p.line_ track)).2) &&
      !(shouldPlayNote p.tick
          (cellGate ts.previousCommand (cell.gatePages ts1 block p.line_ track)).1
          (cellGate ts.previousCommand (cell.gatePages ts1 block p.line_ track)).2)
  | none => false

/-- A tick that leaves the note of `track` alone, as a test on the state `p` in which the
tick starts: the block has at most 256 tracks, the track is a track of the song, and the
cell of the track on the line that is read is as in `quietAt`. -/
def quietCell (track : Nat) (p : Player) : Bool :=
  match p.song.block p.block_, p.trackStatuses[track]? with
  | some block, some ts =>
    decide (block.tracks ≤ 256) && decide (track < p.song.maxTracks) &&
      quietAt block track ts { p with line_ := p.cursor block }
  | _, _ => false

/-- The relation between the state before and a state after track `u` was processed in the
track loop, as far as the other tracks are concerned: tick, line, solo flag, the mute and
solo flags of the tracks, the instruments apart from their default velocity and the statuses
of the other tracks are the same, and every call made on an output is annotated with `u`. -/
structure TrackFrame (u : Nat) (p q : Player) : Prop where
  tick : q.tick = p.tick
  line_ : q.line_ = p.line_
  solo : q.solo = p.solo
  tracks : q.song.tracks.map (fun t => (t.muted, t.solo))
    = p.song.tracks.map (fun t => (t.muted, t.solo))
  instruments : q.song.instruments.map Instrument.fixed = p.song.instruments.map Instrument.fixed
  others : ∀ v, v ≠ u → q.trackStatuses[v]? = p.trackStatuses[v]?
  out : ∃ evs, q.midiOut = p.midiOut ++ evs ∧ ∀ e ∈ evs, e.track = some u
  postponed : ∃ ns, q.postponedNotes = p.postponedNotes ++ ns

/-- The relation between the state before and a state after the processing of tracks other
than `track`: as `TrackFrame`, with the status of `track` the same and no call annotated
with `track`. -/
structure AwayFrame (track : Nat) (p q : Player) : Prop where
  tick : q.tick = p.tick
  line_ : q.line_ = p.line_
  solo : q.solo = p.solo
  tracks : q.song.tracks.map (fun t => (t.muted, t.solo))
    = p.song.tracks.map (fun t => (t.muted, t.solo))
  instruments : q.song.instruments.map Instrument.fixed = p.song.instruments.map Instrument.fixed
  own : q.trackStatuses[track]? = p.trackStatuses[track]?
  out : ∃ evs, q.midiOut = p.midiOut ++ evs ∧ ∀ e ∈ evs, e.track ≠ some track
  postponed : ∃ ns, q.postponedNotes = p.postponedNotes ++ ns

/-- The calls made between `p` and `q` and the note-offs for `track` among them. -/
def Emits (track : Nat) (p q : Player) (offs : List Event) : Prop :=
  ∃ evs, q.midiOut = p.midiOut ++ evs ∧ noteOffsOf track evs = offs

/-- The relation between the state before and a state after an operation that neither
changes the note of a track status nor makes a note-off. -/
def Calm (p q : Player) : Prop :=
  q.trackStatuses.map TrackStatus.note = p.trackStatuses.map TrackStatus.note ∧
    ∃ evs, q.midiOut = p.midiOut ++ evs ∧ ∀ e ∈ evs, e.msg.isNoteOff = false

/-- The status of `track` in `p`: a note `n` on interface `mi`, channel `ch`, with hold time
`hold`. -/
def Sounding (track : Nat) (p : Player) (mi ch n hold : Int) : Prop :=
  ∃ ts, p.trackStatuses[track]? = some ts ∧ ts.midiInterface = mi ∧ ts.midiChannel = ch ∧
    ts.note = n ∧ ts.hold = hold

/-- The relation between the state before and a state after an operation that makes no
call and leaves the interface, channel, note and hold time of every track status. -/
def Keeps (p q : Player) : Prop :=
  q.midiOut = p.midiOut ∧
    q.trackStatuses.map (fun ts => (ts.midiInterface, ts.midiChannel, ts.note, ts.hold))
      = p.trackStatuses.map (fun ts => (ts.midiInterface, ts.midiChannel, ts.note, ts.hold))

/-- The call a postponed note-on becomes when the postponed notes are played. -/
def NoteOn.event (n : NoteOn) : Event :=
  ⟨some n.track, n.midiInterface, MidiMsg.noteOn n.midiChannel n.note n.volume⟩

/-- The hold time in force for a note fired by a cell: the value of the last Hold command
among the command pages `pages` that `handleCommand` interprets for the cell (the pages of
the arpeggio line, then the pages of the cell), otherwise the hold time of the instrument.
The command byte `0x01` with a non-zero value stands for the track's previous command, which
is the one the scan of the pages `scanned` of the cell leaves when `pages` are read. -/
def effectiveHold (ts : TrackStatus) (scanned pages : List (Nat × Nat)) (instr : Instrument) :
    Int :=
  match cellHold (scanned.foldl previousAfter ts.previousCommand) pages with
  | some v => (v : Int)
  | none => (instr.hold : Int)

/-- The note number of the note fired by a cell with instrument `instr`: the note the cell
resolves less one, transposed. -/
def firedNote (cell : Cell) (instr : Instrument) : Int :=
  ((cell.note - 1 : Nat) : Int) + instr.transpose

/-- The hold time in force for the note fired by the cell `cell` of `track`, read on `line`
of `block` with the track's status `ts` (`ts1` after the reading). -/
def Cell.hold (cell : Cell) (ts ts1 : TrackStatus) (block : Block) (line track : Nat)
    (instr : Instrument) : Int :=
  effectiveHold ts (block.pages line track)
    (cell.arpeggioPages ts1 ++ block.pages line track) instr

/-- The cell of `track` read in the tick that starts in `p` fires a note of instrument
`instr`: `block` is the current block, with at most 256 tracks; the track is audible and
`ts` is its status; the cell is read as `cell` (`ts1` is the status after the reading), it
resolves a note and the gate holds on this tick for the delay and repeat with which the
firing test is made; the instrument the cell names (or, when it names none, the instrument
of the track's status) exists; the note resolved is not the lowest note (1) on tick 0 of a
line, and the transposed note is not -1. -/
structure Fires (p : Player) (block : Block) (track : Nat) (ts : TrackStatus)
    (cell : Cell) (ts1 : TrackStatus) (instr : Instrument) : Prop where
  hblock : p.song.block p.block_ = some block
  htracks : block.tracks ≤ 256
  htrack : track < block.tracks
  htick : p.tick < 2 ^ 32
  hstatus : p.trackStatuses[track]? = some ts
  haudible : p.audible track = some true
  hread : readCell block track ts { p with line_ := p.cursor block } = some (cell, ts1)
  hnote : cell.note ≠ 0
  hnamed : (if cell.instrument = 0 then ((ts.instrument + 1) % 256).toNat
      else cell.instrument) ≠ 0
  hinstrument : p.song.instrument
      (((if cell.instrument = 0 then ((ts.instrument + 1) % 256).toNat
          else cell.instrument : Nat) : Int) - 1) = some instr
  hgate : gate p.tick
      (cellGate ts.previousCommand (cell.gatePages ts1 block (p.cursor block) track)).1
      (cellGate ts.previousCommand (cell.gatePages ts1 block (p.cursor block) track)).2
  hlowest : ¬ (p.tick = 0 ∧ cell.note = 1)
  hsentinel : firedNote cell instr ≠ -1

/-- The block of scenario S1. -/
def blockS1 : Block := blockOfCells 1 [(49, 1, 0, 0)]

/-- The player at the start of scenario S1, playing the block. -/
def playerS1 : Player := playerOf songS1 Mode.ModePlayBlock false

/-- One tick per line, instrument hold 3: a note on line 0, a cell on line 1 with no note
and no instrument that carries the Velocity command with value 0, and two empty lines. -/
def songHeldVelocityOff : Song :=
  songOf 1 [0] [blockOfCells 1 [(49, 1, 0, 0), (0, 0, CommandVelocity, 0), (0, 0, 0, 0),
    (0, 0, 0, 0)]] [plainInstrument 100 0 3] 1

/-- One tick per line, instrument hold 1: a note on line 0, a cell on line 1 that names the
instrument and holds no note, and an empty line. -/
def songHeldExtended : Song :=
  songOf 1 [0] [blockOfCells 1 [(49, 1, 0, 0), (0, 1, 0, 0), (0, 0, 0, 0)]]
    [plainInstrument 100 0 1] 1

/-- An arpeggio block of one line with the note 49 and one command page that carries
`command` with `value`. -/
def arpeggioWithCommand (command value : Nat) : Block :=
  { tracks := 1, length := 1, commandPages := 1,
    note := fun _ _ => 49, instrument := fun _ _ => 0,
    command := fun _ _ page => if page = 0 then command else 0,
    commandValue := fun _ _ page => if page = 0 then value else 0 }

/-- One tick per line; instrument 1 has hold 3 and an arpeggio (base note 49) whose line
carries the Delay command with value 9.  Line 0 holds `{note=49, instrument=1, Delay 0}`,
line 1 holds `{note=49}` without command, lines 2 and 3 are empty. -/
def songHeldArpeggioDelay : Song :=
  songOf 1 [0] [blockOfCells 1 [(49, 1, CommandDelay, 0), (49, 0, 0, 0), (0, 0, 0, 0),
    (0, 0, 0, 0)]]
    [{ plainInstrument 100 0 3 with
        arpeggio := some (arpeggioWithCommand CommandDelay 9), arpeggioBaseNote := 49 }] 1

/-- One tick per line, instrument hold 1: the lowest note, `{note=1, instrument=1}`, on
line 0 and two empty lines. -/
def songHeldLowest : Song :=
  songOf 1 [0] [blockOfCells 1 [(1, 1, 0, 0), (0, 0, 0, 0), (0, 0, 0, 0)]]
    [plainInstrument 100 0 1] 1

/-- One tick per line, instrument hold 1 and transpose -2: `{note=2, instrument=1}` on
line 0 and two empty lines. -/
def songHeldSentinel : Song :=
  songOf 1 [0] [blockOfCells 1 [(2, 1, 0, 0), (0, 0, 0, 0), (0, 0, 0, 0)]]
    [plainInstrument 100 (-2) 1] 1

/-- Four ticks per line; instrument 1 has hold 1 and an arpeggio (base note 49) whose line
carries the Hold command with value 2.  The block is the line `{note=49, instrument=1}`. -/
def songHeldArpeggioHold : Song :=
  songOf 4 [0] [blockOfCells 1 [(49, 1, 0, 0)]]
    [{ plainInstrument 100 0 1 with
        arpeggio := some (arpeggioWithCommand CommandHold 2), arpeggioBaseNote := 49 }] 1

/-- One tick per line, instrument hold 1: line 0 holds a cell without note that carries the
Hold command with value 2, line 1 holds `{note=49, instrument=1}` with the command byte
`0x01` and the value 2, and three empty lines follow. -/
def songHeldPreviousHold : Song :=
  songOf 1 [0] [blockOfCells 1 [(0, 0, CommandHold, 2),
    (49, 1, CommandPreviousCommandValue, 2), (0, 0, 0, 0), (0, 0, 0, 0), (0, 0, 0, 0)]]
    [plainInstrument 100 0 1] 1

/-- The cursor of `q` is the location that `updateLocation` computes for section `sec` and
position `pos`: the section is `sec` (0 when `sec` is past the last section), the playing
sequence is the one of that section (the last one when the number is out of range), the
position is `pos` (0 when `pos` is past the end of the playing sequence) and the block is
the one at that position (the last one when the number is out of range). -/
def Located (q : Player) (sec pos : Nat) : Prop :=
  q.section_ = (if sec ≥ q.song.sections.length then 0 else sec) ∧
  ∃ s0 ps b0, q.song.section_ q.section_ = some s0 ∧
    q.playseq_ = (if s0 ≥ q.song.playseqs.length
      then (q.song.playseqs.length + 2 ^ 32 - 1) % 2 ^ 32 else s0) ∧
    q.song.playseq q.playseq_ = some ps ∧
    q.position_ = (if pos ≥ ps.blocks.length then 0 else pos) ∧
    ps.blocks[q.position_]? = some b0 ∧
    q.block_ = (if b0 ≥ q.song.blocks.length
      then (q.song.blocks.length + 2 ^ 32 - 1) % 2 ^ 32 else b0)

/-- Scenario S4: a block of length 4 whose cell on line 2 carries the EndBlock command with
value 1, played twice by the playing sequence; 2 ticks per line. -/
def songS4 : Song :=
  songOf 2 [0, 0] [blockOfCells 1 [(0, 0, 0, 0), (0, 0, 0, 0), (0, 0, CommandEndBlock, 1),
    (0, 0, 0, 0)]] [plainInstrument 100 0 1] 1

/-- A block of length 4 with two command pages whose cell on line 0 carries the EndBlock
command with value 1 on page 0 and the TicksPerLine command with value 4 on page 1. -/
def blockEndBlockTicks : Block :=
  { tracks := 1, length := 4, commandPages := 2,
    note := fun _ _ => 0, instrument := fun _ _ => 0,
    command := fun line track page =>
      if line = 0 ∧ track = 0 then (if page = 0 then CommandEndBlock else CommandTicksPerLine)
      else 0,
    commandValue := fun line track page =>
      if line = 0 ∧ track = 0 then (if page = 0 then 1 else 4) else 0 }

/-- The block `blockEndBlockTicks` played twice with one tick per line. -/
def songEndBlockTicks : Song :=
  songOf 1 [0, 0] [blockEndBlockTicks] [plainInstrument 100 0 1] 1

/-- The player at the start of scenario S4 in PlaySong mode. -/
def playerS4 : Player := playerOf songS4 Mode.ModePlaySong false

/-- Scenario S4 at the start of the last tick of line 2 (the sixth tick). -/
def lastTickS4 : Player := (stateAt 5 playerS4).getD playerS4

/-- Scenario S4 when the last tick of line 2 has been handled, before the advance. -/
def handledS4 : Player := (handleTick lastTickS4).getD playerS4

/-- Scenario S4 after the advance that follows the last tick of line 2, with `looped`. -/
def advancedS4 : Player × Bool := (advance handledS4).getD (playerS4, false)

/-! ## What the processing of a tick leaves untouched -/

/-- The relation between a state and a state reached from it by the elementary writes that
the processing of a tick is made of: calls on the outputs, a write of the controller cache,
the latch of a post command, the writes of `Song::setTPL` (with a non-zero byte),
`Song::setTempo`, `Track::setVolume` and `Instrument::setDefaultVelocity`, the write of a
track status, and the queueing and the flush of the postponed notes. -/
inductive Within : Player → Player → Prop
  | same (p : Player) : Within p p
  | chain {p q r : Player} : Within p q → Within q r → Within p r
  | out (p : Player) (evs : List Event) : Within p { p with midiOut := p.midiOut ++ evs }
  | cache {p q : Player} {i j v : Int} : p.cacheSet i j v = some q → Within p q
  | latch (p : Player) (c v : Nat) : Within p { p with postCommand := c, postValue := v }
  | ticksPerLine (p : Player) (v : Nat) : 1 ≤ v → v < 256 →
      Within p { p with song := p.song.setTPL v }
  | tempo (p : Player) (v : Nat) : Within p { p with song := p.song.setTempo v }
  | trackVolume (p : Player) (n : Nat) (v : Int) :
      Within p { p with song := p.song.setTrackVolume n v }
  | defaultVelocity (p : Player) (n v : Int) :
      Within p { p with song := p.song.setDefaultVelocity n v }
  | status (p : Player) (track : Nat) (ts : TrackStatus) : Within p (p.setTrackStatus track ts)
  | postponed (p : Player) (ns : List NoteOn) : Within p { p with postponedNotes := ns }

/-- A relation on states that contains the elementary writes of the command interpreter for
`track` (apart from the write of the track's status and of the ticks per line) and is
reflexive and transitive. -/
structure CommandSteps (track : Nat) (R : Player → Player → Prop) : Prop where
  same : ∀ a, R a a
  chain : ∀ a b c, R a b → R b c → R a c
  out : ∀ a o m, R a (a.emit (some track) o m)
  cache : ∀ a b i j v, a.cacheSet i j v = some b → R a b
  latch : ∀ a c v, R a { a with postCommand := c, postValue := v }
  tempo : ∀ a v, R a { a with song := a.song.setTempo v }
  trackVolume : ∀ a n v, R a { a with song := a.song.setTrackVolume n v }
  defaultVelocity : ∀ a n v, R a { a with song := a.song.setDefaultVelocity n v }

/-- What the processing of a tick up to the advance leaves as it is: the tick counters, the
cursors, the mode and the flags, the number of outputs, the blocks, sections and playing
sequences of the song; the ticks per line are the same or a non-zero byte. -/
structure Steady (p q : Player) : Prop where
  tick : q.tick = p.tick
  ticksSoFar : q.ticksSoFar = p.ticksSoFar
  line_ : q.line_ = p.line_
  block_ : q.block_ = p.block_
  position_ : q.position_ = p.position_
  playseq_ : q.playseq_ = p.playseq_
  section_ : q.section_ = p.section_
  mode_ : q.mode_ = p.mode_
  solo : q.solo = p.solo
  killThread : q.killThread = p.killThread
  killWhenLooped : q.killWhenLooped = p.killWhenLooped
  outputs : q.outputs = p.outputs
  blocks : q.song.blocks = p.song.blocks
  sections : q.song.sections = p.song.sections
  playseqs : q.song.playseqs = p.song.playseqs
  maxTracks : q.song.maxTracks = p.song.maxTracks
  ticksPerLine : q.song.ticksPerLine = p.song.ticksPerLine ∨
    (1 ≤ q.song.ticksPerLine ∧ q.song.ticksPerLine < 256)

/-- The player of scenario S1 when the last command interpreted on track 0 was a Delay
command. -/
def playerDelayed : Player :=
  playerS1.setTrackStatus 0 { freshStatus with previousCommand := CommandDelay }

/-! ## Scenarios for the stop commands and for an unknown MIDI interface -/

/-- One tick per line, a block of two lines whose cell on line 0 carries the command
`command` with value 0. -/
def songStop (command : Nat) : Song :=
  songOf 1 [0] [blockOfCells 1 [(0, 0, command, 0), (0, 0, 0, 0)]] [plainInstrument 100 0 1] 1

/-- One tick per line, one line; instrument 1 is on channel 0 and its MIDI interface is
not known (-1); the cell names instrument 1 and carries `command` with `value`. -/
def songUnknownInterface (command value : Nat) : Song :=
  songOf 1 [0] [blockOfCells 1 [(0, 1, command, value)]]
    [{ plainInstrument 100 0 1 with midiInterface := -1 }] 1

/-- A block of one line with one track whose cell holds no note and carries the commands
`cells` (command byte and value), one on each command page. -/
def blockOfPages (cells : List (Nat × Nat)) : Block :=
  { tracks := 1, length := 1, commandPages := cells.length,
    note := fun _ _ => 0, instrument := fun _ _ => 0,
    command := fun line track page =>
      if line = 0 ∧ track = 0 then (cells.getD page (0, 0)).1 else 0,
    commandValue := fun line track page =>
      if line = 0 ∧ track = 0 then (cells.getD page (0, 0)).2 else 0 }

/-- One tick per line; the block of one line is played twice by the playing sequence; its
cell carries the commands `cells`. -/
def songOfPages (cells : List (Nat × Nat)) : Song :=
  songOf 1 [0, 0] [blockOfPages cells] [plainInstrument 100 0 1] 1

/-- A song with two playing sequences, of one and of three positions, whose only section
plays the first; the cell of its block carries PlayseqPosition with value 2.  The player
plays the block, and its playing-sequence cursor was set to the second playing sequence
(`Player::setPlayseq`). -/
def playerOtherPlayseq : Player :=
  { playerOf { songOfPages [(CommandPlayseqPosition, 2)] with
      playseqs := [⟨[0]⟩, ⟨[0, 0, 0]⟩] } Mode.ModePlayBlock false with playseq_ := 1 }

/-- The player at the start of a song whose cell carries PlayseqPosition with value 1, in
PlaySong mode. -/
def playerPosition : Player :=
  playerOf (songOfPages [(CommandPlayseqPosition, 1)]) Mode.ModePlaySong false

/-- The state when the first tick of `playerPosition` has been handled, before the advance. -/
def handledPosition : Player := (handleTick playerPosition).getD playerPosition

/-- The state after the advance that follows the first tick of `playerPosition`, with
`looped`. -/
def advancedPosition : Player × Bool := (advance handledPosition).getD (playerPosition, false)

/-- The player at the start of the song whose first cell carries Tempo with value 0, in
PlaySong mode. -/
def playerStop : Player := playerOf (songStop CommandTempo) Mode.ModePlaySong false

/-- The state when the first tick of `playerStop` has been handled, before the advance. -/
def handledStop : Player := (handleTick playerStop).getD playerStop

/-- The state after the advance that follows the first tick of `playerStop`, with `looped`. -/
def advancedStop : Player × Bool := (advance handledStop).getD (playerStop, false)

/-- One tick per line at the start; the cell carries Tempo with value 0 on command page 0,
TicksPerLine with value 4 on page 1 and EndBlock with value 0 on page 2; the block is
played in PlayBlock mode. -/
def playerStopOverridden : Player :=
  playerOf (songOfPages [(CommandTempo, 0), (CommandTicksPerLine, 4), (CommandEndBlock, 0)])
    Mode.ModePlayBlock false

/-- Scenario S1 as the specification plays it: PlayBlock with `killWhenLooped` set. -/
def playerS1Kill : Player := playerOf songS1 Mode.ModePlayBlock true

/-- A block of one empty line, played twice by the playing sequence with one tick per line,
in PlaySong mode with `killWhenLooped` set. -/
def playerTwoPositions : Player :=
  playerOf (songOfPages []) Mode.ModePlaySong true

/-- The state when the second tick of `playerTwoPositions` has been handled, before the
advance. -/
def handledTwoPositions : Player :=
  ((stateAt 1 playerTwoPositions).bind handleTick).getD playerTwoPositions

/-- The state after the advance that follows the second tick of `playerTwoPositions`, with
`looped`. -/
def advancedTwoPositions : Player × Bool :=
  (advance handledTwoPositions).getD (playerTwoPositions, false)

/-- The block whose cell carries TicksPerLine with value 2 on command page 0, EndBlock with
value 0 on page 1 and TicksPerLine with value 7 on page 2. -/
def blockTwoRates : Block :=
  blockOfPages [(CommandTicksPerLine, 2), (CommandEndBlock, 0), (CommandTicksPerLine, 7)]

/-- The block `blockTwoRates` played in PlayBlock mode, with one tick per line at the
start. -/
def playerTwoRates : Player :=
  playerOf (songOf 1 [0] [blockTwoRates] [plainInstrument 100 0 1] 1) Mode.ModePlayBlock false

/-- The blocks `b` and `b1` have the same dimensions and the same cells on line `line`. -/
def Block.sameLine (b b1 : Block) (line : Nat) : Prop :=
  b1.tracks = b.tracks ∧ b1.length = b.length ∧ b1.commandPages = b.commandPages ∧
    ∀ track, b1.note line track = b.note line track ∧
      b1.instrument line track = b.instrument line track ∧
      ∀ page, b1.command line track page = b.command line track page ∧
        b1.commandValue line track page = b.commandValue line track page

/-- The player of scenario S4 with all cursors out of range. -/
def playerAstray : Player :=
  { playerS4 with section_ := 7, playseq_ := 3, position_ := 9, block_ := 5 }

/-! ## Scenarios for missing instruments, velocities, arpeggios and block play -/

/-- One tick per line, one track, one instrument (hold 3); the block has the lines `cells`
(note, instrument, command and value of the cell of track 0). -/
def playerOneInstrument (cells : List (Nat × Nat × Nat × Nat)) : Player :=
  playerOf (songOf 1 [0] [blockOfCells 1 cells] [plainInstrument 100 0 3] 1)
    Mode.ModePlaySong false

/-- The block of one line with the cell `{TrackVolume 0x80|27}`, played with 4 ticks per
line; the volume of the track is 127 at the start. -/
def playerVolumeRamp : Player :=
  playerOf (songOf 4 [0] [blockOfCells 1 [(0, 0, CommandTrackVolume, 0x80 + 27)]]
    [plainInstrument 100 0 1] 1) Mode.ModePlayBlock false

/-- The value `o + (t+1)*(v - o)/TPL`, truncated to an integer, of a linear movement from
`o` to `v` over the `TPL` ticks of a line. -/
def linearRamp (o v : Int) (t ticksPerLine : Nat) : Int :=
  o + Int.tdiv (((t : Int) + 1) * (v - o)) ticksPerLine

/-- The cell `{note=49, instrument=1, Velocity value}` with 6 ticks per line; instrument 1
has default velocity 127 and hold 1; track and master volume are 127. -/
def playerLoud (value : Nat) : Player :=
  playerOf (songOf 6 [0] [blockOfCells 1 [(49, 1, CommandVelocity, value)]]
    [plainInstrument 127 0 1] 1) Mode.ModePlaySong false

/-- An arpeggio block: one track, no commands, the notes `notes` line by line. -/
def arpeggioOf (notes : List Nat) : Block :=
  { tracks := 1, length := notes.length, commandPages := 0,
    note := fun line _ => notes.getD line 0, instrument := fun _ _ => 0,
    command := fun _ _ _ => 0, commandValue := fun _ _ _ => 0 }

/-- An instrument on channel 0 of output 0 with hold 0 whose arpeggio has the notes `notes`
and the base note `baseNote`. -/
def arpeggioInstrument (notes : List Nat) (baseNote : Nat) : Instrument :=
  { plainInstrument 100 0 0 with arpeggio := some (arpeggioOf notes), arpeggioBaseNote := baseNote }

/-- Two ticks per line, a block of four lines: a note of instrument 1 on line 0, and on
line 2 a cell without note that names instrument 2.  The arpeggio of instrument 1 has four
lines, the arpeggio of instrument 2 has one line. -/
def playerTwoArpeggios : Player :=
  playerOf (songOf 2 [0] [blockOfCells 1 [(49, 1, 0, 0), (0, 0, 0, 0), (0, 2, 0, 0), (0, 0, 0, 0)]]
    [arpeggioInstrument [49, 49, 49, 49] 49, arpeggioInstrument [49] 49] 1)
    Mode.ModePlaySong false

/-- The state at the start of the second tick of line 2 of `playerTwoArpeggios`. -/
def secondTickTwoArpeggios : Player := (stateAt 5 playerTwoArpeggios).getD playerTwoArpeggios

/-- One tick per line; the cell `{note=1, instrument=1}`; the arpeggio of instrument 1 has
the note 1 on its line and the base note 49. -/
def playerLowArpeggio : Player :=
  playerOf (songOf 1 [0] [blockOfCells 1 [(1, 1, 0, 0)]] [arpeggioInstrument [1] 49] 1)
    Mode.ModePlaySong false

/-- A song with two sections and two playing sequences, the first with the positions
`[0, 1]`, the second with `[1]`; block 0 has one line whose cell carries PlayseqPosition
with `value`, block 1 has one empty line; one tick per line.  The player plays block 0 in
PlayBlock mode. -/
def playerBlockJump (value : Nat) : Player :=
  playerOf { songOf 1 [0, 1] [blockOfCells 1 [(0, 0, CommandPlayseqPosition, value)],
      blockOfCells 1 [(0, 0, 0, 0)]] [plainInstrument 100 0 1] 1 with
    sections := [0, 1], playseqs := [⟨[0, 1]⟩, ⟨[1]⟩] } Mode.ModePlayBlock false

/-! ## Muted tracks -/

/-- The relation between the state before and a state after tracks were processed in the
track loop, as the tracks that are not audible see it: the test of audibility gives the
same for every track, the number of tracks is the same, the status of a track that is not
audible is the same, and every call made and every note queued is annotated with an audible
track. -/
structure Heard (p q : Player) : Prop where
  audible : ∀ u, q.audible u = p.audible u
  maxTracks : q.song.maxTracks = p.song.maxTracks
  silent : ∀ u, p.audible u ≠ some true → q.trackStatuses[u]? = p.trackStatuses[u]?
  out : ∃ evs, q.midiOut = p.midiOut ++ evs ∧
    ∀ e ∈ evs, ∃ u, e.track = some u ∧ p.audible u = some true
  postponed : ∃ ns, q.postponedNotes = p.postponedNotes ++ ns ∧
    ∀ n ∈ ns, p.audible n.track = some true

/-- The calls among `events` that were made for `track`. -/
def callsOf (track : Nat) (events : List Event) : List Event :=
  events.filter fun e => decide (e.track = some track)

/-- The track of a player muted (`Track::setMute`) or not. -/
def Player.setMuted (p : Player) (track : Nat) (muted : Bool) : Player :=
  match p.song.tracks[track]? with
  | none => p
  | some t =>
    let tracks1 := p.song.tracks.set track { t with muted := muted }
    { p with song := { p.song with tracks := tracks1 } }

/-- Scenario S1 after its first tick (the note sounds, its hold time is 0), with the track
then muted. -/
def playerS1Muted : Player := ((stateAt 1 playerS1).getD playerS1).setMuted 0 true

/-! ## The order of the calls of a tick -/

/-- `Player::externalSync(ticks)` as far as the state goes: the credits are added (in
`unsigned int` arithmetic) unless the mode is Idle.  The call wakes the engine thread in
every case (`syncCall`). -/
def Player.externalSync (p : Player) (ticks : Nat) : Player :=
  if p.mode_ ≠ Mode.ModeIdle then
    { p with externalSyncTicks := (p.externalSyncTicks + ticks) % 2 ^ 32 }
  else p

/-- Where the engine thread stands in the loop of `run`: at the top of an iteration,
blocked in `externalSync_.wait`, woken (the wait has returned), or out of the loop. -/
inductive SyncPoint where
  | top
  | waiting
  | woken
  | left
  deriving DecidableEq, Repr

/-- The engine thread: the state of the player, the point of the loop where the thread
stands, and the number of ticks handled so far (a counter that is not in the program). -/
structure SyncEngine where
  player : Player
  point : SyncPoint
  processed : Nat

/-- The rest of an iteration of the loop of `run` after a tick step: the loop is left when
`killThread` is set or the song looped and `killWhenLooped` is set. -/
def afterTick (processed : Nat) (r : Player × Bool) : SyncEngine :=
  ⟨r.1, if r.1.killThread ∨ (r.1.killWhenLooped ∧ r.2) then SyncPoint.left else SyncPoint.top,
    processed + 1⟩

/-- The iteration of the loop of `run` from the text that follows the wait:
`if (externalSyncTicks > 0) externalSyncTicks--`, then the tick. -/
def syncTick (e : SyncEngine) : Option SyncEngine :=
  let p1 :=
    if e.player.externalSyncTicks > 0 then
      { e.player with externalSyncTicks := e.player.externalSyncTicks - 1 }
    else e.player
  (tickStep p1).map (afterTick e.processed)

/-- One step of the engine thread.  At the top of an iteration with external sync on, the
thread waits when there is no credit, else it goes on with the iteration; with external
sync off (and no scheduler) it handles the tick.  A woken thread goes on with the text after
the wait.  A waiting thread and a thread that left the loop do not move. -/
def engineStep (e : SyncEngine) : Option SyncEngine :=
  match e.point with
  | SyncPoint.top =>
    if e.player.syncMode ≠ 0 then
      if e.player.externalSyncTicks = 0 then some { e with point := SyncPoint.waiting }
      else syncTick e
    else (tickStep e.player).map (afterTick e.processed)
  | SyncPoint.woken => syncTick e
  | SyncPoint.waiting => some e
  | SyncPoint.left => some e

/-- The engine thread runs until it waits or has left the loop. -/
def engineRun : Nat → SyncEngine → Option SyncEngine
  | 0, e => if e.point = SyncPoint.waiting ∨ e.point = SyncPoint.left then some e else none
  | fuel + 1, e =>
    if e.point = SyncPoint.waiting ∨ e.point = SyncPoint.left then some e
    else (engineStep e).bind (engineRun fuel)

/-- A call of `externalSync(ticks)` by another thread while the engine thread waits or
stands at the top of an iteration (the call takes the mutex): the credits are added,
`wakeAll` wakes a waiting thread, and the engine thread runs until it waits again. -/
def syncCall (fuel ticks : Nat) (e : SyncEngine) : Option SyncEngine :=
  engineRun fuel
    ⟨e.player.externalSync ticks,
      if e.point = SyncPoint.waiting then SyncPoint.woken else e.point, e.processed⟩

/-- `k` calls of `externalSync(1)`, the engine thread running after each. -/
def syncCalls (fuel : Nat) : Nat → SyncEngine → Option SyncEngine
  | 0, e => some e
  | k + 1, e => (syncCall fuel 1 e).bind (syncCalls fuel k)

/-- Scenario S1 with external sync on, in PlayBlock mode. -/
def playerS1Sync : Player := { playerS1 with syncMode := 1 }

/-! ## The export run of a song without commands -/

/-- No cell of the block carries a command: every command byte and every value is 0. -/
def Block.noCommands (b : Block) : Prop :=
  ∀ line track page, b.command line track page % 256 = 0 ∧ b.commandValue line track page % 256 = 0

/-- A song whose sections, playing sequences and blocks are non-empty and reference each
other in range, with at least one tick per line and cells without commands; the cells name
instruments of the song only, the blocks have no more tracks than the song, an arpeggio
block has at least one line and no commands, and the numbers fit `unsigned int`. -/
structure PlainSong (s : Song) : Prop where
  ticks : 1 ≤ s.ticksPerLine ∧ s.ticksPerLine < 2 ^ 32
  sections : s.sections ≠ [] ∧ s.sections.length < 2 ^ 32 ∧
    ∀ x ∈ s.sections, x < s.playseqs.length
  playseqs : ∀ ps ∈ s.playseqs, ps.blocks ≠ [] ∧ ps.blocks.length < 2 ^ 32 ∧
    ∀ b ∈ ps.blocks, b < s.blocks.length
  blocks : ∀ b ∈ s.blocks, 1 ≤ b.length ∧ b.length < 2 ^ 32 ∧ b.tracks ≤ s.tracks.length ∧
    b.noCommands ∧ ∀ line track, b.instrument line track % 256 ≤ s.instruments.length
  arpeggios : ∀ i ∈ s.instruments, ∀ a, i.arpeggio = some a → a.length ≠ 0 ∧ a.noCommands

/-- A track status whose instrument is -1 (none) or an instrument of the song below 255. -/
def validStatus (s : Song) (ts : TrackStatus) : Prop :=
  -1 ≤ ts.instrument ∧ ts.instrument < 255 ∧ ts.instrument < s.instruments.length

/-- The player has one track status for each track of the song, each with a valid
instrument. -/
def Statuses (p : Player) : Prop :=
  p.trackStatuses.length = p.song.tracks.length ∧ ∀ ts ∈ p.trackStatuses, validStatus p.song ts

/-- The state `q` differs from `p` in the track statuses, the output log and the postponed
notes only. -/
def Plain (p q : Player) : Prop :=
  q = { p with trackStatuses := q.trackStatuses, midiOut := q.midiOut,
               postponedNotes := q.postponedNotes }

/-- The length of block `b` of the song (0 when there is no such block). -/
def Song.blockLength (s : Song) (b : Nat) : Nat := ((s.blocks[b]?).map Block.length).getD 0

/-- The block numbers of playing sequence `n` of the song. -/
def Song.playseqBlocks (s : Song) (n : Nat) : List Nat :=
  ((s.playseqs[n]?).map Playseq.blocks).getD []

/-- The sum of the lengths of the blocks that playing sequence `n` plays. -/
def Song.playseqLines (s : Song) (n : Nat) : Nat := ((s.playseqBlocks n).map s.blockLength).sum

/-- The number of tick steps of an export run as the specification words it: the ticks per
line times the sum, over every section in order and every position of the playing sequence
of the section, of the length of the block at that position. -/
def exportTicks (s : Song) : Nat := s.ticksPerLine * (s.sections.map s.playseqLines).sum

/-- The number of tick steps from the state `p` to the end of the song: the rest of the
line, the rest of the block, the rest of the playing sequence and the rest of the
sections. -/
def remainingTicks (p : Player) : Nat :=
  (p.song.ticksPerLine - p.tick) +
    p.song.ticksPerLine * (p.song.blockLength p.block_ - p.line_ - 1) +
    p.song.ticksPerLine *
      (((p.song.playseqBlocks p.playseq_).drop (p.position_ + 1)).map p.song.blockLength).sum +
    p.song.ticksPerLine * ((p.song.sections.drop (p.section_ + 1)).map p.song.playseqLines).sum

/-- A state of an export run at the start of a tick: PlaySong mode with `killWhenLooped`,
no stop requested, no post command latched, valid track statuses, and the cursors in range
and consistent (the playing sequence is the one of the section, the block the one at the
position). -/
structure ExportState (p : Player) : Prop where
  mode : p.mode_ = Mode.ModePlaySong
  killWhenLooped : p.killWhenLooped = true
  killThread : p.killThread = false
  postCommand : p.postCommand = 0
  statuses : Statuses p
  section_ : p.song.sections[p.section_]? = some p.playseq_
  position_ : (p.song.playseqBlocks p.playseq_)[p.position_]? = some p.block_
  line_ : p.line_ < p.song.blockLength p.block_
  tick : p.tick < p.song.ticksPerLine
/-! ## Properties of the buffer sink -/

theorem and_7F (x : Nat) : x &&& 0x7F = x % 128 := Nat.and_pow_two_sub_one_eq_mod x 7

theorem and_ff (x : Nat) : x &&& 0xff = x % 256 := Nat.and_pow_two_sub_one_eq_mod x 8

theorem shr_7 (x : Nat) : x >>> 7 = x / 128 := Nat.shiftRight_eq_div_pow x 7

theorem shr_8 (x : Nat) : x >>> 8 = x / 256 := Nat.shiftRight_eq_div_pow x 8

theorem shr_16 (x : Nat) : x >>> 16 = x / 65536 := Nat.shiftRight_eq_div_pow x 16

theorem shl_8 (x : Nat) : x <<< 8 = x * 256 := Nat.shiftLeft_eq x 8

theorem and_80_ne_zero (x : Nat) : (x &&& 0x80 ≠ 0) ↔ x / 128 % 2 = 1 := by
  have h := Nat.and_two_pow x 7
  have h2 : (2 : Nat) ^ 7 = 0x80 := by norm_num
  rw [h2] at h
  rw [h, Nat.testBit_to_div_mod]
  by_cases hx : x / 2 ^ 7 % 2 = 1
  · have : x / 128 % 2 = 1 := by simpa using hx
    simp [this]
  · have : ¬ (x / 128 % 2 = 1) := by simpa using hx
    simp [this]

theorem or_80 (g : Nat) (hg : g < 128) : g ||| 0x80 = g + 128 := by
  have h := Nat.mul_add_lt_is_or (i := 7) (b := g) (by simpa using hg) 1
  rw [Nat.or_comm]
  simpa [Nat.add_comm] using h.symm

theorem shl_or (a b : Nat) (hb : b < 256) : (a * 256) ||| b = a * 256 + b := by
  have h := Nat.mul_add_lt_is_or (i := 8) (b := b) (by simpa using hb) a
  simpa [Nat.mul_comm] using h.symm

theorem varlenLoop_succ (fuel value varlen : Nat) (hv : varlen < 2 ^ 56) :
    varlenLoop (fuel + 1) value varlen =
      if value / 128 ≠ 0 then
        varlenLoop fuel (value / 128) (varlen * 256 + (value / 128 % 128 + 128))
      else varlen := by
  have h1 : (varlen * 256) % 2 ^ 64 = varlen * 256 := Nat.mod_eq_of_lt (by omega)
  have h2 : value / 128 % 128 ||| 0x80 = value / 128 % 128 + 128 := or_80 _ (by omega)
  have h3 : varlen * 256 ||| (value / 128 % 128 + 128)
      = varlen * 256 + (value / 128 % 128 + 128) := shl_or _ _ (by omega)
  simp only [varlenLoop, shr_7, and_7F, shl_8, h1, h2, h3]

theorem writeVarlen_succ (n v : Nat) :
    writeVarlen (n + 1) v
      = (v % 256) :: (if v / 128 % 2 = 1 then writeVarlen n (v / 256) else []) := by
  simp only [writeVarlen, and_ff, shr_8, and_80_ne_zero]

theorem writeVarlen_cons (n x y : Nat) (hy : y < 256) :
    writeVarlen (n + 1) (x * 256 + y) = y :: (if 128 ≤ y then writeVarlen n x else []) := by
  have h1 : (x * 256 + y) % 256 = y := by omega
  have h2 : (x * 256 + y) / 256 = x := by omega
  have h3 : (x * 256 + y) / 128 = 2 * x + y / 128 := by omega
  have h4 : ((2 * x + y / 128) % 2 = 1) ↔ 128 ≤ y := by omega
  rw [writeVarlen_succ, h1, h2, h3]
  simp only [h4]

theorem writeVarlen_last (n g : Nat) (hg : g < 128) : writeVarlen (n + 1) g = [g] := by
  have h := writeVarlen_cons n 0 g (by omega)
  simpa [Nat.not_le.mpr hg] using h

theorem vlqGroups_small (fuel d : Nat) (hd : d < 128) : vlqGroups fuel d = [d] := by
  cases fuel with
  | zero => simp [vlqGroups, Nat.mod_eq_of_lt hd]
  | succ f => simp [vlqGroups, hd]

theorem vlqGroups_large (fuel d : Nat) (hd : 128 ≤ d) :
    vlqGroups (fuel + 1) d = vlqGroups fuel (d / 128) ++ [d % 128] := by
  simp [vlqGroups, Nat.not_lt.mpr hd]

/-- The bytes written for a delta below `2^28`, in closed form. -/
theorem writeVarlen_closed (d : Nat) (hd : d < 2 ^ 28) :
    writeVarlen 4 (varlenLoop 10 d (d &&& 0x7F)) =
      if d < 128 then [d]
      else if d < 16384 then [d / 128 + 128, d % 128]
      else if d < 2097152 then [d / 16384 + 128, d / 128 % 128 + 128, d % 128]
      else [d / 2097152 + 128, d / 16384 % 128 + 128, d / 128 % 128 + 128, d % 128] := by
  rw [and_7F]
  have e2 : d / 128 / 128 = d / 16384 := by omega
  have e3 : d / 16384 / 128 = d / 2097152 := by omega
  by_cases h1 : d < 128
  · rw [varlenLoop_succ _ _ _ (by omega), if_neg (by omega), if_pos h1,
      Nat.mod_eq_of_lt h1, writeVarlen_last _ _ h1]
  by_cases h2 : d < 16384
  · rw [varlenLoop_succ _ _ _ (by omega), if_pos (by omega),
      varlenLoop_succ _ _ _ (by omega), if_neg (by omega), if_neg h1, if_pos h2,
      writeVarlen_cons _ _ _ (by omega), if_pos (by omega),
      writeVarlen_last _ _ (by omega), Nat.mod_eq_of_lt (by omega : d / 128 < 128)]
  by_cases h3 : d < 2097152
  · rw [varlenLoop_succ _ _ _ (by omega), if_pos (by omega),
      varlenLoop_succ _ _ _ (by omega), if_pos (by omega),
      varlenLoop_succ _ _ _ (by omega), if_neg (by omega), if_neg h1, if_neg h2, if_pos h3,
      writeVarlen_cons _ _ _ (by omega), if_pos (by omega),
      writeVarlen_cons _ _ _ (by omega), if_pos (by omega),
      writeVarlen_last _ _ (by omega), e2, Nat.mod_eq_of_lt (by omega : d / 16384 < 128)]
  · rw [varlenLoop_succ _ _ _ (by omega), if_pos (by omega),
      varlenLoop_succ _ _ _ (by omega), if_pos (by omega),
      varlenLoop_succ _ _ _ (by omega), if_pos (by omega),
      varlenLoop_succ _ _ _ (by omega), if_neg (by omega), if_neg h1, if_neg h2, if_neg h3,
      writeVarlen_cons _ _ _ (by omega), if_pos (by omega),
      writeVarlen_cons _ _ _ (by omega), if_pos (by omega),
      writeVarlen_cons _ _ _ (by omega), if_pos (by omega),
      writeVarlen_last _ _ (by omega), e2, e3,
      Nat.mod_eq_of_lt (by omega : d / 2097152 < 128)]

/-- The standard encoding of a number below `2^28`, in closed form. -/
theorem vlqEncode_closed (d : Nat) (hd : d < 2 ^ 28) :
    vlqEncode d =
      if d < 128 then [d]
      else if d < 16384 then [d / 128 + 128, d % 128]
      else if d < 2097152 then [d / 16384 + 128, d / 128 % 128 + 128, d % 128]
      else [d / 2097152 + 128, d / 16384 % 128 + 128, d / 128 % 128 + 128, d % 128] := by
  unfold vlqEncode
  by_cases h1 : d < 128
  · rw [vlqGroups_small _ _ h1, if_pos h1]
    rfl
  obtain ⟨f1, rfl⟩ : ∃ f, d = f + 1 := ⟨d - 1, by omega⟩
  rw [vlqGroups_large _ _ (by omega), if_neg h1]
  by_cases h2 : f1 + 1 < 16384
  · rw [vlqGroups_small _ _ (by omega), if_pos h2]
    rfl
  obtain ⟨f2, rfl⟩ : ∃ f, f1 = f + 1 := ⟨f1 - 1, by omega⟩
  rw [vlqGroups_large _ _ (by omega), if_neg h2]
  by_cases h3 : f2 + 1 + 1 < 2097152
  · rw [vlqGroups_small _ _ (by omega), if_pos h3]
    simp only [List.singleton_append, List.cons_append, List.nil_append, vlqMark]
    congr 1
    · omega
  obtain ⟨f3, rfl⟩ : ∃ f, f2 = f + 1 := ⟨f2 - 1, by omega⟩
  rw [vlqGroups_large _ _ (by omega), if_neg h3, vlqGroups_small _ _ (by omega)]
  simp only [List.singleton_append, List.cons_append, List.nil_append, vlqMark]
  congr 1
  · omega
  · congr 1
    · omega

/-- The loops of `write` produce the standard encoding of every delta below `2^28`. -/
theorem writeVarlen_eq_vlqEncode (d : Nat) (hd : d < 2 ^ 28) :
    writeVarlen 4 (varlenLoop 10 d (d &&& 0x7F)) = vlqEncode d := by
  rw [writeVarlen_closed d hd, vlqEncode_closed d hd]

/-- Decoding the standard encoding of a number below `2^28` yields the number and leaves
the bytes that follow. -/
theorem vlqDecode_vlqEncode (d : Nat) (hd : d < 2 ^ 28) (rest : List Nat) :
    vlqDecode (vlqEncode d ++ rest) = some (d, rest) := by
  rw [vlqEncode_closed d hd]
  unfold vlqDecode
  by_cases h1 : d < 128
  · simp [h1, vlqDecodeFrom]
  by_cases h2 : d < 16384
  · have a1 : ¬ (d / 128 + 128 < 128) := by omega
    have a2 : d % 128 < 128 := by omega
    simp only [h1, h2, if_true, if_false, List.cons_append, List.nil_append, vlqDecodeFrom, a1, a2]
    simp only [Option.some.injEq, Prod.mk.injEq, and_true]
    omega
  by_cases h3 : d < 2097152
  · have a1 : ¬ (d / 16384 + 128 < 128) := by omega
    have a2 : ¬ (d / 128 % 128 + 128 < 128) := by omega
    have a3 : d % 128 < 128 := by omega
    simp only [h1, h2, h3, if_true, if_false, List.cons_append, List.nil_append, vlqDecodeFrom,
      a1, a2, a3]
    simp only [Option.some.injEq, Prod.mk.injEq, and_true]
    omega
  · have a1 : ¬ (d / 2097152 + 128 < 128) := by omega
    have a2 : ¬ (d / 16384 % 128 + 128 < 128) := by omega
    have a3 : ¬ (d / 128 % 128 + 128 < 128) := by omega
    have a4 : d % 128 < 128 := by omega
    simp only [h1, h2, h3, if_true, if_false, List.cons_append, List.nil_append, vlqDecodeFrom,
      a1, a2, a3, a4]
    simp only [Option.some.injEq, Prod.mk.injEq, and_true]
    omega

theorem write_nonSysEx (fuel : Nat) (s : BufferMIDIInterface) (payload : List Nat)
    (hp : payload.head? ≠ some 0xf0) :
    s.write (fuel + 1) payload =
      some { tick := s.tick, oldTick := s.tick,
             data_ := s.data_ ++ writeVarlen 4
               (varlenLoop 10 ((s.tick + 2 ^ 32 - s.oldTick) % 2 ^ 32)
                 (((s.tick + 2 ^ 32 - s.oldTick) % 2 ^ 32) &&& 0x7F)) ++ payload } := by
  simp [BufferMIDIInterface.write, hp]

theorem write_vlq_bytes (fuel : Nat) (s : BufferMIDIInterface) (payload : List Nat)
    (hp : payload.head? ≠ some 0xf0)
    (hd : (s.tick + 2 ^ 32 - s.oldTick) % 2 ^ 32 < 2 ^ 28) :
    s.write (fuel + 1) payload =
      some { tick := s.tick, oldTick := s.tick,
             data_ := s.data_ ++ vlqEncode ((s.tick + 2 ^ 32 - s.oldTick) % 2 ^ 32)
               ++ payload } := by
  rw [write_nonSysEx fuel s payload hp, writeVarlen_eq_vlqEncode _ hd]

/-- C5 (amended): for every tick delta `d` below `2^28` (current tick minus previous tick,
as an unsigned 32-bit difference) and every payload that is not a SysEx message, `write`
returns, and the bytes it puts in front of the payload are the standard MIDI
variable-length encoding of `d` (7-bit groups, most significant first, no leading zero
group, most significant bit set on all bytes but the last); decoding them yields `d`. -/
theorem write_delta_is_vlq (fuel : Nat) (s : BufferMIDIInterface) (payload : List Nat)
    (hp : payload.head? ≠ some 0xf0)
    (hd : (s.tick + 2 ^ 32 - s.oldTick) % 2 ^ 32 < 2 ^ 28) :
    s.write (fuel + 1) payload =
        some { tick := s.tick, oldTick := s.tick,
               data_ := s.data_ ++ vlqEncode ((s.tick + 2 ^ 32 - s.oldTick) % 2 ^ 32)
                 ++ payload } ∧
      ∀ rest, vlqDecode (vlqEncode ((s.tick + 2 ^ 32 - s.oldTick) % 2 ^ 32) ++ rest)
        = some ((s.tick + 2 ^ 32 - s.oldTick) % 2 ^ 32, rest) := by
  refine ⟨?_, fun rest => vlqDecode_vlqEncode _ hd rest⟩
  rw [write_nonSysEx fuel s payload hp, writeVarlen_eq_vlqEncode _ hd]

/-- C5, witness: delta 300 is written as `82 2C` in front of a note-on. -/
theorem write_delta_is_vlq_witness :
    (BufferMIDIInterface.mk 300 0 []).write 1 [0x90, 0x30, 0x64]
        = some { tick := 300, oldTick := 300,
                 data_ := [] ++ vlqEncode ((300 + 2 ^ 32 - 0) % 2 ^ 32) ++ [0x90, 0x30, 0x64] } ∧
      ∀ rest, vlqDecode (vlqEncode ((300 + 2 ^ 32 - 0) % 2 ^ 32) ++ rest)
        = some ((300 + 2 ^ 32 - 0) % 2 ^ 32, rest) :=
  write_delta_is_vlq 0 (BufferMIDIInterface.mk 300 0 []) [0x90, 0x30, 0x64]
    (by decide) (by decide)

/-- C5, counterexample: for the delta `2^28` (a valid unsigned 32-bit difference) `write`
puts the four bytes `81 80 80 80` in front of the payload; the standard encoding is
`81 80 80 80 00`, the last written byte still has its most significant bit set, and
decoding the buffer does not yield the delta. -/
theorem write_delta_two_pow_28 :
    ((BufferMIDIInterface.mk (2 ^ 28) 0 []).write 1 [0x90, 0x30, 0x64]).map
        BufferMIDIInterface.data_ = some [0x81, 0x80, 0x80, 0x80, 0x90, 0x30, 0x64] ∧
      vlqEncode (2 ^ 28) = [0x81, 0x80, 0x80, 0x80, 0x00] ∧
      vlqDecode [0x81, 0x80, 0x80, 0x80, 0x90, 0x30, 0x64] ≠ some (2 ^ 28, [0x90, 0x30, 0x64]) := by
  decide


/-! ### Sequences of calls -/

theorem calls_data (fuel : Nat) (cs : List SinkCall) :
    ∀ s : BufferMIDIInterface, s.oldTick ≤ s.tick → s.tick < 2 ^ 28 →
      ticksMonotone (2 ^ 28) s.tick cs → noSysEx cs →
      ∃ s1, s.calls (fuel + 1) cs = some s1 ∧
        s1.data_ = s.data_ ++ serialise (sinkEvents s.tick s.oldTick cs) := by
  induction cs with
  | nil =>
    intro s _ _ _ _
    exact ⟨s, rfl, by simp [sinkEvents, serialise]⟩
  | cons c cs ih =>
    intro s hle hlt hm hn
    cases c with
    | setTick u =>
      obtain ⟨h1, h2, h3⟩ := hm
      have hu : u % 2 ^ 32 = u := Nat.mod_eq_of_lt (by omega)
      have hs : s.setTick u = { tick := u, oldTick := s.oldTick, data_ := s.data_ } := by
        simp only [BufferMIDIInterface.setTick, hu]
      obtain ⟨s1, e1, e2⟩ := ih { tick := u, oldTick := s.oldTick, data_ := s.data_ }
        (by show s.oldTick ≤ u; omega) h2 h3 hn
      refine ⟨s1, ?_, ?_⟩
      · simp only [BufferMIDIInterface.calls, hs]
        exact e1
      · simpa only [sinkEvents] using e2
    | write p =>
      obtain ⟨hp, hn'⟩ := hn
      have hd : (s.tick + 2 ^ 32 - s.oldTick) % 2 ^ 32 = s.tick - s.oldTick := by omega
      have hw := write_vlq_bytes fuel s p hp (by omega)
      rw [hd] at hw
      obtain ⟨s1, e1, e2⟩ := ih
        { tick := s.tick, oldTick := s.tick,
          data_ := s.data_ ++ vlqEncode (s.tick - s.oldTick) ++ p }
        (Nat.le_refl s.tick) hlt hm hn'
      refine ⟨s1, ?_, ?_⟩
      · simp only [BufferMIDIInterface.calls, hw, Option.bind]
        exact e1
      · rw [e2]
        simp [sinkEvents, serialise, List.append_assoc]

theorem sinkEvents_delta_lt (cs : List SinkCall) :
    ∀ t o : Nat, t < 2 ^ 28 → ticksMonotone (2 ^ 28) t cs →
      ∀ e ∈ sinkEvents t o cs, e.1 < 2 ^ 28 := by
  induction cs with
  | nil => intro t o _ _ e he; simp [sinkEvents] at he
  | cons c cs ih =>
    intro t o ht hm e he
    cases c with
    | setTick u =>
      obtain ⟨_, h2, h3⟩ := hm
      exact ih u o h2 h3 e (by simpa [sinkEvents] using he)
    | write p =>
      simp only [sinkEvents, List.mem_cons] at he
      rcases he with rfl | he
      · simp only
        omega
      · exact ih t t ht hm e he

theorem deserialise_serialise (es : List (Nat × List Nat))
    (h : ∀ e ∈ es, e.1 < 2 ^ 28) :
    deserialise (es.map (fun e => e.2.length)) (serialise es) = some es := by
  induction es with
  | nil => rfl
  | cons e es ih =>
    obtain ⟨d, p⟩ := e
    have hd : d < 2 ^ 28 := h (d, p) (List.mem_cons_self _ _)
    have ih' := ih (fun e he => h e (List.mem_cons_of_mem _ he))
    simp only [List.map_cons, serialise, deserialise, List.append_assoc,
      vlqDecode_vlqEncode d hd]
    simp [ih']

theorem sinkEvents_sum (cs : List SinkCall) :
    ∀ (t o : Nat) (p : List Nat), o ≤ t → ticksMonotone (2 ^ 28) t cs →
      ((sinkEvents t o (cs ++ [SinkCall.write p])).map Prod.fst).sum + o = tickInForce t cs := by
  induction cs with
  | nil =>
    intro t o p ho _
    simp [sinkEvents, tickInForce]
    omega
  | cons c cs ih =>
    intro t o p ho hm
    cases c with
    | setTick u =>
      obtain ⟨h1, _, h3⟩ := hm
      simpa [sinkEvents, tickInForce] using ih u o p (by omega) h3
    | write q =>
      have h := ih t t p (Nat.le_refl t) hm
      show (t - o) + ((sinkEvents t t (cs ++ [SinkCall.write p])).map Prod.fst).sum + o
        = tickInForce t cs
      omega

/-- C6 (amended): for every sequence of `setTick` calls and writes of non-SysEx payloads on
a fresh buffer sink, with tick values non-decreasing and below `2^28`, all calls return and
the buffer is the concatenation, in call order, of the variable-length encoding of each
delta followed by the unmodified payload, the delta of a write being the tick in force at
it minus the tick in force at the write before it (0 before the first).  A write directly
after a write has delta 0, the deltas up to and including any write sum to the tick in
force at it, and decoding the buffer with the length of each payload known recovers the
same sequence of (delta, payload) pairs. -/
theorem calls_buffer (fuel : Nat) (cs : List SinkCall)
    (hm : ticksMonotone (2 ^ 28) 0 cs) (hn : noSysEx cs) :
    (∃ s1, BufferMIDIInterface.fresh.calls (fuel + 1) cs = some s1 ∧
        s1.data_ = serialise (sinkEvents 0 0 cs) ∧
        deserialise ((sinkEvents 0 0 cs).map (fun e => e.2.length)) s1.data_
          = some (sinkEvents 0 0 cs)) ∧
      (∀ (t o : Nat) (p q : List Nat) (cs1 : List SinkCall),
        sinkEvents t o (SinkCall.write p :: SinkCall.write q :: cs1)
          = (t - o, p) :: (0, q) :: sinkEvents t t cs1) ∧
      (∀ (pre post : List SinkCall) (p : List Nat), cs = pre ++ SinkCall.write p :: post →
        ((sinkEvents 0 0 (pre ++ [SinkCall.write p])).map Prod.fst).sum = tickInForce 0 pre) := by
  refine ⟨?_, ?_, ?_⟩
  · obtain ⟨s1, e1, e2⟩ := calls_data fuel cs BufferMIDIInterface.fresh (Nat.le_refl _)
      (by decide) hm hn
    have e3 : s1.data_ = serialise (sinkEvents 0 0 cs) := by
      simpa [BufferMIDIInterface.fresh] using e2
    refine ⟨s1, e1, e3, ?_⟩
    rw [e3]
    exact deserialise_serialise _ (sinkEvents_delta_lt cs 0 0 (by decide) hm)
  · intro t o p q cs1
    simp [sinkEvents]
  · intro pre post p hcs
    have hpre : ticksMonotone (2 ^ 28) 0 pre := by
      subst hcs
      clear hn
      revert hm
      generalize (0 : Nat) = t
      induction pre generalizing t with
      | nil => intro _; trivial
      | cons c pre ih =>
        intro hm
        cases c with
        | setTick u => exact ⟨hm.1, hm.2.1, ih u hm.2.2⟩
        | write r => exact ih t hm
    simpa using sinkEvents_sum pre 0 0 p (Nat.le_refl _) hpre

/-- C6, witness: tick 0, a note-on, tick 1, a note-off. -/
theorem calls_buffer_witness :
    (∃ s1, BufferMIDIInterface.fresh.calls 1
          [SinkCall.setTick 0, SinkCall.write [0x90, 0x30, 0x64],
           SinkCall.setTick 1, SinkCall.write [0x80, 0x30, 0x7f]] = some s1 ∧
        s1.data_ = serialise (sinkEvents 0 0
          [SinkCall.setTick 0, SinkCall.write [0x90, 0x30, 0x64],
           SinkCall.setTick 1, SinkCall.write [0x80, 0x30, 0x7f]]) ∧
        deserialise ((sinkEvents 0 0
          [SinkCall.setTick 0, SinkCall.write [0x90, 0x30, 0x64],
           SinkCall.setTick 1, SinkCall.write [0x80, 0x30, 0x7f]]).map (fun e => e.2.length))
            s1.data_
          = some (sinkEvents 0 0
          [SinkCall.setTick 0, SinkCall.write [0x90, 0x30, 0x64],
           SinkCall.setTick 1, SinkCall.write [0x80, 0x30, 0x7f]])) ∧
      (∀ (t o : Nat) (p q : List Nat) (cs1 : List SinkCall),
        sinkEvents t o (SinkCall.write p :: SinkCall.write q :: cs1)
          = (t - o, p) :: (0, q) :: sinkEvents t t cs1) ∧
      (∀ (pre post : List SinkCall) (p : List Nat),
        [SinkCall.setTick 0, SinkCall.write [0x90, 0x30, 0x64],
           SinkCall.setTick 1, SinkCall.write [0x80, 0x30, 0x7f]]
          = pre ++ SinkCall.write p :: post →
        ((sinkEvents 0 0 (pre ++ [SinkCall.write p])).map Prod.fst).sum = tickInForce 0 pre) :=
  calls_buffer 0 _ (by simp [ticksMonotone]) (by simp [noSysEx])

/-- C6, counterexample: two call sequences of non-SysEx writes, with different
(delta, payload) sequences, leave the same bytes in the buffer, so the buffer alone does
not determine the sequence that was written. -/
theorem calls_buffer_ambiguous :
    BufferMIDIInterface.fresh.calls 1
        [SinkCall.write [0x90, 0x30, 0x64, 0x00], SinkCall.write [0x80, 0x30, 0x7f]]
      = BufferMIDIInterface.fresh.calls 1
        [SinkCall.write [0x90, 0x30, 0x64], SinkCall.write [0x00, 0x80, 0x30, 0x7f]] ∧
    (BufferMIDIInterface.fresh.calls 1
        [SinkCall.write [0x90, 0x30, 0x64, 0x00], SinkCall.write [0x80, 0x30, 0x7f]]).map
          BufferMIDIInterface.data_
      = some [0x00, 0x90, 0x30, 0x64, 0x00, 0x00, 0x80, 0x30, 0x7f] ∧
    sinkEvents 0 0 [SinkCall.write [0x90, 0x30, 0x64, 0x00], SinkCall.write [0x80, 0x30, 0x7f]]
      ≠ sinkEvents 0 0
        [SinkCall.write [0x90, 0x30, 0x64], SinkCall.write [0x00, 0x80, 0x30, 0x7f]] := by
  decide

/-! ### Tempo meta-event and SysEx messages -/

/-- C8 (amended): for every tempo `bpm ≥ 1`, `tempo(bpm)` hands to `write` exactly the six
bytes `FF 51 03 b2 b1 b0`, where `b2*65536 + b1*256 + b0` is `floor(60000000 / bpm)` reduced
modulo `2^24`; for `bpm ≥ 4` that is `floor(60000000 / bpm)` itself, the microseconds per
beat as a big-endian 24-bit number, and for `bpm = 120` the bytes are `FF 51 03 07 A1 20`. -/
theorem tempo_bytes (fuel : Nat) (s : BufferMIDIInterface) (bpm : Nat) (h : 1 ≤ bpm) :
    (∃ b2 b1 b0 : Nat, b2 < 256 ∧ b1 < 256 ∧ b0 < 256 ∧
        s.tempo (fuel + 1) bpm = s.write (fuel + 1) [0xff, 0x51, 0x03, b2, b1, b0] ∧
        b2 * 65536 + b1 * 256 + b0 = (60000000 / bpm) % 2 ^ 24 ∧
        (4 ≤ bpm → b2 * 65536 + b1 * 256 + b0 = 60000000 / bpm)) ∧
      s.tempo (fuel + 1) 120 = s.write (fuel + 1) [0xff, 0x51, 0x03, 0x07, 0xa1, 0x20] := by
  constructor
  · have key : 60000000 / bpm / 65536 % 256 * 65536 + 60000000 / bpm / 256 % 256 * 256
        + 60000000 / bpm % 256 = (60000000 / bpm) % 2 ^ 24 := by omega
    refine ⟨60000000 / bpm / 65536 % 256, 60000000 / bpm / 256 % 256, 60000000 / bpm % 256,
      Nat.mod_lt _ (by decide), Nat.mod_lt _ (by decide), Nat.mod_lt _ (by decide), ?_, key, ?_⟩
    · have hb : bpm ≠ 0 := by omega
      simp only [BufferMIDIInterface.tempo, hb, if_false, and_ff, shr_16, shr_8]
    · intro h4
      have hlt : 60000000 / bpm < 2 ^ 24 := Nat.div_lt_of_lt_mul (by omega)
      rw [key]
      exact Nat.mod_eq_of_lt hlt
  · simp only [BufferMIDIInterface.tempo, and_ff, shr_16, shr_8]
    norm_num

/-- C8, witness: tempo 120 on a fresh sink. -/
theorem tempo_bytes_witness :
    (∃ b2 b1 b0 : Nat, b2 < 256 ∧ b1 < 256 ∧ b0 < 256 ∧
        BufferMIDIInterface.fresh.tempo 1 120
          = BufferMIDIInterface.fresh.write 1 [0xff, 0x51, 0x03, b2, b1, b0] ∧
        b2 * 65536 + b1 * 256 + b0 = (60000000 / 120) % 2 ^ 24 ∧
        (4 ≤ 120 → b2 * 65536 + b1 * 256 + b0 = 60000000 / 120)) ∧
      BufferMIDIInterface.fresh.tempo 1 120
        = BufferMIDIInterface.fresh.write 1 [0xff, 0x51, 0x03, 0x07, 0xa1, 0x20] :=
  tempo_bytes 0 BufferMIDIInterface.fresh 120 (by decide)

/-- C8, counterexample: for tempo 3 the microseconds per beat, 20000000, do not fit 24
bits; the bytes written are `FF 51 03 31 2D 00` (after the delta byte 00), which stand for
3222784. -/
theorem tempo_three :
    (BufferMIDIInterface.fresh.tempo 1 3).map BufferMIDIInterface.data_
        = some [0x00, 0xff, 0x51, 0x03, 0x31, 0x2d, 0x00] ∧
      0x31 * 65536 + 0x2d * 256 + 0x00 ≠ 60000000 / 3 := by
  decide

/-- C9 (the code at the failing inputs): for every payload that starts with `0xF0`, `write`
calls itself on the rewritten message, which starts with `0xF0` again; whatever the fuel,
the call does not return and nothing is appended to the buffer. -/
theorem write_sysex_never_returns (fuel : Nat) (s : BufferMIDIInterface) (bs : List Nat) :
    s.write fuel (0xf0 :: bs) = none := by
  induction fuel generalizing bs with
  | zero => rfl
  | succ f ih =>
    have key : ∀ (n : Nat) (l : List Nat), 0 < n →
        s.write f ((0xf0 :: l).take n) = none := by
      intro n l hn
      obtain ⟨m, rfl⟩ : ∃ m, n = m + 1 := ⟨n - 1, by omega⟩
      simpa using ih (l.take m)
    simp only [BufferMIDIInterface.write, List.length_cons, List.head?_cons, Nat.zero_lt_succ,
      and_self, if_true, List.singleton_append, List.cons_append, List.tail_cons,
      Nat.add_sub_cancel]
    exact key _ _ (by omega)

/-! ## Frame of the command interpreter -/

theorem CommandFrame.refl (track : Nat) (p : Player) : CommandFrame track p p := by
  constructor
  case own => exact fun ts h => ⟨ts, h, rfl, rfl, rfl, rfl, rfl, rfl⟩
  case others => exact fun _ _ => rfl
  case out => exact ⟨[], by simp, by simp⟩
  all_goals rfl

theorem CommandFrame.trans {track : Nat} {p q r : Player}
    (h1 : CommandFrame track p q) (h2 : CommandFrame track q r) : CommandFrame track p r := by
  constructor
  case others => intro u hu; rw [h2.others u hu, h1.others u hu]
  case own =>
    intro ts hts
    obtain ⟨ts1, e1, a1, a2, a3, a4, a5, a6⟩ := h1.own ts hts
    obtain ⟨ts2, e2, b1, b2, b3, b4, b5, b6⟩ := h2.own ts1 e1
    exact ⟨ts2, e2, by rw [b1, a1], by rw [b2, a2], by rw [b3, a3], by rw [b4, a4],
      by rw [b5, a5], by rw [b6, a6]⟩
  case out =>
    obtain ⟨e1, x1, y1⟩ := h1.out
    obtain ⟨e2, x2, y2⟩ := h2.out
    refine ⟨e1 ++ e2, by rw [x2, x1, List.append_assoc], ?_⟩
    intro e he
    rcases List.mem_append.mp he with h | h
    · exact y1 e h
    · exact y2 e h
  all_goals first
    | exact h2.tick.trans h1.tick
    | exact h2.line_.trans h1.line_
    | exact h2.block_.trans h1.block_
    | exact h2.position_.trans h1.position_
    | exact h2.playseq_.trans h1.playseq_
    | exact h2.section_.trans h1.section_
    | exact h2.mode_.trans h1.mode_
    | exact h2.solo.trans h1.solo
    | exact h2.killThread.trans h1.killThread
    | exact h2.killWhenLooped.trans h1.killWhenLooped
    | exact h2.ticksSoFar.trans h1.ticksSoFar
    | exact h2.postponedNotes.trans h1.postponedNotes
    | exact h2.blocks.trans h1.blocks
    | exact h2.sections.trans h1.sections
    | exact h2.playseqs.trans h1.playseqs
    | exact h2.masterVolume.trans h1.masterVolume
    | exact h2.tracks.trans h1.tracks
    | exact h2.instruments.trans h1.instruments

theorem CommandFrame.emit (track : Nat) (p : Player) (output : Int) (msg : MidiMsg) :
    CommandFrame track p (p.emit (some track) output msg) := by
  constructor
  case own => exact fun ts h => ⟨ts, h, rfl, rfl, rfl, rfl, rfl, rfl⟩
  case others => exact fun _ _ => rfl
  case out => exact ⟨[⟨some track, output, msg⟩], rfl, by simp⟩
  all_goals rfl

theorem CommandFrame.cacheSet {track : Nat} {p q : Player} {i j v : Int}
    (h : p.cacheSet i j v = some q) : CommandFrame track p q := by
  unfold Player.cacheSet at h
  split at h
  · exact absurd h (by simp)
  · split at h
    · exact absurd h (by simp)
    · split at h
      · cases h
        constructor
        case own => exact fun ts h => ⟨ts, h, rfl, rfl, rfl, rfl, rfl, rfl⟩
        case others => exact fun _ _ => rfl
        case out => exact ⟨[], by simp, by simp⟩
        all_goals rfl
      · exact absurd h (by simp)

theorem CommandFrame.post (track : Nat) (p : Player) (c v : Nat) :
    CommandFrame track p { p with postCommand := c, postValue := v } := by
  constructor
  case own => exact fun ts h => ⟨ts, h, rfl, rfl, rfl, rfl, rfl, rfl⟩
  case others => exact fun _ _ => rfl
  case out => exact ⟨[], by simp, by simp⟩
  all_goals rfl

theorem CommandFrame.setTPL (track : Nat) (p : Player) (v : Nat) :
    CommandFrame track p { p with song := p.song.setTPL v } := by
  constructor
  case own => exact fun ts h => ⟨ts, h, rfl, rfl, rfl, rfl, rfl, rfl⟩
  case others => exact fun _ _ => rfl
  case out => exact ⟨[], by simp, by simp⟩
  all_goals rfl

theorem CommandFrame.setTempo (track : Nat) (p : Player) (v : Nat) :
    CommandFrame track p { p with song := p.song.setTempo v } := by
  constructor
  case own => exact fun ts h => ⟨ts, h, rfl, rfl, rfl, rfl, rfl, rfl⟩
  case others => exact fun _ _ => rfl
  case out => exact ⟨[], by simp, by simp⟩
  all_goals rfl

theorem lt_length_of_getElem? {α : Type} {l : List α} {n : Nat} {a : α}
    (h : l[n]? = some a) : n < l.length := by
  rcases Nat.lt_or_ge n l.length with h1 | h1
  · exact h1
  · rw [List.getElem?_eq_none h1] at h
    exact absurd h (by simp)

theorem map_set_of_eq {α β : Type} (f : α → β) (l : List α) (n : Nat) (a b : α)
    (h : l[n]? = some a) (hf : f b = f a) : (l.set n b).map f = l.map f := by
  apply List.ext_getElem?
  intro i
  simp only [List.getElem?_map, List.getElem?_set]
  by_cases hi : n = i
  · subst hi
    simp [lt_length_of_getElem? h, h, hf]
  · simp [hi]

theorem CommandFrame.setTrackVolume (track : Nat) (p : Player) (n : Nat) (v : Int) :
    CommandFrame track p { p with song := p.song.setTrackVolume n v } := by
  have ht : (p.song.setTrackVolume n v).tracks.map (fun t => (t.muted, t.solo))
      = p.song.tracks.map (fun t => (t.muted, t.solo)) := by
    unfold Song.setTrackVolume
    split
    · rfl
    · rename_i t ht
      exact map_set_of_eq _ _ _ _ _ ht rfl
  have hs : (p.song.setTrackVolume n v).blocks = p.song.blocks ∧
      (p.song.setTrackVolume n v).sections = p.song.sections ∧
      (p.song.setTrackVolume n v).playseqs = p.song.playseqs ∧
      (p.song.setTrackVolume n v).masterVolume = p.song.masterVolume ∧
      (p.song.setTrackVolume n v).instruments = p.song.instruments := by
    unfold Song.setTrackVolume
    split <;> simp
  constructor
  case own => exact fun ts h => ⟨ts, h, rfl, rfl, rfl, rfl, rfl, rfl⟩
  case others => exact fun _ _ => rfl
  case out => exact ⟨[], by simp, by simp⟩
  case tracks => exact ht
  case blocks => exact hs.1
  case sections => exact hs.2.1
  case playseqs => exact hs.2.2.1
  case masterVolume => exact hs.2.2.2.1
  case instruments => simp only [hs.2.2.2.2]
  all_goals rfl

theorem CommandFrame.setDefaultVelocity (track : Nat) (p : Player) (n v : Int) :
    CommandFrame track p { p with song := p.song.setDefaultVelocity n v } := by
  have ht : (p.song.setDefaultVelocity n v).instruments.map Instrument.fixed
      = p.song.instruments.map Instrument.fixed := by
    unfold Song.setDefaultVelocity
    split
    · rfl
    · rename_i t ht
      exact map_set_of_eq _ _ _ _ _ ht rfl
  have hs : (p.song.setDefaultVelocity n v).blocks = p.song.blocks ∧
      (p.song.setDefaultVelocity n v).sections = p.song.sections ∧
      (p.song.setDefaultVelocity n v).playseqs = p.song.playseqs ∧
      (p.song.setDefaultVelocity n v).masterVolume = p.song.masterVolume ∧
      (p.song.setDefaultVelocity n v).tracks = p.song.tracks := by
    unfold Song.setDefaultVelocity
    split <;> simp
  constructor
  case own => exact fun ts h => ⟨ts, h, rfl, rfl, rfl, rfl, rfl, rfl⟩
  case others => exact fun _ _ => rfl
  case out => exact ⟨[], by simp, by simp⟩
  case instruments => exact ht
  case blocks => exact hs.1
  case sections => exact hs.2.1
  case playseqs => exact hs.2.2.1
  case masterVolume => exact hs.2.2.2.1
  case tracks => simp only [hs.2.2.2.2]
  all_goals rfl

theorem CommandFrame.setTrackStatus (track : Nat) (p : Player) (ts ts1 : TrackStatus)
    (h : p.trackStatuses[track]? = some ts)
    (h1 : ts1.instrument = ts.instrument) (h2 : ts1.midiChannel = ts.midiChannel)
    (h3 : ts1.midiInterface = ts.midiInterface) (h4 : ts1.volume = ts.volume)
    (h5 : ts1.hold = ts.hold) (h6 : ts1.baseNote = ts.baseNote) :
    CommandFrame track p (p.setTrackStatus track ts1) := by
  have hlt : track < p.trackStatuses.length := lt_length_of_getElem? h
  constructor
  case own =>
    intro ts0 h0
    rw [h] at h0
    cases h0
    exact ⟨ts1, by simp [Player.setTrackStatus, hlt], h1, h2, h3, h4, h5, h6⟩
  case others =>
    intro u hu
    simp [Player.setTrackStatus, List.getElem?_set, Ne.symm hu]
  case out => exact ⟨[], by simp [Player.setTrackStatus], by simp⟩
  all_goals rfl

theorem knob_frame {track : Nat} {output mi ch slot : Int} {msg : Int → MidiMsg} {value : Nat}
    {p q : Player} (h : knob track output mi ch slot msg value p = some q) :
    CommandFrame track p q := by
  unfold knob at h
  split at h
  · split at h
    · split at h
      · exact (CommandFrame.emit track p output _).trans (CommandFrame.cacheSet h)
      · cases h
        exact CommandFrame.refl track p
    · split at h
      · obtain ⟨c, _, hc⟩ := Option.map_eq_some'.mp h
        cases hc
        exact CommandFrame.emit track p output _
      · exact (CommandFrame.emit track p output _).trans (CommandFrame.cacheSet h)
  · cases h
    exact CommandFrame.refl track p

theorem handleVelocity_spec {track note value : Nat} {output mi ch : Int} {ts : TrackStatus}
    {loc loc1 : Locals} {p q : Player}
    (hts : p.trackStatuses[track]? = some ts)
    (h : handleVelocity track note value output mi ch ts loc p = some (loc1, q)) :
    CommandFrame track p q ∧ loc1 = (if note ≠ 0 then { loc with volume := value } else loc) := by
  unfold handleVelocity at h
  split at h
  · rename_i hn
    simp only [hn, if_true, ne_eq, not_false_eq_true]
    split at h
    · obtain ⟨p1, hp1, he⟩ := Option.map_eq_some'.mp h
      cases he
      exact ⟨CommandFrame.cacheSet hp1, rfl⟩
    · cases h
      exact ⟨CommandFrame.refl track p, rfl⟩
  · rename_i hn
    simp only [hn, if_false]
    split at h
    · split at h
      · split at h
        · split at h
          · obtain ⟨p1, hp1, he⟩ := Option.map_eq_some'.mp h
            cases he
            exact ⟨(CommandFrame.emit track p output _).trans (CommandFrame.cacheSet hp1), rfl⟩
          · cases h
            refine ⟨(CommandFrame.emit track p output _).trans
              (CommandFrame.setTrackStatus track _ ts _ hts rfl rfl rfl rfl rfl rfl), rfl⟩
        · cases h
          exact ⟨CommandFrame.refl track p, rfl⟩
      · split at h
        · obtain ⟨c, _, he⟩ := Option.map_eq_some'.mp h
          cases he
          exact ⟨CommandFrame.emit track p output _, rfl⟩
        · obtain ⟨p1, hp1, he⟩ := Option.map_eq_some'.mp h
          cases he
          exact ⟨(CommandFrame.emit track p output _).trans (CommandFrame.cacheSet hp1), rfl⟩
    · cases h
      exact ⟨CommandFrame.refl track p, rfl⟩

theorem handleTrackVolume_frame {track value : Nat} {p q : Player}
    (h : handleTrackVolume track value p = some q) : CommandFrame track p q := by
  unfold handleTrackVolume at h
  split at h
  · split at h
    · obtain ⟨t, _, he⟩ := Option.map_eq_some'.mp h
      cases he
      exact CommandFrame.setTrackVolume track p _ _
    · cases h
      exact CommandFrame.refl track p
  · obtain ⟨t, _, he⟩ := Option.map_eq_some'.mp h
    split at he
    · cases he
      exact CommandFrame.setTrackVolume track p _ _
    · cases he
      exact CommandFrame.setTrackVolume track p _ _

theorem handleInstrumentVolume_frame {track instrument value : Nat} {ts : TrackStatus}
    {p q : Player} (h : handleInstrumentVolume track instrument value ts p = some q) :
    CommandFrame track p q := by
  unfold handleInstrumentVolume at h
  dsimp only at h
  generalize toChar (if instrument ≠ 0 then (instrument : Int) - 1 else ts.instrument) = ti at h
  cases hi : p.song.instrument ti with
  | none =>
    rw [hi] at h
    cases h
    exact CommandFrame.refl track p
  | some instr =>
    rw [hi] at h
    dsimp only at h
    split at h
    · split at h
      · cases h
        exact CommandFrame.setDefaultVelocity track p _ _
      · cases h
        exact CommandFrame.refl track p
    · split at h
      · obtain ⟨t, _, he⟩ := Option.map_eq_some'.mp h
        cases he
        exact CommandFrame.setDefaultVelocity track p _ _
      · cases h
        exact CommandFrame.setDefaultVelocity track p _ _

theorem handleSwitch_spec {track note instrument command value : Nat} {output mi ch : Int}
    {ts : TrackStatus} {loc loc1 : Locals} {p q : Player}
    (hts : p.trackStatuses[track]? = some ts)
    (h : handleSwitch track note instrument command value output mi ch ts loc p = some (loc1, q)) :
    CommandFrame track p q ∧ loc1 = localsAfter command note value loc := by
  unfold handleSwitch at h
  unfold localsAfter
  by_cases c1 : command = CommandPitchWheel
  · rw [if_pos c1] at h
    obtain ⟨q1, hq, he⟩ := Option.map_eq_some'.mp h
    cases he
    subst c1
    exact ⟨knob_frame hq, by simp [CommandPitchWheel, CommandProgramChange, CommandEndBlock,
        CommandPlayseqPosition, CommandSendMessage, CommandHold, CommandRetrigger, CommandDelay,
        CommandVelocity]⟩
  rw [if_neg c1] at h
  by_cases c2 : command = CommandProgramChange
  · rw [if_pos c2] at h
    subst c2
    split at h
    · cases h
      exact ⟨CommandFrame.emit track p output _, by simp [CommandPitchWheel, CommandProgramChange, CommandEndBlock,
        CommandPlayseqPosition, CommandSendMessage, CommandHold, CommandRetrigger, CommandDelay,
        CommandVelocity]⟩
    · cases h
      exact ⟨CommandFrame.refl track p, by simp [CommandPitchWheel, CommandProgramChange, CommandEndBlock,
        CommandPlayseqPosition, CommandSendMessage, CommandHold, CommandRetrigger, CommandDelay,
        CommandVelocity]⟩
  rw [if_neg c2] at h
  by_cases c3 : command = CommandEndBlock
  · rw [if_pos c3] at h
    subst c3
    split at h
    · cases h
      exact ⟨CommandFrame.post track p _ _, by simp [CommandPitchWheel, CommandProgramChange, CommandEndBlock,
        CommandPlayseqPosition, CommandSendMessage, CommandHold, CommandRetrigger, CommandDelay,
        CommandVelocity]⟩
    · cases h
      exact ⟨CommandFrame.refl track p, by simp [CommandPitchWheel, CommandProgramChange, CommandEndBlock,
        CommandPlayseqPosition, CommandSendMessage, CommandHold, CommandRetrigger, CommandDelay,
        CommandVelocity]⟩
  rw [if_neg c3] at h
  by_cases c4 : command = CommandPlayseqPosition
  · rw [if_pos c4] at h
    subst c4
    split at h
    · cases h
      exact ⟨CommandFrame.post track p _ _, by simp [CommandPitchWheel, CommandProgramChange, CommandEndBlock,
        CommandPlayseqPosition, CommandSendMessage, CommandHold, CommandRetrigger, CommandDelay,
        CommandVelocity]⟩
    · cases h
      exact ⟨CommandFrame.refl track p, by simp [CommandPitchWheel, CommandProgramChange, CommandEndBlock,
        CommandPlayseqPosition, CommandSendMessage, CommandHold, CommandRetrigger, CommandDelay,
        CommandVelocity]⟩
  rw [if_neg c4] at h
  by_cases c5 : command = CommandSendMessage
  · rw [if_pos c5] at h
    subst c5
    split at h
    · obtain ⟨m, _, he⟩ := Option.map_eq_some'.mp h
      cases he
      exact ⟨CommandFrame.emit track p output _, by simp [CommandPitchWheel, CommandProgramChange, CommandEndBlock,
        CommandPlayseqPosition, CommandSendMessage, CommandHold, CommandRetrigger, CommandDelay,
        CommandVelocity]⟩
    · cases h
      exact ⟨CommandFrame.refl track p, by simp [CommandPitchWheel, CommandProgramChange, CommandEndBlock,
        CommandPlayseqPosition, CommandSendMessage, CommandHold, CommandRetrigger, CommandDelay,
        CommandVelocity]⟩
  rw [if_neg c5] at h
  by_cases c6 : command = CommandHold
  · rw [if_pos c6] at h
    cases h
    exact ⟨CommandFrame.refl track p, by rw [if_pos c6]⟩
  rw [if_neg c6] at h
  rw [if_neg c6]
  by_cases c7 : command = CommandRetrigger
  · rw [if_pos c7] at h
    cases h
    exact ⟨CommandFrame.refl track p, by rw [if_pos c7]⟩
  rw [if_neg c7] at h
  rw [if_neg c7]
  by_cases c8 : command = CommandDelay
  · rw [if_pos c8] at h
    cases h
    exact ⟨CommandFrame.refl track p, by rw [if_pos c8]⟩
  rw [if_neg c8] at h
  rw [if_neg c8]
  by_cases c9 : command = CommandVelocity
  · rw [if_pos c9] at h
    obtain ⟨f, e⟩ := handleVelocity_spec hts h
    refine ⟨f, ?_⟩
    rw [e]
    by_cases hn : note ≠ 0
    · rw [if_pos hn, if_pos ⟨c9, hn⟩]
    · rw [if_neg hn, if_neg (fun hh => hn hh.2)]
  rw [if_neg c9] at h
  rw [if_neg (fun hh => c9 hh.1)]
  by_cases c10 : command = CommandChannelPressure
  · rw [if_pos c10] at h
    obtain ⟨q1, hq, he⟩ := Option.map_eq_some'.mp h
    cases he
    exact ⟨knob_frame hq, rfl⟩
  rw [if_neg c10] at h
  by_cases c11 : command = CommandTicksPerLine
  · rw [if_pos c11] at h
    split at h
    · split at h
      · cases h
        exact ⟨CommandFrame.post track p _ _, rfl⟩
      · cases h
        exact ⟨CommandFrame.refl track p, rfl⟩
    · cases h
      exact ⟨CommandFrame.setTPL track p _, rfl⟩
  rw [if_neg c11] at h
  by_cases c12 : command = CommandTempo
  · rw [if_pos c12] at h
    split at h
    · split at h
      · cases h
        exact ⟨CommandFrame.post track p _ _, rfl⟩
      · cases h
        exact ⟨CommandFrame.refl track p, rfl⟩
    · cases h
      exact ⟨(CommandFrame.setTempo track p _).trans (CommandFrame.emit track _ output _), rfl⟩
  rw [if_neg c12] at h
  by_cases c13 : command = CommandTrackVolume
  · rw [if_pos c13] at h
    obtain ⟨q1, hq, he⟩ := Option.map_eq_some'.mp h
    cases he
    exact ⟨handleTrackVolume_frame hq, rfl⟩
  rw [if_neg c13] at h
  by_cases c14 : command = CommandInstrumentVolume
  · rw [if_pos c14] at h
    obtain ⟨q1, hq, he⟩ := Option.map_eq_some'.mp h
    cases he
    exact ⟨handleInstrumentVolume_frame hq, rfl⟩
  rw [if_neg c14] at h
  split at h
  · obtain ⟨q1, hq, he⟩ := Option.map_eq_some'.mp h
    cases he
    exact ⟨knob_frame hq, rfl⟩
  · cases h
    exact ⟨CommandFrame.refl track p, rfl⟩

theorem rememberCommand_frame (track command : Nat) (ts : TrackStatus) (p : Player)
    (hts : p.trackStatuses[track]? = some ts) :
    CommandFrame track p (rememberCommand track command ts p) ∧
      (rememberCommand track command ts p).trackStatuses[track]?
        = some (if command = CommandPreviousCommandValue then ts
                else { ts with previousCommand := command }) := by
  unfold rememberCommand
  by_cases hc : command = CommandPreviousCommandValue
  · simp only [hc, if_true]
    exact ⟨CommandFrame.refl track p, hts⟩
  · simp only [hc, if_false]
    refine ⟨CommandFrame.setTrackStatus track p ts _ hts rfl rfl rfl rfl rfl rfl, ?_⟩
    simp [Player.setTrackStatus, lt_length_of_getElem? hts]

/-- The effect of `handleCommand` on the state (a frame) and on the locals. -/
theorem handleCommand_spec {track note instrument command value : Nat} {ts : TrackStatus}
    {loc loc1 : Locals} {p q : Player}
    (hts : p.trackStatuses[track]? = some ts)
    (h : handleCommand track note instrument command value loc p = some (loc1, q)) :
    CommandFrame track p q ∧
      loc1 = (if command = 0 ∧ value = 0 then loc
              else localsAfter (effectiveCommand ts command value) note value loc) := by
  unfold handleCommand at h
  by_cases h0 : command = 0 ∧ value = 0
  · rw [if_pos h0] at h
    cases h
    exact ⟨CommandFrame.refl track p, by rw [if_pos h0]⟩
  · rw [if_neg h0] at h
    rw [if_neg h0]
    rw [hts] at h
    simp only [Option.bind] at h
    split at h
    · exact absurd h (by simp)
    · rename_i ic hic
      obtain ⟨f1, e1⟩ := rememberCommand_frame track command ts p hts
      obtain ⟨f2, e2⟩ := handleSwitch_spec e1 h
      exact ⟨f1.trans f2, e2⟩

/-! ## Interpolated commands -/

theorem cacheSet_of_cacheGet {p q : Player} {i j : Int} {o : Nat} (v : Int)
    (hc : q.midiControllerValues = p.midiControllerValues)
    (h : p.cacheGet i j = some o) :
    ∃ r, q.cacheSet i j v = some r ∧ r.cacheGet i j = some (v % 256).toNat ∧
      r.midiOut = q.midiOut := by
  unfold Player.cacheGet at h
  split at h
  · exact absurd h (by simp)
  · rename_i hneg
    cases hrow : p.midiControllerValues[i.toNat]? with
    | none => rw [hrow] at h; exact absurd h (by simp)
    | some row =>
      rw [hrow] at h
      simp only [Option.bind] at h
      have hj : j.toNat < row.length := lt_length_of_getElem? h
      have hi : i.toNat < p.midiControllerValues.length := lt_length_of_getElem? hrow
      refine ⟨{ q with midiControllerValues :=
          p.midiControllerValues.set i.toNat (row.set j.toNat (v % 256).toNat) }, ?_, ?_, ?_⟩
      · unfold Player.cacheSet
        rw [if_neg hneg, hc, hrow]
        simp only [hj, if_true]
      · unfold Player.cacheGet
        rw [if_neg hneg]
        simp [hi, hj]
      · rfl

theorem handleSwitch_controller {track note instrument command value : Nat}
    {output mi ch : Int} {ts : TrackStatus} {loc : Locals} {p : Player}
    (hc : 16 ≤ command) :
    handleSwitch track note instrument command value output mi ch ts loc p =
      (knob track output mi ch ((command : Int) - CommandMidiControllers)
        (fun v => MidiMsg.controller ch ((command : Int) - CommandMidiControllers) v)
        value p).map fun p1 => (loc, p1) := by
  unfold handleSwitch
  rw [if_neg (by unfold CommandPitchWheel; omega), if_neg (by unfold CommandProgramChange; omega),
    if_neg (by unfold CommandEndBlock; omega), if_neg (by unfold CommandPlayseqPosition; omega),
    if_neg (by unfold CommandSendMessage; omega), if_neg (by unfold CommandHold; omega),
    if_neg (by unfold CommandRetrigger; omega), if_neg (by unfold CommandDelay; omega),
    if_neg (by unfold CommandVelocity; omega), if_neg (by unfold CommandChannelPressure; omega),
    if_neg (by unfold CommandTicksPerLine; omega), if_neg (by unfold CommandTempo; omega),
    if_neg (by unfold CommandTrackVolume; omega),
    if_neg (by unfold CommandInstrumentVolume; omega),
    if_pos (by unfold CommandMidiControllers; omega)]

theorem knob_interpolate {track : Nat} {mi ch slot : Int} {msg : Int → MidiMsg} {v o : Nat}
    {p : Player} (hch : ch ≠ -1) (hv : v ≤ 127)
    (ho : p.cacheGet mi (ch * p.VALUES + slot) = some o) :
    (p.tick < tplMinus1 p.song.ticksPerLine →
      knob track mi mi ch slot msg (0x80 + v) p
        = some (p.emit (some track) mi
            (msg (interpolate o o v p.tick p.song.ticksPerLine)))) ∧
    (¬ p.tick < tplMinus1 p.song.ticksPerLine →
      ∃ q, knob track mi mi ch slot msg (0x80 + v) p = some q ∧
        q.midiOut = p.midiOut ++ [⟨some track, mi, msg v⟩] ∧
        q.cacheGet mi (ch * p.VALUES + slot) = some v) := by
  have hval : ¬ (0x80 + v < 0x80) := by omega
  have hcast : ((0x80 + v : Nat) : Int) - 0x80 = (v : Int) := by push_cast; omega
  constructor
  · intro ht
    unfold knob
    rw [if_pos hch, if_neg hval, if_pos ht, ho, hcast]
    rfl
  · intro ht
    unfold knob
    rw [if_pos hch, if_neg hval, if_neg ht, hcast]
    obtain ⟨r, h1, h2, h3⟩ := cacheSet_of_cacheGet (p := p)
      (q := p.emit (some track) mi (msg v)) (v : Int) rfl ho
    refine ⟨r, h1, ?_, ?_⟩
    · rw [h3]
      rfl
    · rw [h2]
      congr 1
      omega

theorem tplMinus1_eq (n : Nat) (h1 : 1 ≤ n) (h2 : n < 2 ^ 32) : tplMinus1 n = n - 1 := by
  unfold tplMinus1
  omega

theorem handleCommand_knob {track note instrument command v o : Nat} {ts : TrackStatus}
    {loc : Locals} {p : Player} {mi ch slot : Int} {msg : Int → MidiMsg}
    (hts : p.trackStatuses[track]? = some ts)
    (hic : commandTarget instrument ts p = some (mi, ch))
    (hmi : 0 ≤ mi) (hch : ch ≠ -1) (hv : v ≤ 127)
    (hc0 : command ≠ 0) (hc1 : command ≠ CommandPreviousCommandValue)
    (hsw : ∀ (ts1 : TrackStatus),
      handleSwitch track note instrument command (0x80 + v) mi mi ch ts1 loc
          (p.setTrackStatus track { ts with previousCommand := command })
        = (knob track mi mi ch slot msg (0x80 + v)
            (p.setTrackStatus track { ts with previousCommand := command })).map
              fun p2 => (loc, p2))
    (ho : p.cacheGet mi (ch * p.VALUES + slot) = some o) :
    (p.tick < tplMinus1 p.song.ticksPerLine →
       ∃ q, handleCommand track note instrument command (0x80 + v) loc p = some (loc, q) ∧
         q.midiOut = p.midiOut ++
           [⟨some track, mi, msg (interpolate o o v p.tick p.song.ticksPerLine)⟩] ∧
         q.midiControllerValues = p.midiControllerValues) ∧
    (¬ p.tick < tplMinus1 p.song.ticksPerLine →
       ∃ q, handleCommand track note instrument command (0x80 + v) loc p = some (loc, q) ∧
         q.midiOut = p.midiOut ++ [⟨some track, mi, msg v⟩] ∧
         q.cacheGet mi (ch * p.VALUES + slot) = some v) := by
  have hne : ¬ (command = 0 ∧ 0x80 + v = 0) := fun h => hc0 h.1
  have heff : effectiveCommand ts command (0x80 + v) = command := by
    unfold effectiveCommand
    rw [if_neg hc1]
  have hrem : rememberCommand track command ts p
      = p.setTrackStatus track { ts with previousCommand := command } := by
    unfold rememberCommand
    rw [if_neg hc1]
  have hcmd : handleCommand track note instrument command (0x80 + v) loc p
      = (knob track mi mi ch slot msg (0x80 + v)
          (p.setTrackStatus track { ts with previousCommand := command })).map
            fun p2 => (loc, p2) := by
    unfold handleCommand
    rw [if_neg hne, hts]
    simp only [Option.bind, hic, heff, hrem, if_pos hmi]
    exact hsw _
  have ho1 : (p.setTrackStatus track { ts with previousCommand := command }).cacheGet mi
      (ch * (p.setTrackStatus track { ts with previousCommand := command }).VALUES + slot)
        = some o := ho
  obtain ⟨k1, k2⟩ := @knob_interpolate track _ _ _ msg _ _ _ hch hv ho1
  constructor
  · intro ht
    rw [hcmd, k1 ht]
    exact ⟨_, rfl, rfl, rfl⟩
  · intro ht
    obtain ⟨q, e1, e2, e3⟩ := k2 ht
    rw [hcmd, e1]
    exact ⟨q, rfl, e2, e3⟩

/-- C4 (amended): for a PitchWheel, ChannelPressure or MidiController command with value
`0x80|v` (`v ≤ 127`), a known interface and channel, `1 ≤ TPL` and cached origin `o` in
the command's cache slot: on every tick `t < TPL-1` the engine emits the value of
`o + (t+1) * ((v - o) / TPL)` computed in single-precision `float` arithmetic and truncated
to an integer (16, 32, 48 for `o = 0`, `v = 64`, `TPL = 4`) and leaves the cache unchanged;
on tick `t = TPL-1` it emits exactly `v` and sets the cache slot to `v`. -/
theorem interpolated_command (track note instrument command v o : Nat) (ts : TrackStatus)
    (loc : Locals) (p : Player) (mi ch slot : Int) (msg : Int → MidiMsg)
    (hts : p.trackStatuses[track]? = some ts)
    (hic : commandTarget instrument ts p = some (mi, ch))
    (hmi : 0 ≤ mi) (hch : ch ≠ -1) (hv : v ≤ 127)
    (htpl : 1 ≤ p.song.ticksPerLine) (htpl2 : p.song.ticksPerLine < 2 ^ 32)
    (hcmd : (command = CommandPitchWheel ∧ slot = p.VALUES_PITCH_WHEEL ∧
              msg = fun x => MidiMsg.pitchWheel ch x) ∨
            (command = CommandChannelPressure ∧ slot = p.VALUES_CHANNEL_PRESSURE ∧
              msg = fun x => MidiMsg.channelPressure ch x) ∨
            (CommandMidiControllers ≤ command ∧
              slot = (command : Int) - CommandMidiControllers ∧
              msg = fun x => MidiMsg.controller ch ((command : Int) - CommandMidiControllers) x))
    (ho : p.cacheGet mi (ch * p.VALUES + slot) = some o) :
    (p.tick < p.song.ticksPerLine - 1 →
       ∃ q, handleCommand track note instrument command (0x80 + v) loc p = some (loc, q) ∧
         q.midiOut = p.midiOut ++
           [⟨some track, mi, msg (interpolate o o v p.tick p.song.ticksPerLine)⟩] ∧
         q.midiControllerValues = p.midiControllerValues) ∧
    (p.tick = p.song.ticksPerLine - 1 →
       ∃ q, handleCommand track note instrument command (0x80 + v) loc p = some (loc, q) ∧
         q.midiOut = p.midiOut ++ [⟨some track, mi, msg v⟩] ∧
         q.cacheGet mi (ch * p.VALUES + slot) = some v) ∧
    (interpolate 0 0 64 0 4 = 16 ∧ interpolate 0 0 64 1 4 = 32 ∧
      interpolate 0 0 64 2 4 = 48) := by
  have hm := tplMinus1_eq _ htpl htpl2
  have key : (p.tick < tplMinus1 p.song.ticksPerLine →
       ∃ q, handleCommand track note instrument command (0x80 + v) loc p = some (loc, q) ∧
         q.midiOut = p.midiOut ++
           [⟨some track, mi, msg (interpolate o o v p.tick p.song.ticksPerLine)⟩] ∧
         q.midiControllerValues = p.midiControllerValues) ∧
    (¬ p.tick < tplMinus1 p.song.ticksPerLine →
       ∃ q, handleCommand track note instrument command (0x80 + v) loc p = some (loc, q) ∧
         q.midiOut = p.midiOut ++ [⟨some track, mi, msg v⟩] ∧
         q.cacheGet mi (ch * p.VALUES + slot) = some v) := by
    rcases hcmd with ⟨hc, hs, hm⟩ | ⟨hc, hs, hm⟩ | ⟨hc, hs, hm⟩
    · subst hc hs hm
      refine handleCommand_knob hts hic hmi hch hv (by decide) (by decide) ?_ ho
      intro ts1
      unfold handleSwitch
      rw [if_pos rfl]
      rfl
    · subst hc hs hm
      refine handleCommand_knob hts hic hmi hch hv (by decide) (by decide) ?_ ho
      intro ts1
      unfold handleSwitch
      simp only [CommandChannelPressure, CommandPitchWheel, CommandProgramChange, CommandEndBlock,
        CommandPlayseqPosition, CommandSendMessage, CommandHold, CommandRetrigger, CommandDelay,
        CommandVelocity]
      simp
      rfl
    · subst hs hm
      have h16 : 16 ≤ command := hc
      refine handleCommand_knob hts hic hmi hch hv (by omega)
        (by unfold CommandPreviousCommandValue; omega) ?_ ho
      intro ts1
      exact handleSwitch_controller h16
  refine ⟨fun ht => key.1 (by rw [hm]; exact ht), fun ht => key.2 (by rw [hm]; omega), ?_⟩
  decide!

/-- C4, witness: scenario S3 on tick 0. -/
theorem interpolated_command_witness :
    ∃ q, handleCommand 0 0 1 CommandPitchWheel (0x80 + 64) ⟨127, 0, -1, -1⟩
          (playerOf songS3 Mode.ModePlayBlock false) = some (⟨127, 0, -1, -1⟩, q) ∧
      q.midiOut = (playerOf songS3 Mode.ModePlayBlock false).midiOut ++
        [⟨some 0, 0, MidiMsg.pitchWheel 0 (interpolate 0 0 64 0 4)⟩] ∧
      q.midiControllerValues = (playerOf songS3 Mode.ModePlayBlock false).midiControllerValues :=
  (interpolated_command 0 0 1 CommandPitchWheel 64 0 freshStatus ⟨127, 0, -1, -1⟩
    (playerOf songS3 Mode.ModePlayBlock false) 0 0 130 (fun x => MidiMsg.pitchWheel 0 x)
    (by decide) (by decide) (by decide) (by decide) (by decide) (by decide) (by decide)
    (Or.inl ⟨rfl, rfl, rfl⟩) (by decide!)).1 (by decide)

/-- C4, counterexample: with 14 ticks per line, origin 0 and a PitchWheel command of value
`0x80|62`, the engine emits 30 on tick 6, while `0 + (6+1)*(62 - 0)/14` is exactly 31:
`62/14` is not a `float`, and seven times its `float` value is below 31. -/
theorem interpolation_tick_6_of_14 :
    (handleCommand 0 0 1 CommandPitchWheel (0x80 + 62) ⟨127, 0, -1, -1⟩
        ((playerOf (songOf 14 [0] [blockOfCells 1 [(0, 1, 0x02, 0xBE)]]
          [plainInstrument 100 0 1] 1) Mode.ModePlayBlock false).atTick 6)).map
        (fun r => r.2.midiOut)
      = some [⟨some 0, 0, MidiMsg.pitchWheel 0 30⟩] ∧
    (0 + (6 + 1) * (62 - 0) / 14 : Int) = 31 := by
  decide!

/-! ## Export of scenario S1 -/

/-- C7 (amended): exporting scenario S1 through `playWithoutScheduling` with a buffer sink at
output 0 terminates (six iterations of the loop, the six ticks of the line), and the sink's
byte string is the delta 00 and the tempo meta-event `FF 51 03 07 A1 20`, followed by
`00 90 30 64`, followed by `01 80 30 7F`. -/
theorem export_S1 :
    ((playWithoutScheduling 6 (playerOf songS1 Mode.ModeIdle false)).bind
        (fun p => sinkAfter 1 0 BufferMIDIInterface.fresh p.midiOut)).map
          BufferMIDIInterface.data_
      = some [0x00, 0xff, 0x51, 0x03, 0x07, 0xa1, 0x20, 0x00, 0x90, 0x30, 0x64,
              0x01, 0x80, 0x30, 0x7f] := by
  decide!

/-- C7, counterexample: the byte string of the export of S1 does not begin with
`FF 51 03 07 A1 20`; its first byte is the delta 00 that `write` puts in front of every
event, the tempo event included. -/
theorem export_S1_first_bytes :
    ((playWithoutScheduling 6 (playerOf songS1 Mode.ModeIdle false)).bind
        (fun p => sinkAfter 1 0 BufferMIDIInterface.fresh p.midiOut)).map
          (fun s => s.data_.take 6)
      ≠ some [0xff, 0x51, 0x03, 0x07, 0xa1, 0x20] := by
  decide!

/-! ## The retrigger/delay gate -/

theorem toUInt_ofNat (n : Nat) (h : n < 2 ^ 32) : toUInt (n : Int) = n := by
  unfold toUInt
  omega

/-- `shouldPlayNote` computes the gate of the specification for every delay and repeat a
cell can hold. -/
theorem shouldPlayNote_iff_gate (t : Nat) (d r : Int) (ht : t < 2 ^ 32)
    (hd0 : 0 ≤ d) (hd : d < 2 ^ 32) (hr0 : -1 ≤ r) (hr : r < 2 ^ 32) :
    shouldPlayNote t d r = true ↔ gate t d r := by
  obtain ⟨dn, rfl⟩ : ∃ n : Nat, d = (n : Int) := ⟨d.toNat, by omega⟩
  have hdn : dn < 2 ^ 32 := by omega
  rw [shouldPlayNote, gate, toUInt_ofNat dn hdn]
  rcases Int.lt_or_le 0 r with hpos | hnp
  · obtain ⟨rn, rfl⟩ : ∃ n : Nat, r = (n : Int) := ⟨r.toNat, by omega⟩
    have hrn : rn < 2 ^ 32 := by omega
    have hrn0 : 0 < rn := by omega
    rw [toUInt_ofNat rn hrn]
    simp only [Bool.or_eq_true, Bool.and_eq_true, decide_eq_true_eq]
    constructor
    · rintro ((⟨_, h⟩ | ⟨h1, h2⟩) | ⟨⟨⟨_, h2⟩, h3⟩⟩)
      · exact Or.inl (by omega)
      · exact Or.inr (Or.inl ⟨h1, h2⟩)
      · refine Or.inr (Or.inr ⟨hpos, by omega, ?_⟩)
        have e1 : (t + 2 ^ 32 - dn) % 2 ^ 32 = t - dn := by omega
        rw [e1] at h3
        have e2 : (t : Int) - (dn : Int) = ((t - dn : Nat) : Int) := by omega
        rw [e2]
        exact_mod_cast h3
    · rintro (h | ⟨h1, h2⟩ | ⟨_, h2, h3⟩)
      · exact Or.inl (Or.inl ⟨by omega, by omega⟩)
      · exact Or.inl (Or.inr ⟨h1, h2⟩)
      · refine Or.inr ⟨⟨hpos, by omega⟩, ?_⟩
        have e1 : (t + 2 ^ 32 - dn) % 2 ^ 32 = t - dn := by omega
        rw [e1]
        have e2 : (t : Int) - (dn : Int) = ((t - dn : Nat) : Int) := by omega
        rw [e2] at h3
        exact_mod_cast h3
  · simp only [Bool.or_eq_true, Bool.and_eq_true, decide_eq_true_eq]
    constructor
    · rintro ((⟨_, h⟩ | ⟨h1, h2⟩) | ⟨⟨⟨h1, _⟩, _⟩⟩)
      · exact Or.inl (by omega)
      · exact Or.inr (Or.inl ⟨h1, h2⟩)
      · omega
    · rintro (h | ⟨h1, h2⟩ | ⟨h1, _, _⟩)
      · exact Or.inl (Or.inl ⟨by omega, by omega⟩)
      · exact Or.inl (Or.inr ⟨h1, h2⟩)
      · omega

theorem map_eq_getElem? {α β : Type} {f : α → β} {l1 l2 : List α} (h : l1.map f = l2.map f)
    (n : Nat) : (l1[n]?).map f = (l2[n]?).map f := by
  have := congrArg (fun l => l[n]?) h
  simpa [List.getElem?_map] using this

theorem CommandFrame.audible_eq {track : Nat} {p q : Player} (h : CommandFrame track p q)
    (u : Nat) : q.audible u = p.audible u := by
  have ht := map_eq_getElem? h.tracks u
  unfold Player.audible Song.track
  rw [h.solo]
  cases hq : q.song.tracks[u]? with
  | none =>
    cases hp : p.song.tracks[u]? with
    | none => rfl
    | some b => rw [hq, hp] at ht; exact absurd ht (by simp)
  | some a =>
    cases hp : p.song.tracks[u]? with
    | none => rw [hq, hp] at ht; exact absurd ht (by simp)
    | some b =>
      rw [hq, hp] at ht
      simp only [Option.map_some', Option.some.injEq, Prod.mk.injEq] at ht
      simp only [Option.map_some', ht.1, ht.2]

theorem CommandFrame.track_isSome {track : Nat} {p q : Player} (h : CommandFrame track p q)
    (u : Nat) : (q.song.track u).isSome = (p.song.track u).isSome := by
  have ht := map_eq_getElem? h.tracks u
  have := congrArg Option.isSome ht
  simpa [Song.track] using this

theorem CommandFrame.instrument_fixed {track : Nat} {p q : Player} (h : CommandFrame track p q)
    (k : Int) : (q.song.instrument k).map Instrument.fixed
      = (p.song.instrument k).map Instrument.fixed :=
  map_eq_getElem? h.instruments (toUInt k)

theorem CommandFrame.instruments_length {track : Nat} {p q : Player}
    (h : CommandFrame track p q) : q.song.instruments.length = p.song.instruments.length := by
  have := congrArg List.length h.instruments
  simpa using this

theorem loopFrom_one {σ : Type} (f : Nat → σ → Option σ) (i : Nat) (s : σ) :
    loopFrom f 1 i s = f i s := by
  simp only [loopFrom]
  cases f i s <;> rfl

/-- The delay and repeat the code assigns for a command, as it computes them. -/
theorem retrigger_bits (v : Nat) (hv : v < 256) :
    (v &&& 0xf0) >>> 4 = v >>> 4 ∧ v &&& 0x0f = v &&& 15 := by
  refine ⟨?_, rfl⟩
  revert v
  decide!

theorem preScanPage_spec {block : Block} {track page : Nat} {loc loc1 : Locals} {p q : Player}
    {ts : TrackStatus} (hts : p.trackStatuses[track]? = some ts)
    (h : preScanPage block track page (loc, p) = some (loc1, q)) :
    CommandFrame track p q ∧
      q.trackStatuses[track]? = some
        (if block.command p.line_ track page % 256 ≠ 0
            ∨ block.commandValue p.line_ track page % 256 ≠ 0 then
          (if block.command p.line_ track page % 256 = CommandPreviousCommandValue then ts
           else { ts with previousCommand := block.command p.line_ track page % 256 })
         else ts) ∧
      loc1 = (if block.command p.line_ track page % 256 ≠ 0
                ∨ block.commandValue p.line_ track page % 256 ≠ 0 then
          (if effectiveCommand ts (block.command p.line_ track page % 256)
                (block.commandValue p.line_ track page % 256) = CommandRetrigger then
              { loc with
                delay := (((block.commandValue p.line_ track page % 256 &&& 0xf0) >>> 4 : Nat) : Int),
                repeat_ := ((block.commandValue p.line_ track page % 256 &&& 0x0f : Nat) : Int) }
            else if effectiveCommand ts (block.command p.line_ track page % 256)
                (block.commandValue p.line_ track page % 256) = CommandDelay then
              { loc with delay := (block.commandValue p.line_ track page % 256 : Nat),
                         repeat_ := -1 }
            else loc)
        else loc) := by
  unfold preScanPage at h
  dsimp only at h
  generalize block.command p.line_ track page % 256 = c at h ⊢
  generalize block.commandValue p.line_ track page % 256 = v at h ⊢
  by_cases hcv : c ≠ 0 ∨ v ≠ 0
  · rw [if_pos hcv, hts] at h
    simp only [Option.map_some', Option.some.injEq] at h
    rw [if_pos hcv, if_pos hcv]
    obtain ⟨f1, e1⟩ := rememberCommand_frame track c ts p hts
    split at h
    · rename_i he
      cases h
      exact ⟨f1, e1, by rw [if_pos he]⟩
    · rename_i he
      split at h
      · rename_i he2
        cases h
        exact ⟨f1, e1, by rw [if_neg he, if_pos he2]⟩
      · rename_i he2
        cases h
        exact ⟨f1, e1, by rw [if_neg he, if_neg he2]⟩
  · rw [if_neg hcv] at h
    cases h
    rw [if_neg hcv, if_neg hcv]
    exact ⟨CommandFrame.refl track p, hts, rfl⟩

theorem preGate_frame {track : Nat} {loc : Locals} {p q : Player} {ts : TrackStatus}
    (hts : p.trackStatuses[track]? = some ts) (h : preGate track loc p = some q) :
    CommandFrame track p q ∧
      ∃ ts1, q.trackStatuses[track]? = some ts1 ∧ ts1.previousCommand = ts.previousCommand := by
  unfold preGate at h
  split at h
  · rw [hts] at h
    simp only [Option.map_some', Option.some.injEq] at h
    split at h
    · cases h
      refine ⟨(CommandFrame.emit track p _ _).trans
        (CommandFrame.setTrackStatus track _ ts _ hts rfl rfl rfl rfl rfl rfl),
        { ts with note := -1 }, ?_, rfl⟩
      simp [Player.setTrackStatus, Player.emit, lt_length_of_getElem? hts]
    · cases h
      exact ⟨CommandFrame.refl track p, ts, hts, rfl⟩
  · cases h
    exact ⟨CommandFrame.refl track p, ts, hts, rfl⟩

theorem readCell_plain {block : Block} {track : Nat} {ts ts1 : TrackStatus} {p : Player}
    {cell : Cell}
    (hn : block.note p.line_ track % 256 ≠ 0)
    (harp : ∀ x, p.song.instrument
        (if block.instrument p.line_ track % 256 > 0
          then ((block.instrument p.line_ track % 256 : Nat) : Int) - 1
          else ts.instrument) = some x → x.arpeggio = none)
    (h : readCell block track ts p = some (cell, ts1)) :
    cell.basenote = block.note p.line_ track % 256 ∧
      cell.instrument = block.instrument p.line_ track % 256 ∧
      cell.note = block.note p.line_ track % 256 ∧ cell.arpeggio = none ∧
      ts1 = (if p.tick = 0 then { ts with line := 0 } else ts) := by
  unfold readCell at h
  dsimp only at h
  generalize block.note p.line_ track % 256 = n at h hn ⊢
  generalize block.instrument p.line_ track % 256 = i at h harp ⊢
  simp only [hn, ne_eq, not_false_eq_true, true_and, if_true] at h
  have hins : (if p.tick = 0 then { ts with line := 0 } else ts : TrackStatus).instrument
      = ts.instrument := by
    split <;> rfl
  rw [hins] at h
  generalize (if p.tick = 0 then { ts with line := 0 } else ts : TrackStatus) = tsx at h ⊢
  generalize (if i > 0 then (i : Int) - 1 else ts.instrument) = ai at h harp
  by_cases hc : 0 ≤ ai ∧ 0 ≤ tsx.line
  · rw [if_pos hc] at h
    obtain ⟨x, hx, he⟩ := Option.map_eq_some'.mp h
    have := harp x hx
    rw [this] at he
    cases he
    exact ⟨rfl, rfl, rfl, rfl, rfl⟩
  · rw [if_neg hc] at h
    cases h
    exact ⟨rfl, rfl, rfl, rfl, rfl⟩

theorem audible_track {p : Player} {track : Nat} {b : Bool} (h : p.audible track = some b) :
    ∃ t, p.song.track track = some t := by
  unfold Player.audible at h
  obtain ⟨t, ht, _⟩ := Option.map_eq_some'.mp h
  exact ⟨t, ht⟩

theorem getElem?_set_self' {α : Type} {l : List α} {n : Nat} {a b : α} (h : l[n]? = some a) :
    (l.set n b)[n]? = some b := by
  simp [lt_length_of_getElem? h]

theorem setTrackStatus_get {p : Player} {track : Nat} {ts : TrackStatus} (x : TrackStatus)
    (h : p.trackStatuses[track]? = some ts) :
    (p.setTrackStatus track x).trackStatuses[track]? = some x := by
  unfold Player.setTrackStatus
  exact getElem?_set_self' h

/-- `playNote` with `postpone` for an audible track and an instrument that exists: the
note-on is queued iff the resolved velocity is not 0. -/
theorem playNote_postponed {k : Int} {note vol track : Nat} {p : Player} {ts : TrackStatus}
    {instr : Instrument} {t : Track}
    (haud : p.audible track = some true) (hts : p.trackStatuses[track]? = some ts)
    (hin : p.song.instrument k = some instr) (ht : p.song.track track = some t) :
    ∃ q, playNote k note vol track true p = some q ∧ q.song = p.song ∧ q.tick = p.tick ∧
      q.solo = p.solo ∧
      (q.trackStatuses[track]?).map TrackStatus.volume
        = some (resolveVolume instr.defaultVelocity vol t.volume p.song.masterVolume) ∧
      q.postponedNotes =
        (if resolveVolume instr.defaultVelocity vol t.volume p.song.masterVolume ≠ 0 then
          p.postponedNotes ++ [⟨track, instr.midiInterface, instr.midiChannel,
            (note : Int) + instr.transpose,
            resolveVolume instr.defaultVelocity vol t.volume p.song.masterVolume⟩]
         else p.postponedNotes) := by
  unfold playNote
  rw [haud]
  dsimp only [Option.bind]
  rw [if_pos rfl, hts]
  dsimp only
  have h1 : (if ts.note ≠ -1 then
        p.emit (some track) ts.midiInterface (MidiMsg.noteOff ts.midiChannel ts.note 127)
      else p).song = p.song := by
    split <;> rfl
  have h2 : (if ts.note ≠ -1 then
        p.emit (some track) ts.midiInterface (MidiMsg.noteOff ts.midiChannel ts.note 127)
      else p).trackStatuses = p.trackStatuses := by
    split <;> rfl
  have h3 : (if ts.note ≠ -1 then
        p.emit (some track) ts.midiInterface (MidiMsg.noteOff ts.midiChannel ts.note 127)
      else p).postponedNotes = p.postponedNotes := by
    split <;> rfl
  have h4 : (if ts.note ≠ -1 then
        p.emit (some track) ts.midiInterface (MidiMsg.noteOff ts.midiChannel ts.note 127)
      else p).tick = p.tick := by
    split <;> rfl
  have h5 : (if ts.note ≠ -1 then
        p.emit (some track) ts.midiInterface (MidiMsg.noteOff ts.midiChannel ts.note 127)
      else p).solo = p.solo := by
    split <;> rfl
  generalize (if ts.note ≠ -1 then
        p.emit (some track) ts.midiInterface (MidiMsg.noteOff ts.midiChannel ts.note 127)
      else p) = p1 at h1 h2 h3 h4 h5 ⊢
  generalize (if ts.note ≠ -1 then { ts with note := -1 } else ts : TrackStatus) = tsa
  rw [h1, hin]
  simp only [ht, h1]
  have hts1 : p1.trackStatuses[track]? = some ts := by rw [h2]; exact hts
  by_cases hv : resolveVolume instr.defaultVelocity vol t.volume p.song.masterVolume ≠ 0
  · simp only [hv, ne_eq, not_false_eq_true, if_true]
    refine ⟨_, rfl, h1, h4, h5, ?st, ?pn⟩
    case st =>
      show ((p1.setTrackStatus track _).trackStatuses[track]?).map _ = _
      rw [setTrackStatus_get _ hts1]
      simp only [Option.map_some']
    case pn =>
      show p1.postponedNotes ++ _ = _
      rw [h3]
  · simp only [hv, if_false]
    refine ⟨_, rfl, h1, h4, h5, ?st, ?pn⟩
    case st =>
      rw [setTrackStatus_get _ hts1]
      simp only [Option.map_some']
    case pn => exact h3

theorem rememberBase_spec {track : Nat} {cell : Cell} {p q : Player} {ts : TrackStatus}
    (hts : p.trackStatuses[track]? = some ts) (h : rememberBase track cell p = some q) :
    q.postponedNotes = p.postponedNotes ∧ q.song = p.song ∧ q.tick = p.tick ∧
      q.solo = p.solo ∧
      q.trackStatuses[track]? = some
        (if cell.basenote ≠ 0 then
          { ts with baseNote := cell.basenote,
                    instrument := if cell.instrument ≠ 0 then (cell.instrument : Int) - 1
                                  else ts.instrument }
         else ts) := by
  unfold rememberBase at h
  by_cases hb : cell.basenote ≠ 0
  · rw [if_pos hb, hts] at h
    simp only [Option.map_some', Option.some.injEq] at h
    subst h
    rw [if_pos hb]
    exact ⟨rfl, rfl, rfl, rfl, setTrackStatus_get _ hts⟩
  · rw [if_neg hb] at h
    cases h
    rw [if_neg hb]
    exact ⟨rfl, rfl, rfl, rfl, hts⟩

theorem extendHold_spec {track note instrument : Nat} {p q : Player}
    (h : extendHold track note instrument p = some q) :
    q.postponedNotes = p.postponedNotes ∧
      (q.trackStatuses[track]?).map TrackStatus.volume
        = (p.trackStatuses[track]?).map TrackStatus.volume := by
  unfold extendHold at h
  obtain ⟨ts, hts, h1⟩ := Option.bind_eq_some.mp h
  split at h1
  · obtain ⟨x, _, h2⟩ := Option.map_eq_some'.mp h1
    split at h2
    · subst h2
      refine ⟨rfl, ?_⟩
      rw [setTrackStatus_get _ hts, hts]
      rfl
    · subst h2
      exact ⟨rfl, rfl⟩
  · cases h1
    exact ⟨rfl, rfl⟩

theorem fireNote_closed {track : Nat} {cell : Cell} {hadVolume : Bool} {loc : Locals}
    {p : Player} (hg : ¬ (cell.note ≠ 0 ∧ shouldPlayNote p.tick loc.delay loc.repeat_ = true)) :
    fireNote track cell hadVolume loc p = some (cell.note, cell.instrument, p) := by
  unfold fireNote
  rw [if_neg hg]

theorem fireNote_open {track : Nat} {cell : Cell} {hadVolume : Bool} {loc : Locals}
    {p : Player} {ts : TrackStatus} {instr : Instrument} {r : Nat × Nat × Player}
    (hn : cell.note ≠ 0) (hg : shouldPlayNote p.tick loc.delay loc.repeat_ = true)
    (htrack : track < 256)
    (hts : p.trackStatuses[track]? = some ts)
    (haud : p.audible track = some true)
    (hk : (if cell.instrument = 0 then ((ts.instrument + 1) % 256).toNat
            else cell.instrument) ≠ 0)
    (hin : p.song.instrument
      (((if cell.instrument = 0 then ((ts.instrument + 1) % 256).toNat
          else cell.instrument : Nat) : Int) - 1) = some instr)
    (h : fireNote track cell hadVolume loc p = some r) :
    ∃ (rv : Int) (x : NoteOn), x.track = track ∧
      (r.2.2.trackStatuses[track]?).map TrackStatus.volume = some rv ∧
      r.2.2.postponedNotes = (if rv ≠ 0 then p.postponedNotes ++ [x] else p.postponedNotes) := by
  unfold fireNote at h
  rw [if_pos ⟨hn, hg⟩, hts] at h
  dsimp only [Option.bind] at h
  generalize (if cell.instrument = 0 then ((ts.instrument + 1) % 256).toNat
    else cell.instrument) = k at h hk hin
  rw [if_pos hk, Nat.mod_eq_of_lt htrack] at h
  obtain ⟨t, ht⟩ := audible_track haud
  obtain ⟨q, hq, hsong, htick, hsolo, hvol, hpn⟩ :=
    @playNote_postponed _ (cell.note - 1) (loc.volume % 256) _ _ _ _ _ haud hts hin ht
  rw [hq] at h
  dsimp only [Option.bind] at h
  refine ⟨resolveVolume instr.defaultVelocity (loc.volume % 256) t.volume p.song.masterVolume,
    ⟨track, instr.midiInterface, instr.midiChannel, ((cell.note - 1 : Nat) : Int) + instr.transpose,
      resolveVolume instr.defaultVelocity (loc.volume % 256) t.volume p.song.masterVolume⟩,
    rfl, ?_, ?_⟩
  · split at h
    · rw [hsong, hin] at h
      dsimp only at h
      obtain ⟨ts1, hts1, he⟩ := Option.map_eq_some'.mp h
      subst he
      dsimp only
      rw [setTrackStatus_get _ hts1]
      rw [hts1] at hvol
      simp only [Option.map_some', Option.some.injEq] at hvol ⊢
      rw [← hvol]
      split <;> rfl
    · cases h
      exact hvol
  · split at h
    · rw [hsong, hin] at h
      dsimp only at h
      obtain ⟨ts1, hts1, he⟩ := Option.map_eq_some'.mp h
      subst he
      exact hpn
    · cases h
      exact hpn
/-! ## The elementary writes of the command interpreter -/

theorem knob_steps {track : Nat} {R : Player → Player → Prop} (hR : CommandSteps track R)
    {output mi ch slot : Int} {msg : Int → MidiMsg} {value : Nat} {p q : Player}
    (h : knob track output mi ch slot msg value p = some q) : R p q := by
  unfold knob at h
  split at h
  · split at h
    · split at h
      · exact hR.chain _ _ _ (hR.out p output _) (hR.cache _ _ _ _ _ h)
      · cases h
        exact hR.same p
    · split at h
      · obtain ⟨c, _, hc⟩ := Option.map_eq_some'.mp h
        cases hc
        exact hR.out p output _
      · exact hR.chain _ _ _ (hR.out p output _) (hR.cache _ _ _ _ _ h)
  · cases h
    exact hR.same p

theorem handleVelocity_steps {track : Nat} {R : Player → Player → Prop}
    (hR : CommandSteps track R) {note value : Nat} {output mi ch : Int} {ts : TrackStatus}
    {loc loc1 : Locals} {p q : Player}
    (hsil : ∀ a, note = 0 → value = 0 →
      R a (a.setTrackStatus track { ts with note := -1, line := -1 }))
    (h : handleVelocity track note value output mi ch ts loc p = some (loc1, q)) :
    R p q := by
  unfold handleVelocity at h
  split at h
  · split at h
    · obtain ⟨p1, hp1, he⟩ := Option.map_eq_some'.mp h
      cases he
      exact hR.cache _ _ _ _ _ hp1
    · cases h
      exact hR.same p
  · rename_i hn
    split at h
    · split at h
      · split at h
        · split at h
          · obtain ⟨p1, hp1, he⟩ := Option.map_eq_some'.mp h
            cases he
            exact hR.chain _ _ _ (hR.out p output _) (hR.cache _ _ _ _ _ hp1)
          · rename_i hv
            cases h
            exact hR.chain _ _ _ (hR.out p output _)
              (hsil _ (by simpa using hn) (by omega))
        · cases h
          exact hR.same p
      · split at h
        · obtain ⟨c, _, he⟩ := Option.map_eq_some'.mp h
          cases he
          exact hR.out p output _
        · obtain ⟨p1, hp1, he⟩ := Option.map_eq_some'.mp h
          cases he
          exact hR.chain _ _ _ (hR.out p output _) (hR.cache _ _ _ _ _ hp1)
    · cases h
      exact hR.same p

theorem handleTrackVolume_steps {track : Nat} {R : Player → Player → Prop}
    (hR : CommandSteps track R) {value : Nat} {p q : Player}
    (h : handleTrackVolume track value p = some q) : R p q := by
  unfold handleTrackVolume at h
  split at h
  · split at h
    · obtain ⟨t, _, he⟩ := Option.map_eq_some'.mp h
      cases he
      exact hR.trackVolume p _ _
    · cases h
      exact hR.same p
  · obtain ⟨t, _, he⟩ := Option.map_eq_some'.mp h
    split at he
    · cases he
      exact hR.trackVolume p _ _
    · cases he
      exact hR.trackVolume p _ _

theorem handleInstrumentVolume_steps {track : Nat} {R : Player → Player → Prop}
    (hR : CommandSteps track R) {instrument value : Nat} {ts : TrackStatus} {p q : Player}
    (h : handleInstrumentVolume track instrument value ts p = some q) : R p q := by
  unfold handleInstrumentVolume at h
  dsimp only at h
  generalize toChar (if instrument ≠ 0 then (instrument : Int) - 1 else ts.instrument) = ti at h
  cases hi : p.song.instrument ti with
  | none =>
    rw [hi] at h
    cases h
    exact hR.same p
  | some instr =>
    rw [hi] at h
    dsimp only at h
    split at h
    · split at h
      · cases h
        exact hR.defaultVelocity p _ _
      · cases h
        exact hR.same p
    · split at h
      · obtain ⟨t, _, he⟩ := Option.map_eq_some'.mp h
        cases he
        exact hR.defaultVelocity p _ _
      · cases h
        exact hR.defaultVelocity p _ _

/-- Every state that the `switch` of `handleCommand` reaches is reached by elementary
writes: a relation that contains them relates the state before to the state after. -/
theorem handleSwitch_steps {track : Nat} {R : Player → Player → Prop}
    (hR : CommandSteps track R) {note instrument command value : Nat} {output mi ch : Int}
    {ts : TrackStatus} {loc loc1 : Locals} {p q : Player}
    (hsil : ∀ a, command = CommandVelocity → note = 0 → value = 0 →
      R a (a.setTrackStatus track { ts with note := -1, line := -1 }))
    (htpl : ∀ a, command = CommandTicksPerLine → value ≠ 0 →
      R a { a with song := a.song.setTPL value })
    (h : handleSwitch track note instrument command value output mi ch ts loc p
      = some (loc1, q)) : R p q := by
  unfold handleSwitch at h
  by_cases c1 : command = CommandPitchWheel
  · rw [if_pos c1] at h
    obtain ⟨q1, hq, he⟩ := Option.map_eq_some'.mp h
    cases he
    exact knob_steps hR hq
  rw [if_neg c1] at h
  by_cases c2 : command = CommandProgramChange
  · rw [if_pos c2] at h
    split at h
    · cases h
      exact hR.out p output _
    · cases h
      exact hR.same p
  rw [if_neg c2] at h
  by_cases c3 : command = CommandEndBlock
  · rw [if_pos c3] at h
    split at h
    · cases h
      exact hR.latch p _ _
    · cases h
      exact hR.same p
  rw [if_neg c3] at h
  by_cases c4 : command = CommandPlayseqPosition
  · rw [if_pos c4] at h
    split at h
    · cases h
      exact hR.latch p _ _
    · cases h
      exact hR.same p
  rw [if_neg c4] at h
  by_cases c5 : command = CommandSendMessage
  · rw [if_pos c5] at h
    split at h
    · obtain ⟨m, _, he⟩ := Option.map_eq_some'.mp h
      cases he
      exact hR.out p output _
    · cases h
      exact hR.same p
  rw [if_neg c5] at h
  by_cases c6 : command = CommandHold
  · rw [if_pos c6] at h
    cases h
    exact hR.same p
  rw [if_neg c6] at h
  by_cases c7 : command = CommandRetrigger
  · rw [if_pos c7] at h
    cases h
    exact hR.same p
  rw [if_neg c7] at h
  by_cases c8 : command = CommandDelay
  · rw [if_pos c8] at h
    cases h
    exact hR.same p
  rw [if_neg c8] at h
  by_cases c9 : command = CommandVelocity
  · rw [if_pos c9] at h
    exact handleVelocity_steps hR (fun a => hsil a c9) h
  rw [if_neg c9] at h
  by_cases c10 : command = CommandChannelPressure
  · rw [if_pos c10] at h
    obtain ⟨q1, hq, he⟩ := Option.map_eq_some'.mp h
    cases he
    exact knob_steps hR hq
  rw [if_neg c10] at h
  by_cases c11 : command = CommandTicksPerLine
  · rw [if_pos c11] at h
    split at h
    · split at h
      · cases h
        exact hR.latch p _ _
      · cases h
        exact hR.same p
    · rename_i hv
      cases h
      exact htpl p c11 hv
  rw [if_neg c11] at h
  by_cases c12 : command = CommandTempo
  · rw [if_pos c12] at h
    split at h
    · split at h
      · cases h
        exact hR.latch p _ _
      · cases h
        exact hR.same p
    · cases h
      exact hR.chain _ _ _ (hR.tempo p _) (hR.out _ output _)
  rw [if_neg c12] at h
  by_cases c13 : command = CommandTrackVolume
  · rw [if_pos c13] at h
    obtain ⟨q1, hq, he⟩ := Option.map_eq_some'.mp h
    cases he
    exact handleTrackVolume_steps hR hq
  rw [if_neg c13] at h
  by_cases c14 : command = CommandInstrumentVolume
  · rw [if_pos c14] at h
    obtain ⟨q1, hq, he⟩ := Option.map_eq_some'.mp h
    cases he
    exact handleInstrumentVolume_steps hR hq
  rw [if_neg c14] at h
  split at h
  · obtain ⟨q1, hq, he⟩ := Option.map_eq_some'.mp h
    cases he
    exact knob_steps hR hq
  · cases h
    exact hR.same p

theorem cacheSet_statuses {p q : Player} {i j v : Int} (h : p.cacheSet i j v = some q) :
    q.trackStatuses = p.trackStatuses := by
  unfold Player.cacheSet at h
  split at h
  · cases h
  · split at h
    · cases h
    · split at h
      · cases h
        rfl
      · cases h

theorem effectiveCommand_congr (ts ts1 : TrackStatus) (c v : Nat)
    (h : ts1.previousCommand = ts.previousCommand) :
    effectiveCommand ts1 c v = effectiveCommand ts c v := by
  unfold effectiveCommand
  rw [h]

theorem effectiveCommand_remembered (ts : TrackStatus) (c v : Nat) :
    effectiveCommand
      (if c ≠ 0 ∨ v ≠ 0 then
        (if c = CommandPreviousCommandValue then ts else { ts with previousCommand := c })
       else ts) c v = effectiveCommand ts c v := by
  unfold effectiveCommand
  by_cases h1 : c = CommandPreviousCommandValue
  · simp only [h1, if_true]
    split <;> rfl
  · simp only [h1, if_false]

theorem gateParams_range (e v : Nat) (hv : v < 256) :
    0 ≤ (gateParams e v).1 ∧ (gateParams e v).1 < 2 ^ 32 ∧ -1 ≤ (gateParams e v).2 ∧
      (gateParams e v).2 < 2 ^ 32 := by
  unfold gateParams
  have h1 : v >>> 4 ≤ v := by
    rw [Nat.shiftRight_eq_div_pow]
    exact Nat.div_le_self _ _
  have h2 : v &&& 15 ≤ 15 := Nat.and_le_right
  split
  · refine ⟨by positivity, ?_, ?_, ?_⟩ <;> simp only <;> omega
  · split
    · refine ⟨by positivity, ?_, ?_, ?_⟩ <;> simp only <;> omega
    · decide

/-! ## The command pages of a cell -/

theorem effectiveCommand_eq (ts : TrackStatus) (c v : Nat) :
    effectiveCommand ts c v = commandOf ts.previousCommand (c, v) := by
  unfold effectiveCommand commandOf
  by_cases hc : c = CommandPreviousCommandValue
  · by_cases hv : v ≠ 0
    · simp only [hc, hv, ne_eq, not_false_eq_true, and_self, if_true]
    · simp only [hc, hv, and_false, if_false, if_true]
  · simp only [hc, false_and, if_false]

theorem gateStep_previous (pages : List (Nat × Nat)) (s : Nat × Int × Int) :
    (pages.foldl gateStep s).1 = pages.foldl previousAfter s.1 := by
  induction pages generalizing s with
  | nil => rfl
  | cons cv rest ih =>
    simp only [List.foldl_cons]
    rw [ih]
    rfl

theorem holdStep_previous (pages : List (Nat × Nat)) (s : Nat × Option Nat) :
    (pages.foldl holdStep s).1 = pages.foldl previousAfter s.1 := by
  induction pages generalizing s with
  | nil => rfl
  | cons cv rest ih =>
    simp only [List.foldl_cons]
    rw [ih]
    rfl

theorem localsStep_previous (note : Nat) (pages : List (Nat × Nat)) (s : Nat × Locals) :
    (pages.foldl (localsStep note) s).1 = pages.foldl previousAfter s.1 := by
  induction pages generalizing s with
  | nil => rfl
  | cons cv rest ih =>
    simp only [List.foldl_cons]
    rw [ih]
    rfl

theorem scanStep_previous (pages : List (Nat × Nat)) (s : Nat × Locals) :
    (pages.foldl scanStep s).1 = pages.foldl previousAfter s.1 := by
  induction pages generalizing s with
  | nil => rfl
  | cons cv rest ih =>
    simp only [List.foldl_cons]
    rw [ih]
    rfl

/-- One iteration of the scan sets the delay and the repeat as `gateStep` words it and
leaves the volume and the hold. -/
theorem scanStep_gate (P : Nat) (loc : Locals) (cv : Nat × Nat) (hv : cv.2 < 256) :
    (scanStep (P, loc) cv).2
      = { loc with delay := (gateStep (P, loc.delay, loc.repeat_) cv).2.1,
                   repeat_ := (gateStep (P, loc.delay, loc.repeat_) cv).2.2 } := by
  obtain ⟨b1, b2⟩ := retrigger_bits cv.2 hv
  unfold scanStep gateStep
  dsimp only
  by_cases hcv : cv.1 ≠ 0 ∨ cv.2 ≠ 0
  · rw [if_pos hcv]
    by_cases e1 : commandOf P cv = CommandRetrigger
    · rw [if_pos e1, if_pos (Or.inl e1), e1, b1]
      rfl
    · rw [if_neg e1]
      by_cases e2 : commandOf P cv = CommandDelay
      · rw [if_pos e2, if_pos (Or.inr e2), e2]
        rfl
      · rw [if_neg e2, if_neg (fun h => h.elim e1 e2)]
  · rw [if_neg hcv]
    have h0 : cv.1 = 0 ∧ cv.2 = 0 := by
      constructor
      · by_contra hc
        exact hcv (Or.inl hc)
      · by_contra hc
        exact hcv (Or.inr hc)
    have he : commandOf P cv = 0 := by
      unfold commandOf
      rw [if_neg (fun h => by rw [h0.1] at h; exact absurd h.1 (by decide)), h0.1]
    rw [he, if_neg (by decide)]

/-- The scan of the pages of a cell leaves the delay and the repeat of `gateStep`. -/
theorem scan_fold (pages : List (Nat × Nat)) (hv : ∀ cv ∈ pages, cv.2 < 256) (P : Nat)
    (loc : Locals) :
    (pages.foldl scanStep (P, loc)).2
      = { loc with delay := (pages.foldl gateStep (P, loc.delay, loc.repeat_)).2.1,
                   repeat_ := (pages.foldl gateStep (P, loc.delay, loc.repeat_)).2.2 } := by
  induction pages generalizing P loc with
  | nil => rfl
  | cons cv rest ih =>
    simp only [List.foldl_cons]
    have h1 : scanStep (P, loc) cv = (previousAfter P cv, (scanStep (P, loc) cv).2) := rfl
    have h2 : gateStep (P, loc.delay, loc.repeat_) cv
        = (previousAfter P cv, (gateStep (P, loc.delay, loc.repeat_) cv).2.1,
            (gateStep (P, loc.delay, loc.repeat_) cv).2.2) := rfl
    rw [h1, ih (fun x hx => hv x (List.mem_cons_of_mem _ hx)),
      scanStep_gate P loc cv (hv cv (List.mem_cons_self _ _))]
    dsimp only
    rw [← h2]

/-- One interpretation of a page by `handleCommand` sets the delay and the repeat as
`gateStep` words it, and the hold as `holdStep` words it. -/
theorem localsStep_gate (note P : Nat) (loc : Locals) (H : Option Nat) (cv : Nat × Nat)
    (hv : cv.2 < 256) (hH : loc.hold = holdInt H) :
    ((localsStep note (P, loc) cv).2.delay, (localsStep note (P, loc) cv).2.repeat_)
        = (gateStep (P, loc.delay, loc.repeat_) cv).2 ∧
      (localsStep note (P, loc) cv).2.hold = holdInt (holdStep (P, H) cv).2 := by
  obtain ⟨b1, b2⟩ := retrigger_bits cv.2 hv
  unfold localsStep gateStep holdStep
  dsimp only
  by_cases h0 : cv.1 = 0 ∧ cv.2 = 0
  · have he : commandOf P cv = 0 := by
      unfold commandOf
      rw [if_neg (fun h => by rw [h0.1] at h; exact absurd h.1 (by decide)), h0.1]
    rw [if_pos h0, he, if_neg (by decide), if_neg (by decide)]
    exact ⟨rfl, hH⟩
  · rw [if_neg h0]
    unfold localsAfter
    by_cases e3 : commandOf P cv = CommandHold
    · rw [if_pos e3, if_pos e3, e3, if_neg (by decide)]
      exact ⟨rfl, rfl⟩
    · rw [if_neg e3, if_neg e3]
      by_cases e1 : commandOf P cv = CommandRetrigger
      · rw [if_pos e1, if_pos (Or.inl e1), e1, b1]
        exact ⟨rfl, hH⟩
      · rw [if_neg e1]
        by_cases e2 : commandOf P cv = CommandDelay
        · rw [if_pos e2, if_pos (Or.inr e2), e2]
          exact ⟨rfl, hH⟩
        · rw [if_neg e2, if_neg (show ¬ (commandOf P cv = CommandRetrigger ∨
            commandOf P cv = CommandDelay) from fun h => h.elim e1 e2)]
          split
          · exact ⟨rfl, hH⟩
          · exact ⟨rfl, hH⟩

/-- The interpretation of the pages of a cell by `handleCommand` leaves the delay and the
repeat of `gateStep` and the hold of `holdStep`. -/
theorem locals_fold (note : Nat) (pages : List (Nat × Nat)) (hv : ∀ cv ∈ pages, cv.2 < 256)
    (P : Nat) (loc : Locals) (H : Option Nat) (hH : loc.hold = holdInt H) :
    ((pages.foldl (localsStep note) (P, loc)).2.delay,
      (pages.foldl (localsStep note) (P, loc)).2.repeat_)
        = (pages.foldl gateStep (P, loc.delay, loc.repeat_)).2 ∧
      (pages.foldl (localsStep note) (P, loc)).2.hold
        = holdInt (pages.foldl holdStep (P, H)).2 := by
  induction pages generalizing P loc H with
  | nil => exact ⟨rfl, hH⟩
  | cons cv rest ih =>
    simp only [List.foldl_cons]
    obtain ⟨g1, g2⟩ := localsStep_gate note P loc H cv (hv cv (List.mem_cons_self _ _)) hH
    have h1 : localsStep note (P, loc) cv
        = (previousAfter P cv, (localsStep note (P, loc) cv).2) := rfl
    have h2 : gateStep (P, loc.delay, loc.repeat_) cv
        = (previousAfter P cv, (localsStep note (P, loc) cv).2.delay,
            (localsStep note (P, loc) cv).2.repeat_) := by
      rw [g1]
      rfl
    have h3 : holdStep (P, H) cv = (previousAfter P cv, (holdStep (P, H) cv).2) := rfl
    rw [h1, h2, h3]
    exact ih (fun x hx => hv x (List.mem_cons_of_mem _ hx)) _ _ _ g2

theorem pages_lt (b : Block) (line track : Nat) : ∀ cv ∈ b.pages line track, cv.2 < 256 := by
  intro cv hcv
  unfold Block.pages at hcv
  obtain ⟨page, _, he⟩ := List.mem_map.mp hcv
  subst he
  exact Nat.mod_lt _ (by decide)

theorem pages_range' (b : Block) (line track : Nat) :
    b.pages line track = (List.range' 0 b.commandPages).map fun page =>
      (b.command line track page % 256, b.commandValue line track page % 256) := by
  unfold Block.pages
  rw [List.range_eq_range']

/-- The delay and the repeat of a cell are values that `shouldPlayNote` takes without
conversion. -/
theorem gateFold_range (pages : List (Nat × Nat)) (hv : ∀ cv ∈ pages, cv.2 < 256)
    (s : Nat × Int × Int)
    (hs : 0 ≤ s.2.1 ∧ s.2.1 < 2 ^ 32 ∧ -1 ≤ s.2.2 ∧ s.2.2 < 2 ^ 32) :
    0 ≤ (pages.foldl gateStep s).2.1 ∧ (pages.foldl gateStep s).2.1 < 2 ^ 32 ∧
      -1 ≤ (pages.foldl gateStep s).2.2 ∧ (pages.foldl gateStep s).2.2 < 2 ^ 32 := by
  induction pages generalizing s with
  | nil => exact hs
  | cons cv rest ih =>
    simp only [List.foldl_cons]
    apply ih (fun x hx => hv x (List.mem_cons_of_mem _ hx))
    unfold gateStep
    dsimp only
    split
    · exact gateParams_range _ _ (hv cv (List.mem_cons_self _ _))
    · exact hs

theorem cellGate_range (previous : Nat) (pages : List (Nat × Nat))
    (hv : ∀ cv ∈ pages, cv.2 < 256) :
    0 ≤ (cellGate previous pages).1 ∧ (cellGate previous pages).1 < 2 ^ 32 ∧
      -1 ≤ (cellGate previous pages).2 ∧ (cellGate previous pages).2 < 2 ^ 32 :=
  gateFold_range pages hv _ (by refine ⟨?_, ?_, ?_, ?_⟩ <;> norm_num)

/-- The delay and repeat of a cell with one command page: those of the command the page
stands for. -/
theorem cellGate_single (previous : Nat) (cv : Nat × Nat) :
    cellGate previous [cv] = gateParams (commandOf previous cv) cv.2 := by
  unfold cellGate gateStep
  simp only [List.foldl_cons, List.foldl_nil]
  split
  · rfl
  · rename_i h
    unfold gateParams
    rw [if_neg (fun h1 => h (Or.inl h1)), if_neg (fun h1 => h (Or.inr h1))]
theorem gateStep_plain (s : Nat × Int × Int) (cv : Nat × Nat)
    (h : (cv.1 = 0 ∧ cv.2 = 0) ∨ (cv.1 = CommandPreviousCommandValue ∧ cv.2 = 0)) :
    gateStep s cv = s := by
  have hc : commandOf s.1 cv = cv.1 := by
    unfold commandOf
    rw [if_neg]
    rintro ⟨h1, h2⟩
    rcases h with h3 | h3
    · exact h2 h3.2
    · exact h2 h3.2
  have hg : ¬ (cv.1 = CommandRetrigger ∨ cv.1 = CommandDelay) := by
    rcases h with h3 | h3
    · rw [h3.1]
      decide
    · rw [h3.1]
      decide
  have hp : previousAfter s.1 cv = s.1 := by
    unfold previousAfter
    rw [if_pos]
    rcases h with h3 | h3
    · exact Or.inl h3
    · exact Or.inr h3.1
  unfold gateStep
  rw [hc, if_neg hg, hp]

theorem gateStep_setter (s : Nat × Int × Int) (cv : Nat × Nat)
    (h1 : ¬ (cv.1 = 0 ∧ cv.2 = 0)) (h2 : cv.1 ≠ CommandPreviousCommandValue) :
    gateStep s cv = (cv.1, if cv.1 = CommandRetrigger ∨ cv.1 = CommandDelay
      then gateParams cv.1 cv.2 else s.2) := by
  have hc : commandOf s.1 cv = cv.1 := by
    unfold commandOf
    rw [if_neg (fun h => h2 h.1)]
  have hp : previousAfter s.1 cv = cv.1 := by
    unfold previousAfter
    rw [if_neg]
    rintro (h | h)
    · exact h1 h
    · exact h2 h
  unfold gateStep
  rw [hc, hp]

theorem gateStep_previousValue (s : Nat × Int × Int) (cv : Nat × Nat)
    (h1 : cv.1 = CommandPreviousCommandValue) (h2 : cv.2 ≠ 0) :
    gateStep s cv = (s.1, if s.1 = CommandRetrigger ∨ s.1 = CommandDelay
      then gateParams s.1 cv.2 else s.2) := by
  have hc : commandOf s.1 cv = s.1 := by
    unfold commandOf
    rw [if_pos ⟨h1, h2⟩]
  have hp : previousAfter s.1 cv = s.1 := by
    unfold previousAfter
    rw [if_pos (Or.inr h1)]
  unfold gateStep
  rw [hc, hp]

/-- The pages of a cell either leave the previous command of the track, or set it to the
command byte of one of them whatever it was before; in the second case, when that byte is
Retrigger or Delay, the delay and repeat after the pages do not depend on the values
before. -/
theorem gateFold_cases (pages : List (Nat × Nat)) :
    (∀ s : Nat × Int × Int, (pages.foldl gateStep s).1 = s.1) ∨
    (∃ (L : Nat) (x : Int × Int), ∀ s : Nat × Int × Int,
      (pages.foldl gateStep s).1 = L ∧
        (L = CommandRetrigger ∨ L = CommandDelay → (pages.foldl gateStep s).2 = x)) := by
  induction pages with
  | nil => exact Or.inl (fun _ => rfl)
  | cons cv rest ih =>
    rcases ih with hl | ⟨L, x, hr⟩
    · by_cases hset : (cv.1 = 0 ∧ cv.2 = 0) ∨ cv.1 = CommandPreviousCommandValue
      · left
        intro s
        simp only [List.foldl_cons]
        rw [hl]
        show previousAfter s.1 cv = s.1
        unfold previousAfter
        rw [if_pos hset]
      · right
        have h1 : ¬ (cv.1 = 0 ∧ cv.2 = 0) := fun h => hset (Or.inl h)
        have h2 : cv.1 ≠ CommandPreviousCommandValue := fun h => hset (Or.inr h)
        refine ⟨cv.1, (rest.foldl gateStep (cv.1, gateParams cv.1 cv.2)).2, ?_⟩
        intro s
        simp only [List.foldl_cons]
        rw [gateStep_setter s cv h1 h2]
        refine ⟨hl _, ?_⟩
        intro hL
        rw [if_pos hL]
    · right
      refine ⟨L, x, ?_⟩
      intro s
      simp only [List.foldl_cons]
      exact hr _

/-- Going through the pages of a cell a second time, with the delay and repeat that the
first pass left and with the previous command of the track as it was before or as the
first pass left it, gives the delay and repeat of the first pass. -/
theorem gateFold_again (pages : List (Nat × Nat)) :
    ∀ (P : Nat) (x : Int × Int) (Q : Nat),
      (Q = P ∨ Q = (pages.foldl gateStep (P, x)).1) →
      pages.foldl gateStep (Q, (pages.foldl gateStep (P, x)).2)
        = pages.foldl gateStep (P, x) := by
  induction pages with
  | nil =>
    intro P x Q h
    simp only [List.foldl_nil] at h ⊢
    rcases h with h | h
    · rw [h]
    · rw [h]
  | cons cv rest ih =>
    intro P x Q h
    simp only [List.foldl_cons] at h ⊢
    by_cases hplain : (cv.1 = 0 ∧ cv.2 = 0) ∨ (cv.1 = CommandPreviousCommandValue ∧ cv.2 = 0)
    · rw [gateStep_plain _ cv hplain] at h ⊢
      rw [gateStep_plain _ cv hplain]
      exact ih P x Q h
    · by_cases hprev : cv.1 = CommandPreviousCommandValue
      · have hv : cv.2 ≠ 0 := fun h0 => hplain (Or.inr ⟨hprev, h0⟩)
        rw [gateStep_previousValue _ cv hprev hv] at h ⊢
        rw [gateStep_previousValue _ cv hprev hv]
        dsimp only at h ⊢
        -- the pass that starts with the previous command as it was before
        have hP : rest.foldl gateStep
            (P, if P = CommandRetrigger ∨ P = CommandDelay then gateParams P cv.2
              else (rest.foldl gateStep
                (P, if P = CommandRetrigger ∨ P = CommandDelay then gateParams P cv.2
                  else x)).2)
            = rest.foldl gateStep
                (P, if P = CommandRetrigger ∨ P = CommandDelay then gateParams P cv.2
                  else x) := by
          by_cases hg : P = CommandRetrigger ∨ P = CommandDelay
          · simp only [if_pos hg]
          · simp only [if_neg hg]
            exact ih P x P (Or.inl rfl)
        rcases h with h | h
        · rw [h]
          exact hP
        · by_cases hg : Q = CommandRetrigger ∨ Q = CommandDelay
          · rw [if_pos hg]
            rcases gateFold_cases rest with hl | ⟨L, xL, hr⟩
            · have hQ : Q = P := by
                rw [h, hl]
              rw [hQ] at hg
              rw [hQ]
              rw [if_pos hg]
            · have hL : Q = L := by
                rw [h]
                exact (hr _).1
              rw [hL] at hg
              obtain ⟨a1, a2⟩ := hr (Q, gateParams Q cv.2)
              obtain ⟨b1, b2⟩ := hr (P, if P = CommandRetrigger ∨ P = CommandDelay
                then gateParams P cv.2 else x)
              exact Prod.ext (a1.trans b1.symm) ((a2 hg).trans (b2 hg).symm)
          · rw [if_neg hg]
            exact ih P _ Q (Or.inr h)
      · have h1 : ¬ (cv.1 = 0 ∧ cv.2 = 0) := fun h0 => hplain (Or.inl h0)
        rw [gateStep_setter _ cv h1 hprev] at h ⊢
        rw [gateStep_setter _ cv h1 hprev]
        dsimp only
        by_cases hg : cv.1 = CommandRetrigger ∨ cv.1 = CommandDelay
        · simp only [if_pos hg]
        · simp only [if_neg hg]
          exact ih cv.1 x cv.1 (Or.inl rfl)

/-- The delay and repeat that the scan of the cell's pages finds are those that are in
force after `handleCommand` interpreted the same pages. -/
theorem cellGate_twice (previous : Nat) (pages : List (Nat × Nat)) :
    cellGate previous (pages ++ pages) = cellGate previous pages := by
  unfold cellGate
  rw [List.foldl_append]
  have h := gateFold_again pages previous (0, -1)
    (pages.foldl gateStep (previous, 0, -1)).1 (Or.inr rfl)
  have e : pages.foldl gateStep (previous, 0, -1)
      = ((pages.foldl gateStep (previous, 0, -1)).1,
          (pages.foldl gateStep (previous, 0, -1)).2) := rfl
  rw [e, h]

/-! ## Note balance -/

/-- C2, evaluation at the failing input: in the run of `songVelocityOff` the Velocity-0
cell sends the note-off of the sounding note to output 1, the output of the instrument the
cell names, and marks the track silent; the note-on of line 2 follows the note-on of line 0
on (output 0, channel 0, note 48) with no note-off on that triple between them, so the
calls of the run are not balanced.  In the run of `songLowestNote` the transposed note is
-1, the value that marks a silent track: the second note-on follows the first with no
note-off at all.  The run of scenario S2, for comparison, is balanced. -/
theorem note_balance_broken :
    (run 3 playerVelocityOff).map (fun p => (p.midiOut, noteBalance p.midiOut))
      = some ([⟨none, 0, MidiMsg.setTick 0⟩, ⟨none, 1, MidiMsg.setTick 0⟩,
          ⟨some 0, 0, MidiMsg.noteOn 0 48 100⟩,
          ⟨none, 0, MidiMsg.setTick 1⟩, ⟨none, 1, MidiMsg.setTick 1⟩,
          ⟨some 0, 1, MidiMsg.noteOff 0 48 127⟩,
          ⟨none, 0, MidiMsg.setTick 2⟩, ⟨none, 1, MidiMsg.setTick 2⟩,
          ⟨some 0, 0, MidiMsg.noteOn 0 48 100⟩,
          ⟨some 0, 0, MidiMsg.noteOff 0 48 127⟩], false) ∧
    (run 2 (playerOf songLowestNote Mode.ModePlaySong true)).map
        (fun p => (p.midiOut, noteBalance p.midiOut))
      = some ([⟨none, 0, MidiMsg.setTick 0⟩, ⟨some 0, 0, MidiMsg.noteOn 0 (-1) 100⟩,
          ⟨none, 0, MidiMsg.setTick 1⟩, ⟨some 0, 0, MidiMsg.noteOn 0 (-1) 100⟩], false) ∧
    (run 8 (playerOf songS2 Mode.ModePlaySong true)).map (fun p => noteBalance p.midiOut)
      = some true := by
  decide!

/-! ## Hold times -/

theorem loopFrom_rel {σ : Type} (R : σ → σ → Prop) (hrefl : ∀ s, R s s)
    (htrans : ∀ a b c, R a b → R b c → R a c) (body : Nat → σ → Option σ)
    (hbody : ∀ i s t, body i s = some t → R s t) :
    ∀ (n i : Nat) (s t : σ), loopFrom body n i s = some t → R s t := by
  intro n
  induction n with
  | zero =>
    intro i s t h
    simp only [loopFrom] at h
    cases h
    exact hrefl s
  | succ n ih =>
    intro i s t h
    simp only [loopFrom] at h
    obtain ⟨m, hm, h1⟩ := Option.bind_eq_some.mp h
    exact htrans _ _ _ (hbody i s m hm) (ih (i + 1) m t h1)

theorem loopFrom_add {σ : Type} (body : Nat → σ → Option σ) :
    ∀ (a b i : Nat) (s : σ),
      loopFrom body (a + b) i s = (loopFrom body a i s).bind (loopFrom body b (i + a)) := by
  intro a
  induction a with
  | zero =>
    intro b i s
    simp [loopFrom]
  | succ a ih =>
    intro b i s
    have e : a + 1 + b = (a + b) + 1 := by omega
    rw [e]
    simp only [loopFrom]
    cases hb : body i s with
    | none => rfl
    | some m =>
      simp only [Option.some_bind]
      rw [ih b (i + 1) m]
      have e2 : i + 1 + a = i + (a + 1) := by omega
      rw [e2]

theorem TrackFrame.refl_track (u : Nat) (p : Player) : TrackFrame u p p := by
  constructor
  case others => exact fun _ _ => rfl
  case out => exact ⟨[], by simp, by simp⟩
  case postponed => exact ⟨[], by simp⟩
  all_goals rfl

theorem TrackFrame.trans_track {u : Nat} {p q r : Player}
    (h1 : TrackFrame u p q) (h2 : TrackFrame u q r) : TrackFrame u p r := by
  constructor
  case tick => rw [h2.tick, h1.tick]
  case line_ => rw [h2.line_, h1.line_]
  case solo => rw [h2.solo, h1.solo]
  case tracks => rw [h2.tracks, h1.tracks]
  case instruments => rw [h2.instruments, h1.instruments]
  case others =>
    intro v hv
    rw [h2.others v hv, h1.others v hv]
  case out =>
    obtain ⟨e1, a1, b1⟩ := h1.out
    obtain ⟨e2, a2, b2⟩ := h2.out
    refine ⟨e1 ++ e2, by rw [a2, a1, List.append_assoc], ?_⟩
    intro e he
    rcases List.mem_append.mp he with h | h
    · exact b1 e h
    · exact b2 e h
  case postponed =>
    obtain ⟨n1, a1⟩ := h1.postponed
    obtain ⟨n2, a2⟩ := h2.postponed
    exact ⟨n1 ++ n2, by rw [a2, a1, List.append_assoc]⟩

theorem CommandFrame.toTrackFrame {u : Nat} {p q : Player} (h : CommandFrame u p q) :
    TrackFrame u p q :=
  ⟨h.tick, h.line_, h.solo, h.tracks, h.instruments, h.others, h.out,
    [], by rw [h.postponedNotes, List.append_nil]⟩

theorem TrackFrame.setTrackStatus_track (u : Nat) (p : Player) (ts : TrackStatus) :
    TrackFrame u p (p.setTrackStatus u ts) := by
  constructor
  case others =>
    intro v hv
    simp [Player.setTrackStatus, List.getElem?_set, Ne.symm hv]
  case out => exact ⟨[], by simp [Player.setTrackStatus], by simp⟩
  case postponed => exact ⟨[], by simp [Player.setTrackStatus]⟩
  all_goals rfl

theorem TrackFrame.emit_track (u : Nat) (p : Player) (output : Int) (msg : MidiMsg) :
    TrackFrame u p (p.emit (some u) output msg) :=
  (CommandFrame.emit u p output msg).toTrackFrame

theorem TrackFrame.postpone (u : Nat) (p : Player) (ns : List NoteOn) :
    TrackFrame u p { p with postponedNotes := p.postponedNotes ++ ns } := by
  constructor
  case others => exact fun _ _ => rfl
  case out => exact ⟨[], by simp, by simp⟩
  case postponed => exact ⟨ns, rfl⟩
  all_goals rfl

theorem TrackFrame.audible_eq_track {u : Nat} {p q : Player} (h : TrackFrame u p q)
    (v : Nat) : q.audible v = p.audible v := by
  have ht := map_eq_getElem? h.tracks v
  unfold Player.audible Song.track
  rw [h.solo]
  cases hq : q.song.tracks[v]? with
  | none =>
    cases hp : p.song.tracks[v]? with
    | none => rfl
    | some b => rw [hq, hp] at ht; exact absurd ht (by simp)
  | some a =>
    cases hp : p.song.tracks[v]? with
    | none => rw [hq, hp] at ht; exact absurd ht (by simp)
    | some b =>
      rw [hq, hp] at ht
      simp only [Option.map_some', Option.some.injEq, Prod.mk.injEq] at ht
      simp only [Option.map_some', ht.1, ht.2]

theorem TrackFrame.instrument_fixed_track {u : Nat} {p q : Player} (h : TrackFrame u p q)
    (k : Int) : (q.song.instrument k).map Instrument.fixed
      = (p.song.instrument k).map Instrument.fixed :=
  map_eq_getElem? h.instruments (toUInt k)

theorem TrackFrame.maxTracks_track {u : Nat} {p q : Player} (h : TrackFrame u p q) :
    q.song.maxTracks = p.song.maxTracks := by
  have := congrArg List.length h.tracks
  simpa [Song.maxTracks] using this

theorem playNote_frame {k : Int} {note vol u : Nat} {postpone : Bool} {p q : Player}
    (h : playNote k note vol u postpone p = some q) : TrackFrame u p q := by
  unfold playNote at h
  obtain ⟨a, _, h1⟩ := Option.bind_eq_some.mp h
  cases a with
  | false =>
    rw [if_neg Bool.false_ne_true] at h1
    cases h1
    exact TrackFrame.refl_track u p
  | true =>
    rw [if_pos rfl] at h1
    obtain ⟨ts, _, h2⟩ := Option.bind_eq_some.mp h1
    dsimp only at h2
    have f1 : TrackFrame u p (if ts.note ≠ -1 then
        p.emit (some u) ts.midiInterface (MidiMsg.noteOff ts.midiChannel ts.note 127)
      else p) := by
      split
      · exact TrackFrame.emit_track u p _ _
      · exact TrackFrame.refl_track u p
    generalize (if ts.note ≠ -1 then
        p.emit (some u) ts.midiInterface (MidiMsg.noteOff ts.midiChannel ts.note 127)
      else p) = p1 at h2 f1
    generalize (if ts.note ≠ -1 then { ts with note := -1 } else ts : TrackStatus) = tsa at h2
    split at h2
    · cases h2
      exact f1.trans_track (TrackFrame.setTrackStatus_track u p1 _)
    · obtain ⟨t, _, h3⟩ := Option.bind_eq_some.mp h2
      split at h3
      · split at h3
        · cases h3
          exact f1.trans_track ((TrackFrame.setTrackStatus_track u p1 _).trans_track (TrackFrame.postpone u _ _))
        · cases h3
          exact f1.trans_track ((TrackFrame.setTrackStatus_track u p1 _).trans_track (TrackFrame.emit_track u _ _ _))
      · cases h3
        exact f1.trans_track (TrackFrame.setTrackStatus_track u p1 _)

theorem handleCommand_frame {track note instrument command value : Nat}
    {loc loc1 : Locals} {p q : Player}
    (h : handleCommand track note instrument command value loc p = some (loc1, q)) :
    CommandFrame track p q := by
  cases hts : p.trackStatuses[track]? with
  | some ts => exact (handleCommand_spec hts h).1
  | none =>
    unfold handleCommand at h
    split at h
    · cases h
      exact CommandFrame.refl track p
    · rw [hts] at h
      exact absurd h (by simp)

theorem preScanPage_frame {block : Block} {track page : Nat} {s t : Locals × Player}
    (h : preScanPage block track page s = some t) : CommandFrame track s.2 t.2 := by
  obtain ⟨loc, p⟩ := s
  obtain ⟨loc1, q⟩ := t
  cases hts : p.trackStatuses[track]? with
  | some ts => exact (preScanPage_spec hts h).1
  | none =>
    unfold preScanPage at h
    dsimp only at h
    split at h
    · rw [hts] at h
      exact absurd h (by simp)
    · cases h
      exact CommandFrame.refl track p

theorem preGate_frame_any {track : Nat} {loc : Locals} {p q : Player}
    (h : preGate track loc p = some q) : CommandFrame track p q := by
  cases hts : p.trackStatuses[track]? with
  | some ts => exact (preGate_frame hts h).1
  | none =>
    unfold preGate at h
    split at h
    · rw [hts] at h
      exact absurd h (by simp)
    · cases h
      exact CommandFrame.refl track p

theorem rememberBase_frame {track : Nat} {cell : Cell} {p q : Player}
    (h : rememberBase track cell p = some q) : TrackFrame track p q := by
  unfold rememberBase at h
  split at h
  · obtain ⟨ts, _, he⟩ := Option.map_eq_some'.mp h
    subst he
    exact TrackFrame.setTrackStatus_track track p _
  · cases h
    exact TrackFrame.refl_track track p

theorem extendHold_frame {track note instrument : Nat} {p q : Player}
    (h : extendHold track note instrument p = some q) : TrackFrame track p q := by
  unfold extendHold at h
  obtain ⟨ts, _, h1⟩ := Option.bind_eq_some.mp h
  split at h1
  · obtain ⟨x, _, h2⟩ := Option.map_eq_some'.mp h1
    split at h2
    · subst h2
      exact TrackFrame.setTrackStatus_track track p _
    · subst h2
      exact TrackFrame.refl_track track p
  · cases h1
    exact TrackFrame.refl_track track p

theorem fireNote_frame {track : Nat} {cell : Cell} {hadVolume : Bool} {loc : Locals}
    {p : Player} {r : Nat × Nat × Player} (htrack : track < 256)
    (h : fireNote track cell hadVolume loc p = some r) : TrackFrame track p r.2.2 := by
  unfold fireNote at h
  split at h
  · obtain ⟨ts, _, h1⟩ := Option.bind_eq_some.mp h
    dsimp only at h1
    generalize (if cell.instrument = 0 then ((ts.instrument + 1) % 256).toNat
      else cell.instrument) = k at h1
    by_cases hk : k ≠ 0
    · rw [if_pos hk] at h1
      obtain ⟨p1, hp1, h2⟩ := Option.bind_eq_some.mp h1
      rw [Nat.mod_eq_of_lt htrack] at hp1
      have f1 := playNote_frame hp1
      split at h2
      · split at h2
        · cases h2
          exact f1
        · obtain ⟨ts1, _, he⟩ := Option.map_eq_some'.mp h2
          subst he
          exact f1.trans_track (TrackFrame.setTrackStatus_track track p1 _)
      · cases h2
        exact f1
    · rw [if_neg hk] at h1
      cases h1
      exact TrackFrame.refl_track track p
  · cases h
    exact TrackFrame.refl_track track p

/-- The processing of one track in the track loop leaves the other tracks alone. -/
theorem runTrack_frame {block : Block} {track : Nat} {p q : Player} (htrack : track < 256)
    (h : runTrack block track p = some q) : TrackFrame track p q := by
  unfold runTrack at h
  obtain ⟨ts, _, h0⟩ := Option.bind_eq_some.mp h
  obtain ⟨a, _, h1⟩ := Option.bind_eq_some.mp h0
  cases a with
  | false =>
    rw [if_neg Bool.false_ne_true] at h1
    cases h1
    exact TrackFrame.refl_track track p
  | true =>
    rw [if_pos rfl] at h1
    obtain ⟨ct, _, h2⟩ := Option.bind_eq_some.mp h1
    dsimp only at h2
    have f0 : TrackFrame track p (p.setTrackStatus track ct.2) :=
      TrackFrame.setTrackStatus_track track p _
    generalize p.setTrackStatus track ct.2 = p1 at h2 f0
    obtain ⟨s1, hs1, h3⟩ := Option.bind_eq_some.mp h2
    have f1 : TrackFrame track p1 s1.2 := by
      split at hs1
      · obtain ⟨sA, hsA, hg⟩ := Option.bind_eq_some.mp hs1
        obtain ⟨pG, hpG, he⟩ := Option.map_eq_some'.mp hg
        subst he
        have fA := loopFrom_rel (fun (a b : Locals × Player) => TrackFrame track a.2 b.2)
          (fun s => TrackFrame.refl_track track s.2) (fun _ _ _ x y => x.trans_track y)
          (preScanPage block track) (fun _ _ _ hb => (preScanPage_frame hb).toTrackFrame)
          _ _ _ _ hsA
        exact fA.trans_track (preGate_frame_any hpG).toTrackFrame
      · cases hs1
        exact TrackFrame.refl_track track p1
    obtain ⟨s2, hs2, h4⟩ := Option.bind_eq_some.mp h3
    have f2 : TrackFrame track s1.2 s2.2 := by
      split at hs2
      · cases hs2
        exact TrackFrame.refl_track track _
      · rename_i arpeggio _
        exact loopFrom_rel (fun (a b : Locals × Player) => TrackFrame track a.2 b.2)
          (fun s => TrackFrame.refl_track track s.2) (fun _ _ _ x y => x.trans_track y)
          (arpeggioCommandPage arpeggio track ct.1.note ct.1.instrument)
          (fun _ s t hb => by
            unfold arpeggioCommandPage at hb
            obtain ⟨tsx, _, hc⟩ := Option.bind_eq_some.mp hb
            exact (@handleCommand_frame _ _ _ _ _ _ t.1 _ t.2 hc).toTrackFrame)
          _ _ _ _ hs2
    obtain ⟨s3, hs3, h5⟩ := Option.bind_eq_some.mp h4
    have f3 : TrackFrame track s2.2 s3.2 :=
      loopFrom_rel (fun (a b : Locals × Player) => TrackFrame track a.2 b.2)
        (fun s => TrackFrame.refl_track track s.2) (fun _ _ _ x y => x.trans_track y)
        (blockCommandPage block track ct.1.note ct.1.instrument)
        (fun _ s t hb => by
          unfold blockCommandPage at hb
          exact (@handleCommand_frame _ _ _ _ _ _ t.1 _ t.2 hb).toTrackFrame)
        _ _ _ _ hs3
    obtain ⟨p4, hp4, h6⟩ := Option.bind_eq_some.mp h5
    obtain ⟨r, hr, h7⟩ := Option.bind_eq_some.mp h6
    exact ((((f0.trans_track f1).trans_track f2).trans_track f3).trans_track (rememberBase_frame hp4)).trans_track
      ((fireNote_frame htrack hr).trans_track (extendHold_frame h7))

/-! ### Commands that leave the sounding note alone -/

theorem Calm.refl_calm (p : Player) : Calm p p :=
  ⟨rfl, [], by simp, by simp⟩

theorem Calm.trans_calm {p q r : Player} (h1 : Calm p q) (h2 : Calm q r) : Calm p r := by
  obtain ⟨n1, e1, a1, b1⟩ := h1
  obtain ⟨n2, e2, a2, b2⟩ := h2
  refine ⟨by rw [n2, n1], e1 ++ e2, by rw [a2, a1, List.append_assoc], ?_⟩
  intro e he
  rcases List.mem_append.mp he with h | h
  · exact b1 e h
  · exact b2 e h

theorem Calm.of_eq_calm {p q : Player} (h1 : q.trackStatuses = p.trackStatuses)
    (h2 : q.midiOut = p.midiOut) : Calm p q :=
  ⟨by rw [h1], [], by simp [h2], by simp⟩

theorem Calm.emit_calm (p : Player) (track : Option Nat) (output : Int) (msg : MidiMsg)
    (h : msg.isNoteOff = false) : Calm p (p.emit track output msg) := by
  refine ⟨rfl, [⟨track, output, msg⟩], rfl, ?_⟩
  intro e he
  simp only [List.mem_singleton] at he
  subst he
  exact h

theorem Calm.cacheSet_calm {p q : Player} {i j v : Int} (h : p.cacheSet i j v = some q) :
    Calm p q := by
  unfold Player.cacheSet at h
  split at h
  · exact absurd h (by simp)
  · split at h
    · exact absurd h (by simp)
    · split at h
      · cases h
        exact Calm.of_eq_calm rfl rfl
      · exact absurd h (by simp)

theorem Calm.setTrackStatus_calm (track : Nat) (p : Player) (ts ts1 : TrackStatus)
    (hts : p.trackStatuses[track]? = some ts) (hn : ts1.note = ts.note) :
    Calm p (p.setTrackStatus track ts1) :=
  ⟨map_set_of_eq TrackStatus.note p.trackStatuses track ts ts1 hts hn, [], by
    simp [Player.setTrackStatus], by simp⟩

theorem knob_calm {track : Nat} {output mi ch slot : Int} {msg : Int → MidiMsg} {value : Nat}
    {p q : Player} (hmsg : ∀ x, (msg x).isNoteOff = false)
    (h : knob track output mi ch slot msg value p = some q) : Calm p q := by
  unfold knob at h
  split at h
  · split at h
    · split at h
      · exact (Calm.emit_calm p _ output _ (hmsg _)).trans_calm (Calm.cacheSet_calm h)
      · cases h
        exact Calm.refl_calm p
    · split at h
      · obtain ⟨c, _, hc⟩ := Option.map_eq_some'.mp h
        cases hc
        exact Calm.emit_calm p _ output _ (hmsg _)
      · exact (Calm.emit_calm p _ output _ (hmsg _)).trans_calm (Calm.cacheSet_calm h)
  · cases h
    exact Calm.refl_calm p

theorem handleVelocity_calm {track note value : Nat} {output mi ch : Int} {ts : TrackStatus}
    {loc loc1 : Locals} {p q : Player} (hq : note ≠ 0 ∨ value ≠ 0)
    (h : handleVelocity track note value output mi ch ts loc p = some (loc1, q)) :
    Calm p q := by
  unfold handleVelocity at h
  split at h
  · split at h
    · obtain ⟨p1, hp1, he⟩ := Option.map_eq_some'.mp h
      cases he
      exact Calm.cacheSet_calm hp1
    · cases h
      exact Calm.refl_calm p
  · rename_i hn
    have hv : value ≠ 0 := by
      rcases hq with h1 | h1
      · exact absurd h1 hn
      · exact h1
    split at h
    · split at h
      · split at h
        · split at h
          · obtain ⟨p1, hp1, he⟩ := Option.map_eq_some'.mp h
            cases he
            exact (Calm.emit_calm p _ output _ (by rfl)).trans_calm (Calm.cacheSet_calm hp1)
          · rename_i h0
            exact absurd (Nat.pos_of_ne_zero hv) h0
        · cases h
          exact Calm.refl_calm p
      · split at h
        · obtain ⟨c, _, he⟩ := Option.map_eq_some'.mp h
          cases he
          exact Calm.emit_calm p _ output _ (by rfl)
        · obtain ⟨p1, hp1, he⟩ := Option.map_eq_some'.mp h
          cases he
          exact (Calm.emit_calm p _ output _ (by rfl)).trans_calm (Calm.cacheSet_calm hp1)
    · cases h
      exact Calm.refl_calm p

theorem handleTrackVolume_calm {track value : Nat} {p q : Player}
    (h : handleTrackVolume track value p = some q) : Calm p q := by
  unfold handleTrackVolume at h
  split at h
  · split at h
    · obtain ⟨t, _, he⟩ := Option.map_eq_some'.mp h
      cases he
      exact Calm.of_eq_calm rfl rfl
    · cases h
      exact Calm.refl_calm p
  · obtain ⟨t, _, he⟩ := Option.map_eq_some'.mp h
    dsimp only at he
    split at he
    · cases he
      exact Calm.of_eq_calm rfl rfl
    · cases he
      exact Calm.of_eq_calm rfl rfl

theorem handleInstrumentVolume_calm {track instrument value : Nat} {ts : TrackStatus}
    {p q : Player} (h : handleInstrumentVolume track instrument value ts p = some q) :
    Calm p q := by
  unfold handleInstrumentVolume at h
  dsimp only at h
  generalize toChar (if instrument ≠ 0 then (instrument : Int) - 1 else ts.instrument) = ti at h
  cases hi : p.song.instrument ti with
  | none =>
    rw [hi] at h
    cases h
    exact Calm.refl_calm p
  | some instr =>
    rw [hi] at h
    dsimp only at h
    by_cases c1 : value < 0x80
    · rw [if_pos c1] at h
      by_cases c2 : p.tick = 0
      · rw [if_pos c2] at h
        cases h
        exact Calm.of_eq_calm rfl rfl
      · rw [if_neg c2] at h
        cases h
        exact Calm.refl_calm p
    · rw [if_neg c1] at h
      by_cases c3 : p.tick < tplMinus1 p.song.ticksPerLine
      · rw [if_pos c3] at h
        obtain ⟨t, _, he⟩ := Option.map_eq_some'.mp h
        cases he
        exact Calm.of_eq_calm rfl rfl
      · rw [if_neg c3] at h
        cases h
        exact Calm.of_eq_calm rfl rfl

theorem handleSwitch_calm {track note instrument command value : Nat} {output mi ch : Int}
    {ts : TrackStatus} {loc loc1 : Locals} {p q : Player}
    (hq : command = CommandVelocity → note ≠ 0 ∨ value ≠ 0)
    (h : handleSwitch track note instrument command value output mi ch ts loc p = some (loc1, q)) :
    Calm p q := by
  unfold handleSwitch at h
  by_cases c1 : command = CommandPitchWheel
  · rw [if_pos c1] at h
    obtain ⟨q1, hq1, he⟩ := Option.map_eq_some'.mp h
    cases he
    exact knob_calm (fun _ => by rfl) hq1
  rw [if_neg c1] at h
  by_cases c2 : command = CommandProgramChange
  · rw [if_pos c2] at h
    split at h
    · cases h
      exact Calm.emit_calm p _ output _ (by rfl)
    · cases h
      exact Calm.refl_calm p
  rw [if_neg c2] at h
  by_cases c3 : command = CommandEndBlock
  · rw [if_pos c3] at h
    split at h
    · cases h
      exact Calm.of_eq_calm rfl rfl
    · cases h
      exact Calm.refl_calm p
  rw [if_neg c3] at h
  by_cases c4 : command = CommandPlayseqPosition
  · rw [if_pos c4] at h
    split at h
    · cases h
      exact Calm.of_eq_calm rfl rfl
    · cases h
      exact Calm.refl_calm p
  rw [if_neg c4] at h
  by_cases c5 : command = CommandSendMessage
  · rw [if_pos c5] at h
    split at h
    · obtain ⟨m, _, he⟩ := Option.map_eq_some'.mp h
      cases he
      exact Calm.emit_calm p _ output _ (by rfl)
    · cases h
      exact Calm.refl_calm p
  rw [if_neg c5] at h
  by_cases c6 : command = CommandHold
  · rw [if_pos c6] at h
    cases h
    exact Calm.refl_calm p
  rw [if_neg c6] at h
  by_cases c7 : command = CommandRetrigger
  · rw [if_pos c7] at h
    cases h
    exact Calm.refl_calm p
  rw [if_neg c7] at h
  by_cases c8 : command = CommandDelay
  · rw [if_pos c8] at h
    cases h
    exact Calm.refl_calm p
  rw [if_neg c8] at h
  by_cases c9 : command = CommandVelocity
  · rw [if_pos c9] at h
    exact handleVelocity_calm (hq c9) h
  rw [if_neg c9] at h
  by_cases c10 : command = CommandChannelPressure
  · rw [if_pos c10] at h
    obtain ⟨q1, hq1, he⟩ := Option.map_eq_some'.mp h
    cases he
    exact knob_calm (fun _ => by rfl) hq1
  rw [if_neg c10] at h
  by_cases c11 : command = CommandTicksPerLine
  · rw [if_pos c11] at h
    split at h
    · split at h
      · cases h
        exact Calm.of_eq_calm rfl rfl
      · cases h
        exact Calm.refl_calm p
    · cases h
      exact Calm.of_eq_calm rfl rfl
  rw [if_neg c11] at h
  by_cases c12 : command = CommandTempo
  · rw [if_pos c12] at h
    split at h
    · split at h
      · cases h
        exact Calm.of_eq_calm rfl rfl
      · cases h
        exact Calm.refl_calm p
    · cases h
      exact (Calm.of_eq_calm (q := { p with song := p.song.setTempo value }) rfl rfl).trans_calm
        (Calm.emit_calm _ _ output _ (by rfl))
  rw [if_neg c12] at h
  by_cases c13 : command = CommandTrackVolume
  · rw [if_pos c13] at h
    obtain ⟨q1, hq1, he⟩ := Option.map_eq_some'.mp h
    cases he
    exact handleTrackVolume_calm hq1
  rw [if_neg c13] at h
  by_cases c14 : command = CommandInstrumentVolume
  · rw [if_pos c14] at h
    obtain ⟨q1, hq1, he⟩ := Option.map_eq_some'.mp h
    cases he
    exact handleInstrumentVolume_calm hq1
  rw [if_neg c14] at h
  split at h
  · obtain ⟨q1, hq1, he⟩ := Option.map_eq_some'.mp h
    cases he
    exact knob_calm (fun _ => by rfl) hq1
  · cases h
    exact Calm.refl_calm p

/-- A command other than Velocity with value 0 on a cell without note neither changes the
note of the track's status nor makes a note-off. -/
theorem handleCommand_calm {track note instrument command value : Nat}
    {loc loc1 : Locals} {p q : Player}
    (hq : ¬ (note = 0 ∧ command = CommandVelocity ∧ value = 0))
    (h : handleCommand track note instrument command value loc p = some (loc1, q)) :
    Calm p q := by
  unfold handleCommand at h
  split at h
  · cases h
    exact Calm.refl_calm p
  · obtain ⟨ts, hts, h1⟩ := Option.bind_eq_some.mp h
    obtain ⟨ic, _, h2⟩ := Option.bind_eq_some.mp h1
    dsimp only at h2
    have f1 : Calm p (rememberCommand track command ts p) := by
      unfold rememberCommand
      split
      · exact Calm.refl_calm p
      · exact Calm.setTrackStatus_calm track p ts _ hts rfl
    refine f1.trans_calm (handleSwitch_calm ?_ h2)
    intro he
    by_cases hn : note = 0
    · right
      intro hv
      unfold effectiveCommand at he
      split at he
      · rename_i hc
        rw [if_neg (by simpa using hv)] at he
        rw [hc] at he
        exact absurd he (by decide)
      · exact hq ⟨hn, he, hv⟩
    · exact Or.inl hn

/-! ### A quiet cell -/

theorem loopFrom_inv {σ : Type} (I : σ → Prop) (body : Nat → σ → Option σ) :
    ∀ (n i : Nat) (s t : σ),
      (∀ j a b, i ≤ j → j < i + n → I a → body j a = some b → I b) →
      I s → loopFrom body n i s = some t → I t := by
  intro n
  induction n with
  | zero =>
    intro i s t _ hI h
    simp only [loopFrom] at h
    cases h
    exact hI
  | succ n ih =>
    intro i s t hbody hI h
    simp only [loopFrom] at h
    obtain ⟨m, hm, h1⟩ := Option.bind_eq_some.mp h
    refine ih (i + 1) m t ?_ (hbody i s m (Nat.le_refl i) (by omega) hI hm) h1
    intro j a b h1 h2
    exact hbody j a b (by omega) (by omega)

theorem Sounding.of_frames {track : Nat} {p q : Player} {mi ch n hold : Int}
    (hf : CommandFrame track p q) (hc : Calm p q) (hs : Sounding track p mi ch n hold) :
    Sounding track q mi ch n hold := by
  obtain ⟨ts, hts, a1, a2, a3, a4⟩ := hs
  obtain ⟨ts1, hts1, _, b2, b3, _, b5, _⟩ := hf.own ts hts
  have hn := map_eq_getElem? hc.1 track
  rw [hts, hts1] at hn
  simp only [Option.map_some', Option.some.injEq] at hn
  exact ⟨ts1, hts1, by rw [b3, a1], by rw [b2, a2], by rw [hn, a3], by rw [b5, a4]⟩

theorem rememberBase_quiet {track : Nat} {cell : Cell} {p q : Player} {mi ch n hold : Int}
    (hs : Sounding track p mi ch n hold) (h : rememberBase track cell p = some q) :
    Sounding track q mi ch n hold ∧ Calm p q ∧ q.tick = p.tick := by
  obtain ⟨ts3, hts3, d1, d2, d3, d4⟩ := hs
  unfold rememberBase at h
  split at h
  · rw [hts3] at h
    simp only [Option.map_some', Option.some.injEq] at h
    subst h
    exact ⟨⟨_, setTrackStatus_get _ hts3, d1, d2, d3, d4⟩,
      Calm.setTrackStatus_calm track _ ts3 _ hts3 rfl, rfl⟩
  · cases h
    exact ⟨⟨ts3, hts3, d1, d2, d3, d4⟩, Calm.refl_calm _, rfl⟩

/-- The end of the track loop for a cell that fires no note and does not extend the hold
time: base note, "is there a note to play?", "first tick, no note". -/
theorem runTrack_tail_quiet {track : Nat} {cell : Cell} {hadVolume : Bool} {loc : Locals}
    {p q : Player} {mi ch n hold : Int}
    (hs : Sounding track p mi ch n hold)
    (hfire : ¬ (cell.note ≠ 0 ∧ shouldPlayNote p.tick loc.delay loc.repeat_ = true))
    (hext : ¬ (p.tick = 0 ∧ cell.note = 0 ∧ cell.instrument > 0))
    (h : ((rememberBase track cell p).bind fun p4 =>
      (fireNote track cell hadVolume loc p4).bind fun r =>
        extendHold track r.1 r.2.1 r.2.2) = some q) :
    Sounding track q mi ch n hold ∧ Calm p q := by
  obtain ⟨p4, hp4, h6⟩ := Option.bind_eq_some.mp h
  obtain ⟨s4, k4, t4⟩ := rememberBase_quiet hs hp4
  obtain ⟨r, hr, h7⟩ := Option.bind_eq_some.mp h6
  rw [fireNote_closed (by rw [t4]; exact hfire)] at hr
  cases hr
  unfold extendHold at h7
  obtain ⟨ts4, _, h8⟩ := Option.bind_eq_some.mp h7
  rw [if_neg (fun hh => hext ⟨by rw [← t4]; exact hh.1, hh.2.1, hh.2.2.1⟩)] at h8
  cases h8
  exact ⟨s4, k4⟩

/-! ### The cell that fires the note -/

/-- `playNote` with `postpone` for an audible track and an instrument that exists: the
status it leaves and the note-on it queues. -/
theorem playNote_fired {k : Int} {note vol track : Nat} {p : Player} {ts : TrackStatus}
    {instr : Instrument} {t : Track}
    (haud : p.audible track = some true) (hts : p.trackStatuses[track]? = some ts)
    (hin : p.song.instrument k = some instr) (ht : p.song.track track = some t) :
    ∃ q tsq, playNote k note vol track true p = some q ∧ q.song = p.song ∧ q.tick = p.tick ∧
      q.trackStatuses[track]? = some tsq ∧
      tsq.volume = resolveVolume instr.defaultVelocity vol t.volume p.song.masterVolume ∧
      tsq.midiInterface = toShort instr.midiInterface ∧ tsq.midiChannel = instr.midiChannel ∧
      tsq.note =
        (if resolveVolume instr.defaultVelocity vol t.volume p.song.masterVolume ≠ 0 then
          (note : Int) + instr.transpose else -1) ∧
      q.postponedNotes =
        (if resolveVolume instr.defaultVelocity vol t.volume p.song.masterVolume ≠ 0 then
          p.postponedNotes ++ [⟨track, instr.midiInterface, instr.midiChannel,
            (note : Int) + instr.transpose,
            resolveVolume instr.defaultVelocity vol t.volume p.song.masterVolume⟩]
         else p.postponedNotes) := by
  unfold playNote
  rw [haud]
  dsimp only [Option.bind]
  rw [if_pos rfl, hts]
  dsimp only
  have h1 : (if ts.note ≠ -1 then
        p.emit (some track) ts.midiInterface (MidiMsg.noteOff ts.midiChannel ts.note 127)
      else p).song = p.song := by
    split <;> rfl
  have h2 : (if ts.note ≠ -1 then
        p.emit (some track) ts.midiInterface (MidiMsg.noteOff ts.midiChannel ts.note 127)
      else p).trackStatuses = p.trackStatuses := by
    split <;> rfl
  have h3 : (if ts.note ≠ -1 then
        p.emit (some track) ts.midiInterface (MidiMsg.noteOff ts.midiChannel ts.note 127)
      else p).postponedNotes = p.postponedNotes := by
    split <;> rfl
  have h4 : (if ts.note ≠ -1 then
        p.emit (some track) ts.midiInterface (MidiMsg.noteOff ts.midiChannel ts.note 127)
      else p).tick = p.tick := by
    split <;> rfl
  generalize (if ts.note ≠ -1 then
        p.emit (some track) ts.midiInterface (MidiMsg.noteOff ts.midiChannel ts.note 127)
      else p) = p1 at h1 h2 h3 h4 ⊢
  generalize (if ts.note ≠ -1 then { ts with note := -1 } else ts : TrackStatus) = tsa
  rw [h1, hin]
  simp only [ht, h1]
  have hts1 : p1.trackStatuses[track]? = some ts := by rw [h2]; exact hts
  by_cases hv : resolveVolume instr.defaultVelocity vol t.volume p.song.masterVolume ≠ 0
  · simp only [hv, ne_eq, not_false_eq_true, if_true]
    refine ⟨_, TrackStatus.mk (toUInt k) tsa.line tsa.previousCommand
        ((note : Int) + instr.transpose) instr.midiChannel (toShort instr.midiInterface)
        (resolveVolume instr.defaultVelocity vol t.volume p.song.masterVolume)
        (if instr.hold > 0 then instr.hold else -1) tsa.baseNote,
      rfl, h1, h4, ?st1, ?a1, ?b1, ?c1, ?d1, ?pn1⟩
    case a1 => dsimp only
    case b1 => dsimp only
    case c1 => dsimp only
    case d1 => dsimp only
    case st1 => exact setTrackStatus_get _ hts1
    case pn1 =>
      show p1.postponedNotes ++ _ = _
      rw [h3]
  · simp only [hv, if_false]
    refine ⟨_, TrackStatus.mk (toUInt k) tsa.line tsa.previousCommand
        (-1) instr.midiChannel (toShort instr.midiInterface)
        (resolveVolume instr.defaultVelocity vol t.volume p.song.masterVolume)
        (if instr.hold > 0 then instr.hold else -1) tsa.baseNote,
      rfl, h1, h4, ?st2, ?a2, ?b2, ?c2, ?d2, h3⟩
    case a2 => dsimp only
    case b2 => dsimp only
    case c2 => dsimp only
    case d2 => dsimp only
    case st2 => exact setTrackStatus_get _ hts1

theorem instrument_index {s : Song} {k : Nat} {x : Instrument} (hk : k ≠ 0) (hlt : k < 256)
    (h : s.instrument ((k : Int) - 1) = some x) : k ≤ s.instruments.length := by
  unfold Song.instrument at h
  have e : toUInt ((k : Int) - 1) = k - 1 := by
    unfold toUInt
    omega
  rw [e] at h
  have := lt_length_of_getElem? h
  omega

theorem fixed_fields {a b : Instrument} (h : a.fixed = b.fixed) :
    a.hold = b.hold ∧ a.midiInterface = b.midiInterface ∧ a.midiChannel = b.midiChannel ∧
      a.transpose = b.transpose ∧ a.arpeggio = b.arpeggio := by
  unfold Instrument.fixed at h
  cases a
  cases b
  simp only [Instrument.mk.injEq] at h
  simp only [h, and_self]

theorem line_reset (b : Prop) [Decidable b] (x : TrackStatus) :
    (if b then { x with line := -1 } else x) = { x with line := if b then -1 else x.line } := by
  split <;> rfl

theorem extendHold_skip {track note instrument : Nat} {p : Player}
    (hts : ∃ ts, p.trackStatuses[track]? = some ts) (hn : ¬ (p.tick = 0 ∧ note = 0)) :
    extendHold track note instrument p = some p := by
  obtain ⟨ts, hts⟩ := hts
  unfold extendHold
  rw [hts]
  dsimp only [Option.bind]
  rw [if_neg (fun hh => hn ⟨hh.1, hh.2.1⟩)]

/-- The note is played: the status `fireNote` leaves and the note-on it queues, for an
audible track and an instrument that exists. -/
theorem fireNote_fired {track : Nat} {cell : Cell} {hadVolume : Bool} {loc : Locals}
    {p : Player} {ts : TrackStatus} {instr : Instrument} {r : Nat × Nat × Player} {k : Nat}
    (hn : cell.note ≠ 0) (hg : shouldPlayNote p.tick loc.delay loc.repeat_ = true)
    (htrack : track < 256)
    (hts : p.trackStatuses[track]? = some ts)
    (haud : p.audible track = some true)
    (hkk : (if cell.instrument = 0 then ((ts.instrument + 1) % 256).toNat
            else cell.instrument) = k)
    (hk : k ≠ 0) (hklt : k < 256)
    (hin : p.song.instrument ((k : Int) - 1) = some instr)
    (h : fireNote track cell hadVolume loc p = some r) :
    r.1 = cell.note - 1 ∧ r.2.2.tick = p.tick ∧
    ∃ tsq, r.2.2.trackStatuses[track]? = some tsq ∧
      tsq.midiInterface = toShort instr.midiInterface ∧ tsq.midiChannel = instr.midiChannel ∧
      tsq.hold = (if (if loc.hold = -1 then (instr.hold : Int) else loc.hold) = 0 then -1
                  else (if loc.hold = -1 then (instr.hold : Int) else loc.hold)) ∧
      tsq.note = (if tsq.volume ≠ 0 then ((cell.note - 1 : Nat) : Int) + instr.transpose
                  else -1) ∧
      r.2.2.postponedNotes = (if tsq.volume ≠ 0 then
          p.postponedNotes ++ [⟨track, instr.midiInterface, instr.midiChannel,
            ((cell.note - 1 : Nat) : Int) + instr.transpose, tsq.volume⟩]
        else p.postponedNotes) := by
  unfold fireNote at h
  rw [if_pos ⟨hn, hg⟩, hts] at h
  dsimp only [Option.bind] at h
  rw [hkk] at h
  rw [if_pos hk, Nat.mod_eq_of_lt htrack] at h
  obtain ⟨t, ht⟩ := audible_track haud
  obtain ⟨q1, tsq, hq1, hsong, hq1t, htsq, v1, v2, v3, v4, v5⟩ :=
    @playNote_fired _ (cell.note - 1) (loc.volume % 256) _ _ _ _ _ haud hts hin ht
  rw [hq1] at h
  dsimp only [Option.bind] at h
  have hle : k ≤ q1.song.instruments.length := by
    rw [hsong]
    exact instrument_index hk hklt hin
  rw [if_pos hle, hsong, hin] at h
  dsimp only at h
  rw [htsq] at h
  simp only [Option.map_some', Option.some.injEq] at h
  by_cases hb : hadVolume = true ∧ loc.volume = 0
  · rw [if_pos hb] at h
    subst h
    refine ⟨rfl, hq1t, _, setTrackStatus_get _ htsq, v2, v3, rfl, ?_, ?_⟩
    · dsimp only
      rw [v4, v1]
    · dsimp only
      show q1.postponedNotes = _
      rw [v5, v1]
  · rw [if_neg hb] at h
    subst h
    refine ⟨rfl, hq1t, _, setTrackStatus_get _ htsq, v2, v3, rfl, ?_, ?_⟩
    · dsimp only
      rw [v4, v1]
    · dsimp only
      show q1.postponedNotes = _
      rw [v5, v1]

theorem slip_excluded {t rt n cn r1 : Nat} (hslip : ¬ (t = 0 ∧ n = 1)) (ht : rt = t)
    (hr : r1 = cn - 1) (hc : cn = n) (hn : n ≠ 0) : ¬ (rt = 0 ∧ r1 = 0) := by
  intro hh
  apply hslip
  omega

theorem preGate_closed {track : Nat} {loc : Locals} {p : Player}
    (h : shouldPlayNote p.tick loc.delay loc.repeat_ = false) :
    preGate track loc p = some p := by
  unfold preGate
  rw [h]
  rfl

theorem rememberCommand_calm (track command : Nat) (ts : TrackStatus) (p : Player)
    (hts : p.trackStatuses[track]? = some ts) : Calm p (rememberCommand track command ts p) := by
  unfold rememberCommand
  split
  · exact Calm.refl_calm p
  · exact Calm.setTrackStatus_calm track p ts _ hts rfl

theorem preScanPage_calm {block : Block} {track page : Nat} {s t : Locals × Player}
    (h : preScanPage block track page s = some t) : Calm s.2 t.2 := by
  unfold preScanPage at h
  dsimp only at h
  split at h
  · obtain ⟨ts, hts, he⟩ := Option.map_eq_some'.mp h
    have k := rememberCommand_calm track (block.command s.2.line_ track page % 256) ts s.2 hts
    split at he
    · subst he
      exact k
    · split at he
      · subst he
        exact k
      · subst he
        exact k
  · cases h
    exact Calm.refl_calm _

/-! ### The loops over the command pages of a cell -/

theorem statuses_steps (track : Nat) :
    CommandSteps track (fun a b => b.trackStatuses = a.trackStatuses) where
  same := fun _ => rfl
  chain := fun _ _ _ h1 h2 => h2.trans h1
  out := fun _ _ _ => rfl
  cache := fun _ _ _ _ _ h => cacheSet_statuses h
  latch := fun _ _ _ => rfl
  tempo := fun _ _ => rfl
  trackVolume := fun _ _ _ => rfl
  defaultVelocity := fun _ _ _ => rfl

/-- The `switch` of `handleCommand` leaves the track statuses, unless it interprets a
Velocity command with value 0 for a cell without note. -/
theorem handleSwitch_statuses {track note instrument command value : Nat}
    {output mi ch : Int} {ts : TrackStatus} {loc loc1 : Locals} {p q : Player}
    (hq : ¬ (command = CommandVelocity ∧ note = 0 ∧ value = 0))
    (h : handleSwitch track note instrument command value output mi ch ts loc p
      = some (loc1, q)) : q.trackStatuses = p.trackStatuses :=
  handleSwitch_steps (statuses_steps track)
    (fun _ h1 h2 h3 => absurd ⟨h1, h2, h3⟩ hq) (fun _ _ _ => rfl) h

theorem previousAfter_empty (previous : Nat) (cv : Nat × Nat) (h : cv.1 = 0 ∧ cv.2 = 0) :
    previousAfter previous cv = previous := by
  unfold previousAfter
  rw [if_pos (Or.inl h)]

/-- One interpretation of a command page by `handleCommand`, apart from the Velocity
command with value 0 of a cell without note: a frame, no note-off, the previous command of
the track and the locals. -/
theorem handleCommand_page {track note instrument command value : Nat} {ts : TrackStatus}
    {loc loc1 : Locals} {p q : Player}
    (hts : p.trackStatuses[track]? = some ts)
    (hq : ¬ (note = 0 ∧ command = CommandVelocity ∧ value = 0))
    (h : handleCommand track note instrument command value loc p = some (loc1, q)) :
    CommandFrame track p q ∧ Calm p q ∧
      q.trackStatuses[track]? = some
        { ts with previousCommand := previousAfter ts.previousCommand (command, value) } ∧
      loc1 = (localsStep note (ts.previousCommand, loc) (command, value)).2 := by
  obtain ⟨f, hl⟩ := handleCommand_spec hts h
  have k := handleCommand_calm hq h
  refine ⟨f, k, ?_, ?_⟩
  · unfold handleCommand at h
    by_cases h0 : command = 0 ∧ value = 0
    · rw [if_pos h0] at h
      cases h
      rw [previousAfter_empty _ _ h0]
      exact hts
    · rw [if_neg h0, hts] at h
      simp only [Option.bind] at h
      split at h
      · exact absurd h (by simp)
      · rename_i ic hic
        have hs := handleSwitch_statuses (fun hh => by
          apply hq
          refine ⟨hh.2.1, ?_, hh.2.2⟩
          have he := hh.1
          rw [effectiveCommand_eq] at he
          unfold commandOf at he
          rw [if_neg (fun h1 => h1.2 hh.2.2)] at he
          exact he) h
        rw [hs]
        obtain ⟨_, e1⟩ := rememberCommand_frame track command ts p hts
        rw [e1]
        unfold previousAfter
        by_cases hc : command = CommandPreviousCommandValue
        · rw [if_pos hc, if_pos (Or.inr hc)]
        · rw [if_neg hc, if_neg (fun hh => hh.elim h0 hc)]
  · rw [hl]
    unfold localsStep
    dsimp only
    rw [effectiveCommand_eq]

/-- A loop that interprets the command pages `pageAt i`, `pageAt (i + 1)`, ... with
`handleCommand`, none of them a Velocity command with value 0 when the cell has no note:
a frame, no note-off, the previous command of the track and the locals. -/
theorem commandLoop_spec {track note instrument line0 : Nat} {l0 : Int}
    (pageAt : Nat → Nat × Nat)
    (body : Nat → Locals × Player → Option (Locals × Player))
    (hbody : ∀ j (s : Locals × Player) (ts : TrackStatus), s.2.line_ = line0 →
      s.2.trackStatuses[track]? = some ts → ts.line = l0 →
      body j s = handleCommand track note instrument (pageAt j).1 (pageAt j).2 s.1 s.2) :
    ∀ (n i : Nat) (loc loc1 : Locals) (p q : Player) (ts : TrackStatus),
      p.line_ = line0 → p.trackStatuses[track]? = some ts → ts.line = l0 →
      (∀ j, i ≤ j → j < i + n →
        ¬ (note = 0 ∧ (pageAt j).1 = CommandVelocity ∧ (pageAt j).2 = 0)) →
      loopFrom body n i (loc, p) = some (loc1, q) →
      CommandFrame track p q ∧ Calm p q ∧
        q.trackStatuses[track]? = some
          { ts with previousCommand :=
              ((List.range' i n).map pageAt).foldl previousAfter ts.previousCommand } ∧
        loc1 = (((List.range' i n).map pageAt).foldl (localsStep note)
          (ts.previousCommand, loc)).2 := by
  intro n
  induction n with
  | zero =>
    intro i loc loc1 p q ts _ hts _ _ h
    simp only [loopFrom, Option.some.injEq, Prod.mk.injEq] at h
    obtain ⟨h1, h2⟩ := h
    subst h1 h2
    exact ⟨CommandFrame.refl track p, Calm.refl_calm p, hts, rfl⟩
  | succ n ih =>
    intro i loc loc1 p q ts hline hts hl hq h
    simp only [loopFrom] at h
    obtain ⟨m, hm, h1⟩ := Option.bind_eq_some.mp h
    obtain ⟨locm, pm⟩ := m
    rw [hbody i (loc, p) ts hline hts hl] at hm
    obtain ⟨f1, k1, s1, e1⟩ := handleCommand_page hts (hq i (Nat.le_refl i) (by omega)) hm
    obtain ⟨f2, k2, s2, e2⟩ := ih (i + 1) locm loc1 pm q _ (f1.line_.trans hline) s1 hl
      (fun j hj1 hj2 => hq j (by omega) (by omega)) h1
    refine ⟨f1.trans f2, k1.trans_calm k2, ?_, ?_⟩
    · rw [s2]
      simp only [List.range'_succ, List.map_cons, List.foldl_cons]
    · rw [e2, e1]
      simp only [List.range'_succ, List.map_cons, List.foldl_cons]
      rfl

/-- The loop of `handleCommand` over the command pages of the cell of a block. -/
theorem blockLoop_spec {block : Block} {track note instrument : Nat} {loc loc1 : Locals}
    {p q : Player} {ts : TrackStatus}
    (hts : p.trackStatuses[track]? = some ts)
    (hq : note = 0 → ∀ cv ∈ block.pages p.line_ track,
      ¬ (cv.1 = CommandVelocity ∧ cv.2 = 0))
    (h : loopFrom (blockCommandPage block track note instrument) block.commandPages 0 (loc, p)
      = some (loc1, q)) :
    CommandFrame track p q ∧ Calm p q ∧
      q.trackStatuses[track]? = some
        { ts with previousCommand :=
            (block.pages p.line_ track).foldl previousAfter ts.previousCommand } ∧
      loc1 = ((block.pages p.line_ track).foldl (localsStep note) (ts.previousCommand, loc)).2 := by
  rw [pages_range'] at hq ⊢
  refine @commandLoop_spec _ _ _ p.line_ ts.line
    (fun page => (block.command p.line_ track page % 256,
      block.commandValue p.line_ track page % 256))
    (blockCommandPage block track note instrument)
    (fun j s _ hline _ _ => by
      unfold blockCommandPage
      rw [hline]) block.commandPages 0 loc loc1 p q ts rfl hts rfl ?_ h
  intro j _ hj hh
  exact hq hh.1 _ (List.mem_map.mpr ⟨j, List.mem_range'_1.mpr ⟨by omega, by omega⟩, rfl⟩)
    ⟨hh.2.1, hh.2.2⟩

/-- The loop of `handleCommand` over the command pages of the arpeggio line. -/
theorem arpeggioLoop_spec {arpeggio : Block} {track note instrument : Nat} {loc loc1 : Locals}
    {p q : Player} {ts : TrackStatus}
    (hts : p.trackStatuses[track]? = some ts)
    (hq : note = 0 → ∀ cv ∈ arpeggio.pages (toUInt ts.line) 0,
      ¬ (cv.1 = CommandVelocity ∧ cv.2 = 0))
    (h : loopFrom (arpeggioCommandPage arpeggio track note instrument) arpeggio.commandPages 0
      (loc, p) = some (loc1, q)) :
    CommandFrame track p q ∧ Calm p q ∧
      q.trackStatuses[track]? = some
        { ts with previousCommand :=
            (arpeggio.pages (toUInt ts.line) 0).foldl previousAfter ts.previousCommand } ∧
      loc1 = ((arpeggio.pages (toUInt ts.line) 0).foldl (localsStep note)
        (ts.previousCommand, loc)).2 := by
  rw [pages_range'] at hq ⊢
  refine @commandLoop_spec _ _ _ p.line_ ts.line
    (fun page => (arpeggio.command (toUInt ts.line) 0 page % 256,
      arpeggio.commandValue (toUInt ts.line) 0 page % 256))
    (arpeggioCommandPage arpeggio track note instrument)
    (fun j s tsx _ hs hl => by
      unfold arpeggioCommandPage
      rw [hs]
      dsimp only [Option.bind]
      rw [hl]) arpeggio.commandPages 0 loc loc1 p q ts rfl hts rfl ?_ h
  intro j _ hj hh
  exact hq hh.1 _ (List.mem_map.mpr ⟨j, List.mem_range'_1.mpr ⟨by omega, by omega⟩, rfl⟩)
    ⟨hh.2.1, hh.2.2⟩

/-- The scan for Retrigger and Delay commands over the command pages of the cell: a frame,
no note-off, the previous command of the track and the locals. -/
theorem scanLoop_spec {block : Block} {track : Nat} :
    ∀ (n i : Nat) (loc loc1 : Locals) (p q : Player) (ts : TrackStatus),
      p.trackStatuses[track]? = some ts →
      loopFrom (preScanPage block track) n i (loc, p) = some (loc1, q) →
      CommandFrame track p q ∧ Calm p q ∧
        q.trackStatuses[track]? = some
          { ts with previousCommand :=
              (((List.range' i n).map fun page =>
                (block.command p.line_ track page % 256,
                  block.commandValue p.line_ track page % 256)).foldl previousAfter
                ts.previousCommand) } ∧
        loc1 = (((List.range' i n).map fun page =>
                (block.command p.line_ track page % 256,
                  block.commandValue p.line_ track page % 256)).foldl scanStep
          (ts.previousCommand, loc)).2 := by
  intro n
  induction n with
  | zero =>
    intro i loc loc1 p q ts hts h
    simp only [loopFrom, Option.some.injEq, Prod.mk.injEq] at h
    obtain ⟨h1, h2⟩ := h
    subst h1 h2
    exact ⟨CommandFrame.refl track p, Calm.refl_calm p, hts, rfl⟩
  | succ n ih =>
    intro i loc loc1 p q ts hts h
    simp only [loopFrom] at h
    obtain ⟨m, hm, h1⟩ := Option.bind_eq_some.mp h
    obtain ⟨locm, pm⟩ := m
    obtain ⟨f1, s1, e1⟩ := preScanPage_spec hts hm
    have k1 : Calm p pm := preScanPage_calm hm
    have s1' : pm.trackStatuses[track]? = some
        { ts with
          previousCommand := previousAfter ts.previousCommand
            (block.command p.line_ track i % 256, block.commandValue p.line_ track i % 256) } := by
      rw [s1]
      unfold previousAfter
      dsimp only
      by_cases hcv : block.command p.line_ track i % 256 ≠ 0
          ∨ block.commandValue p.line_ track i % 256 ≠ 0
      · rw [if_pos hcv]
        by_cases hc : block.command p.line_ track i % 256 = CommandPreviousCommandValue
        · rw [if_pos hc, if_pos (Or.inr hc)]
        · rw [if_neg hc, if_neg (fun hh => hh.elim (fun h0 => hcv.elim (fun a => a h0.1)
            (fun a => a h0.2)) hc)]
      · rw [if_neg hcv, if_pos]
        left
        constructor
        · by_contra hc
          exact hcv (Or.inl hc)
        · by_contra hc
          exact hcv (Or.inr hc)
    have e1' : locm = (scanStep (ts.previousCommand, loc)
        (block.command p.line_ track i % 256, block.commandValue p.line_ track i % 256)).2 := by
      rw [e1]
      unfold scanStep
      dsimp only
      rw [effectiveCommand_eq]
    obtain ⟨f2, k2, s2, e2⟩ := ih (i + 1) locm loc1 pm q _ s1' h1
    rw [f1.line_] at s2 e2
    refine ⟨f1.trans f2, k1.trans_calm k2, ?_, ?_⟩
    · rw [s2]
      simp only [List.range'_succ, List.map_cons, List.foldl_cons]
    · rw [e2, e1']
      simp only [List.range'_succ, List.map_cons, List.foldl_cons]
      rfl
/-! ## The retrigger/delay gate -/

/-- The delay and repeat with which the firing test is made for a cell that resolves a
note on a track whose instrument has no arpeggio: those of the cell's pages. -/
theorem gate_after_pages (note : Nat) (pages : List (Nat × Nat))
    (hv : ∀ cv ∈ pages, cv.2 < 256) (previous : Nat) (locA locC : Locals) (prevG : Nat)
    (hA : locA = (pages.foldl scanStep (previous, ⟨127, 0, -1, -1⟩)).2)
    (hG : prevG = pages.foldl previousAfter previous)
    (hC : locC = (pages.foldl (localsStep note) (prevG, locA)).2) :
    locA.delay = (cellGate previous pages).1 ∧ locA.repeat_ = (cellGate previous pages).2 ∧
      locC.delay = (cellGate previous pages).1 ∧ locC.repeat_ = (cellGate previous pages).2 := by
  have hs := scan_fold pages hv previous ⟨127, 0, -1, -1⟩
  rw [← hA] at hs
  have hAd : locA.delay = (cellGate previous pages).1 := by rw [hs]; rfl
  have hAr : locA.repeat_ = (cellGate previous pages).2 := by rw [hs]; rfl
  have hAh : locA.hold = holdInt none := by rw [hs]; rfl
  obtain ⟨g1, _⟩ := locals_fold note pages hv prevG locA none hAh
  rw [← hC, hAd, hAr, hG, ← gateStep_previous pages (previous, 0, -1)] at g1
  have h2 := gateFold_again pages previous (0, -1)
    (pages.foldl gateStep (previous, 0, -1)).1 (Or.inr rfl)
  have e : ((cellGate previous pages).1, (cellGate previous pages).2)
      = (pages.foldl gateStep (previous, 0, -1)).2 := rfl
  rw [e, h2] at g1
  have g3 := congrArg Prod.fst g1
  have g4 := congrArg Prod.snd g1
  exact ⟨hAd, hAr, g3, g4⟩

/-- C1 (amended): for every tick `t` (the claim takes `t < TPL`, the statement holds for
every value of the tick counter) and every cell, with any number of command pages, that has
a non-zero note, on an audible track, whose instrument exists and has no arpeggio and whose
note resolves a non-zero velocity: the engine queues a note-on for that track on tick `t` if
and only if `gate(t, d, r)` holds, where `(d, r)` is `(0, -1)` when no command page of the
cell stands for a Retrigger or Delay command, and otherwise `(value >> 4, value & 15)`
resp. `(value, -1)` of the last page, in page order, that stands for a Retrigger resp. Delay
command; a page with the command byte `0x01` and a non-zero value stands for the track's
previous command, which is the command byte of the nearest earlier page of the cell that is
neither empty nor `0x01`, or, before any such page, the previous command of the track when
the tick starts.  For a cell with one command page `(d, r)` is `(0, -1)`,
`(value >> 4, value & 15)` or `(value, -1)` as that page stands for no Retrigger/Delay
command, for a Retrigger or for a Delay command. -/
theorem note_on_iff_gate (block : Block) (track : Nat) (p q : Player) (ts : TrackStatus)
    (instr : Instrument)
    (htrack : track < 256) (htick : p.tick < 2 ^ 32)
    (hts : p.trackStatuses[track]? = some ts)
    (haud : p.audible track = some true)
    (hnote : block.note p.line_ track % 256 ≠ 0)
    (harp : ∀ x, p.song.instrument
        (if block.instrument p.line_ track % 256 > 0
          then ((block.instrument p.line_ track % 256 : Nat) : Int) - 1
          else ts.instrument) = some x → x.arpeggio = none)
    (hk : (if block.instrument p.line_ track % 256 = 0 then ((ts.instrument + 1) % 256).toNat
            else block.instrument p.line_ track % 256) ≠ 0)
    (hin : p.song.instrument
      (((if block.instrument p.line_ track % 256 = 0 then ((ts.instrument + 1) % 256).toNat
          else block.instrument p.line_ track % 256 : Nat) : Int) - 1) = some instr)
    (hrun : runTrack block track p = some q)
    (hvol : gate p.tick (cellGate ts.previousCommand (block.pages p.line_ track)).1
        (cellGate ts.previousCommand (block.pages p.line_ track)).2 →
      ∀ tsq, q.trackStatuses[track]? = some tsq → tsq.volume ≠ 0) :
    ((∃ x : NoteOn, x.track = track ∧ q.postponedNotes = p.postponedNotes ++ [x]) ↔
      gate p.tick (cellGate ts.previousCommand (block.pages p.line_ track)).1
        (cellGate ts.previousCommand (block.pages p.line_ track)).2) ∧
    (∀ cv, block.pages p.line_ track = [cv] →
      cellGate ts.previousCommand (block.pages p.line_ track)
        = gateParams (commandOf ts.previousCommand cv) cv.2) := by
  refine ⟨?_, fun cv hcv => by rw [hcv]; exact cellGate_single _ _⟩
  -- the cell
  unfold runTrack at hrun
  rw [hts] at hrun
  dsimp only [Option.bind] at hrun
  rw [haud] at hrun
  dsimp only at hrun
  rw [if_pos rfl] at hrun
  obtain ⟨ct, hct, h1⟩ := Option.bind_eq_some.mp hrun
  obtain ⟨cell, ts1⟩ := ct
  obtain ⟨c1, c2, c3, c4, c5⟩ := readCell_plain hnote harp hct
  dsimp only at h1
  have hts1 : (p.setTrackStatus track ts1).trackStatuses[track]? = some ts1 :=
    setTrackStatus_get _ hts
  have hprev1 : ts1.previousCommand = ts.previousCommand := by
    rw [c5]; split <;> rfl
  have hins1 : ts1.instrument = ts.instrument := by
    rw [c5]; split <;> rfl
  have f0 : CommandFrame track p (p.setTrackStatus track ts1) :=
    CommandFrame.setTrackStatus track p ts ts1 hts hins1 (by rw [c5]; split <;> rfl)
      (by rw [c5]; split <;> rfl) (by rw [c5]; split <;> rfl) (by rw [c5]; split <;> rfl)
      (by rw [c5]; split <;> rfl)
  -- the scan and the note-off
  obtain ⟨s1, hs1, h2⟩ := Option.bind_eq_some.mp h1
  have hcn : cell.note ≠ 0 := by rw [c3]; exact hnote
  rw [if_pos hcn] at hs1
  obtain ⟨sA, hsA, hg⟩ := Option.bind_eq_some.mp hs1
  obtain ⟨locA, pA⟩ := sA
  obtain ⟨fA, _, tsAeq, locAeq⟩ := scanLoop_spec _ _ _ _ _ _ _ hts1 hsA
  obtain ⟨pG, hpG, hs1eq⟩ := Option.map_eq_some'.mp hg
  dsimp only at hpG hs1eq
  obtain ⟨fG, tsG, htsG, hprevG⟩ := preGate_frame tsAeq hpG
  subst hs1eq
  -- the commands
  obtain ⟨s2, hs2, h3⟩ := Option.bind_eq_some.mp h2
  rw [c4] at hs2
  dsimp only at hs2
  cases hs2
  obtain ⟨s3, hs3, h4⟩ := Option.bind_eq_some.mp h3
  obtain ⟨locC, pC⟩ := s3
  obtain ⟨fC, _, _, locCeq⟩ := blockLoop_spec htsG (fun h0 => absurd h0 hcn) hs3
  -- the frames so far
  have fall : CommandFrame track p pC := ((f0.trans fA).trans fG).trans fC
  have fline : pG.line_ = p.line_ := ((f0.trans fA).trans fG).line_
  have fline1 : (p.setTrackStatus track ts1).line_ = p.line_ := rfl
  rw [fline] at locCeq
  rw [fline1, ← pages_range', hprev1] at locAeq
  dsimp only at hprevG
  rw [fline1, ← pages_range', hprev1] at hprevG
  obtain ⟨_, _, hl1, hl2⟩ := gate_after_pages cell.note (block.pages p.line_ track)
    (pages_lt block p.line_ track) ts.previousCommand locA locC tsG.previousCommand
    locAeq hprevG locCeq
  obtain ⟨rg1, rg2, rg3, rg4⟩ := cellGate_range ts.previousCommand (block.pages p.line_ track)
    (pages_lt block p.line_ track)
  have hgate := shouldPlayNote_iff_gate p.tick _ _ htick rg1 rg2 rg3 rg4
  rw [← hl1, ← hl2] at hgate hvol ⊢
  -- base note, firing, hold
  dsimp only at h4
  obtain ⟨tsC, htsC, i1, i2, i3, i4, i5, i6⟩ := fall.own ts hts
  obtain ⟨p4, hp4, h5⟩ := Option.bind_eq_some.mp h4
  obtain ⟨b1, b2, b3, b4, b5⟩ := rememberBase_spec htsC hp4
  obtain ⟨r, hr, h6⟩ := Option.bind_eq_some.mp h5
  obtain ⟨x1, x2⟩ := extendHold_spec h6
  have htick4 : p4.tick = p.tick := by rw [b3, fall.tick]
  rw [← htick4] at hgate hvol ⊢
  by_cases hsp : shouldPlayNote p4.tick locC.delay locC.repeat_ = true
  · -- the note fires
    have haud4 : p4.audible track = some true := by
      have := fall.audible_eq track
      unfold Player.audible at this haud ⊢
      rw [b2, b4, this]
      exact haud
    have hb0 : cell.basenote ≠ 0 := by rw [c1]; exact hnote
    rw [if_pos hb0] at b5
    have hkk : (if cell.instrument = 0 then
          (((if cell.instrument ≠ 0 then (cell.instrument : Int) - 1 else tsC.instrument) + 1)
            % 256).toNat
        else cell.instrument)
        = (if block.instrument p.line_ track % 256 = 0 then ((ts.instrument + 1) % 256).toNat
            else block.instrument p.line_ track % 256) := by
      rw [c2, i1]
      by_cases hi0 : block.instrument p.line_ track % 256 = 0
      · simp only [hi0, if_true, ne_eq, not_true_eq_false, if_false]
      · simp only [hi0, if_false]
    obtain ⟨instr4, hin4⟩ : ∃ y, p4.song.instrument
        (((if block.instrument p.line_ track % 256 = 0 then ((ts.instrument + 1) % 256).toNat
          else block.instrument p.line_ track % 256 : Nat) : Int) - 1) = some y := by
      have := fall.instrument_fixed
        (((if block.instrument p.line_ track % 256 = 0 then ((ts.instrument + 1) % 256).toNat
          else block.instrument p.line_ track % 256 : Nat) : Int) - 1)
      rw [hin] at this
      rw [b2]
      cases hy : pC.song.instrument
        (((if block.instrument p.line_ track % 256 = 0 then ((ts.instrument + 1) % 256).toNat
          else block.instrument p.line_ track % 256 : Nat) : Int) - 1) with
      | none => rw [hy] at this; exact absurd this (by simp)
      | some y => exact ⟨y, rfl⟩
    obtain ⟨rv, x, hx, hrv, hpn⟩ := @fireNote_open _ _ (decide (locA.volume > 0)) _ _ _ _ _
      hcn hsp htrack b5
      haud4 (by dsimp only; rw [hkk]; exact hk) (by dsimp only; rw [hkk]; exact hin4) hr
    have hgt := hgate.mp hsp
    rw [x1, hpn, b1, fall.postponedNotes]
    rw [x2.symm] at hrv
    have hrv0 : rv ≠ 0 := by
      cases hq : q.trackStatuses[track]? with
      | none => rw [hq] at hrv; exact absurd hrv (by simp)
      | some tsq =>
        rw [hq] at hrv
        simp only [Option.map_some', Option.some.injEq] at hrv
        rw [← hrv]
        exact hvol hgt tsq hq
    rw [if_pos hrv0]
    exact ⟨fun _ => hgt, fun _ => ⟨x, hx, rfl⟩⟩
  · -- no note fires
    rw [fireNote_closed (fun h => hsp h.2)] at hr
    cases hr
    dsimp only at x1
    rw [x1, b1, fall.postponedNotes]
    constructor
    · rintro ⟨x, _, hx⟩
      have := congrArg List.length hx
      simp at this
    · intro hg
      exact absurd (hgate.mpr hg) hsp

theorem runTrack_S2_tick2 :
    (runTrack blockS2 0 ((playerOf songS2 Mode.ModePlaySong true).atTick 2)).isSome = true := by
  decide!

/-- C1, witness: scenario S2 (Retrigger `0x23`, `d = 2`, `r = 3`, 8 ticks per line).  On
tick 2 the track loop queues the note-on and the gate holds; in the run of the line the
note-ons are made on ticks 2 and 5 and on no other tick, the second after the note-off of
the first. -/
theorem note_on_iff_gate_witness :
    ((∃ x : NoteOn, x.track = 0 ∧
        ((runTrack blockS2 0 ((playerOf songS2 Mode.ModePlaySong true).atTick 2)).get
          runTrack_S2_tick2).postponedNotes
          = ((playerOf songS2 Mode.ModePlaySong true).atTick 2).postponedNotes ++ [x]) ↔
      gate 2 (cellGate 0 (blockS2.pages 0 0)).1 (cellGate 0 (blockS2.pages 0 0)).2) ∧
    cellGate 0 (blockS2.pages 0 0) = (2, 3) ∧
    (runLoop 8 (playerOf songS2 Mode.ModePlaySong true)).map (fun p => p.midiOut)
      = some [⟨none, 0, MidiMsg.setTick 0⟩, ⟨none, 0, MidiMsg.setTick 1⟩,
          ⟨none, 0, MidiMsg.setTick 2⟩, ⟨some 0, 0, MidiMsg.noteOn 0 60 100⟩,
          ⟨none, 0, MidiMsg.setTick 3⟩, ⟨none, 0, MidiMsg.setTick 4⟩,
          ⟨none, 0, MidiMsg.setTick 5⟩, ⟨some 0, 0, MidiMsg.noteOff 0 60 127⟩,
          ⟨some 0, 0, MidiMsg.noteOn 0 60 100⟩, ⟨none, 0, MidiMsg.setTick 6⟩,
          ⟨none, 0, MidiMsg.setTick 7⟩] :=
  ⟨(note_on_iff_gate blockS2 0 ((playerOf songS2 Mode.ModePlaySong true).atTick 2)
      ((runTrack blockS2 0 ((playerOf songS2 Mode.ModePlaySong true).atTick 2)).get
        runTrack_S2_tick2)
      freshStatus (plainInstrument 100 0 0) (by decide) (by decide) (by decide) (by decide)
      (by decide)
      (by
        intro x hx
        have h1 : ((playerOf songS2 Mode.ModePlaySong true).atTick 2).song.instrument
            (if blockS2.instrument ((playerOf songS2 Mode.ModePlaySong true).atTick 2).line_ 0
                % 256 > 0
              then ((blockS2.instrument
                ((playerOf songS2 Mode.ModePlaySong true).atTick 2).line_ 0 % 256 : Nat) : Int) - 1
              else freshStatus.instrument) = some (plainInstrument 100 0 0) := rfl
        rw [h1] at hx
        cases hx
        rfl)
      (by decide) rfl (Option.some_get runTrack_S2_tick2).symm
      (by
        intro _ tsq htsq
        have h1 : (((runTrack blockS2 0 ((playerOf songS2 Mode.ModePlaySong true).atTick 2)).get
            runTrack_S2_tick2).trackStatuses[0]?).map TrackStatus.volume = some 100 := by
          decide!
        rw [htsq] at h1
        simp only [Option.map_some', Option.some.injEq] at h1
        rw [h1]
        decide)).1,
    by decide!, by decide!⟩

/-- C1, counterexample: in the run of `songPreviousRetrigger` the cell of line 1 has one
command page with the command byte `0x01`, so it has neither a Retrigger nor a Delay
command, and `(d, r) = (0, -1)` lets the gate hold on tick 0 of the line only.  The cell
follows a Retrigger command, and the engine queues its note-on on ticks 2 and 5 of the line
(ticks 10 and 13 of the run) and not on tick 0 of the line (tick 8 of the run). -/
theorem previous_command_retriggers :
    (runLoop 16 (playerOf songPreviousRetrigger Mode.ModePlaySong true)).map
        (fun p => p.midiOut)
      = some [⟨none, 0, MidiMsg.setTick 0⟩, ⟨none, 0, MidiMsg.setTick 1⟩,
          ⟨none, 0, MidiMsg.setTick 2⟩, ⟨some 0, 0, MidiMsg.noteOn 0 60 100⟩,
          ⟨none, 0, MidiMsg.setTick 3⟩, ⟨none, 0, MidiMsg.setTick 4⟩,
          ⟨none, 0, MidiMsg.setTick 5⟩, ⟨some 0, 0, MidiMsg.noteOff 0 60 127⟩,
          ⟨some 0, 0, MidiMsg.noteOn 0 60 100⟩, ⟨none, 0, MidiMsg.setTick 6⟩,
          ⟨none, 0, MidiMsg.setTick 7⟩, ⟨none, 0, MidiMsg.setTick 8⟩,
          ⟨none, 0, MidiMsg.setTick 9⟩, ⟨none, 0, MidiMsg.setTick 10⟩,
          ⟨some 0, 0, MidiMsg.noteOff 0 60 127⟩, ⟨some 0, 0, MidiMsg.noteOn 0 60 100⟩,
          ⟨none, 0, MidiMsg.setTick 11⟩, ⟨none, 0, MidiMsg.setTick 12⟩,
          ⟨none, 0, MidiMsg.setTick 13⟩, ⟨some 0, 0, MidiMsg.noteOff 0 60 127⟩,
          ⟨some 0, 0, MidiMsg.noteOn 0 60 100⟩, ⟨none, 0, MidiMsg.setTick 14⟩,
          ⟨none, 0, MidiMsg.setTick 15⟩] ∧
    (songPreviousRetrigger.block 0).map (fun b => b.pages 1 0) = some [(0x01, 0x23)] ∧
    gate 0 0 (-1) ∧ ¬ gate 2 0 (-1) ∧ ¬ gate 5 0 (-1) := by
  refine ⟨by decide!, by decide!, ?_, ?_, ?_⟩
  · unfold gate
    decide
  · unfold gate
    decide
  · unfold gate
    decide

/-! ### The phases of the track loop -/

/-- Reading a cell changes nothing in the track's status but the arpeggio line, and the
instrument read is the instrument byte of the cell. -/
theorem readCell_status {block : Block} {track : Nat} {ts ts1 : TrackStatus} {p : Player}
    {cell : Cell} (h : readCell block track ts p = some (cell, ts1)) :
    (∃ l, ts1 = { ts with line := l }) ∧
      cell.instrument = block.instrument p.line_ track % 256 := by
  unfold readCell at h
  dsimp only at h
  have hl : ∃ l, (if block.note p.line_ track % 256 ≠ 0 ∧ p.tick = 0 then { ts with line := 0 }
      else ts : TrackStatus) = { ts with line := l } := by
    split
    · exact ⟨0, rfl⟩
    · exact ⟨ts.line, rfl⟩
  generalize (if block.note p.line_ track % 256 ≠ 0 ∧ p.tick = 0 then { ts with line := 0 }
      else ts : TrackStatus) = tsx at h hl
  generalize (if block.note p.line_ track % 256 ≠ 0 ∧ block.instrument p.line_ track % 256 > 0
    then ((block.instrument p.line_ track % 256 : Nat) : Int) - 1 else tsx.instrument) = ai at h
  by_cases hc : 0 ≤ ai ∧ 0 ≤ tsx.line
  · rw [if_pos hc] at h
    obtain ⟨x, _, he⟩ := Option.map_eq_some'.mp h
    split at he
    · cases he
      exact ⟨hl, rfl⟩
    · cases he
      exact ⟨hl, rfl⟩
  · rw [if_neg hc] at h
    cases h
    exact ⟨hl, rfl⟩

/-- The write of the status that the reading of a cell leaves. -/
theorem readCell_frame {track : Nat} {ts : TrackStatus} {p : Player} (l : Int)
    (hts : p.trackStatuses[track]? = some ts) {mi ch n hold : Int}
    (hs : Sounding track p mi ch n hold) :
    CommandFrame track p (p.setTrackStatus track { ts with line := l }) ∧
      Calm p (p.setTrackStatus track { ts with line := l }) ∧
      Sounding track (p.setTrackStatus track { ts with line := l }) mi ch n hold := by
  have f0 : CommandFrame track p (p.setTrackStatus track { ts with line := l }) :=
    CommandFrame.setTrackStatus track p ts _ hts rfl rfl rfl rfl rfl rfl
  have k0 : Calm p (p.setTrackStatus track { ts with line := l }) :=
    Calm.setTrackStatus_calm track p ts _ hts rfl
  exact ⟨f0, k0, Sounding.of_frames f0 k0 hs⟩

/-- The status that "stop currently playing note" leaves: the previous command and the
arpeggio line are the same. -/
theorem preGate_status {track : Nat} {loc : Locals} {p q : Player} {ts : TrackStatus}
    (hts : p.trackStatuses[track]? = some ts) (h : preGate track loc p = some q) :
    CommandFrame track p q ∧
      ∃ ts1, q.trackStatuses[track]? = some ts1 ∧
        ts1.previousCommand = ts.previousCommand ∧ ts1.line = ts.line := by
  unfold preGate at h
  split at h
  · rw [hts] at h
    simp only [Option.map_some', Option.some.injEq] at h
    split at h
    · cases h
      refine ⟨(CommandFrame.emit track p _ _).trans
        (CommandFrame.setTrackStatus track _ ts _ hts rfl rfl rfl rfl rfl rfl),
        { ts with note := -1 }, ?_, rfl, rfl⟩
      simp [Player.setTrackStatus, Player.emit, lt_length_of_getElem? hts]
    · cases h
      exact ⟨CommandFrame.refl track p, ts, hts, rfl, rfl⟩
  · cases h
    exact ⟨CommandFrame.refl track p, ts, hts, rfl, rfl⟩

theorem arpeggioPages_lt (cell : Cell) (ts : TrackStatus) :
    ∀ cv ∈ cell.arpeggioPages ts, cv.2 < 256 := by
  unfold Cell.arpeggioPages
  split
  · intro cv hcv
    exact absurd hcv (List.not_mem_nil _)
  · exact pages_lt _ _ _

/-- The interpretation of the commands of the arpeggio line and of the cell by
`handleCommand`, no page being a Velocity command with value 0 when the cell resolves no
note: a frame, no note-off, and the locals. -/
theorem commands_spec {block : Block} {track : Nat} {cell : Cell} {ts ts1 : TrackStatus}
    {loc : Locals} {p : Player} {s2 s3 : Locals × Player}
    (hts : p.trackStatuses[track]? = some ts) (hline : ts.line = ts1.line)
    (hq : cell.note = 0 → ∀ cv ∈ cell.arpeggioPages ts1 ++ block.pages p.line_ track,
      ¬ (cv.1 = CommandVelocity ∧ cv.2 = 0))
    (h2 : (match cell.arpeggio with
      | none => some (loc, p)
      | some arpeggio =>
        loopFrom (arpeggioCommandPage arpeggio track cell.note cell.instrument)
          arpeggio.commandPages 0 (loc, p)) = some s2)
    (h3 : loopFrom (blockCommandPage block track cell.note cell.instrument)
      block.commandPages 0 s2 = some s3) :
    CommandFrame track p s3.2 ∧ Calm p s3.2 ∧
      s3.1 = ((cell.arpeggioPages ts1 ++ block.pages p.line_ track).foldl
        (localsStep cell.note) (ts.previousCommand, loc)).2 := by
  obtain ⟨loc2, p2⟩ := s2
  obtain ⟨loc3, p3⟩ := s3
  have ha : ∃ ts2, CommandFrame track p p2 ∧ Calm p p2 ∧ p2.trackStatuses[track]? = some ts2 ∧
      ts2.previousCommand = (cell.arpeggioPages ts1).foldl previousAfter ts.previousCommand ∧
      loc2 = ((cell.arpeggioPages ts1).foldl (localsStep cell.note)
        (ts.previousCommand, loc)).2 := by
    unfold Cell.arpeggioPages at hq ⊢
    cases harp : cell.arpeggio with
    | none =>
      rw [harp] at h2
      simp only [Option.some.injEq, Prod.mk.injEq] at h2
      obtain ⟨e1, e2⟩ := h2
      subst e1 e2
      exact ⟨ts, CommandFrame.refl track p, Calm.refl_calm p, hts, rfl, rfl⟩
    | some arpeggio =>
      rw [harp] at h2 hq
      dsimp only at h2 hq ⊢
      rw [← hline] at hq ⊢
      obtain ⟨f, k, s, e⟩ := arpeggioLoop_spec hts
        (fun h0 cv hcv => hq h0 cv (List.mem_append_left _ hcv)) h2
      exact ⟨_, f, k, s, rfl, e⟩
  obtain ⟨ts2, f2, k2, hts2, hp2, e2⟩ := ha
  obtain ⟨f3, k3, _, e3⟩ := blockLoop_spec hts2
    (fun h0 cv hcv => hq h0 cv (List.mem_append_right _ (by rw [← f2.line_]; exact hcv))) h3
  refine ⟨f2.trans f3, k2.trans_calm k3, ?_⟩
  rw [e3, f2.line_, List.foldl_append, hp2, e2]
  exact congrArg
    (fun s => (List.foldl (localsStep cell.note) s (block.pages p.line_ track)).2)
    (Prod.ext (localsStep_previous cell.note (cell.arpeggioPages ts1)
      (ts.previousCommand, loc)).symm rfl)

/-- The delay and repeat that the scan finds, and the delay, repeat and hold with which the
firing test is made, for a cell that resolves a note. -/
theorem fire_locals (note : Nat) (pages arp : List (Nat × Nat))
    (hv : ∀ cv ∈ pages, cv.2 < 256) (ha : ∀ cv ∈ arp, cv.2 < 256)
    (previous : Nat) (locA locC : Locals) (prevG : Nat)
    (hA : locA = (pages.foldl scanStep (previous, ⟨127, 0, -1, -1⟩)).2)
    (hG : prevG = pages.foldl previousAfter previous)
    (hC : locC = ((arp ++ pages).foldl (localsStep note) (prevG, locA)).2) :
    locA.delay = (cellGate previous pages).1 ∧ locA.repeat_ = (cellGate previous pages).2 ∧
      locC.delay = (cellGate previous (pages ++ (arp ++ pages))).1 ∧
      locC.repeat_ = (cellGate previous (pages ++ (arp ++ pages))).2 ∧
      locC.hold = holdInt (cellHold (pages.foldl previousAfter previous) (arp ++ pages)) := by
  have hs := scan_fold pages hv previous ⟨127, 0, -1, -1⟩
  rw [← hA] at hs
  have hAd : locA.delay = (cellGate previous pages).1 := by rw [hs]; rfl
  have hAr : locA.repeat_ = (cellGate previous pages).2 := by rw [hs]; rfl
  have hAh : locA.hold = holdInt none := by rw [hs]; rfl
  have hb : ∀ cv ∈ arp ++ pages, cv.2 < 256 := by
    intro cv hcv
    rcases List.mem_append.mp hcv with h | h
    · exact ha cv h
    · exact hv cv h
  obtain ⟨g1, g2⟩ := locals_fold note (arp ++ pages) hb prevG locA none hAh
  rw [← hC] at g1 g2
  have e : (prevG, locA.delay, locA.repeat_) = pages.foldl gateStep (previous, 0, -1) := by
    rw [hG, hAd, hAr, ← gateStep_previous pages (previous, 0, -1)]
    rfl
  rw [e, ← List.foldl_append] at g1
  have g3 := congrArg Prod.fst g1
  have g4 := congrArg Prod.snd g1
  refine ⟨hAd, hAr, g3, g4, ?_⟩
  rw [g2, hG]
  rfl

/-- The track loop on a cell that is quiet in the sense of `quietAt`: the interface,
channel, note and hold time of the track's status stay, and no note-off is made. -/
theorem runTrack_quietAt {block : Block} {track : Nat} {p q : Player} {ts : TrackStatus}
    {mi ch n hold : Int}
    (hts : p.trackStatuses[track]? = some ts)
    (hq : quietAt block track ts p = true)
    (hs : Sounding track p mi ch n hold)
    (hrun : runTrack block track p = some q) :
    Sounding track q mi ch n hold ∧ Calm p q := by
  unfold runTrack at hrun
  rw [hts] at hrun
  dsimp only [Option.bind] at hrun
  obtain ⟨au, _, hrun1⟩ := Option.bind_eq_some.mp hrun
  cases au with
  | false =>
    rw [if_neg Bool.false_ne_true] at hrun1
    cases hrun1
    exact ⟨hs, Calm.refl_calm p⟩
  | true =>
    rw [if_pos rfl] at hrun1
    obtain ⟨ct, hct, h1⟩ := Option.bind_eq_some.mp hrun1
    obtain ⟨cell, ts1⟩ := ct
    unfold quietAt at hq
    rw [hct] at hq
    dsimp only at hq h1
    obtain ⟨⟨l, hl⟩, _⟩ := readCell_status hct
    subst hl
    obtain ⟨f0, k0, hs0⟩ := readCell_frame l hts hs
    have hts1 : (p.setTrackStatus track { ts with line := l }).trackStatuses[track]?
        = some { ts with line := l } := setTrackStatus_get _ hts
    have fline1 : (p.setTrackStatus track { ts with line := l }).line_ = p.line_ := rfl
    obtain ⟨s1, hs1, h2⟩ := Option.bind_eq_some.mp h1
    obtain ⟨s2, hs2, h3⟩ := Option.bind_eq_some.mp h2
    obtain ⟨s3, hs3, h4⟩ := Option.bind_eq_some.mp h3
    by_cases hn : cell.note = 0
    · rw [if_pos hn] at hq
      rw [if_neg (not_not.mpr hn)] at hs1
      cases hs1
      simp only [Bool.and_eq_true, Bool.or_eq_true, decide_eq_true_eq, List.all_eq_true,
        Bool.not_eq_true', Bool.and_eq_false_imp] at hq
      obtain ⟨hi, hv⟩ := hq
      obtain ⟨f3, k3, _⟩ := commands_spec hts1 rfl (fun _ cv hcv hh => by
        have := hv cv hcv hh.1
        simp only [decide_eq_false_iff_not] at this
        exact this hh.2) hs2 hs3
      obtain ⟨s5, k5⟩ := runTrack_tail_quiet (Sounding.of_frames f3 k3 hs0) (fun hh => hh.1 hn)
        (fun hh => by
          rcases hi with hi | hi
          · rw [hi] at hh
            exact absurd hh.2.2 (by decide)
          · exact hi (by rw [← f0.tick, ← f3.tick]; exact hh.1)) h4
      exact ⟨s5, (k0.trans_calm k3).trans_calm k5⟩
    · rw [if_neg hn] at hq
      rw [if_pos hn] at hs1
      simp only [Bool.and_eq_true, Bool.not_eq_true'] at hq
      obtain ⟨hq1, hq2⟩ := hq
      obtain ⟨sA, hsA, hg⟩ := Option.bind_eq_some.mp hs1
      obtain ⟨locA, pA⟩ := sA
      obtain ⟨fA, kA, tsAeq, locAeq⟩ := scanLoop_spec _ _ _ _ _ _ _ hts1 hsA
      rw [fline1, ← pages_range'] at locAeq tsAeq
      obtain ⟨pG, hpG, hs1eq⟩ := Option.map_eq_some'.mp hg
      dsimp only at hpG hs1eq locAeq tsAeq
      subst hs1eq
      obtain ⟨locC, pC⟩ := s3
      have hA := (fire_locals cell.note (block.pages p.line_ track) [] (pages_lt _ _ _)
        (fun _ h => absurd h (List.not_mem_nil _)) ts.previousCommand locA _ _ locAeq rfl rfl)
      have hgA : shouldPlayNote pA.tick locA.delay locA.repeat_ = false := by
        rw [hA.1, hA.2.1, fA.tick, f0.tick]
        exact hq1
      rw [preGate_closed hgA] at hpG
      cases hpG
      obtain ⟨f3, k3, locCeq⟩ := @commands_spec _ _ _ _ { ts with line := l } _ _ _ _ tsAeq rfl
        (fun h0 => absurd h0 hn) hs2 hs3
      rw [fA.line_, fline1] at locCeq
      dsimp only at locCeq
      obtain ⟨_, _, hC1, hC2, _⟩ := fire_locals cell.note (block.pages p.line_ track)
        (cell.arpeggioPages { ts with line := l }) (pages_lt _ _ _) (arpeggioPages_lt _ _)
        ts.previousCommand locA locC _ locAeq rfl locCeq
      have hgC : shouldPlayNote pC.tick locC.delay locC.repeat_ = false := by
        rw [hC1, hC2, f3.tick, fA.tick, f0.tick]
        exact hq2
      obtain ⟨s5, k5⟩ := runTrack_tail_quiet
        (Sounding.of_frames f3 k3 (Sounding.of_frames fA kA hs0))
        (fun hh => by rw [hgC] at hh; exact absurd hh.2 (by decide))
        (fun hh => hn hh.2.1) h4
      exact ⟨s5, ((k0.trans_calm kA).trans_calm k3).trans_calm k5⟩

theorem hold_of_locals (x : Option Nat) (ih : Nat) :
    (if holdInt x = -1 then (ih : Int) else holdInt x)
      = (match x with
        | some v => (v : Int)
        | none => (ih : Int)) := by
  cases x with
  | none => rfl
  | some v =>
    have hv : ((v : Nat) : Int) ≠ -1 := by omega
    show (if (v : Int) = -1 then (ih : Int) else (v : Int)) = (v : Int)
    rw [if_neg hv]

/-- The track loop on a cell that resolves a note whose gate holds, on an audible track
whose instrument exists: the status it leaves and the note-on it queues.  The cell does not
resolve the lowest note on tick 0. -/
theorem runTrack_fired (block : Block) (track : Nat) (p q : Player) (ts ts1 : TrackStatus)
    (cell : Cell) (instr : Instrument)
    (htrack : track < 256) (htick : p.tick < 2 ^ 32)
    (hts : p.trackStatuses[track]? = some ts)
    (haud : p.audible track = some true)
    (hread : readCell block track ts p = some (cell, ts1))
    (hnote : cell.note ≠ 0)
    (hk : (if cell.instrument = 0 then ((ts.instrument + 1) % 256).toNat
            else cell.instrument) ≠ 0)
    (hin : p.song.instrument
      (((if cell.instrument = 0 then ((ts.instrument + 1) % 256).toNat
          else cell.instrument : Nat) : Int) - 1) = some instr)
    (hgateH : gate p.tick
        (cellGate ts.previousCommand (cell.gatePages ts1 block p.line_ track)).1
        (cellGate ts.previousCommand (cell.gatePages ts1 block p.line_ track)).2)
    (hslip : ¬ (p.tick = 0 ∧ cell.note = 1))
    (hrun : runTrack block track p = some q) :
    ∃ tsq, q.trackStatuses[track]? = some tsq ∧
      tsq.midiInterface = toShort instr.midiInterface ∧ tsq.midiChannel = instr.midiChannel ∧
      tsq.hold = (if cell.hold ts ts1 block p.line_ track instr = 0 then -1
         else cell.hold ts ts1 block p.line_ track instr) ∧
      tsq.note = (if tsq.volume ≠ 0 then firedNote cell instr else -1) ∧
      q.postponedNotes = (if tsq.volume ≠ 0 then
          p.postponedNotes ++ [⟨track, instr.midiInterface, instr.midiChannel,
            firedNote cell instr, tsq.volume⟩]
        else p.postponedNotes) := by
  obtain ⟨⟨l, hl⟩, hci⟩ := readCell_status hread
  subst hl
  have hklt : (if cell.instrument = 0 then ((ts.instrument + 1) % 256).toNat
      else cell.instrument) < 256 := by
    split
    · omega
    · rw [hci]
      exact Nat.mod_lt _ (by decide)
  -- the cell
  unfold runTrack at hrun
  rw [hts] at hrun
  dsimp only [Option.bind] at hrun
  rw [haud] at hrun
  dsimp only at hrun
  rw [if_pos rfl, hread] at hrun
  dsimp only [Option.bind] at hrun
  have hts1 : (p.setTrackStatus track { ts with line := l }).trackStatuses[track]?
      = some { ts with line := l } := setTrackStatus_get _ hts
  have f0 : CommandFrame track p (p.setTrackStatus track { ts with line := l }) :=
    CommandFrame.setTrackStatus track p ts _ hts rfl rfl rfl rfl rfl rfl
  have fline1 : (p.setTrackStatus track { ts with line := l }).line_ = p.line_ := rfl
  -- the scan and the note-off
  obtain ⟨s1, hs1, h2⟩ := Option.bind_eq_some.mp hrun
  rw [if_pos hnote] at hs1
  obtain ⟨sA, hsA, hg⟩ := Option.bind_eq_some.mp hs1
  obtain ⟨locA, pA⟩ := sA
  obtain ⟨fA, _, tsAeq, locAeq⟩ := scanLoop_spec _ _ _ _ _ _ _ hts1 hsA
  rw [fline1, ← pages_range'] at locAeq tsAeq
  obtain ⟨pG, hpG, hs1eq⟩ := Option.map_eq_some'.mp hg
  dsimp only at hpG hs1eq locAeq tsAeq
  obtain ⟨fG, tsG, htsG, hprevG, hlineG⟩ := preGate_status tsAeq hpG
  subst hs1eq
  -- the commands
  obtain ⟨s2, hs2, h3⟩ := Option.bind_eq_some.mp h2
  obtain ⟨s3, hs3, h4⟩ := Option.bind_eq_some.mp h3
  obtain ⟨locC, pC⟩ := s3
  obtain ⟨fC, _, locCeq⟩ := @commands_spec _ _ _ _ { ts with line := l } _ _ _ _ htsG hlineG
    (fun h0 => absurd h0 hnote) hs2 hs3
  have fall : CommandFrame track p pC := ((f0.trans fA).trans fG).trans fC
  have fline : pG.line_ = p.line_ := ((f0.trans fA).trans fG).line_
  rw [fline, hprevG] at locCeq
  dsimp only at locCeq
  obtain ⟨_, _, hC1, hC2, hhold⟩ := fire_locals cell.note (block.pages p.line_ track)
    (cell.arpeggioPages { ts with line := l }) (pages_lt _ _ _) (arpeggioPages_lt _ _)
    ts.previousCommand locA locC _ locAeq rfl locCeq
  have hvG : ∀ cv ∈ cell.gatePages { ts with line := l } block p.line_ track, cv.2 < 256 := by
    intro cv hcv
    unfold Cell.gatePages at hcv
    rcases List.mem_append.mp hcv with h | h
    · exact pages_lt _ _ _ cv h
    · rcases List.mem_append.mp h with h | h
      · exact arpeggioPages_lt _ _ cv h
      · exact pages_lt _ _ _ cv h
  obtain ⟨rg1, rg2, rg3, rg4⟩ := cellGate_range ts.previousCommand _ hvG
  have hgate := shouldPlayNote_iff_gate p.tick _ _ htick rg1 rg2 rg3 rg4
  unfold Cell.gatePages at hgate hgateH
  rw [← hC1, ← hC2] at hgate hgateH
  -- base note, firing, hold
  dsimp only at h4
  obtain ⟨tsC, htsC, i1, i2, i3, i4, i5, i6⟩ := fall.own ts hts
  obtain ⟨p4, hp4, h5⟩ := Option.bind_eq_some.mp h4
  obtain ⟨b1, b2, b3, b4, b5⟩ := rememberBase_spec htsC hp4
  obtain ⟨r, hr, h6⟩ := Option.bind_eq_some.mp h5
  have htick4 : p4.tick = p.tick := by rw [b3, fall.tick]
  rw [← htick4] at hgate hgateH
  have hsp : shouldPlayNote p4.tick locC.delay locC.repeat_ = true := hgate.mpr hgateH
  have haud4 : p4.audible track = some true := by
    have := fall.audible_eq track
    unfold Player.audible at this haud ⊢
    rw [b2, b4, this]
    exact haud
  obtain ⟨ts4, hts4, hi4⟩ : ∃ ts4, p4.trackStatuses[track]? = some ts4 ∧
      (cell.instrument = 0 → ts4.instrument = ts.instrument) := by
    refine ⟨_, b5, fun h0 => ?_⟩
    split
    · dsimp only
      rw [if_neg (not_not.mpr h0), i1]
    · exact i1
  have hkk : (if cell.instrument = 0 then ((ts4.instrument + 1) % 256).toNat
        else cell.instrument)
      = (if cell.instrument = 0 then ((ts.instrument + 1) % 256).toNat
          else cell.instrument) := by
    by_cases hi0 : cell.instrument = 0
    · rw [if_pos hi0, if_pos hi0, hi4 hi0]
    · rw [if_neg hi0, if_neg hi0]
  obtain ⟨instr4, hin4, hfix⟩ : ∃ y, p4.song.instrument
      (((if cell.instrument = 0 then ((ts.instrument + 1) % 256).toNat
        else cell.instrument : Nat) : Int) - 1) = some y ∧ y.fixed = instr.fixed := by
    have := fall.instrument_fixed
      (((if cell.instrument = 0 then ((ts.instrument + 1) % 256).toNat
        else cell.instrument : Nat) : Int) - 1)
    rw [hin] at this
    rw [b2]
    cases hy : pC.song.instrument
      (((if cell.instrument = 0 then ((ts.instrument + 1) % 256).toNat
        else cell.instrument : Nat) : Int) - 1) with
    | none => rw [hy] at this; exact absurd this (by simp)
    | some y =>
      rw [hy] at this
      simp only [Option.map_some', Option.some.injEq] at this
      exact ⟨y, rfl, this⟩
  -- the note is played
  obtain ⟨r1, rt, tsq, htsq, w1, w2, w3, w4, w5⟩ :=
    fireNote_fired hnote hsp htrack hts4 haud4 hkk hk hklt hin4 hr
  -- the hold time is not extended
  have hskip := @extendHold_skip _ _ r.2.1 _ ⟨tsq, htsq⟩
    (slip_excluded hslip (rt.trans htick4) r1 rfl hnote)
  rw [hskip] at h6
  have hq : r.2.2 = q := Option.some.inj h6
  subst hq
  obtain ⟨g1, g2, g3, g4, _⟩ := fixed_fields hfix
  refine ⟨tsq, htsq, by rw [w1, g2], by rw [w2, g3], ?_, ?_, ?_⟩
  · have e : (if locC.hold = -1 then (instr4.hold : Int) else locC.hold)
        = cell.hold ts { ts with line := l } block p.line_ track instr := by
      rw [hhold, g1, hold_of_locals]
      rfl
    rw [w3, e]
  · rw [w4, g4]
    rfl
  · rw [w5, b1, fall.postponedNotes, g2, g3, g4]
    rfl

/-! ### The loops of a tick -/

theorem TrackFrame.away_track {u track : Nat} {p q : Player} (h : TrackFrame u p q)
    (hu : u ≠ track) : AwayFrame track p q := by
  obtain ⟨evs, a, b⟩ := h.out
  refine ⟨h.tick, h.line_, h.solo, h.tracks, h.instruments, h.others track (Ne.symm hu),
    ⟨evs, a, ?_⟩, h.postponed⟩
  intro e he hc
  rw [b e he] at hc
  exact hu (Option.some.inj hc)

theorem AwayFrame.refl_away (track : Nat) (p : Player) : AwayFrame track p p :=
  ⟨rfl, rfl, rfl, rfl, rfl, rfl, ⟨[], by simp, by simp⟩, ⟨[], by simp⟩⟩

theorem AwayFrame.trans_away {track : Nat} {p q r : Player}
    (h1 : AwayFrame track p q) (h2 : AwayFrame track q r) : AwayFrame track p r := by
  obtain ⟨e1, a1, b1⟩ := h1.out
  obtain ⟨e2, a2, b2⟩ := h2.out
  obtain ⟨n1, c1⟩ := h1.postponed
  obtain ⟨n2, c2⟩ := h2.postponed
  refine ⟨by rw [h2.tick, h1.tick], by rw [h2.line_, h1.line_], by rw [h2.solo, h1.solo],
    by rw [h2.tracks, h1.tracks], by rw [h2.instruments, h1.instruments],
    by rw [h2.own, h1.own], ⟨e1 ++ e2, by rw [a2, a1, List.append_assoc], ?_⟩,
    ⟨n1 ++ n2, by rw [c2, c1, List.append_assoc]⟩⟩
  intro e he
  rcases List.mem_append.mp he with h | h
  · exact b1 e h
  · exact b2 e h

theorem AwayFrame.audible_eq_away {track : Nat} {p q : Player} (h : AwayFrame track p q)
    (v : Nat) : q.audible v = p.audible v := by
  have ht := map_eq_getElem? h.tracks v
  unfold Player.audible Song.track
  rw [h.solo]
  cases hq : q.song.tracks[v]? with
  | none =>
    cases hp : p.song.tracks[v]? with
    | none => rfl
    | some b => rw [hq, hp] at ht; exact absurd ht (by simp)
  | some a =>
    cases hp : p.song.tracks[v]? with
    | none => rw [hq, hp] at ht; exact absurd ht (by simp)
    | some b =>
      rw [hq, hp] at ht
      simp only [Option.map_some', Option.some.injEq, Prod.mk.injEq] at ht
      simp only [Option.map_some', ht.1, ht.2]

theorem AwayFrame.instrument_fixed_away {track : Nat} {p q : Player} (h : AwayFrame track p q)
    (k : Int) : (q.song.instrument k).map Instrument.fixed
      = (p.song.instrument k).map Instrument.fixed :=
  map_eq_getElem? h.instruments (toUInt k)

theorem AwayFrame.maxTracks_away {track : Nat} {p q : Player} (h : AwayFrame track p q) :
    q.song.maxTracks = p.song.maxTracks := by
  have := congrArg List.length h.tracks
  simpa [Song.maxTracks] using this

/-- A loop over indices other than `track` leaves `track` alone. -/
theorem loop_away {track : Nat} (body : Nat → Player → Option Player) (cnt i : Nat)
    (p q : Player)
    (hbody : ∀ j a b, i ≤ j → j < i + cnt → body j a = some b → TrackFrame j a b)
    (hne : ∀ j, i ≤ j → j < i + cnt → j ≠ track)
    (h : loopFrom body cnt i p = some q) : AwayFrame track p q :=
  loopFrom_inv (fun s => AwayFrame track p s) body cnt i p q
    (fun j a b h1 h2 hI hb => hI.trans_away ((hbody j a b h1 h2 hb).away_track (hne j h1 h2)))
    (AwayFrame.refl_away track p) h

/-- A loop from 0 that passes index `track`: the part before, the iteration for `track`,
and the part after. -/
theorem loop_at {σ : Type} (body : Nat → σ → Option σ) (cnt track : Nat) (p q : σ)
    (ht : track < cnt) (h : loopFrom body cnt 0 p = some q) :
    ∃ a b, loopFrom body track 0 p = some a ∧ body track a = some b ∧
      loopFrom body (cnt - track - 1) (track + 1) b = some q := by
  have e : cnt = track + (1 + (cnt - track - 1)) := by omega
  rw [e, loopFrom_add] at h
  obtain ⟨a, ha, h1⟩ := Option.bind_eq_some.mp h
  rw [loopFrom_add, loopFrom_one, Nat.zero_add] at h1
  obtain ⟨b, hb, h2⟩ := Option.bind_eq_some.mp h1
  exact ⟨a, b, ha, hb, h2⟩

theorem noteOffsOf_append (track : Nat) (a b : List Event) :
    noteOffsOf track (a ++ b) = noteOffsOf track a ++ noteOffsOf track b := by
  unfold noteOffsOf
  exact List.filter_append a b

theorem noteOffsOf_nil_of {track : Nat} {evs : List Event}
    (h : ∀ e ∈ evs, e.track ≠ some track ∨ e.msg.isNoteOff = false) :
    noteOffsOf track evs = [] := by
  unfold noteOffsOf
  rw [List.filter_eq_nil_iff]
  intro e he
  rcases h e he with h1 | h1
  · simp [h1]
  · simp [h1]

theorem Emits.refl_emits (track : Nat) (p : Player) : Emits track p p [] :=
  ⟨[], by simp, rfl⟩

theorem Emits.trans_emits {track : Nat} {p q r : Player} {a b : List Event}
    (h1 : Emits track p q a) (h2 : Emits track q r b) : Emits track p r (a ++ b) := by
  obtain ⟨e1, a1, b1⟩ := h1
  obtain ⟨e2, a2, b2⟩ := h2
  exact ⟨e1 ++ e2, by rw [a2, a1, List.append_assoc], by rw [noteOffsOf_append, b1, b2]⟩

theorem AwayFrame.emits_away {track : Nat} {p q : Player} (h : AwayFrame track p q) :
    Emits track p q [] := by
  obtain ⟨evs, a, b⟩ := h.out
  exact ⟨evs, a, noteOffsOf_nil_of (fun e he => Or.inl (b e he))⟩

theorem Calm.emits_calm {p q : Player} (track : Nat) (h : Calm p q) : Emits track p q [] := by
  obtain ⟨_, evs, a, b⟩ := h
  exact ⟨evs, a, noteOffsOf_nil_of (fun e he => Or.inr (b e he))⟩

theorem flushPostponed_emits (track : Nat) (p : Player) :
    Emits track p (flushPostponed p) [] := by
  refine ⟨_, rfl, noteOffsOf_nil_of ?_⟩
  intro e he
  obtain ⟨n, _, hn⟩ := List.mem_map.mp he
  subst hn
  exact Or.inr rfl

theorem holdTrack_frame {u : Nat} {p q : Player} (h : holdTrack u p = some q) :
    TrackFrame u p q := by
  unfold holdTrack at h
  obtain ⟨ts, _, he⟩ := Option.map_eq_some'.mp h
  subst he
  split
  · dsimp only
    split
    · exact (TrackFrame.emit_track u p _ _).trans_track (TrackFrame.setTrackStatus_track u _ _)
    · exact TrackFrame.setTrackStatus_track u p _
  · exact TrackFrame.refl_track u p

/-- The hold loop for the track: the hold time is decremented; when it falls below 0 the
note-off of the track's note is made on the interface and channel of the track's status. -/
theorem holdTrack_own {track : Nat} {p q : Player} {mi ch n hold : Int}
    (hs : Sounding track p mi ch n hold) (h : holdTrack track p = some q) :
    Emits track p q
        (if hold = 0 ∧ n ≠ -1 then [⟨some track, mi, MidiMsg.noteOff ch n 127⟩] else []) ∧
      Sounding track q mi ch (if hold = 0 ∧ n ≠ -1 then -1 else n)
        (if 0 ≤ hold then hold - 1 else hold) ∧
      (q.trackStatuses[track]?).map TrackStatus.volume
        = (p.trackStatuses[track]?).map TrackStatus.volume := by
  obtain ⟨ts, hts, a1, a2, a3, a4⟩ := hs
  unfold holdTrack at h
  rw [hts] at h
  simp only [Option.map_some', Option.some.injEq] at h
  subst a1 a2 a3 a4
  by_cases h0 : 0 ≤ ts.hold
  · rw [if_pos h0] at h
    by_cases h1 : ts.hold - 1 < 0 ∧ ts.note ≠ -1
    · rw [if_pos h1] at h
      subst h
      have hc : ts.hold = 0 ∧ ts.note ≠ -1 := ⟨by omega, h1.2⟩
      rw [if_pos hc, if_pos hc, if_pos h0]
      refine ⟨⟨[⟨some track, ts.midiInterface, MidiMsg.noteOff ts.midiChannel ts.note 127⟩],
        rfl, by simp [noteOffsOf, MidiMsg.isNoteOff]⟩,
        ⟨_, setTrackStatus_get _ hts, rfl, rfl, rfl, rfl⟩, ?_⟩
      rw [setTrackStatus_get (p := p.emit (some track) ts.midiInterface
        (MidiMsg.noteOff ts.midiChannel ts.note 127)) _ hts, hts]
      rfl
    · rw [if_neg h1] at h
      subst h
      have hc : ¬ (ts.hold = 0 ∧ ts.note ≠ -1) := fun hh => h1 ⟨by omega, hh.2⟩
      rw [if_neg hc, if_neg hc, if_pos h0]
      refine ⟨⟨[], by simp [Player.setTrackStatus], rfl⟩,
        ⟨_, setTrackStatus_get _ hts, rfl, rfl, rfl, rfl⟩, ?_⟩
      rw [setTrackStatus_get _ hts, hts]
      rfl
  · rw [if_neg h0] at h
    subst h
    have hc : ¬ (ts.hold = 0 ∧ ts.note ≠ -1) := fun hh => h0 (by omega)
    rw [if_neg hc, if_neg hc, if_neg h0]
    exact ⟨Emits.refl_emits track p, ⟨ts, hts, rfl, rfl, rfl, rfl⟩, rfl⟩

theorem tick_head (p p3 : Player) (block : Block) (pre : List Event)
    (hpre : ∀ e ∈ pre, e.track = none)
    (h : (if ({ p with midiOut := p.midiOut ++ pre } : Player).line_ ≥ block.length then
        (if block.length = 0 then none
          else some { ({ p with midiOut := p.midiOut ++ pre } : Player) with
            line_ := ({ p with midiOut := p.midiOut ++ pre } : Player).line_ % block.length })
      else some { p with midiOut := p.midiOut ++ pre }) = some p3) :
    p3.line_ = p.cursor block ∧ p3.tick = p.tick ∧ p3.song = p.song ∧ p3.solo = p.solo ∧
      p3.trackStatuses = p.trackStatuses ∧ p3.postponedNotes = p.postponedNotes ∧
      (∃ evs, p3.midiOut = p.midiOut ++ evs ∧ ∀ e ∈ evs, e.track = none) := by
  unfold Player.cursor
  by_cases hl : p.line_ ≥ block.length
  · rw [if_pos hl] at h
    rw [if_pos hl]
    split at h
    · exact absurd h (by simp)
    · cases h
      exact ⟨rfl, rfl, rfl, rfl, rfl, rfl, pre, rfl, hpre⟩
  · rw [if_neg hl] at h
    rw [if_neg hl]
    cases h
    exact ⟨rfl, rfl, rfl, rfl, rfl, rfl, pre, rfl, hpre⟩

/-- The parts of "handle this tick". -/
theorem handleTick_split {p q : Player} (h : handleTick p = some q) :
    ∃ block p3 p4, p.song.block p.block_ = some block ∧ p3.line_ = p.cursor block ∧
      p3.tick = p.tick ∧ p3.song = p.song ∧ p3.solo = p.solo ∧
      p3.trackStatuses = p.trackStatuses ∧ p3.postponedNotes = p.postponedNotes ∧
      (∃ evs, p3.midiOut = p.midiOut ++ evs ∧ ∀ e ∈ evs, e.track = none) ∧
      loopFrom (runTrack block) block.tracks 0 p3 = some p4 ∧
      loopFrom holdTrack p4.song.maxTracks 0 (flushPostponed p4) = some q := by
  unfold handleTick at h
  dsimp only at h
  obtain ⟨block, hblock, h1⟩ := Option.bind_eq_some.mp h
  obtain ⟨p3, hp3, h2⟩ := Option.bind_eq_some.mp h1
  obtain ⟨p4, hp4, h3⟩ := Option.bind_eq_some.mp h2
  have hs1 : ∀ e ∈ (List.range p.outputs).map
      (fun o => Event.mk none (o : Int) (MidiMsg.setTick p.ticksSoFar)), e.track = none := by
    intro e he
    obtain ⟨o, _, ho⟩ := List.mem_map.mp he
    subst ho
    rfl
  have hs2 : ∀ e ∈ (List.range p.outputs).map
      (fun o => Event.mk none (o : Int) MidiMsg.clock), e.track = none := by
    intro e he
    obtain ⟨o, _, ho⟩ := List.mem_map.mp he
    subst ho
    rfl
  by_cases hsync : p.song.sendSync = true
  · rw [if_pos hsync] at hp3
    have := tick_head p p3 block
      ((List.range p.outputs).map
        (fun o => Event.mk none (o : Int) (MidiMsg.setTick p.ticksSoFar)) ++
       (List.range p.outputs).map (fun o => Event.mk none (o : Int) MidiMsg.clock))
      (fun e he => by
        rcases List.mem_append.mp he with h | h
        · exact hs1 e h
        · exact hs2 e h)
      (by
        rw [← hp3]
        simp only [List.append_assoc])
    obtain ⟨a1, a2, a3, a4, a5, a6, a7⟩ := this
    exact ⟨block, p3, p4, hblock, a1, a2, a3, a4, a5, a6, a7, hp4, h3⟩
  · rw [if_neg hsync] at hp3
    obtain ⟨a1, a2, a3, a4, a5, a6, a7⟩ := tick_head p p3 block _ hs1 hp3
    exact ⟨block, p3, p4, hblock, a1, a2, a3, a4, a5, a6, a7, hp4, h3⟩
theorem instrument_transfer {p a : Player} {k : Int} {y : Instrument}
    (hfix : (a.song.instrument k).map Instrument.fixed
      = (p.song.instrument k).map Instrument.fixed)
    (hp : p.song.instrument k = some y) :
    ∃ x, a.song.instrument k = some x ∧ x.fixed = y.fixed := by
  rw [hp] at hfix
  cases hx : a.song.instrument k with
  | none => rw [hx] at hfix; exact absurd hfix (by simp)
  | some x =>
    rw [hx] at hfix
    simp only [Option.map_some', Option.some.injEq] at hfix
    exact ⟨x, rfl, hfix⟩

theorem Sounding.away_sounding {track : Nat} {p q : Player} {mi ch n hold : Int}
    (hf : AwayFrame track p q) (hs : Sounding track p mi ch n hold) :
    Sounding track q mi ch n hold := by
  obtain ⟨ts, hts, a⟩ := hs
  exact ⟨ts, by rw [hf.own, hts], a⟩

/-- The hold loop of a tick. -/
theorem holdLoop_own {track : Nat} {p q : Player} {mi ch n hold : Int} (cnt : Nat)
    (ht : track < cnt) (hs : Sounding track p mi ch n hold)
    (h : loopFrom holdTrack cnt 0 p = some q) :
    Emits track p q
        (if hold = 0 ∧ n ≠ -1 then [⟨some track, mi, MidiMsg.noteOff ch n 127⟩] else []) ∧
      Sounding track q mi ch (if hold = 0 ∧ n ≠ -1 then -1 else n)
        (if 0 ≤ hold then hold - 1 else hold) ∧
      (q.trackStatuses[track]?).map TrackStatus.volume
        = (p.trackStatuses[track]?).map TrackStatus.volume := by
  obtain ⟨a, b, ha, hb, hc⟩ := loop_at _ _ _ _ _ ht h
  have fa : AwayFrame track p a :=
    loop_away _ _ _ _ _ (fun _ _ _ _ _ hh => holdTrack_frame hh) (fun j _ h2 => by omega) ha
  have fc : AwayFrame track b q :=
    loop_away _ _ _ _ _ (fun _ _ _ _ _ hh => holdTrack_frame hh) (fun j h1 _ => by omega) hc
  obtain ⟨e1, s1, v1⟩ := holdTrack_own (hs.away_sounding fa) hb
  refine ⟨?_, s1.away_sounding fc, by rw [fc.own, v1, fa.own]⟩
  have := (fa.emits_away.trans_emits e1).trans_emits fc.emits_away
  simpa using this


theorem instrument_map_fixed {α : Type} {p q : Player}
    (hi : q.song.instruments.map Instrument.fixed = p.song.instruments.map Instrument.fixed)
    (k : Int) (F : Instrument → α) (hF : ∀ a b : Instrument, a.fixed = b.fixed → F a = F b) :
    (q.song.instrument k).map F = (p.song.instrument k).map F := by
  have hfix := map_eq_getElem? hi (toUInt k)
  unfold Song.instrument
  generalize q.song.instruments[toUInt k]? = x at hfix ⊢
  generalize p.song.instruments[toUInt k]? = y at hfix ⊢
  cases x with
  | none =>
    cases y with
    | none => rfl
    | some b => exact absurd hfix (by simp)
  | some a =>
    cases y with
    | none => exact absurd hfix (by simp)
    | some b =>
      simp only [Option.map_some', Option.some.injEq] at hfix
      simp only [Option.map_some', hF a b hfix]

/-- The reading of a cell depends on the line, the tick, the track's status and the
instruments apart from their default velocity. -/
theorem readCell_beside {block : Block} {v : Nat} {ts : TrackStatus} {p q : Player}
    (hl : q.line_ = p.line_) (ht : q.tick = p.tick)
    (hi : q.song.instruments.map Instrument.fixed = p.song.instruments.map Instrument.fixed) :
    readCell block v ts q = readCell block v ts p := by
  unfold readCell
  rw [hl, ht]
  dsimp only
  refine ite_congr rfl (fun _ => ?_) (fun _ => rfl)
  refine instrument_map_fixed hi _ _ (fun a b hab => ?_)
  obtain ⟨_, _, _, _, g5⟩ := fixed_fields hab
  have g6 : a.arpeggioBaseNote = b.arpeggioBaseNote := by
    have := congrArg (fun i : Instrument => i.arpeggioBaseNote) hab
    exact this
  rw [g5, g6]


theorem quietAt_transfer {block : Block} {track : Nat} {ts : TrackStatus} {p a : Player}
    (hl : a.line_ = p.line_) (ht : a.tick = p.tick)
    (hi : a.song.instruments.map Instrument.fixed = p.song.instruments.map Instrument.fixed) :
    quietAt block track ts a = quietAt block track ts p := by
  unfold quietAt
  rw [readCell_beside hl ht hi, hl, ht]

/-- The track loop of a tick in which the cell of `track` is quiet. -/
theorem trackLoop_quiet {block : Block} {track : Nat} {p3 p4 : Player} {ts : TrackStatus}
    {mi ch n hold : Int}
    (htracks : block.tracks ≤ 256)
    (hts : p3.trackStatuses[track]? = some ts)
    (hq : quietAt block track ts p3 = true)
    (hs : Sounding track p3 mi ch n hold)
    (h : loopFrom (runTrack block) block.tracks 0 p3 = some p4) :
    Sounding track p4 mi ch n hold ∧ Emits track p3 p4 [] ∧
      p4.song.maxTracks = p3.song.maxTracks := by
  have hbody : ∀ (i cnt : Nat), i + cnt ≤ block.tracks → ∀ j a b, i ≤ j → j < i + cnt →
      runTrack block j a = some b → TrackFrame j a b :=
    fun i cnt hic j a b _ h2 hb => runTrack_frame (by omega) hb
  by_cases ht : track < block.tracks
  · obtain ⟨a, b, ha, hb, hc⟩ := loop_at _ _ _ _ _ ht h
    have fa : AwayFrame track p3 a :=
      loop_away _ _ _ _ _ (hbody 0 track (by omega)) (fun j _ h2 => by omega) ha
    have fc : AwayFrame track b p4 :=
      loop_away _ _ _ _ _ (hbody (track + 1) (block.tracks - track - 1) (by omega))
        (fun j h1 _ => by omega) hc
    have fb := runTrack_frame (by omega : track < 256) hb
    have hq1 := runTrack_quietAt (fa.own.trans hts)
      ((quietAt_transfer fa.line_ fa.tick fa.instruments).trans hq) (hs.away_sounding fa) hb
    refine ⟨hq1.1.away_sounding fc, ?_, by rw [fc.maxTracks_away, fb.maxTracks_track, fa.maxTracks_away]⟩
    have := (fa.emits_away.trans_emits (hq1.2.emits_calm track)).trans_emits fc.emits_away
    simpa using this
  · have f : AwayFrame track p3 p4 :=
      loop_away _ _ _ _ _ (hbody 0 block.tracks (by omega)) (fun j _ h2 => by omega) h
    exact ⟨hs.away_sounding f, f.emits_away, f.maxTracks_away⟩

theorem quietCell_spec {track : Nat} {p : Player} (h : quietCell track p = true) :
    ∃ block ts, p.song.block p.block_ = some block ∧ p.trackStatuses[track]? = some ts ∧
      block.tracks ≤ 256 ∧ track < p.song.maxTracks ∧
      quietAt block track ts { p with line_ := p.cursor block } = true := by
  unfold quietCell at h
  split at h
  · rename_i block ts hb hts
    simp only [Bool.and_eq_true, decide_eq_true_eq] at h
    obtain ⟨⟨h1, h2⟩, h3⟩ := h
    exact ⟨block, ts, hb, hts, h1, h2, h3⟩
  · exact absurd h (by simp)

/-- A tick in which the cell of `track` is quiet: the hold time of the track is decremented,
and the only note-off made for the track is the one of the hold loop, made when the hold
time falls below 0. -/
theorem handleTick_quiet {track : Nat} {p q : Player} {mi ch n hold : Int}
    (hq : quietCell track p = true) (hs : Sounding track p mi ch n hold)
    (h : handleTick p = some q) :
    Emits track p q
        (if hold = 0 ∧ n ≠ -1 then [⟨some track, mi, MidiMsg.noteOff ch n 127⟩] else []) ∧
      Sounding track q mi ch (if hold = 0 ∧ n ≠ -1 then -1 else n)
        (if 0 ≤ hold then hold - 1 else hold) := by
  obtain ⟨block, p3, p4, hb, a1, a2, a3, a4, a5, a6, ⟨evs0, a7, a8⟩, hl, hh⟩ :=
    handleTick_split h
  obtain ⟨block1, ts, hb1, hts, c1, c2, c3⟩ := quietCell_spec hq
  rw [hb] at hb1
  cases hb1
  have hs3 : Sounding track p3 mi ch n hold := by
    obtain ⟨ts0, h0, r⟩ := hs
    exact ⟨ts0, by rw [a5]; exact h0, r⟩
  obtain ⟨s4, e4, m4⟩ := trackLoop_quiet c1 (by rw [a5]; exact hts)
    ((quietAt_transfer (p := { p with line_ := p.cursor block }) a1 a2 (by
      show p3.song.instruments.map _ = p.song.instruments.map _
      rw [a3])).trans c3) hs3 hl
  have hs5 : Sounding track (flushPostponed p4) mi ch n hold := s4
  obtain ⟨e6, s6, _⟩ := holdLoop_own (p := flushPostponed p4) p4.song.maxTracks
    (by rw [m4, a3]; exact c2) hs5 hh
  refine ⟨?_, s6⟩
  have e0 : Emits track p p3 [] :=
    ⟨evs0, a7, noteOffsOf_nil_of (fun e he => Or.inl (by rw [a8 e he]; simp))⟩
  have := ((e0.trans_emits e4).trans_emits (flushPostponed_emits track p4)).trans_emits e6
  simpa using this

/-! ### The advance to the next tick -/

theorem Keeps.refl_keeps (p : Player) : Keeps p p := ⟨rfl, rfl⟩

theorem Keeps.trans_keeps {p q r : Player} (h1 : Keeps p q) (h2 : Keeps q r) : Keeps p r :=
  ⟨by rw [h2.1, h1.1], by rw [h2.2, h1.2]⟩

theorem Keeps.of_eq_keeps {p q : Player} (h1 : q.midiOut = p.midiOut)
    (h2 : q.trackStatuses = p.trackStatuses) : Keeps p q :=
  ⟨h1, by rw [h2]⟩

theorem Keeps.sounding {track : Nat} {p q : Player} {mi ch n hold : Int} (h : Keeps p q)
    (hs : Sounding track p mi ch n hold) : Sounding track q mi ch n hold := by
  obtain ⟨ts, hts, a1, a2, a3, a4⟩ := hs
  have := map_eq_getElem? h.2 track
  rw [hts] at this
  cases hq : q.trackStatuses[track]? with
  | none => rw [hq] at this; exact absurd this (by simp)
  | some tq =>
    rw [hq] at this
    simp only [Option.map_some', Option.some.injEq, Prod.mk.injEq] at this
    exact ⟨tq, hq, by rw [this.1, a1], by rw [this.2.1, a2], by rw [this.2.2.1, a3],
      by rw [this.2.2.2, a4]⟩

theorem advanceArpeggio_keeps {track : Nat} {p q : Player}
    (h : advanceArpeggio track p = some q) : Keeps p q := by
  unfold advanceArpeggio at h
  obtain ⟨ts, hts, h1⟩ := Option.bind_eq_some.mp h
  split at h1
  · obtain ⟨instr, _, h2⟩ := Option.bind_eq_some.mp h1
    split at h2
    · cases h2
      exact Keeps.refl_keeps p
    · split at h2
      · exact absurd h2 (by simp)
      · cases h2
        exact ⟨rfl, map_set_of_eq _ p.trackStatuses track ts _ hts rfl⟩
  · cases h1
    exact Keeps.refl_keeps p

theorem nextSection_keeps (p : Player) : Keeps p p.nextSection.1 :=
  Keeps.of_eq_keeps rfl rfl

theorem nextPosition_keeps {p : Player} {r : Player × Bool}
    (h : p.nextPosition = some r) : Keeps p r.1 := by
  unfold Player.nextPosition at h
  obtain ⟨ps, _, h1⟩ := Option.map_eq_some'.mp h
  dsimp only at h1
  split at h1
  · subst h1
    exact (Keeps.of_eq_keeps rfl rfl).trans_keeps (nextSection_keeps _)
  · subst h1
    exact Keeps.of_eq_keeps rfl rfl

theorem updateLocation_keeps {p q : Player} (h : p.updateLocation = some q) : Keeps p q := by
  unfold Player.updateLocation at h
  dsimp only at h
  obtain ⟨a, _, h1⟩ := Option.bind_eq_some.mp h
  obtain ⟨b, _, h2⟩ := Option.bind_eq_some.mp h1
  obtain ⟨c, _, h3⟩ := Option.bind_eq_some.mp h2
  cases h3
  exact Keeps.of_eq_keeps rfl rfl

theorem postCommands_keeps {p : Player} {r : Player × Bool}
    (h : postCommands p = some r) : Keeps p r.1 := by
  unfold postCommands at h
  obtain ⟨x, hx, h1⟩ := Option.bind_eq_some.mp h
  have k1 : Keeps p x.1 := by
    split at hx
    · split at hx
      · obtain ⟨y, hy, he⟩ := Option.map_eq_some'.mp hx
        subst he
        exact (Keeps.of_eq_keeps (q := { p with line_ := p.postValue }) rfl rfl).trans_keeps
          (nextPosition_keeps hy)
      · cases hx
        exact Keeps.of_eq_keeps rfl rfl
    · split at hx
      · obtain ⟨ps, _, he⟩ := Option.map_eq_some'.mp hx
        subst he
        split
        · exact (Keeps.of_eq_keeps (q := { p with line_ := 0, position_ := 0 }) rfl rfl).trans_keeps
            (nextSection_keeps _)
        · exact Keeps.of_eq_keeps rfl rfl
      · split at hx
        · cases hx
          exact Keeps.of_eq_keeps rfl rfl
        · obtain ⟨b, _, h2⟩ := Option.bind_eq_some.mp hx
          split at h2
          · split at h2
            · obtain ⟨y, hy, he⟩ := Option.map_eq_some'.mp h2
              subst he
              exact (Keeps.of_eq_keeps (q := { p with line_ := 0 }) rfl rfl).trans_keeps
                (nextPosition_keeps hy)
            · cases h2
              exact Keeps.of_eq_keeps rfl rfl
          · cases h2
            exact Keeps.refl_keeps p
  dsimp only at h1
  split at h1
  · obtain ⟨y, hy, he⟩ := Option.map_eq_some'.mp h1
    subst he
    exact k1.trans_keeps ((Keeps.of_eq_keeps (q := { x.1 with postCommand := 0, postValue := 0 })
      rfl rfl).trans_keeps (updateLocation_keeps hy))
  · cases h1
    exact k1.trans_keeps (Keeps.of_eq_keeps rfl rfl)

/-- The advance to the next tick makes no call and leaves the notes and hold times. -/
theorem advance_keeps {p : Player} {r : Player × Bool} (h : advance p = some r) :
    Keeps p r.1 := by
  unfold advance at h
  split at h
  · exact absurd h (by simp)
  · dsimp only at h
    split at h
    · obtain ⟨a, ha, h1⟩ := Option.bind_eq_some.mp h
      have k1 := loopFrom_rel Keeps Keeps.refl_keeps (fun _ _ _ x y => x.trans_keeps y) advanceArpeggio
        (fun _ _ _ hb => advanceArpeggio_keeps hb) _ _ _ _ ha
      exact ((Keeps.of_eq_keeps rfl rfl).trans_keeps k1).trans_keeps (postCommands_keeps h1)
    · cases h
      exact Keeps.of_eq_keeps rfl rfl

/-! ### Quiet ticks in a row -/

theorem stateAt_succ_inv {p s : Player} {j : Nat} (h : stateAt (j + 1) p = some s) :
    ∃ q r, handleTick p = some q ∧ advance q = some r ∧
      (∀ i, stateAt (i + 1) p = stateAt i r.1) ∧ stateAt j r.1 = some s := by
  simp only [stateAt] at h
  obtain ⟨r, hr, h1⟩ := Option.bind_eq_some.mp h
  split at h1
  · exact absurd h1 (by simp)
  · rename_i hne
    unfold tickStep at hr
    obtain ⟨q, hq, ha⟩ := Option.bind_eq_some.mp hr
    refine ⟨q, r, hq, ha, ?_, h1⟩
    intro i
    simp only [stateAt]
    unfold tickStep
    rw [hq]
    simp only [Option.some_bind]
    rw [ha]
    simp only [Option.some_bind]
    rw [if_neg hne]

theorem Keeps.emits_keeps {p q : Player} (track : Nat) (h : Keeps p q) : Emits track p q [] :=
  ⟨[], by rw [h.1, List.append_nil], rfl⟩

/-- Through `m` quiet ticks the note of the track stays, no note-off is made for the
track, and a hold time of at least `m` is decremented `m` times (the hold time -1 stays). -/
theorem quiet_run {track : Nat} {mi ch n : Int} :
    ∀ (m : Nat) (p s : Player) (hold : Int), (hold = -1 ∨ (m : Int) ≤ hold) →
      Sounding track p mi ch n hold →
      (∀ j, j < m → ∀ sj, stateAt j p = some sj → quietCell track sj = true) →
      stateAt m p = some s →
      Emits track p s [] ∧ Sounding track s mi ch n (if hold = -1 then -1 else hold - m) := by
  intro m
  induction m with
  | zero =>
    intro p s hold hh hs _ h
    simp only [stateAt, Option.some.injEq] at h
    subst h
    refine ⟨Emits.refl_emits track p, ?_⟩
    rcases hh with h1 | h1
    · rw [if_pos h1, ← h1]
      exact hs
    · split
      · rename_i h2
        rw [← h2]
        exact hs
      · simpa using hs
  | succ m ih =>
    intro p s hold hh hs hq h
    obtain ⟨q, r, hq1, ha, hsucc, hrest⟩ := stateAt_succ_inv h
    have hq0 : quietCell track p = true := hq 0 (by omega) p rfl
    obtain ⟨e1, s1⟩ := handleTick_quiet hq0 hs hq1
    have k := advance_keeps ha
    have hq' : ∀ j, j < m → ∀ sj, stateAt j r.1 = some sj → quietCell track sj = true := by
      intro j hj sj hsj
      exact hq (j + 1) (by omega) sj (by rw [hsucc]; exact hsj)
    rcases hh with h1 | h1
    · subst h1
      rw [if_neg (by omega)] at e1
      rw [if_neg (by omega), if_neg (by decide)] at s1
      obtain ⟨e2, s2⟩ := ih r.1 s (-1) (Or.inl rfl) (k.sounding s1) hq' hrest
      refine ⟨?_, ?_⟩
      · have := (e1.trans_emits (k.emits_keeps track)).trans_emits e2
        simpa using this
      · rw [if_pos rfl] at s2 ⊢
        exact s2
    · have h0 : ¬ (hold = 0 ∧ n ≠ -1) := fun hc => by
        have := hc.1
        push_cast at h1
        omega
      have hp : 0 ≤ hold := by
        push_cast at h1
        omega
      rw [if_neg h0] at e1
      rw [if_neg h0, if_pos hp] at s1
      obtain ⟨e2, s2⟩ := ih r.1 s (hold - 1) (Or.inr (by push_cast at h1; omega))
        (k.sounding s1) hq' hrest
      refine ⟨?_, ?_⟩
      · have := (e1.trans_emits (k.emits_keeps track)).trans_emits e2
        simpa using this
      · have hn1 : ¬ (hold - 1 = -1) := by
          push_cast at h1
          omega
        have hn2 : ¬ (hold = -1) := by omega
        rw [if_neg hn1] at s2
        rw [if_neg hn2]
        have e : hold - 1 - (m : Int) = hold - ((m + 1 : Nat) : Int) := by
          push_cast
          omega
        rw [← e]
        exact s2

/-! ### The tick that fires the note -/

theorem audible_of_eq {p a : Player} (h1 : a.song = p.song) (h2 : a.solo = p.solo)
    (track : Nat) : a.audible track = p.audible track := by
  unfold Player.audible
  rw [h1, h2]

theorem hold_of_fixed {x y : Instrument} (h : x.fixed = y.fixed) (cell : Cell)
    (ts ts1 : TrackStatus) (block : Block) (line track : Nat) :
    cell.hold ts ts1 block line track x = cell.hold ts ts1 block line track y ∧
      firedNote cell x = firedNote cell y := by
  obtain ⟨g1, _, _, g4, _⟩ := fixed_fields h
  unfold Cell.hold effectiveHold firedNote
  rw [g1, g4]
  exact ⟨rfl, rfl⟩

/-- The track loop for the track whose cell fires, entered in a state `a` that differs from
the state `p` in which the cell is read by the processing of other tracks. -/
theorem runTrack_fired_away (block : Block) (track : Nat) (p a b : Player)
    (ts ts1 : TrackStatus) (cell : Cell) (instr : Instrument)
    (hl : a.line_ = p.line_) (ht : a.tick = p.tick)
    (hi : a.song.instruments.map Instrument.fixed = p.song.instruments.map Instrument.fixed)
    (htrack : track < 256) (htick : p.tick < 2 ^ 32)
    (hts : a.trackStatuses[track]? = some ts)
    (haud : a.audible track = some true)
    (hread : readCell block track ts p = some (cell, ts1))
    (hnote : cell.note ≠ 0)
    (hk : (if cell.instrument = 0 then ((ts.instrument + 1) % 256).toNat
            else cell.instrument) ≠ 0)
    (hin : p.song.instrument
      (((if cell.instrument = 0 then ((ts.instrument + 1) % 256).toNat
          else cell.instrument : Nat) : Int) - 1) = some instr)
    (hgateH : gate p.tick
        (cellGate ts.previousCommand (cell.gatePages ts1 block p.line_ track)).1
        (cellGate ts.previousCommand (cell.gatePages ts1 block p.line_ track)).2)
    (hslip : ¬ (p.tick = 0 ∧ cell.note = 1))
    (hrun : runTrack block track a = some b) :
    ∃ tsq, b.trackStatuses[track]? = some tsq ∧
      tsq.midiInterface = toShort instr.midiInterface ∧ tsq.midiChannel = instr.midiChannel ∧
      tsq.hold = (if cell.hold ts ts1 block p.line_ track instr = 0 then -1
         else cell.hold ts ts1 block p.line_ track instr) ∧
      tsq.note = (if tsq.volume ≠ 0 then firedNote cell instr else -1) ∧
      b.postponedNotes = (if tsq.volume ≠ 0 then
          a.postponedNotes ++ [⟨track, instr.midiInterface, instr.midiChannel,
            firedNote cell instr, tsq.volume⟩]
        else a.postponedNotes) := by
  obtain ⟨instr4, hin4, hfix⟩ := instrument_transfer
    (map_eq_getElem? hi (toUInt _)) hin
  obtain ⟨g1, g2, g3, g4, _⟩ := fixed_fields hfix
  obtain ⟨e1, e2⟩ := hold_of_fixed hfix cell ts ts1 block p.line_ track
  rw [← hl] at hgateH ⊢
  rw [← ht] at htick hgateH hslip
  obtain ⟨tsq, h0, w1, w2, w3, w4, w5⟩ := runTrack_fired block track a b ts ts1 cell instr4
    htrack htick hts haud ((readCell_beside hl ht hi).trans hread) hnote hk hin4 hgateH hslip hrun
  refine ⟨tsq, h0, by rw [w1, g2], by rw [w2, g3], ?_, by rw [w4, e2], ?_⟩
  · rw [w3, hl, e1]
  · rw [w5, g2, g3, e2]

theorem flush_out (p : Player) :
    (flushPostponed p).midiOut = p.midiOut ++ p.postponedNotes.map NoteOn.event := rfl

theorem fired_assemble {track : Nat} {p p3 a b p4 q : Player} {x : NoteOn}
    {evs0 evsA evsB evsC evsH : List Event} {nsC : List NoteOn}
    (h1 : q.midiOut = (flushPostponed p4).midiOut ++ evsH)
    (h2 : noteOffsOf track evsH = [])
    (a7 : p3.midiOut = p.midiOut ++ evs0) (h3 : a.midiOut = p3.midiOut ++ evsA)
    (h4 : b.midiOut = a.midiOut ++ evsB) (h5 : p4.midiOut = b.midiOut ++ evsC)
    (h6 : p4.postponedNotes = b.postponedNotes ++ nsC)
    (w5 : b.postponedNotes = a.postponedNotes ++ [x]) :
    ∃ pre post, q.midiOut = p.midiOut ++ pre ++ [x.event] ++ post ∧
      noteOffsOf track post = [] := by
  refine ⟨evs0 ++ evsA ++ evsB ++ evsC ++ a.postponedNotes.map NoteOn.event,
    nsC.map NoteOn.event ++ evsH, ?_, ?_⟩
  · rw [h1, flush_out, h5, h4, h3, a7, h6, w5]
    simp only [List.map_append, List.map_cons, List.map_nil, List.append_assoc]
  · rw [noteOffsOf_append, h2, List.append_nil]
    apply noteOffsOf_nil_of
    intro e he
    obtain ⟨n, _, hn⟩ := List.mem_map.mp he
    subst hn
    exact Or.inr rfl

theorem fired_hold (h : Int) (h0 : 0 ≤ h) :
    (if h = 0 then (-1 : Int) else h) ≠ 0 ∧
      (if 0 ≤ (if h = 0 then (-1 : Int) else h) then (if h = 0 then (-1 : Int) else h) - 1
        else (if h = 0 then (-1 : Int) else h)) = (if h = 0 then -1 else h - 1) := by
  by_cases hh : h = 0
  · subst hh
    decide
  · rw [if_neg hh, if_neg hh, if_pos h0]
    exact ⟨hh, rfl⟩

theorem effectiveHold_nonneg (ts : TrackStatus) (scanned pages : List (Nat × Nat))
    (instr : Instrument) : 0 ≤ effectiveHold ts scanned pages instr := by
  unfold effectiveHold
  split <;> omega

theorem volume_of_map {l : List TrackStatus} {track : Nat} {tq : TrackStatus} {v : Int}
    (h : (l[track]?).map TrackStatus.volume = some v) (hq : l[track]? = some tq) :
    tq.volume = v := by
  rw [hq] at h
  simpa using h

/-- The tick in which the cell of the track fires a note that resolves a non-zero
velocity: the note-on is made, no note-off is made for the track after it in this tick,
and the track's status holds the note with the effective hold time less one (-1 for the
effective hold time 0). -/
theorem handleTick_fired {p q : Player} {block : Block} {track : Nat} {ts ts1 : TrackStatus}
    {cell : Cell} {instr : Instrument} (hf : Fires p block track ts cell ts1 instr)
    (hrun : handleTick p = some q)
    (hvol : ∀ tsq, q.trackStatuses[track]? = some tsq → tsq.volume ≠ 0) :
    ∃ pre post rv, rv ≠ 0 ∧
      q.midiOut = p.midiOut ++ pre ++
        [⟨some track, instr.midiInterface, MidiMsg.noteOn instr.midiChannel
          (firedNote cell instr) rv⟩] ++ post ∧
      noteOffsOf track post = [] ∧
      Sounding track q (toShort instr.midiInterface) instr.midiChannel
        (firedNote cell instr)
        (if cell.hold ts ts1 block (p.cursor block) track instr = 0 then -1
          else cell.hold ts ts1 block (p.cursor block) track instr - 1) := by
  obtain ⟨block1, p3, p4, hb, a1, a2, a3, a4, a5, a6, ⟨evs0, a7, a8⟩, hl, hh⟩ :=
    handleTick_split hrun
  rw [hf.hblock] at hb
  cases hb
  obtain ⟨a, b, ha, hbb, hc⟩ := loop_at _ _ _ _ _ hf.htrack hl
  have h256 := hf.htracks
  have htr := hf.htrack
  have fa : AwayFrame track p3 a :=
    loop_away _ _ _ _ _ (fun j _ _ _ h2 hb => runTrack_frame (by omega) hb)
      (fun j _ h2 => by omega) ha
  have fc : AwayFrame track b p4 :=
    loop_away _ _ _ _ _ (fun j _ _ _ h2 hb => runTrack_frame (by omega) hb)
      (fun j h1 _ => by omega) hc
  have fb : TrackFrame track a b := runTrack_frame (by omega) hbb
  obtain ⟨tsq, hst, w1, w2, w3, w4, w5⟩ := runTrack_fired_away block track
    { p with line_ := p.cursor block } a b ts ts1 cell instr
    (fa.line_.trans a1) (fa.tick.trans a2)
    (fa.instruments.trans (by
      show p3.song.instruments.map _ = p.song.instruments.map _
      rw [a3]))
    (by omega) hf.htick (fa.own.trans (by rw [a5]; exact hf.hstatus))
    ((fa.audible_eq_away track).trans ((audible_of_eq a3 a4 track).trans hf.haudible))
    hf.hread hf.hnote hf.hnamed hf.hinstrument hf.hgate hf.hlowest hbb
  have hs4 : Sounding track (flushPostponed p4) tsq.midiInterface tsq.midiChannel tsq.note
      tsq.hold := ⟨tsq, fc.own.trans hst, rfl, rfl, rfl, rfl⟩
  have hmax : track < p4.song.maxTracks := by
    rw [fc.maxTracks_away, fb.maxTracks_track, fa.maxTracks_away, a3]
    obtain ⟨t, ht⟩ := audible_track hf.haudible
    exact lt_length_of_getElem? ht
  obtain ⟨e6, s6, v6⟩ := holdLoop_own _ hmax hs4 hh
  have hv : tsq.volume ≠ 0 := by
    obtain ⟨tq, htq, _⟩ := s6
    have hv4 : ((flushPostponed p4).trackStatuses[track]?).map TrackStatus.volume
        = some tsq.volume := by
      show (p4.trackStatuses[track]?).map TrackStatus.volume = _
      rw [fc.own, hst]
      rfl
    rw [← volume_of_map (v6.trans hv4) htq]
    exact hvol tq htq
  rw [if_pos hv] at w4 w5
  obtain ⟨k1, k2⟩ := fired_hold (cell.hold ts ts1 block (p.cursor block) track instr)
    (effectiveHold_nonneg _ _ _ _)
  have w3' : tsq.hold = (if cell.hold ts ts1 block (p.cursor block) track instr = 0 then -1
      else cell.hold ts ts1 block (p.cursor block) track instr) := w3
  have hn0 : ¬ (tsq.hold = 0 ∧ tsq.note ≠ -1) := fun hc0 => by
    rw [w3'] at hc0
    exact k1 hc0.1
  rw [if_neg hn0] at e6 s6
  rw [w3', k2, w1, w2, w4] at s6
  obtain ⟨evsH, h1, h2⟩ := e6
  obtain ⟨evsA, h3, _⟩ := fa.out
  obtain ⟨evsB, h4, _⟩ := fb.out
  obtain ⟨evsC, h5, _⟩ := fc.out
  obtain ⟨nsC, h6⟩ := fc.postponed
  obtain ⟨pre, post, hout, hoff⟩ := fired_assemble h1 h2 a7 h3 h4 h5 h6 w5
  exact ⟨pre, post, tsq.volume, hv, hout, hoff, s6⟩

/-! ### Hold expiry -/

theorem hold_arith (h : Int) (m : Nat) (h0 : 0 ≤ h) (hm : h = 0 ∨ ((m + 1 : Nat) : Int) ≤ h) :
    ((if h = 0 then (-1 : Int) else h - 1) = -1 ∨ (m : Int) ≤ (if h = 0 then (-1 : Int) else h - 1)) ∧
    ((if (if h = 0 then (-1 : Int) else h - 1) = -1 then (-1 : Int)
        else (if h = 0 then (-1 : Int) else h - 1) - m) = 0 ↔ ((m + 1 : Nat) : Int) = h) := by
  by_cases hh : h = 0
  · subst hh
    simp only [if_true]
    refine ⟨Or.inl trivial, ?_⟩
    constructor
    · intro hc
      exact absurd hc (by decide)
    · intro hc
      push_cast at hc
      omega
  · rcases hm with h1 | h1
    · exact absurd h1 hh
    · push_cast at h1
      have hne : ¬ (h - 1 = -1) := by omega
      simp only [hh, if_false, hne]
      refine ⟨Or.inr (by omega), ?_⟩
      push_cast
      constructor <;> intro hc <;> omega

theorem expiry_assemble {track : Nat} {p q0 r s : Player} {pre post0 : List Event} {ev : Event}
    (hout : q0.midiOut = p.midiOut ++ pre ++ [ev] ++ post0)
    (hoff : noteOffsOf track post0 = [])
    (hk : r.midiOut = q0.midiOut) (he : Emits track r s []) :
    ∃ post, s.midiOut = p.midiOut ++ pre ++ [ev] ++ post ∧ noteOffsOf track post = [] := by
  obtain ⟨evs, h1, h2⟩ := he
  refine ⟨post0 ++ evs, ?_, ?_⟩
  · rw [h1, hk, hout]
    simp only [List.append_assoc]
  · rw [noteOffsOf_append, hoff, h2]
    rfl

/-- C3 (amended): a note is fired on tick `k` (the tick that starts in `p`) by the cell of
an audible track of a block of at most 256 tracks, with any number of command pages and an
instrument that exists, with or without arpeggio: the cell resolves a note, the gate holds
for the delay and repeat with which the firing test is made, the resolved velocity is not
0, the transposed note is not -1 and the note resolved is not the lowest note on tick 0 of
its line.  The effective hold `h` is the value of the last page that stands for a Hold
command among the pages `handleCommand` interprets for the cell (those of the arpeggio
line, then those of the cell; a page with the command byte `0x01` and a non-zero value
stands for the track's previous command), otherwise the instrument's hold.  If the run
reaches tick `k + m` (`m ≥ 1`, and `m ≤ h` or `h = 0`) and on each of the ticks
`k+1 .. k+m` the track's cell either resolves no note, names no instrument on tick 0 of a
line and has no Velocity command with value 0 on its pages or on the arpeggio line, or
resolves a note while the gate is closed both for the delay and repeat of the cell's pages
and for those of the firing test, then after the note-on no note-off is made for the track
before tick `k + m`, and during tick `k + m` the note's note-off (velocity 127, on the
interface and channel of the note) is made exactly when `m = h`; with `h = 0` no note-off
is made. -/
theorem hold_expiry (p s q : Player) (block : Block) (track : Nat) (ts ts1 : TrackStatus)
    (cell : Cell) (instr : Instrument) (m : Nat)
    (hf : Fires p block track ts cell ts1 instr)
    (hm : 1 ≤ m)
    (hhold : cell.hold ts ts1 block (p.cursor block) track instr = 0 ∨
      (m : Int) ≤ cell.hold ts ts1 block (p.cursor block) track instr)
    (hvol : ∀ q0, handleTick p = some q0 →
      ∀ tsq, q0.trackStatuses[track]? = some tsq → tsq.volume ≠ 0)
    (hquiet : ∀ j, 1 ≤ j → j ≤ m → ∀ sj, stateAt j p = some sj → quietCell track sj = true)
    (hs : stateAt m p = some s) (hq : handleTick s = some q) :
    ∃ pre post last rv, rv ≠ 0 ∧
      s.midiOut = p.midiOut ++ pre ++
        [⟨some track, instr.midiInterface, MidiMsg.noteOn instr.midiChannel
          (firedNote cell instr) rv⟩] ++ post ∧
      noteOffsOf track post = [] ∧
      q.midiOut = s.midiOut ++ last ∧
      noteOffsOf track last =
        (if (m : Int) = cell.hold ts ts1 block (p.cursor block) track instr then
          [⟨some track, toShort instr.midiInterface,
            MidiMsg.noteOff instr.midiChannel (firedNote cell instr) 127⟩]
         else []) := by
  obtain ⟨m1, rfl⟩ : ∃ m1, m = m1 + 1 := ⟨m - 1, by omega⟩
  obtain ⟨q0, r, hq0, ha, hsucc, hrest⟩ := stateAt_succ_inv hs
  obtain ⟨pre, post0, rv, hrv, hout, hoff, s0⟩ := handleTick_fired hf hq0 (hvol q0 hq0)
  have k := advance_keeps ha
  obtain ⟨ar1, ar2⟩ := hold_arith _ m1
    (effectiveHold_nonneg ts (block.pages (p.cursor block) track)
      (cell.arpeggioPages ts1 ++ block.pages (p.cursor block) track) instr) hhold
  obtain ⟨e1, s1⟩ := quiet_run m1 r.1 s _ ar1 (k.sounding s0)
    (fun j hj sj hsj => hquiet (j + 1) (by omega) (by omega) sj (by rw [hsucc]; exact hsj)) hrest
  obtain ⟨e2, _⟩ := handleTick_quiet (hquiet (m1 + 1) (by omega) (Nat.le_refl _) s hs) s1 hq
  obtain ⟨post, hp1, hp2⟩ := expiry_assemble hout hoff k.1 e1
  obtain ⟨last, hl1, hl2⟩ := e2
  refine ⟨pre, post, last, rv, hrv, hp1, hp2, hl1, ?_⟩
  rw [hl2]
  by_cases hc : ((m1 + 1 : Nat) : Int) = cell.hold ts ts1 block (p.cursor block) track instr
  · rw [if_pos hc, if_pos ⟨ar2.mpr hc, hf.hsentinel⟩]
  · rw [if_neg hc, if_neg (fun hh => hc (ar2.mp hh.1))]


theorem firesS1 : Fires playerS1 blockS1 0 freshStatus ⟨49, 1, 49, none⟩
    { freshStatus with line := 0 } (plainInstrument 100 0 1) where
  hblock := rfl
  htracks := by decide
  htrack := by decide
  htick := by decide
  hstatus := rfl
  haudible := by decide
  hread := rfl
  hnote := by decide
  hnamed := by decide
  hinstrument := rfl
  hgate := Or.inl (by decide)
  hlowest := by decide
  hsentinel := by decide

theorem S1_tick1 : (stateAt 1 playerS1).isSome = true := by
  decide!

theorem S1_tick1_handled :
    (handleTick ((stateAt 1 playerS1).get S1_tick1)).isSome = true := by
  decide!

/-- C3, witness: scenario S1 (instrument hold 1, six ticks per line).  The note fired on
tick 0 gets its note-off during tick 1, and the calls of the two ticks are
`set_tick(0)`, `note_on(0, 48, 100)`, `set_tick(1)`, `note_off(0, 48, 127)`. -/
theorem hold_expiry_witness :
    (∃ pre post last rv, rv ≠ 0 ∧
      ((stateAt 1 playerS1).get S1_tick1).midiOut = playerS1.midiOut ++ pre ++
        [⟨some 0, (plainInstrument 100 0 1).midiInterface,
          MidiMsg.noteOn (plainInstrument 100 0 1).midiChannel
            (firedNote ⟨49, 1, 49, none⟩ (plainInstrument 100 0 1)) rv⟩]
          ++ post ∧
      noteOffsOf 0 post = [] ∧
      ((handleTick ((stateAt 1 playerS1).get S1_tick1)).get S1_tick1_handled).midiOut
        = ((stateAt 1 playerS1).get S1_tick1).midiOut ++ last ∧
      noteOffsOf 0 last =
        (if ((1 : Nat) : Int)
            = Cell.hold ⟨49, 1, 49, none⟩ freshStatus { freshStatus with line := 0 } blockS1
                (playerS1.cursor blockS1) 0 (plainInstrument 100 0 1) then
          [⟨some 0, toShort (plainInstrument 100 0 1).midiInterface,
            MidiMsg.noteOff (plainInstrument 100 0 1).midiChannel
              (firedNote ⟨49, 1, 49, none⟩ (plainInstrument 100 0 1)) 127⟩]
         else [])) ∧
    ((handleTick ((stateAt 1 playerS1).get S1_tick1)).get S1_tick1_handled).midiOut
      = [⟨none, 0, MidiMsg.setTick 0⟩, ⟨some 0, 0, MidiMsg.noteOn 0 48 100⟩,
         ⟨none, 0, MidiMsg.setTick 1⟩, ⟨some 0, 0, MidiMsg.noteOff 0 48 127⟩] :=
  ⟨hold_expiry playerS1 ((stateAt 1 playerS1).get S1_tick1)
      ((handleTick ((stateAt 1 playerS1).get S1_tick1)).get S1_tick1_handled)
      blockS1 0 freshStatus { freshStatus with line := 0 } ⟨49, 1, 49, none⟩
      (plainInstrument 100 0 1) 1 firesS1 (Nat.le_refl 1)
      (Or.inr (by decide))
      (by
        intro q0 h0 tsq ht
        have hv : ((handleTick playerS1).bind (fun x => x.trackStatuses[0]?)).map
            TrackStatus.volume = some 100 := by decide!
        rw [h0] at hv
        simp only [Option.some_bind] at hv
        rw [ht] at hv
        simp only [Option.map_some', Option.some.injEq] at hv
        rw [hv]
        decide)
      (by
        intro j h1 h2 sj hsj
        have hj : j = 1 := by omega
        subst hj
        have hq : (stateAt 1 playerS1).map (quietCell 0) = some true := by decide!
        rw [hsj] at hq
        simpa using hq)
      (Option.some_get S1_tick1).symm (Option.some_get S1_tick1_handled).symm,
    by decide!⟩

/-- C3, counterexample, in seven runs; in each the calls of the run up to and including
the tick named last are listed, and no other note fires and no later cell names an
instrument.
(1) One tick per line, hold 3: the note fired on tick 0 is followed on tick 1 by a cell
without note and instrument that carries the Velocity command with value 0; the note-off is
made during tick 1 and none is made during tick 3.
(2) Hold 1, and a cell on tick 1 that names the instrument (none names one before tick 1):
no note-off is made during tick 1, the hold time is extended and the note-off is made
during tick 2.
(3) Hold 3, the arpeggio line of the instrument carries Delay 9: the cell of tick 1 holds a
note that does not fire, since the firing test is made with the delay of the arpeggio line,
yet the scan of the cell's own pages finds the gate open and the note-off is made during
tick 1; none is made during tick 3.
(4) Hold 1, the lowest note (1) on tick 0 of its line: the hold time is extended by the
instrument's hold and the note-off is made during tick 2, not tick 1.
(5) Hold 1, note 2 transposed by -2: the note-on has the note number -1, the mark of a
silent track, and no note-off is made during tick 1 or tick 2.
(6) Four ticks per line, instrument hold 1, the arpeggio line carries Hold 2 and the cell
carries no Hold command: the note-off is made during tick 2, not tick 1.
(7) Instrument hold 1; the note is fired on tick 1 by a cell with the command byte `0x01`
and the value 2, the track's previous command being Hold: the note-off is made during
tick 3, not tick 2. -/
theorem hold_expiry_velocity_zero :
    ((stateAt 3 (playerOf songHeldVelocityOff Mode.ModePlayBlock false)).bind handleTick).map
        (fun p => p.midiOut)
      = some [⟨none, 0, MidiMsg.setTick 0⟩, ⟨some 0, 0, MidiMsg.noteOn 0 48 100⟩,
          ⟨none, 0, MidiMsg.setTick 1⟩, ⟨some 0, 0, MidiMsg.noteOff 0 48 127⟩,
          ⟨none, 0, MidiMsg.setTick 2⟩, ⟨none, 0, MidiMsg.setTick 3⟩] ∧
    ((stateAt 2 (playerOf songHeldExtended Mode.ModePlayBlock false)).bind handleTick).map
        (fun p => p.midiOut)
      = some [⟨none, 0, MidiMsg.setTick 0⟩, ⟨some 0, 0, MidiMsg.noteOn 0 48 100⟩,
          ⟨none, 0, MidiMsg.setTick 1⟩, ⟨none, 0, MidiMsg.setTick 2⟩,
          ⟨some 0, 0, MidiMsg.noteOff 0 48 127⟩] ∧
    ((stateAt 3 (playerOf songHeldArpeggioDelay Mode.ModePlayBlock false)).bind handleTick).map
        (fun p => p.midiOut)
      = some [⟨none, 0, MidiMsg.setTick 0⟩, ⟨some 0, 0, MidiMsg.noteOn 0 48 100⟩,
          ⟨none, 0, MidiMsg.setTick 1⟩, ⟨some 0, 0, MidiMsg.noteOff 0 48 127⟩,
          ⟨none, 0, MidiMsg.setTick 2⟩, ⟨none, 0, MidiMsg.setTick 3⟩] ∧
    ((stateAt 2 (playerOf songHeldLowest Mode.ModePlayBlock false)).bind handleTick).map
        (fun p => p.midiOut)
      = some [⟨none, 0, MidiMsg.setTick 0⟩, ⟨some 0, 0, MidiMsg.noteOn 0 0 100⟩,
          ⟨none, 0, MidiMsg.setTick 1⟩, ⟨none, 0, MidiMsg.setTick 2⟩,
          ⟨some 0, 0, MidiMsg.noteOff 0 0 127⟩] ∧
    ((stateAt 2 (playerOf songHeldSentinel Mode.ModePlayBlock false)).bind handleTick).map
        (fun p => p.midiOut)
      = some [⟨none, 0, MidiMsg.setTick 0⟩, ⟨some 0, 0, MidiMsg.noteOn 0 (-1) 100⟩,
          ⟨none, 0, MidiMsg.setTick 1⟩, ⟨none, 0, MidiMsg.setTick 2⟩] ∧
    ((stateAt 2 (playerOf songHeldArpeggioHold Mode.ModePlayBlock false)).bind handleTick).map
        (fun p => p.midiOut)
      = some [⟨none, 0, MidiMsg.setTick 0⟩, ⟨some 0, 0, MidiMsg.noteOn 0 48 100⟩,
          ⟨none, 0, MidiMsg.setTick 1⟩, ⟨none, 0, MidiMsg.setTick 2⟩,
          ⟨some 0, 0, MidiMsg.noteOff 0 48 127⟩] ∧
    ((stateAt 3 (playerOf songHeldPreviousHold Mode.ModePlayBlock false)).bind handleTick).map
        (fun p => p.midiOut)
      = some [⟨none, 0, MidiMsg.setTick 0⟩, ⟨none, 0, MidiMsg.setTick 1⟩,
          ⟨some 0, 0, MidiMsg.noteOn 0 48 100⟩, ⟨none, 0, MidiMsg.setTick 2⟩,
          ⟨none, 0, MidiMsg.setTick 3⟩, ⟨some 0, 0, MidiMsg.noteOff 0 48 127⟩] := by
  refine ⟨?_, ?_, ?_, ?_, ?_, ?_, ?_⟩ <;> decide!

/-! ## The EndBlock command -/

/-- `handleCommand` for the command byte EndBlock: the command is remembered as the track's
previous command, and on the tick `ticksPerLine - 1` it is latched with its value. -/
theorem handleCommand_endBlock (track note instrument v : Nat) (loc : Locals) (p : Player)
    (ts : TrackStatus) (ic : Int × Int)
    (hts : p.trackStatuses[track]? = some ts)
    (hic : commandTarget instrument ts p = some ic) :
    handleCommand track note instrument CommandEndBlock v loc p = some (loc,
      if p.tick = tplMinus1 p.song.ticksPerLine then
        { p.setTrackStatus track { ts with previousCommand := CommandEndBlock } with
          postCommand := CommandEndBlock, postValue := v }
      else p.setTrackStatus track { ts with previousCommand := CommandEndBlock }) := by
  unfold handleCommand
  rw [if_neg (fun h => absurd h.1 (by decide)), hts]
  dsimp only [Option.bind]
  rw [hic]
  dsimp only
  have he : effectiveCommand ts CommandEndBlock v = CommandEndBlock := by
    unfold effectiveCommand
    rw [if_neg (by decide)]
  have hr : rememberCommand track CommandEndBlock ts p
      = p.setTrackStatus track { ts with previousCommand := CommandEndBlock } := by
    unfold rememberCommand
    rw [if_neg (by decide)]
  rw [he, hr]
  unfold handleSwitch
  rw [if_neg (by decide), if_neg (by decide), if_pos rfl]
  show (if p.tick = tplMinus1 p.song.ticksPerLine then _ else _) = _
  by_cases ht : p.tick = tplMinus1 p.song.ticksPerLine
  · rw [if_pos ht, if_pos ht]
  · rw [if_neg ht, if_neg ht]

theorem advanceArpeggio_only {track : Nat} {p a : Player}
    (h : advanceArpeggio track p = some a) : a = { p with trackStatuses := a.trackStatuses } := by
  unfold advanceArpeggio at h
  obtain ⟨ts, _, h1⟩ := Option.bind_eq_some.mp h
  split at h1
  · obtain ⟨instr, _, h2⟩ := Option.bind_eq_some.mp h1
    split at h2
    · cases h2
      rfl
    · split at h2
      · exact absurd h2 (by simp)
      · cases h2
        rfl
  · cases h1
    rfl

theorem advanceArpeggio_loop {n i : Nat} {p a : Player}
    (h : loopFrom advanceArpeggio n i p = some a) :
    a = { p with trackStatuses := a.trackStatuses } :=
  loopFrom_rel (fun (p a : Player) => a = { p with trackStatuses := a.trackStatuses })
    (fun _ => rfl)
    (fun x y z h1 h2 => by
      rw [h2]
      rw [h1])
    advanceArpeggio (fun _ _ _ hb => advanceArpeggio_only hb) n i p a h

theorem updateLocation_spec {p q : Player} (h : p.updateLocation = some q) :
    q.song = p.song ∧ q.line_ = p.line_ ∧ q.tick = p.tick ∧ q.postCommand = p.postCommand ∧
      q.postValue = p.postValue ∧ q.mode_ = p.mode_ ∧ Located q p.section_ p.position_ := by
  unfold Player.updateLocation at h
  dsimp only at h
  obtain ⟨s0, h0, h1⟩ := Option.bind_eq_some.mp h
  obtain ⟨ps, h2, h3⟩ := Option.bind_eq_some.mp h1
  obtain ⟨b0, h4, h5⟩ := Option.bind_eq_some.mp h3
  cases h5
  exact ⟨rfl, rfl, rfl, rfl, rfl, rfl, rfl, s0, ps, b0, h0, rfl, h2, rfl, h4, rfl⟩

/-- The post command EndBlock in PlaySong mode. -/
theorem postCommands_endBlock_song {a r : Player} {looped : Bool} {ps : Playseq}
    (hpc : a.postCommand = CommandEndBlock) (hmode : a.mode_ = Mode.ModePlaySong)
    (hps : a.song.playseq a.playseq_ = some ps)
    (h : postCommands a = some (r, looped)) :
    r.line_ = a.postValue ∧ r.tick = a.tick ∧ r.postCommand = 0 ∧ r.postValue = 0 ∧
      r.song = a.song ∧ r.mode_ = a.mode_ ∧
      Located r
        (if (a.position_ + 1) % 2 ^ 32 ≥ ps.blocks.length then
          (if (a.section_ + 1) % 2 ^ 32 ≥ a.song.sections.length then 0
            else (a.section_ + 1) % 2 ^ 32)
         else a.section_)
        (if (a.position_ + 1) % 2 ^ 32 ≥ ps.blocks.length then 0
          else (a.position_ + 1) % 2 ^ 32) ∧
      looped = (decide ((a.position_ + 1) % 2 ^ 32 ≥ ps.blocks.length) &&
        decide ((a.section_ + 1) % 2 ^ 32 ≥ a.song.sections.length)) := by
  unfold postCommands at h
  rw [if_pos hpc, if_pos hmode] at h
  unfold Player.nextPosition at h
  dsimp only at h
  rw [hps] at h
  simp only [Option.map_some', Option.some_bind] at h
  by_cases hw : (a.position_ + 1) % 2 ^ 32 ≥ ps.blocks.length
  · simp only [hw, decide_True, if_true, Player.nextSection] at h
    obtain ⟨y, hy, he⟩ := Option.map_eq_some'.mp h
    obtain ⟨u1, u2, u3, u4, u5, u6, u7⟩ := updateLocation_spec hy
    simp only [Prod.mk.injEq] at he
    obtain ⟨e1, e2⟩ := he
    subst e1
    rw [if_pos hw, if_pos hw]
    refine ⟨u2, u3, u4, u5, u1, u6, ?_, ?_⟩
    · by_cases hsn : (a.section_ + 1) % 2 ^ 32 ≥ a.song.sections.length
      · simp only [hsn, decide_True, if_true] at u7
        rw [if_pos hsn]
        exact u7
      · simp only [hsn, decide_False, Bool.false_eq_true, if_false] at u7
        rw [if_neg hsn]
        exact u7
    · rw [← e2]
      simp only [hw, decide_True, Bool.true_and]
  · simp only [hw, decide_False, Bool.false_eq_true, if_false] at h
    obtain ⟨y, hy, he⟩ := Option.map_eq_some'.mp h
    obtain ⟨u1, u2, u3, u4, u5, u6, u7⟩ := updateLocation_spec hy
    simp only [Prod.mk.injEq] at he
    obtain ⟨e1, e2⟩ := he
    subst e1
    rw [if_neg hw, if_neg hw]
    refine ⟨u2, u3, u4, u5, u1, u6, u7, ?_⟩
    rw [← e2]
    simp only [hw, decide_False, Bool.false_and]

/-- The post command EndBlock in a mode other than PlaySong. -/
theorem postCommands_endBlock_block {a r : Player} {looped : Bool}
    (hpc : a.postCommand = CommandEndBlock) (hmode : a.mode_ ≠ Mode.ModePlaySong)
    (h : postCommands a = some (r, looped)) :
    r = { a with line_ := a.postValue, postCommand := 0, postValue := 0 } ∧ looped = false := by
  unfold postCommands at h
  rw [if_pos hpc, if_neg hmode] at h
  simp only [Option.some_bind, Bool.false_eq_true, if_false, Option.some.injEq,
    Prod.mk.injEq] at h
  exact ⟨h.1.symm, h.2.symm⟩

theorem advance_wraps {q r : Player} {looped : Bool}
    (hlast : q.tick = tplMinus1 q.song.ticksPerLine)
    (htpl : 1 ≤ q.song.ticksPerLine) (htpl2 : q.song.ticksPerLine < 2 ^ 32)
    (h : advance q = some (r, looped)) :
    ∃ a, a.postCommand = q.postCommand ∧ a.postValue = q.postValue ∧ a.mode_ = q.mode_ ∧
      a.song = q.song ∧ a.position_ = q.position_ ∧ a.section_ = q.section_ ∧
      a.playseq_ = q.playseq_ ∧ a.block_ = q.block_ ∧ a.tick = 0 ∧
      postCommands a = some (r, looped) := by
  have hw : ((q.tick + 1) % 2 ^ 32) % q.song.ticksPerLine = 0 := by
    rw [hlast, tplMinus1_eq _ htpl htpl2]
    have e : q.song.ticksPerLine - 1 + 1 = q.song.ticksPerLine := by omega
    rw [e, Nat.mod_eq_of_lt htpl2, Nat.mod_self]
  unfold advance at h
  rw [if_neg (by omega)] at h
  dsimp only at h
  rw [if_pos hw] at h
  obtain ⟨a, ha, h1⟩ := Option.bind_eq_some.mp h
  have ea := advanceArpeggio_loop ha
  refine ⟨a, ?_, ?_, ?_, ?_, ?_, ?_, ?_, ?_, ?_, h1⟩
  all_goals rw [ea]
  exact hw

/-- C10 (amended): an EndBlock command with value `v` is remembered as the track's previous
command and, on the tick `ticksPerLine - 1` only, latched as the post command with its
value; on another tick it changes nothing else.  When a tick ends with the latch
(EndBlock, `v`) in place and with the tick counter at `ticksPerLine - 1`, the advance wraps
the tick to 0, resets the latch, and the next tick reads line `v` of the block (`v` modulo
the block length when `v` is not below it); in PlaySong mode the cursor is the location of
the next position (position 0 of the next section at the end of the playing sequence, the
first section after the last), with playing sequence and block recomputed; in another mode
section, playing sequence, position and block are unchanged. -/
theorem end_block (track note instrument v : Nat) (loc : Locals) (p : Player)
    (ts : TrackStatus) (ic : Int × Int)
    (hts : p.trackStatuses[track]? = some ts)
    (hic : commandTarget instrument ts p = some ic) :
    handleCommand track note instrument CommandEndBlock v loc p = some (loc,
      if p.tick = tplMinus1 p.song.ticksPerLine then
        { p.setTrackStatus track { ts with previousCommand := CommandEndBlock } with
          postCommand := CommandEndBlock, postValue := v }
      else p.setTrackStatus track { ts with previousCommand := CommandEndBlock }) ∧
    (∀ (q r : Player) (looped : Bool),
      q.postCommand = CommandEndBlock → q.postValue = v →
      q.tick = tplMinus1 q.song.ticksPerLine →
      1 ≤ q.song.ticksPerLine → q.song.ticksPerLine < 2 ^ 32 →
      advance q = some (r, looped) →
      r.tick = 0 ∧ r.line_ = v ∧ r.postCommand = 0 ∧ r.postValue = 0 ∧
      (∀ block : Block,
        r.cursor block = (if v ≥ block.length then v % block.length else v)) ∧
      (q.mode_ = Mode.ModePlaySong → ∀ ps, q.song.playseq q.playseq_ = some ps →
        r.song = q.song ∧
        Located r
          (if (q.position_ + 1) % 2 ^ 32 ≥ ps.blocks.length then
            (if (q.section_ + 1) % 2 ^ 32 ≥ q.song.sections.length then 0
              else (q.section_ + 1) % 2 ^ 32)
           else q.section_)
          (if (q.position_ + 1) % 2 ^ 32 ≥ ps.blocks.length then 0
            else (q.position_ + 1) % 2 ^ 32) ∧
        looped = (decide ((q.position_ + 1) % 2 ^ 32 ≥ ps.blocks.length) &&
          decide ((q.section_ + 1) % 2 ^ 32 ≥ q.song.sections.length))) ∧
      (q.mode_ ≠ Mode.ModePlaySong →
        r.section_ = q.section_ ∧ r.playseq_ = q.playseq_ ∧ r.position_ = q.position_ ∧
        r.block_ = q.block_ ∧ looped = false)) := by
  refine ⟨handleCommand_endBlock track note instrument v loc p ts ic hts hic, ?_⟩
  intro q r looped hpc hpv hlast htpl htpl2 hadv
  obtain ⟨a, b1, b2, b3, b4, b5, b6, b7, b8, b9, hpost⟩ := advance_wraps hlast htpl htpl2 hadv
  by_cases hmode : q.mode_ = Mode.ModePlaySong
  · cases hps : q.song.playseq q.playseq_ with
    | none =>
      exfalso
      unfold postCommands at hpost
      rw [if_pos (b1.trans hpc), if_pos (b3.trans hmode)] at hpost
      unfold Player.nextPosition at hpost
      dsimp only at hpost
      rw [b4, b7, hps] at hpost
      exact absurd hpost (by simp)
    | some ps =>
      obtain ⟨c1, c2, c3, c4, c5, c6, c7, c8⟩ := postCommands_endBlock_song (b1.trans hpc)
        (b3.trans hmode) (by rw [b4, b7]; exact hps) hpost
      rw [b5, b6, b4] at c7 c8
      have hl : r.line_ = v := by rw [c1, b2, hpv]
      refine ⟨c2.trans b9, hl, c3, c4, ?_, ?_, fun hh => absurd hmode hh⟩
      · intro block
        unfold Player.cursor
        rw [hl]
      · intro _ ps1 hps1
        cases hps1
        exact ⟨c5.trans b4, c7, c8⟩
  · obtain ⟨c1, c2⟩ := postCommands_endBlock_block (b1.trans hpc)
      (fun hh => hmode (b3.symm.trans hh)) hpost
    have hl : r.line_ = v := by rw [c1]; exact b2.trans hpv
    refine ⟨by rw [c1]; exact b9, hl, by rw [c1], by rw [c1], ?_, fun hh => absurd hh hmode, ?_⟩
    · intro block
      unfold Player.cursor
      rw [hl]
    · intro _
      refine ⟨by rw [c1]; exact b6, by rw [c1]; exact b7, by rw [c1]; exact b5,
        by rw [c1]; exact b8, c2⟩

theorem getD_of_isSome {α : Type} {o : Option α} (d : α) (h : o.isSome = true) :
    o = some (o.getD d) := by
  cases o with
  | none => exact absurd h (by simp)
  | some x => rfl

theorem S4_advanced : (advance handledS4).isSome = true := by
  decide!

/-- C10, witness: scenario S4 (block length 4, EndBlock with value 1 on line 2, two
positions, PlaySong).  On the last tick of line 2 the command is latched; the advance
leaves the cursor on line 1 of position 1. -/
theorem end_block_witness :
    handleCommand 0 0 0 CommandEndBlock 1 ⟨127, 0, -1, -1⟩ lastTickS4 = some (⟨127, 0, -1, -1⟩,
      if lastTickS4.tick = tplMinus1 lastTickS4.song.ticksPerLine then
        { lastTickS4.setTrackStatus 0
            { ({ freshStatus with previousCommand := CommandEndBlock } : TrackStatus) with
              previousCommand := CommandEndBlock } with
          postCommand := CommandEndBlock, postValue := 1 }
      else lastTickS4.setTrackStatus 0
        { ({ freshStatus with previousCommand := CommandEndBlock } : TrackStatus) with
          previousCommand := CommandEndBlock }) ∧
    lastTickS4.tick = tplMinus1 lastTickS4.song.ticksPerLine ∧
    advancedS4.1.tick = 0 ∧ advancedS4.1.line_ = 1 ∧
    (advancedS4.1.position_ = 1 ∧ advancedS4.1.block_ = 0 ∧ advancedS4.2 = false) :=
  ⟨(end_block 0 0 0 1 ⟨127, 0, -1, -1⟩ lastTickS4
      { freshStatus with previousCommand := CommandEndBlock } (-1, -1)
      (by decide!) (by decide!)).1,
    by decide!,
    ((end_block 0 0 0 1 ⟨127, 0, -1, -1⟩ lastTickS4
      { freshStatus with previousCommand := CommandEndBlock } (-1, -1)
      (by decide!) (by decide!)).2 handledS4 advancedS4.1 advancedS4.2
      (by decide!) (by decide!) (by decide!) (by decide!) (by decide!)
      (getD_of_isSome (playerS4, false) S4_advanced)).1,
    ((end_block 0 0 0 1 ⟨127, 0, -1, -1⟩ lastTickS4
      { freshStatus with previousCommand := CommandEndBlock } (-1, -1)
      (by decide!) (by decide!)).2 handledS4 advancedS4.1 advancedS4.2
      (by decide!) (by decide!) (by decide!) (by decide!) (by decide!)
      (getD_of_isSome (playerS4, false) S4_advanced)).2.1,
    by decide!⟩

/-- C10, counterexample: with one tick per line, the cell of line 0 carries EndBlock with
value 1 on command page 0 and TicksPerLine with value 4 on page 1 (not a post-effect
command).  The tick is the last tick of the line when EndBlock is processed and the command
is latched, but after that tick the position has not advanced and the line is still 0: the
advance computes the next tick with the new ticks-per-line value and does not wrap.  And on
a tick other than the last, an EndBlock command changes the track's previous command. -/
theorem end_block_ticks_per_line :
    (tickStep (playerOf songEndBlockTicks Mode.ModePlaySong false)).map
        (fun r => (r.1.tick, r.1.line_, r.1.position_, r.1.postCommand, r.1.postValue))
      = some (1, 0, 0, CommandEndBlock, 1) ∧
    (playerS4.tick ≠ tplMinus1 playerS4.song.ticksPerLine ∧
      (playerS4.trackStatuses[0]?).map TrackStatus.previousCommand = some 0 ∧
      (handleCommand 0 0 0 CommandEndBlock 1 ⟨127, 0, -1, -1⟩ playerS4).map
          (fun r => (r.2.trackStatuses[0]?).map TrackStatus.previousCommand)
        = some (some CommandEndBlock)) := by
  decide!
/-! ## Velocity resolution -/

theorem scale_le (a b : Nat) (ha : a ≤ 127) (hb : b ≤ 127) :
    a * b / 127 ≤ a ∧ a * b / 127 ≤ b := by
  constructor
  · apply Nat.div_le_of_le_mul
    calc a * b ≤ a * 127 := Nat.mul_le_mul_left a hb
      _ = 127 * a := Nat.mul_comm a 127
  · apply Nat.div_le_of_le_mul
    exact Nat.mul_le_mul_right b ha

theorem toShort_small (y : Nat) (hy : y ≤ 127) : toShort (y : Int) = (y : Int) := by
  unfold toShort
  have e1 : ((y : Nat) : Int) % 65536 = (y : Int) := by omega
  rw [e1]
  exact if_pos (by omega)

theorem resolveVolume_of_product (dv cv tv mv x : Nat) (hx : x ≤ 127 * 127)
    (hh : dv * cv / 127 * tv / 127 * mv = x) :
    resolveVolume dv cv tv mv = ((x / 127 : Nat) : Int) := by
  unfold resolveVolume
  rw [hh, Nat.mod_eq_of_lt (by omega : x < 2 ^ 32), toShort_small _ (by omega)]
  exact if_neg (by omega)

theorem resolveVolume_small (dv cv tv mv : Nat) (hdv : dv ≤ 127) (hcv : cv ≤ 127)
    (htv : tv ≤ 127) (hmv : mv ≤ 127) :
    resolveVolume dv cv tv mv = ((dv * cv / 127 * tv / 127 * mv / 127 : Nat) : Int) ∧
      dv * cv / 127 * tv / 127 * mv / 127 ≤ 127 ∧
      dv * cv / 127 * tv / 127 * mv / 127 ≤ dv ∧
      dv * cv / 127 * tv / 127 * mv / 127 ≤ cv ∧
      dv * cv / 127 * tv / 127 * mv / 127 ≤ tv ∧
      dv * cv / 127 * tv / 127 * mv / 127 ≤ mv := by
  obtain ⟨a1, a2⟩ := scale_le dv cv hdv hcv
  obtain ⟨b1, b2⟩ := scale_le (dv * cv / 127) tv (by omega) htv
  obtain ⟨c1, c2⟩ := scale_le (dv * cv / 127 * tv / 127) mv (by omega) hmv
  have hx : dv * cv / 127 * tv / 127 * mv ≤ 127 * 127 :=
    Nat.mul_le_mul (by omega) hmv
  exact ⟨resolveVolume_of_product dv cv tv mv _ hx rfl, by omega, by omega, by omega,
    by omega, by omega⟩

/-- C17: for an instrument default velocity, a cell volume, a track volume and a master
volume that are all in 0..127, the velocity `playNote` resolves is
`(((dv * cv) / 127) * tv / 127) * mv / 127` with truncating divisions; it lies in 0..127
and exceeds none of the four; on an audible track with an instrument that exists,
`playNote` stores it as the track's volume, queues a note-on with that velocity (and sets
the track's note) when it is not zero, and queues nothing and leaves the track's note at -1
when it is zero.  With default velocity 100 and the three volumes at 127 (scenario S1) the
velocity is 100. -/
theorem velocity_resolution (k : Int) (note cv track : Nat) (p : Player) (ts : TrackStatus)
    (instr : Instrument) (t : Track)
    (haud : p.audible track = some true) (hts : p.trackStatuses[track]? = some ts)
    (hin : p.song.instrument k = some instr) (ht : p.song.track track = some t)
    (hdv : instr.defaultVelocity ≤ 127) (hcv : cv ≤ 127) (htv : t.volume ≤ 127)
    (hmv : p.song.masterVolume ≤ 127) :
    resolveVolume instr.defaultVelocity cv t.volume p.song.masterVolume
        = ((instr.defaultVelocity * cv / 127 * t.volume / 127 * p.song.masterVolume / 127
            : Nat) : Int) ∧
      (instr.defaultVelocity * cv / 127 * t.volume / 127 * p.song.masterVolume / 127 ≤ 127 ∧
        instr.defaultVelocity * cv / 127 * t.volume / 127 * p.song.masterVolume / 127
          ≤ instr.defaultVelocity ∧
        instr.defaultVelocity * cv / 127 * t.volume / 127 * p.song.masterVolume / 127 ≤ cv ∧
        instr.defaultVelocity * cv / 127 * t.volume / 127 * p.song.masterVolume / 127
          ≤ t.volume ∧
        instr.defaultVelocity * cv / 127 * t.volume / 127 * p.song.masterVolume / 127
          ≤ p.song.masterVolume) ∧
      (∃ q tsq, playNote k note cv track true p = some q ∧
        q.trackStatuses[track]? = some tsq ∧
        tsq.volume = ((instr.defaultVelocity * cv / 127 * t.volume / 127 *
          p.song.masterVolume / 127 : Nat) : Int) ∧
        (instr.defaultVelocity * cv / 127 * t.volume / 127 * p.song.masterVolume / 127 ≠ 0 →
          q.postponedNotes = p.postponedNotes ++ [⟨track, instr.midiInterface,
            instr.midiChannel, (note : Int) + instr.transpose,
            ((instr.defaultVelocity * cv / 127 * t.volume / 127 * p.song.masterVolume / 127
              : Nat) : Int)⟩] ∧
          tsq.note = (note : Int) + instr.transpose) ∧
        (instr.defaultVelocity * cv / 127 * t.volume / 127 * p.song.masterVolume / 127 = 0 →
          q.postponedNotes = p.postponedNotes ∧ tsq.note = -1)) ∧
      resolveVolume 100 127 127 127 = 100 := by
  obtain ⟨e, b0, b1, b2, b3, b4⟩ :=
    resolveVolume_small instr.defaultVelocity cv t.volume p.song.masterVolume hdv hcv htv hmv
  refine ⟨e, ⟨b0, b1, b2, b3, b4⟩, ?_, by decide⟩
  obtain ⟨q, tsq, h1, _, _, h2, h3, _, _, h4, h5⟩ :=
    @playNote_fired k note cv track p ts instr t haud hts hin ht
  rw [e] at h3 h4 h5
  refine ⟨q, tsq, h1, h2, h3, ?_, ?_⟩
  · intro hv
    have hv1 : ((instr.defaultVelocity * cv / 127 * t.volume / 127 * p.song.masterVolume / 127
        : Nat) : Int) ≠ 0 := by exact_mod_cast hv
    rw [if_pos hv1] at h4 h5
    exact ⟨h5, h4⟩
  · intro hv
    have hv1 : ¬ ((instr.defaultVelocity * cv / 127 * t.volume / 127 *
        p.song.masterVolume / 127 : Nat) : Int) ≠ 0 := by
      rw [hv]
      simp
    rw [if_neg hv1] at h4 h5
    exact ⟨h5, h4⟩

/-- C17, witness: the note of scenario S1 (note 48 after the decrement, cell volume 127,
instrument 1 with default velocity 100, track volume 127, master volume 127): the velocity
is 100 and the note-on is queued with it. -/
theorem velocity_resolution_witness :
    resolveVolume 100 127 127 127 = ((100 * 127 / 127 * 127 / 127 * 127 / 127 : Nat) : Int) ∧
      (playNote 0 48 127 0 true playerS1).map (fun q => q.postponedNotes)
        = some [⟨0, 0, 0, 48, 100⟩] :=
  ⟨(velocity_resolution 0 48 127 0 playerS1 freshStatus (plainInstrument 100 0 1)
      ⟨false, false, 127⟩ (by decide!) (by decide!) (by rfl) (by decide!) (by decide)
      (by decide) (by decide) (by decide)).1,
    by decide!⟩
/-! ## The previous command of a track -/

theorem previous_steps (track pc : Nat) :
    CommandSteps track (fun a b => ∀ x, a.trackStatuses[track]? = some x →
      x.previousCommand = pc → ∃ y, b.trackStatuses[track]? = some y ∧ y.previousCommand = pc) where
  same := fun _ x hx hp => ⟨x, hx, hp⟩
  chain := fun _ _ _ h1 h2 x hx hp => by
    obtain ⟨y, hy, hq⟩ := h1 x hx hp
    exact h2 y hy hq
  out := fun _ _ _ x hx hp => ⟨x, hx, hp⟩
  cache := fun _ _ _ _ _ h x hx hp => ⟨x, by rw [cacheSet_statuses h]; exact hx, hp⟩
  latch := fun _ _ _ x hx hp => ⟨x, hx, hp⟩
  tempo := fun _ _ x hx hp => ⟨x, hx, hp⟩
  trackVolume := fun _ _ _ x hx hp => ⟨x, hx, hp⟩
  defaultVelocity := fun _ _ _ x hx hp => ⟨x, hx, hp⟩

/-- The `switch` of `handleCommand` leaves the previous command of the track's status. -/
theorem handleSwitch_previous {track note instrument command value : Nat}
    {output mi ch : Int} {ts : TrackStatus} {loc loc1 : Locals} {p q : Player}
    (hts : p.trackStatuses[track]? = some ts)
    (h : handleSwitch track note instrument command value output mi ch ts loc p
      = some (loc1, q)) :
    ∃ y, q.trackStatuses[track]? = some y ∧ y.previousCommand = ts.previousCommand :=
  handleSwitch_steps (previous_steps track ts.previousCommand)
    (fun _ _ _ _ _ hx _ => ⟨_, setTrackStatus_get _ hx, rfl⟩)
    (fun _ _ _ x hx hp => ⟨x, hx, hp⟩) h ts hts rfl

theorem setTrackStatus_self {p : Player} {track : Nat} {ts : TrackStatus}
    (hts : p.trackStatuses[track]? = some ts) : p.setTrackStatus track ts = p := by
  unfold Player.setTrackStatus
  have e : p.trackStatuses.set track ts = p.trackStatuses := by
    apply List.ext_getElem?
    intro n
    by_cases hn : n = track
    · subst hn
      rw [getElem?_set_self' hts, hts]
    · rw [List.getElem?_set_ne (fun hh => hn hh.symm)]
  rw [e]

theorem effectiveCommand_previous (ts : TrackStatus) (v : Nat) (hv : v ≠ 0) :
    effectiveCommand ts CommandPreviousCommandValue v = ts.previousCommand ∧
      effectiveCommand ts ts.previousCommand v = ts.previousCommand := by
  unfold effectiveCommand
  constructor
  · rw [if_pos rfl, if_pos hv]
  · by_cases hc : ts.previousCommand = CommandPreviousCommandValue
    · rw [if_pos hc, if_pos hv]
    · rw [if_neg hc]

theorem rememberCommand_previous {p : Player} {track : Nat} {ts : TrackStatus}
    (hts : p.trackStatuses[track]? = some ts) :
    rememberCommand track ts.previousCommand ts p = p := by
  unfold rememberCommand
  by_cases hc : ts.previousCommand = CommandPreviousCommandValue
  · rw [if_pos hc]
  · rw [if_neg hc]
    exact setTrackStatus_self hts

/-- C18: for a value `v ≠ 0`, interpreting a cell with the command byte `0x01` gives the
same result (state, calls made on the outputs, locals) as interpreting the cell with the
track's previous command as command byte, in `handleCommand` and in the scan for Retrigger
and Delay commands that precedes a note; and it leaves the track's previous command. -/
theorem previous_command_chain (track note instrument v : Nat) (loc : Locals) (p : Player)
    (ts : TrackStatus) (hv : v ≠ 0) (hts : p.trackStatuses[track]? = some ts) :
    handleCommand track note instrument CommandPreviousCommandValue v loc p
        = handleCommand track note instrument ts.previousCommand v loc p ∧
      (∀ loc1 q, handleCommand track note instrument CommandPreviousCommandValue v loc p
          = some (loc1, q) →
        ∃ ts1, q.trackStatuses[track]? = some ts1 ∧
          ts1.previousCommand = ts.previousCommand) ∧
      (∀ (block block1 : Block) (page : Nat),
        block.command p.line_ track page % 256 = CommandPreviousCommandValue →
        block1.command p.line_ track page % 256 = ts.previousCommand →
        block.commandValue p.line_ track page % 256 = v →
        block1.commandValue p.line_ track page % 256 = v →
        preScanPage block track page (loc, p) = preScanPage block1 track page (loc, p) ∧
        ∀ loc1 q, preScanPage block track page (loc, p) = some (loc1, q) →
          q.trackStatuses[track]? = some ts) := by
  obtain ⟨e1, e2⟩ := effectiveCommand_previous ts v hv
  have hr1 : rememberCommand track CommandPreviousCommandValue ts p = p := by
    unfold rememberCommand
    rw [if_pos rfl]
  have hr2 := rememberCommand_previous hts
  have hs2 : (if ts.previousCommand = CommandPreviousCommandValue then ts
      else { ts with previousCommand := ts.previousCommand }) = ts := by
    split <;> rfl
  refine ⟨?_, ?_, ?_⟩
  · unfold handleCommand
    rw [if_neg (fun hh => hv hh.2), if_neg (fun hh => hv hh.2), hts]
    dsimp only [Option.bind]
    cases commandTarget instrument ts p with
    | none => rfl
    | some ic =>
      dsimp only
      rw [e1, e2, hr1, hr2, hs2, if_pos rfl]
  · intro loc1 q h
    unfold handleCommand at h
    rw [if_neg (fun hh => hv hh.2), hts] at h
    dsimp only [Option.bind] at h
    cases hic : commandTarget instrument ts p with
    | none =>
      rw [hic] at h
      exact absurd h (by simp)
    | some ic =>
      rw [hic] at h
      dsimp only at h
      rw [hr1, if_pos rfl] at h
      exact handleSwitch_previous hts h
  · intro block block1 page hc hc1 hcv hcv1
    unfold preScanPage
    dsimp only
    rw [hc, hc1, hcv, hcv1, if_pos (Or.inr hv), if_pos (Or.inr hv), hts]
    dsimp only [Option.map]
    rw [e1, e2, hr1, hr2]
    refine ⟨rfl, ?_⟩
    intro loc1 q h
    split at h
    · cases h
      exact hts
    · split at h
      · cases h
        exact hts
      · cases h
        exact hts

/-- C18, witness: on a track whose previous command is Delay, the cell `{0x01, 3}` is
interpreted as the cell `{Delay, 3}`: the local `delay` becomes 3. -/
theorem previous_command_chain_witness :
    handleCommand 0 49 1 CommandPreviousCommandValue 3 ⟨127, 0, -1, -1⟩ playerDelayed
        = handleCommand 0 49 1
            ({ freshStatus with previousCommand := CommandDelay } : TrackStatus).previousCommand
            3 ⟨127, 0, -1, -1⟩ playerDelayed ∧
      (handleCommand 0 49 1 CommandPreviousCommandValue 3 ⟨127, 0, -1, -1⟩ playerDelayed).map
          (fun r => r.1) = some ⟨127, 3, -1, -1⟩ :=
  ⟨(previous_command_chain 0 49 1 3 ⟨127, 0, -1, -1⟩ playerDelayed
      { freshStatus with previousCommand := CommandDelay } (by decide) (by decide!)).1,
    by decide!⟩

/-- C19 (amended): after `handleCommand` has handled a cell `(c, v)` for a track, the
track's previous command is `c` when `c` is not `0x01` and the cell is not empty (`c ≠ 0` or
`v ≠ 0`), so that a cell with command byte `0x00` and a non-zero value sets it to 0; it is
unchanged when `c` is `0x01` (whatever the value) and when the cell is empty. -/
theorem previous_command_after (track note instrument c v : Nat) (loc loc1 : Locals)
    (p q : Player) (ts : TrackStatus)
    (hts : p.trackStatuses[track]? = some ts)
    (h : handleCommand track note instrument c v loc p = some (loc1, q)) :
    ∃ ts1, q.trackStatuses[track]? = some ts1 ∧
      ts1.previousCommand =
        (if c = CommandPreviousCommandValue ∨ (c = 0 ∧ v = 0) then ts.previousCommand
         else c) := by
  unfold handleCommand at h
  by_cases h0 : c = 0 ∧ v = 0
  · rw [if_pos h0] at h
    cases h
    exact ⟨ts, hts, by rw [if_pos (Or.inr h0)]⟩
  · rw [if_neg h0, hts] at h
    dsimp only [Option.bind] at h
    cases hic : commandTarget instrument ts p with
    | none =>
      rw [hic] at h
      exact absurd h (by simp)
    | some ic =>
      rw [hic] at h
      dsimp only at h
      obtain ⟨_, e1⟩ := rememberCommand_frame track c ts p hts
      obtain ⟨y, hy, hp⟩ := handleSwitch_previous e1 h
      refine ⟨y, hy, ?_⟩
      rw [hp]
      by_cases hc : c = CommandPreviousCommandValue
      · rw [if_pos hc, if_pos (Or.inl hc)]
      · rw [if_neg hc, if_neg (fun hh => hh.elim hc h0)]

/-- C19, witness: the cell `{Delay, 3}` handled on a track whose previous command is 0
leaves Delay as the previous command. -/
theorem previous_command_after_witness :
    ∃ ts1, ((handleCommand 0 49 1 CommandDelay 3 ⟨127, 0, -1, -1⟩ playerS1).getD
        (⟨127, 0, -1, -1⟩, playerS1)).2.trackStatuses[0]? = some ts1 ∧
      ts1.previousCommand =
        (if CommandDelay = CommandPreviousCommandValue ∨ (CommandDelay = 0 ∧ 3 = 0)
          then freshStatus.previousCommand else CommandDelay) :=
  previous_command_after 0 49 1 CommandDelay 3 ⟨127, 0, -1, -1⟩ _ playerS1 _ freshStatus
    (by decide!) (getD_of_isSome (⟨127, 0, -1, -1⟩, playerS1) (by decide!))

/-- C19, counterexample: on a track whose previous command is Delay, the cell with command
byte `0x00` and value 5 is handled; afterwards the previous command is 0, not Delay. -/
theorem previous_command_cleared :
    (playerDelayed.trackStatuses[0]?).map TrackStatus.previousCommand = some CommandDelay ∧
      (handleCommand 0 0 0 0 5 ⟨127, 0, -1, -1⟩ playerDelayed).map
          (fun r => (r.2.trackStatuses[0]?).map TrackStatus.previousCommand)
        = some (some 0) ∧
      CommandDelay ≠ 0 := by
  decide!
/-! ## The stop commands -/

/-- C13: the post command TicksPerLine ("stop") is consumed at the line wrap exactly as no
post command is: `killThread` is not set.  In the run of a block whose first cell carries
TicksPerLine with value 0 (one tick per line, PlaySong) the command is latched on the last
tick of line 0, but after that tick `killThread` is false, the cursor is on line 1 and the
run goes on with further ticks; with Tempo in place of TicksPerLine the run is left after
the first tick with `killThread` set. -/
theorem ticksPerLine_stop_ignored (q : Player) :
    postCommands { q with postCommand := CommandTicksPerLine }
        = postCommands { q with postCommand := 0 } ∧
      ((handleTick (playerOf (songStop CommandTicksPerLine) Mode.ModePlaySong false)).map
          (fun s => (s.tick, tplMinus1 s.song.ticksPerLine, s.postCommand))
        = some (0, 0, CommandTicksPerLine) ∧
       (tickStep (playerOf (songStop CommandTicksPerLine) Mode.ModePlaySong false)).map
          (fun r => (r.1.killThread, r.1.line_, r.1.postCommand, r.2))
        = some (false, 1, 0, false) ∧
       (stateAt 3 (playerOf (songStop CommandTicksPerLine) Mode.ModePlaySong false)).map
          (fun s => (s.killThread, s.ticksSoFar)) = some (false, 3)) ∧
      ((tickStep (playerOf (songStop CommandTempo) Mode.ModePlaySong false)).map
          (fun r => r.1.killThread) = some true ∧
       (stateAt 1 (playerOf (songStop CommandTempo) Mode.ModePlaySong false)).isNone = true) := by
  refine ⟨?_, by decide!, by decide!⟩
  unfold postCommands
  have n1 : ¬ CommandTicksPerLine = CommandEndBlock := by decide
  have n2 : ¬ CommandTicksPerLine = CommandPlayseqPosition := by decide
  have n3 : ¬ CommandTicksPerLine = CommandTempo := by decide
  have m1 : ¬ (0 : Nat) = CommandEndBlock := by decide
  have m2 : ¬ (0 : Nat) = CommandPlayseqPosition := by decide
  have m3 : ¬ (0 : Nat) = CommandTempo := by decide
  simp only [n1, n2, n3, m1, m2, m3, if_false]
  cases hb : q.song.block q.block_ with
  | none => rfl
  | some b =>
    simp only [Option.some_bind]
    by_cases hl : q.line_ ≥ b.length
    · simp only [hl, if_true]
      by_cases hm : q.mode_ = Mode.ModePlaySong
      · simp only [hm, if_true]
        unfold Player.nextPosition
        dsimp only
        cases hps : q.song.playseq q.playseq_ with
        | none => rfl
        | some ps =>
          simp only [Option.map_some', Option.some_bind]
          by_cases hw : (q.position_ + 1) % 2 ^ 32 ≥ ps.blocks.length
          · simp only [hw, decide_True, if_true, Player.nextSection]
          · simp only [hw, decide_False, Bool.false_eq_true, if_false]
      · simp only [hm, if_false, Option.some_bind]
    · simp only [hl, if_false, Option.some_bind]

/-! ## An unknown MIDI interface -/

/-- C20: a PitchWheel, ChannelPressure or MIDI-controller command interpreted on tick 0 for
the unknown interface (-1) and a known channel indexes the controller cache with -1: the
interpretation does not complete.  In the run of a cell that names an instrument whose
interface is -1 and carries PitchWheel with value 0x40, the first tick faults; the same
cell with ProgramChange, which does not use the cache, is sent to output 0. -/
theorem unknown_interface_faults (track : Nat) (output : Int) (ch : Nat) (slot : Int)
    (msg : Int → MidiMsg) (value : Nat) (p : Player) :
    knob track output (-1) (ch : Int) slot msg value { p with tick := 0 } = none ∧
      (handleTick (playerOf (songUnknownInterface CommandPitchWheel 0x40)
          Mode.ModePlaySong false)).isNone = true ∧
      (handleTick (playerOf (songUnknownInterface CommandProgramChange 5)
          Mode.ModePlaySong false)).map (fun s => s.midiOut)
        = some [⟨none, 0, MidiMsg.setTick 0⟩, ⟨some 0, 0, MidiMsg.programChange 0 5⟩] := by
  refine ⟨?_, by decide!, by decide!⟩
  have hc : ((ch : Nat) : Int) ≠ -1 := by omega
  have hs : ∀ (a : Player) (j v : Int), a.cacheSet (-1) j v = none := by
    intro a j v
    unfold Player.cacheSet
    rw [if_pos (Or.inl (by decide))]
  have hg : ∀ (a : Player) (j : Int), a.cacheGet (-1) j = none := by
    intro a j
    unfold Player.cacheGet
    rw [if_pos (Or.inl (by decide))]
  unfold knob
  rw [if_pos hc]
  dsimp only
  by_cases hv : value < 0x80
  · rw [if_pos hv, if_pos rfl]
    exact hs _ _ _
  · rw [if_neg hv]
    split
    · rw [hg]
      rfl
    · exact hs _ _ _
/-! ## Post commands -/

/-- `handleCommand` for a command byte other than `0x00` and `0x01`: the `switch` runs for
that command on the state in which it is remembered as the track's previous command. -/
theorem handleCommand_plain (track note instrument c v : Nat) (loc : Locals) (p : Player)
    (ts : TrackStatus) (ic : Int × Int)
    (hc0 : c ≠ 0) (hc1 : c ≠ CommandPreviousCommandValue)
    (hts : p.trackStatuses[track]? = some ts)
    (hic : commandTarget instrument ts p = some ic) :
    handleCommand track note instrument c v loc p =
      handleSwitch track note instrument c v (if 0 ≤ ic.1 then ic.1 else 0) ic.1 ic.2
        { ts with previousCommand := c } loc
        (p.setTrackStatus track { ts with previousCommand := c }) := by
  unfold handleCommand
  rw [if_neg (fun h => hc0 h.1), hts]
  dsimp only [Option.bind]
  rw [hic]
  dsimp only
  have he : effectiveCommand ts c v = c := by
    unfold effectiveCommand
    rw [if_neg hc1]
  have hr : rememberCommand track c ts p
      = p.setTrackStatus track { ts with previousCommand := c } := by
    unfold rememberCommand
    rw [if_neg hc1]
  rw [he, hr, if_neg hc1]

/-- `handleCommand` for the command byte PlayseqPosition: the command is remembered as the
track's previous command, and on the tick `ticksPerLine - 1` it is latched with its value. -/
theorem handleCommand_playseqPosition (track note instrument v : Nat) (loc : Locals)
    (p : Player) (ts : TrackStatus) (ic : Int × Int)
    (hts : p.trackStatuses[track]? = some ts)
    (hic : commandTarget instrument ts p = some ic) :
    handleCommand track note instrument CommandPlayseqPosition v loc p = some (loc,
      if p.tick = tplMinus1 p.song.ticksPerLine then
        { p.setTrackStatus track { ts with previousCommand := CommandPlayseqPosition } with
          postCommand := CommandPlayseqPosition, postValue := v }
      else p.setTrackStatus track { ts with previousCommand := CommandPlayseqPosition }) := by
  rw [handleCommand_plain track note instrument CommandPlayseqPosition v loc p ts ic
    (by decide) (by decide) hts hic]
  unfold handleSwitch
  rw [if_neg (by decide), if_neg (by decide), if_neg (by decide), if_pos rfl]
  show (if p.tick = tplMinus1 p.song.ticksPerLine then _ else _) = _
  by_cases ht : p.tick = tplMinus1 p.song.ticksPerLine
  · rw [if_pos ht, if_pos ht]
  · rw [if_neg ht, if_neg ht]

/-- `handleCommand` for the command byte Tempo with value 0: the command is remembered as
the track's previous command, and on the tick `ticksPerLine - 1` it is latched. -/
theorem handleCommand_tempoStop (track note instrument : Nat) (loc : Locals)
    (p : Player) (ts : TrackStatus) (ic : Int × Int)
    (hts : p.trackStatuses[track]? = some ts)
    (hic : commandTarget instrument ts p = some ic) :
    handleCommand track note instrument CommandTempo 0 loc p = some (loc,
      if p.tick = tplMinus1 p.song.ticksPerLine then
        { p.setTrackStatus track { ts with previousCommand := CommandTempo } with
          postCommand := CommandTempo }
      else p.setTrackStatus track { ts with previousCommand := CommandTempo }) := by
  rw [handleCommand_plain track note instrument CommandTempo 0 loc p ts ic
    (by decide) (by decide) hts hic]
  unfold handleSwitch
  rw [if_neg (by decide), if_neg (by decide), if_neg (by decide), if_neg (by decide),
    if_neg (by decide), if_neg (by decide), if_neg (by decide), if_neg (by decide),
    if_neg (by decide), if_neg (by decide), if_neg (by decide), if_pos rfl, if_pos rfl]
  show (if p.tick = tplMinus1 p.song.ticksPerLine then _ else _) = _
  by_cases ht : p.tick = tplMinus1 p.song.ticksPerLine
  · rw [if_pos ht, if_pos ht]
  · rw [if_neg ht, if_neg ht]

/-- The advance at a line wrap: the state handed to the post commands is the state at the
end of the tick with the tick counters advanced, the line incremented and the arpeggios
advanced. -/
theorem advance_wraps_full {q r : Player} {looped : Bool}
    (hlast : q.tick = tplMinus1 q.song.ticksPerLine)
    (htpl : 1 ≤ q.song.ticksPerLine) (htpl2 : q.song.ticksPerLine < 2 ^ 32)
    (h : advance q = some (r, looped)) :
    ∃ a, a = { q with ticksSoFar := (q.ticksSoFar + 1) % 2 ^ 32, tick := 0,
                      line_ := (q.line_ + 1) % 2 ^ 32, trackStatuses := a.trackStatuses } ∧
      postCommands a = some (r, looped) := by
  have hw : ((q.tick + 1) % 2 ^ 32) % q.song.ticksPerLine = 0 := by
    rw [hlast, tplMinus1_eq _ htpl htpl2]
    have e : q.song.ticksPerLine - 1 + 1 = q.song.ticksPerLine := by omega
    rw [e, Nat.mod_eq_of_lt htpl2, Nat.mod_self]
  unfold advance at h
  rw [if_neg (by omega)] at h
  dsimp only at h
  rw [if_pos hw] at h
  obtain ⟨a, ha, h1⟩ := Option.bind_eq_some.mp h
  have ea := advanceArpeggio_loop ha
  refine ⟨a, ?_, h1⟩
  rw [hw] at ea
  exact ea

/-- The post command PlayseqPosition. -/
theorem postCommands_playseqPosition {a r : Player} {looped : Bool} {ps : Playseq}
    (hpc : a.postCommand = CommandPlayseqPosition)
    (hps : a.song.playseq a.playseq_ = some ps)
    (h : postCommands a = some (r, looped)) :
    r.line_ = 0 ∧ r.tick = a.tick ∧ r.postCommand = 0 ∧ r.postValue = 0 ∧
      r.song = a.song ∧ r.mode_ = a.mode_ ∧
      Located r
        (if a.postValue ≥ ps.blocks.length then
          (if (a.section_ + 1) % 2 ^ 32 ≥ a.song.sections.length then 0
            else (a.section_ + 1) % 2 ^ 32)
         else a.section_)
        (if a.postValue ≥ ps.blocks.length then 0 else a.postValue) ∧
      looped = (decide (a.postValue ≥ ps.blocks.length) &&
        decide ((a.section_ + 1) % 2 ^ 32 ≥ a.song.sections.length)) := by
  unfold postCommands at h
  rw [if_neg (by rw [hpc]; decide), if_pos hpc, hps] at h
  simp only [Option.map_some', Option.some_bind] at h
  by_cases hw : a.postValue ≥ ps.blocks.length
  · simp only [hw, if_true, Player.nextSection] at h
    obtain ⟨y, hy, he⟩ := Option.map_eq_some'.mp h
    obtain ⟨u1, u2, u3, u4, u5, u6, u7⟩ := updateLocation_spec hy
    simp only [Prod.mk.injEq] at he
    obtain ⟨e1, e2⟩ := he
    subst e1
    rw [if_pos hw, if_pos hw]
    refine ⟨u2, u3, u4, u5, u1, u6, ?_, ?_⟩
    · by_cases hsn : (a.section_ + 1) % 2 ^ 32 ≥ a.song.sections.length
      · simp only [hsn, decide_True, if_true] at u7
        rw [if_pos hsn]
        exact u7
      · simp only [hsn, decide_False, Bool.false_eq_true, if_false] at u7
        rw [if_neg hsn]
        exact u7
    · rw [← e2]
      simp only [hw, decide_True, Bool.true_and]
  · simp only [hw, if_false] at h
    obtain ⟨y, hy, he⟩ := Option.map_eq_some'.mp h
    obtain ⟨u1, u2, u3, u4, u5, u6, u7⟩ := updateLocation_spec hy
    simp only [Prod.mk.injEq] at he
    obtain ⟨e1, e2⟩ := he
    subst e1
    rw [if_neg hw, if_neg hw]
    refine ⟨u2, u3, u4, u5, u1, u6, u7, ?_⟩
    rw [← e2]
    simp only [hw, decide_False, Bool.false_and]
/-! ## The PlayseqPosition command -/

/-- A cursor that `updateLocation` has computed is in range and is the location of its own
section and position. -/
theorem located_in_range {r : Player} {sec pos : Nat} (h : Located r sec pos) :
    Located r r.section_ r.position_ ∧ r.section_ < r.song.sections.length ∧
      r.playseq_ < r.song.playseqs.length ∧
      (∃ ps, r.song.playseq r.playseq_ = some ps ∧ r.position_ < ps.blocks.length) ∧
      (r.song.blocks ≠ [] → r.song.blocks.length < 2 ^ 32 →
        r.block_ < r.song.blocks.length) := by
  obtain ⟨h1, s0, ps, b0, h2, h3, h4, h5, h6, h7⟩ := h
  have l1 : r.section_ < r.song.sections.length := lt_length_of_getElem? h2
  have l2 : r.playseq_ < r.song.playseqs.length := lt_length_of_getElem? h4
  have l3 : r.position_ < ps.blocks.length := lt_length_of_getElem? h6
  refine ⟨⟨?_, s0, ps, b0, h2, h3, h4, ?_, h6, h7⟩, l1, l2, ⟨ps, h4, l3⟩, ?_⟩
  · rw [if_neg (by omega)]
  · rw [if_neg (by omega)]
  · intro hne hlt
    have hpos : 0 < r.song.blocks.length := List.length_pos.mpr hne
    rw [h7]
    split
    · omega
    · omega

/-- The location computed for the section and the position of a cursor that is itself a
computed location, with the position replaced by one below the length of the playing
sequence. -/
theorem located_position {q r : Player} {ps : Playseq} {v : Nat}
    (hq : Located q q.section_ q.position_) (hps : q.song.playseq q.playseq_ = some ps)
    (hv : v < ps.blocks.length) (hsong : r.song = q.song)
    (hr : Located r q.section_ v) :
    r.section_ = q.section_ ∧ r.playseq_ = q.playseq_ ∧ r.position_ = v := by
  obtain ⟨a1, s0, ps0, b0, a2, a3, a4, a5, a6, a7⟩ := hq
  obtain ⟨c1, s1, ps1, b1, c2, c3, c4, c5, c6, c7⟩ := hr
  have l1 : q.section_ < q.song.sections.length := lt_length_of_getElem? a2
  have e1 : r.section_ = q.section_ := by
    rw [c1, hsong, if_neg (by omega)]
  rw [e1, hsong, a2] at c2
  cases c2
  have e2 : r.playseq_ = q.playseq_ := by
    rw [c3, a3, hsong]
  rw [e2, hsong, hps] at c4
  cases c4
  refine ⟨e1, e2, ?_⟩
  rw [c5, if_neg (by omega)]

/-- C11 (amended): a PlayseqPosition command with value `v` is remembered as the track's
previous command and, on the tick `ticksPerLine - 1` only, latched as the post command with
its value.  When a tick ends with the latch (PlayseqPosition, `v`) in place and with the
tick counter at `ticksPerLine - 1`, the advance wraps the tick to 0, resets the latch and
sets line 0; section, playing sequence, position and block are a location computed by
`updateLocation`: section, playing sequence and position are in range, and so is the block
when the song has a block.  If `v` is below the length of the current playing sequence,
the looped flag is not set, and section and playing sequence are unchanged and the position
is `v` when the cursors before were a computed location; otherwise the position is 0 and
the section has advanced by one, to 0 after the last section, which sets the looped flag. -/
theorem playseq_position (track note instrument v : Nat) (loc : Locals) (p : Player)
    (ts : TrackStatus) (ic : Int × Int)
    (hts : p.trackStatuses[track]? = some ts)
    (hic : commandTarget instrument ts p = some ic) :
    handleCommand track note instrument CommandPlayseqPosition v loc p = some (loc,
      if p.tick = tplMinus1 p.song.ticksPerLine then
        { p.setTrackStatus track { ts with previousCommand := CommandPlayseqPosition } with
          postCommand := CommandPlayseqPosition, postValue := v }
      else p.setTrackStatus track { ts with previousCommand := CommandPlayseqPosition }) ∧
    (∀ (q r : Player) (looped : Bool) (ps : Playseq),
      q.postCommand = CommandPlayseqPosition → q.postValue = v →
      q.tick = tplMinus1 q.song.ticksPerLine →
      1 ≤ q.song.ticksPerLine → q.song.ticksPerLine < 2 ^ 32 →
      q.song.playseq q.playseq_ = some ps →
      advance q = some (r, looped) →
      r.tick = 0 ∧ r.line_ = 0 ∧ r.postCommand = 0 ∧ r.postValue = 0 ∧ r.song = q.song ∧
      (Located r r.section_ r.position_ ∧ r.section_ < r.song.sections.length ∧
        r.playseq_ < r.song.playseqs.length ∧
        (∃ ps1, r.song.playseq r.playseq_ = some ps1 ∧ r.position_ < ps1.blocks.length) ∧
        (r.song.blocks ≠ [] → r.song.blocks.length < 2 ^ 32 →
          r.block_ < r.song.blocks.length)) ∧
      (v < ps.blocks.length →
        looped = false ∧
        (Located q q.section_ q.position_ →
          r.section_ = q.section_ ∧ r.playseq_ = q.playseq_ ∧ r.position_ = v)) ∧
      (ps.blocks.length ≤ v →
        r.position_ = 0 ∧
        r.section_ = (if (q.section_ + 1) % 2 ^ 32 ≥ q.song.sections.length then 0
          else (q.section_ + 1) % 2 ^ 32) ∧
        looped = decide ((q.section_ + 1) % 2 ^ 32 ≥ q.song.sections.length))) := by
  refine ⟨handleCommand_playseqPosition track note instrument v loc p ts ic hts hic, ?_⟩
  intro q r looped ps hpc hpv hlast htpl htpl2 hps hadv
  obtain ⟨a, b1, b2, b3, b4, b5, b6, b7, b8, b9, hpost⟩ := advance_wraps hlast htpl htpl2 hadv
  obtain ⟨c1, c2, c3, c4, c5, c6, c7, c8⟩ := postCommands_playseqPosition (b1.trans hpc)
    (by rw [b4, b7]; exact hps) hpost
  rw [b2, hpv, b6, b4] at c7 c8
  have hsong : r.song = q.song := c5.trans b4
  refine ⟨c2.trans b9, c1, c3, c4, hsong, located_in_range c7, ?_, ?_⟩
  · intro hv
    rw [if_neg (by omega)] at c7
    rw [if_neg (by omega)] at c7
    refine ⟨?_, fun hq => located_position hq hps hv hsong c7⟩
    rw [c8]
    have : ¬ v ≥ ps.blocks.length := by omega
    simp only [this, decide_False, Bool.false_and]
  · intro hv
    have hv1 : v ≥ ps.blocks.length := hv
    rw [if_pos hv1, if_pos hv1] at c7
    obtain ⟨d1, s0, ps1, b0, d2, d3, d4, d5, d6, d7⟩ := c7
    refine ⟨?_, ?_, ?_⟩
    · rw [d5]
      split <;> rfl
    · rw [d1, hsong]
      by_cases hsn : (q.section_ + 1) % 2 ^ 32 ≥ q.song.sections.length
      · rw [if_pos hsn]
        split <;> rfl
      · rw [if_neg hsn, if_neg hsn]
    · rw [c8]
      simp only [hv1, decide_True, Bool.true_and]

/-- C11, witness: one tick per line, two positions, the cell carries PlayseqPosition with
value 1.  The command is latched on the only tick of the line; after the advance the cursor
is on line 0 of position 1. -/
theorem playseq_position_witness :
    handleCommand 0 0 0 CommandPlayseqPosition 1 ⟨127, 0, -1, -1⟩ playerPosition
      = some (⟨127, 0, -1, -1⟩,
        if playerPosition.tick = tplMinus1 playerPosition.song.ticksPerLine then
          { playerPosition.setTrackStatus 0
              { freshStatus with previousCommand := CommandPlayseqPosition } with
            postCommand := CommandPlayseqPosition, postValue := 1 }
        else playerPosition.setTrackStatus 0
          { freshStatus with previousCommand := CommandPlayseqPosition }) ∧
    advancedPosition.1.tick = 0 ∧
    (handledPosition.postCommand = CommandPlayseqPosition ∧
      advancedPosition.1.position_ = 1 ∧ advancedPosition.1.line_ = 0 ∧
      advancedPosition.2 = false) :=
  ⟨(playseq_position 0 0 0 1 ⟨127, 0, -1, -1⟩ playerPosition freshStatus (-1, -1)
      (by decide!) (by decide!)).1,
    ((playseq_position 0 0 0 1 ⟨127, 0, -1, -1⟩ playerPosition freshStatus (-1, -1)
      (by decide!) (by decide!)).2 handledPosition advancedPosition.1 advancedPosition.2
      ⟨[0, 0]⟩ (by decide!) (by decide!) (by decide!) (by decide!) (by decide!) (by decide!)
      (getD_of_isSome (playerPosition, false) (by decide!))).1,
    by decide!⟩

/-- C11, counterexample: with one tick per line, the cell carries PlayseqPosition with
value 1 on command page 0 and TicksPerLine with value 4 on page 1.  The command is
processed on the last tick of the line and latched, but after that tick the position is
still 0: the advance computes the next tick with the new ticks-per-line value and does not
wrap.  And when the playing-sequence cursor is not the playing sequence of the section (it
was set to a playing sequence of three positions while the section plays one of one
position), PlayseqPosition with value 2, below the length of the current playing sequence,
leaves the cursor at position 0. -/
theorem playseq_position_not_reached :
    (tickStep (playerOf (songOfPages [(CommandPlayseqPosition, 1), (CommandTicksPerLine, 4)])
        Mode.ModePlaySong false)).map
        (fun r => (r.1.tick, r.1.line_, r.1.position_, r.1.postCommand, r.1.postValue))
      = some (1, 0, 0, CommandPlayseqPosition, 1) ∧
    ((playerOtherPlayseq.song.playseq playerOtherPlayseq.playseq_).map
        (fun ps => ps.blocks.length) = some 3 ∧
      (handleTick playerOtherPlayseq).map (fun s => (s.postCommand, s.postValue))
        = some (CommandPlayseqPosition, 2) ∧
      (tickStep playerOtherPlayseq).map
        (fun r => (r.1.section_, r.1.playseq_, r.1.position_, r.1.line_, r.2))
        = some (0, 0, 0, 0, false)) := by
  decide!
/-! ## The Tempo command with value 0 -/

/-- The post command Tempo: `killThread` is set. -/
theorem postCommands_tempo {a r : Player} {looped : Bool}
    (hpc : a.postCommand = CommandTempo) (h : postCommands a = some (r, looped)) :
    r = { a with killThread := true, postCommand := 0, postValue := 0 } ∧ looped = false := by
  unfold postCommands at h
  rw [if_neg (by rw [hpc]; decide), if_neg (by rw [hpc]; decide), if_pos hpc] at h
  simp only [Option.some_bind, Bool.false_eq_true, if_false, Option.some.injEq,
    Prod.mk.injEq] at h
  exact ⟨h.1.symm, h.2.symm⟩

/-- C12 (amended): a Tempo command with value 0 is remembered as the track's previous
command and, on the tick `ticksPerLine - 1` only, latched as the post command; on an
earlier tick of the line it changes nothing else (no tempo, no call on an output, no
latch, no flag).  When a tick ends with the latch Tempo in place and with the tick counter
at `ticksPerLine - 1`, the advance wraps the tick to 0 and sets `killThread` without
making a call on an output, the loop of `run` is left with that state and no further tick
is processed. -/
theorem tempo_stop (track note instrument : Nat) (loc : Locals) (p : Player)
    (ts : TrackStatus) (ic : Int × Int)
    (hts : p.trackStatuses[track]? = some ts)
    (hic : commandTarget instrument ts p = some ic) :
    handleCommand track note instrument CommandTempo 0 loc p = some (loc,
      if p.tick = tplMinus1 p.song.ticksPerLine then
        { p.setTrackStatus track { ts with previousCommand := CommandTempo } with
          postCommand := CommandTempo }
      else p.setTrackStatus track { ts with previousCommand := CommandTempo }) ∧
    (∀ (s q r : Player) (looped : Bool) (fuel : Nat),
      handleTick s = some q → q.postCommand = CommandTempo →
      q.tick = tplMinus1 q.song.ticksPerLine →
      1 ≤ q.song.ticksPerLine → q.song.ticksPerLine < 2 ^ 32 →
      advance q = some (r, looped) →
      r.killThread = true ∧ r.tick = 0 ∧ r.midiOut = q.midiOut ∧
      runLoop (fuel + 1) s = some r ∧ stateAt 1 s = none) := by
  refine ⟨handleCommand_tempoStop track note instrument loc p ts ic hts hic, ?_⟩
  intro s q r looped fuel hq hpc hlast htpl htpl2 hadv
  obtain ⟨a, ea, hpost⟩ := advance_wraps_full hlast htpl htpl2 hadv
  have hpa : a.postCommand = CommandTempo := by rw [ea]; exact hpc
  obtain ⟨er, _⟩ := postCommands_tempo hpa hpost
  have hk : r.killThread = true := by rw [er]
  have hstep : tickStep s = some (r, looped) := by
    unfold tickStep
    rw [hq]
    exact hadv
  refine ⟨hk, by rw [er, ea], by rw [er, ea], ?_, ?_⟩
  · unfold runLoop
    rw [hstep]
    dsimp only [Option.bind]
    rw [if_pos (Or.inl hk)]
  · unfold stateAt
    rw [hstep]
    dsimp only [Option.bind]
    rw [if_pos (Or.inl hk)]

/-- C12, witness: one tick per line, the cell of line 0 carries Tempo with value 0.  The
command is latched on the only tick of the line, the advance sets `killThread` and the
loop is left after the first tick. -/
theorem tempo_stop_witness :
    handleCommand 0 0 0 CommandTempo 0 ⟨127, 0, -1, -1⟩ playerStop
      = some (⟨127, 0, -1, -1⟩,
        if playerStop.tick = tplMinus1 playerStop.song.ticksPerLine then
          { playerStop.setTrackStatus 0 { freshStatus with previousCommand := CommandTempo } with
            postCommand := CommandTempo }
        else playerStop.setTrackStatus 0 { freshStatus with previousCommand := CommandTempo }) ∧
    (advancedStop.1.killThread = true ∧ advancedStop.1.tick = 0 ∧
      advancedStop.1.midiOut = handledStop.midiOut ∧
      runLoop (0 + 1) playerStop = some advancedStop.1 ∧ stateAt 1 playerStop = none) :=
  ⟨(tempo_stop 0 0 0 ⟨127, 0, -1, -1⟩ playerStop freshStatus (-1, -1)
      (by decide!) (by decide!)).1,
    (tempo_stop 0 0 0 ⟨127, 0, -1, -1⟩ playerStop freshStatus (-1, -1)
      (by decide!) (by decide!)).2 playerStop handledStop advancedStop.1 advancedStop.2 0
      (getD_of_isSome playerStop (by decide!)) (by decide!) (by decide!) (by decide!)
      (by decide!) (getD_of_isSome (playerStop, false) (by decide!))⟩

/-- C12, counterexample: with one tick per line, the cell carries Tempo with value 0 on
command page 0, TicksPerLine with value 4 on page 1 and EndBlock with value 0 on page 2.
On tick 0, the last tick of the line when Tempo is processed, the command is latched and no
later command of that tick overrides the latch; but the advance does not wrap (the tick
counter becomes 1 of 4), `killThread` is not set and further ticks are processed; on tick 3
EndBlock replaces the latch, and after the end of the line the run goes on. -/
theorem tempo_stop_not_reached :
    playerStopOverridden.tick = tplMinus1 playerStopOverridden.song.ticksPerLine ∧
    (handleTick playerStopOverridden).map
        (fun s => (s.postCommand, s.song.ticksPerLine)) = some (CommandTempo, 4) ∧
    (tickStep playerStopOverridden).map (fun r => (r.1.killThread, r.1.tick, r.1.line_))
      = some (false, 1, 0) ∧
    (stateAt 5 playerStopOverridden).map (fun s => (s.killThread, s.ticksSoFar, s.tick))
      = some (false, 5, 1) := by
  decide!
/-! ## Line overflow -/

theorem updateLocation_flags {p q : Player} (h : p.updateLocation = some q) :
    q.killThread = p.killThread ∧ q.killWhenLooped = p.killWhenLooped := by
  unfold Player.updateLocation at h
  dsimp only at h
  obtain ⟨s0, h0, h1⟩ := Option.bind_eq_some.mp h
  obtain ⟨ps, h2, h3⟩ := Option.bind_eq_some.mp h1
  obtain ⟨b0, h4, h5⟩ := Option.bind_eq_some.mp h3
  cases h5
  exact ⟨rfl, rfl⟩

/-- The line overflow at a line wrap without post command, in PlaySong mode. -/
theorem postCommands_overflow_song {a r : Player} {looped : Bool} {b : Block} {ps : Playseq}
    (hpc : a.postCommand = 0) (hmode : a.mode_ = Mode.ModePlaySong)
    (hb : a.song.block a.block_ = some b) (hover : a.line_ ≥ b.length)
    (hps : a.song.playseq a.playseq_ = some ps)
    (h : postCommands a = some (r, looped)) :
    r.line_ = 0 ∧ r.tick = a.tick ∧ r.killThread = a.killThread ∧
      r.killWhenLooped = a.killWhenLooped ∧ r.song = a.song ∧
      Located r
        (if (a.position_ + 1) % 2 ^ 32 ≥ ps.blocks.length then
          (if (a.section_ + 1) % 2 ^ 32 ≥ a.song.sections.length then 0
            else (a.section_ + 1) % 2 ^ 32)
         else a.section_)
        (if (a.position_ + 1) % 2 ^ 32 ≥ ps.blocks.length then 0
          else (a.position_ + 1) % 2 ^ 32) ∧
      looped = (decide ((a.position_ + 1) % 2 ^ 32 ≥ ps.blocks.length) &&
        decide ((a.section_ + 1) % 2 ^ 32 ≥ a.song.sections.length)) := by
  unfold postCommands at h
  rw [if_neg (by rw [hpc]; decide), if_neg (by rw [hpc]; decide),
    if_neg (by rw [hpc]; decide), hb] at h
  simp only [Option.some_bind, hover, if_true, hmode] at h
  unfold Player.nextPosition at h
  dsimp only at h
  rw [hps] at h
  simp only [Option.map_some', Option.some_bind] at h
  by_cases hw : (a.position_ + 1) % 2 ^ 32 ≥ ps.blocks.length
  · simp only [hw, decide_True, if_true, Player.nextSection] at h
    obtain ⟨y, hy, he⟩ := Option.map_eq_some'.mp h
    obtain ⟨u1, u2, u3, u4, u5, u6, u7⟩ := updateLocation_spec hy
    obtain ⟨k1, k2⟩ := updateLocation_flags hy
    simp only [Prod.mk.injEq] at he
    obtain ⟨e1, e2⟩ := he
    subst e1
    rw [if_pos hw, if_pos hw]
    refine ⟨u2, u3, k1, k2, u1, ?_, ?_⟩
    · by_cases hsn : (a.section_ + 1) % 2 ^ 32 ≥ a.song.sections.length
      · simp only [hsn, decide_True, if_true] at u7
        rw [if_pos hsn]
        exact u7
      · simp only [hsn, decide_False, Bool.false_eq_true, if_false] at u7
        rw [if_neg hsn]
        exact u7
    · rw [← e2]
      simp only [hw, decide_True, Bool.true_and]
  · simp only [hw, decide_False, Bool.false_eq_true, if_false] at h
    obtain ⟨y, hy, he⟩ := Option.map_eq_some'.mp h
    obtain ⟨u1, u2, u3, u4, u5, u6, u7⟩ := updateLocation_spec hy
    obtain ⟨k1, k2⟩ := updateLocation_flags hy
    simp only [Prod.mk.injEq] at he
    obtain ⟨e1, e2⟩ := he
    subst e1
    rw [if_neg hw, if_neg hw]
    refine ⟨u2, u3, k1, k2, u1, u7, ?_⟩
    rw [← e2]
    simp only [hw, decide_False, Bool.false_and]

/-- The line overflow at a line wrap without post command, in a mode other than PlaySong. -/
theorem postCommands_overflow_block {a r : Player} {looped : Bool} {b : Block}
    (hpc : a.postCommand = 0) (hmode : a.mode_ ≠ Mode.ModePlaySong)
    (hb : a.song.block a.block_ = some b) (hover : a.line_ ≥ b.length)
    (h : postCommands a = some (r, looped)) :
    r = { a with line_ := 0, postCommand := 0, postValue := 0 } ∧ looped = false := by
  unfold postCommands at h
  rw [if_neg (by rw [hpc]; decide), if_neg (by rw [hpc]; decide),
    if_neg (by rw [hpc]; decide), hb] at h
  simp only [Option.some_bind, hover, if_true, hmode, if_false, Bool.false_eq_true,
    Option.some.injEq, Prod.mk.injEq] at h
  exact ⟨h.1.symm, h.2.symm⟩

/-- The loop of `run` after a tick: it is left when `killThread` is set or the tick looped
with `killWhenLooped` set, and goes on with the next tick otherwise. -/
theorem runLoop_step {s r : Player} {looped : Bool} (fuel : Nat)
    (h : tickStep s = some (r, looped)) :
    ((r.killThread = true ∨ (r.killWhenLooped = true ∧ looped = true)) →
      runLoop (fuel + 1) s = some r ∧ stateAt 1 s = none) ∧
    (r.killThread = false → (r.killWhenLooped = false ∨ looped = false) →
      runLoop (fuel + 1) s = runLoop fuel r ∧ stateAt 1 s = some r) := by
  constructor
  · intro hk
    constructor
    · unfold runLoop
      rw [h]
      dsimp only [Option.bind]
      rw [if_pos hk]
    · unfold stateAt
      rw [h]
      dsimp only [Option.bind]
      rw [if_pos hk]
  · intro hk hl
    have hn : ¬ (r.killThread = true ∨ (r.killWhenLooped = true ∧ looped = true)) := by
      intro hh
      cases hh with
      | inl h1 => rw [hk] at h1; cases h1
      | inr h1 =>
        cases hl with
        | inl h2 => rw [h2] at h1; cases h1.1
        | inr h2 => rw [h2] at h1; cases h1.2
    constructor
    · conv_lhs => unfold runLoop
      rw [h]
      dsimp only [Option.bind]
      rw [if_neg hn]
    · unfold stateAt
      rw [h]
      dsimp only [Option.bind]
      rw [if_neg hn]
      rfl

/-- C14 (amended): when the line cursor overflows the current block at a line wrap with no
post command pending, the line wraps to 0.  In PlaySong mode the cursor is the location of
the next position (position 0 of the next section at the end of the playing sequence, the
first section after the last), and the looped flag of the tick is set exactly when the
position passed the end of the playing sequence and the section passed the last section;
in another mode section, playing sequence, position and block are unchanged and the looped
flag is not set.  Consequently the loop of `run` is left after this tick when
`killWhenLooped` is set and the looped flag was set, and goes on with the next tick when
the looped flag was not set (and `killThread` is not set). -/
theorem line_overflow (q r : Player) (looped : Bool) (b : Block)
    (hpc : q.postCommand = 0)
    (hlast : q.tick = tplMinus1 q.song.ticksPerLine)
    (htpl : 1 ≤ q.song.ticksPerLine) (htpl2 : q.song.ticksPerLine < 2 ^ 32)
    (hb : q.song.block q.block_ = some b) (hover : b.length ≤ (q.line_ + 1) % 2 ^ 32)
    (hadv : advance q = some (r, looped)) :
    r.tick = 0 ∧ r.line_ = 0 ∧
      (q.mode_ = Mode.ModePlaySong → ∀ ps, q.song.playseq q.playseq_ = some ps →
        Located r
          (if (q.position_ + 1) % 2 ^ 32 ≥ ps.blocks.length then
            (if (q.section_ + 1) % 2 ^ 32 ≥ q.song.sections.length then 0
              else (q.section_ + 1) % 2 ^ 32)
           else q.section_)
          (if (q.position_ + 1) % 2 ^ 32 ≥ ps.blocks.length then 0
            else (q.position_ + 1) % 2 ^ 32) ∧
        looped = (decide ((q.position_ + 1) % 2 ^ 32 ≥ ps.blocks.length) &&
          decide ((q.section_ + 1) % 2 ^ 32 ≥ q.song.sections.length))) ∧
      (q.mode_ ≠ Mode.ModePlaySong →
        looped = false ∧ r.section_ = q.section_ ∧ r.playseq_ = q.playseq_ ∧
        r.position_ = q.position_ ∧ r.block_ = q.block_) ∧
      (∀ (s : Player) (fuel : Nat), handleTick s = some q → q.killThread = false →
        (looped = true → q.killWhenLooped = true →
          runLoop (fuel + 1) s = some r ∧ stateAt 1 s = none) ∧
        (looped = false → runLoop (fuel + 1) s = runLoop fuel r ∧ stateAt 1 s = some r)) := by
  obtain ⟨a, ea, hpost⟩ := advance_wraps_full hlast htpl htpl2 hadv
  have a1 : a.postCommand = 0 := by rw [ea]; exact hpc
  have a2 : a.song = q.song := by rw [ea]
  have a3 : a.block_ = q.block_ := by rw [ea]
  have a4 : a.line_ = (q.line_ + 1) % 2 ^ 32 := by rw [ea]
  have a5 : a.mode_ = q.mode_ := by rw [ea]
  have a6 : a.playseq_ = q.playseq_ := by rw [ea]
  have a7 : a.position_ = q.position_ := by rw [ea]
  have a8 : a.section_ = q.section_ := by rw [ea]
  have a9 : a.tick = 0 := by rw [ea]
  have a10 : a.killThread = q.killThread := by rw [ea]
  have a11 : a.killWhenLooped = q.killWhenLooped := by rw [ea]
  have hba : a.song.block a.block_ = some b := by rw [a2, a3]; exact hb
  have hoa : a.line_ ≥ b.length := by rw [a4]; exact hover
  have hflags : r.tick = 0 ∧ r.line_ = 0 ∧ r.killThread = q.killThread ∧
      r.killWhenLooped = q.killWhenLooped := by
    by_cases hmode : q.mode_ = Mode.ModePlaySong
    · cases hps : q.song.playseq q.playseq_ with
      | none =>
        exfalso
        unfold postCommands at hpost
        rw [if_neg (by rw [a1]; decide), if_neg (by rw [a1]; decide),
          if_neg (by rw [a1]; decide), hba] at hpost
        simp only [Option.some_bind, hoa, if_true, a5, hmode] at hpost
        unfold Player.nextPosition at hpost
        dsimp only at hpost
        rw [a2, a6, hps] at hpost
        exact absurd hpost (by simp)
      | some ps =>
        obtain ⟨c1, c2, c3, c4, _, _, _⟩ := postCommands_overflow_song a1 (a5.trans hmode)
          hba hoa (by rw [a2, a6]; exact hps) hpost
        exact ⟨c2.trans a9, c1, c3.trans a10, c4.trans a11⟩
    · obtain ⟨c1, _⟩ := postCommands_overflow_block a1 (fun hh => hmode (a5.symm.trans hh))
        hba hoa hpost
      refine ⟨by rw [c1]; exact a9, by rw [c1], by rw [c1]; exact a10, by rw [c1]; exact a11⟩
  obtain ⟨f1, f2, f3, f4⟩ := hflags
  refine ⟨f1, f2, ?_, ?_, ?_⟩
  · intro hmode ps hps
    obtain ⟨_, _, _, _, _, c6, c7⟩ := postCommands_overflow_song a1 (a5.trans hmode)
      hba hoa (by rw [a2, a6]; exact hps) hpost
    rw [a7, a8, a2] at c6 c7
    exact ⟨c6, c7⟩
  · intro hmode
    obtain ⟨c1, c2⟩ := postCommands_overflow_block a1 (fun hh => hmode (a5.symm.trans hh))
      hba hoa hpost
    exact ⟨c2, by rw [c1]; exact a8, by rw [c1]; exact a6, by rw [c1]; exact a7,
      by rw [c1]; exact a3⟩
  · intro s fuel hs hk
    have hstep : tickStep s = some (r, looped) := by
      unfold tickStep
      rw [hs]
      exact hadv
    obtain ⟨g1, g2⟩ := runLoop_step fuel hstep
    constructor
    · intro hl hkl
      exact g1 (Or.inr ⟨f4.trans hkl, hl⟩)
    · intro hl
      exact g2 (f3.trans hk) (Or.inr hl)

/-- C14, witness: a block of one line played twice in PlaySong mode with `killWhenLooped`
set, one tick per line.  The line overflow after the second tick passes the end of the
playing sequence and the last section: the looped flag is set and the loop of `run` is
left. -/
theorem line_overflow_witness :
    advancedTwoPositions.1.tick = 0 ∧ advancedTwoPositions.1.line_ = 0 ∧
      (advancedTwoPositions.2 = true ∧ advancedTwoPositions.1.position_ = 0 ∧
        (runLoop 2 playerTwoPositions).map (fun s => (s.ticksSoFar, s.position_))
          = some (2, 0)) :=
  ⟨(line_overflow handledTwoPositions advancedTwoPositions.1 advancedTwoPositions.2
      (blockOfPages []) (by decide!) (by decide!) (by decide!) (by decide!) (by rfl)
      (by decide!) (getD_of_isSome (playerTwoPositions, false) (by decide!))).1,
    (line_overflow handledTwoPositions advancedTwoPositions.1 advancedTwoPositions.2
      (blockOfPages []) (by decide!) (by decide!) (by decide!) (by decide!) (by rfl)
      (by decide!) (getD_of_isSome (playerTwoPositions, false) (by decide!))).2.1,
    by decide!⟩

/-- C14, counterexample: scenario S1 in PlayBlock mode with `killWhenLooped` set.  The line
overflows the block (of one line) after tick 5; the looped flag of that tick is not set and
the run goes on: tick 6 starts on line 0, and the run is still going after the second
overflow.  And in PlaySong mode with two positions, the line overflow after the first tick
moves to position 1 without setting the looped flag, and the run goes on. -/
theorem line_overflow_not_looped :
    ((stateAt 5 playerS1Kill).bind tickStep).map
        (fun r => (r.1.line_, r.1.tick, r.1.ticksSoFar, r.2, r.1.killWhenLooped))
      = some (0, 0, 6, false, true) ∧
    (stateAt 13 playerS1Kill).map (fun s => (s.line_, s.tick, s.ticksSoFar))
      = some (0, 1, 13) ∧
    (tickStep playerTwoPositions).map (fun r => (r.1.position_, r.1.line_, r.2))
      = some (1, 0, false) ∧
    (stateAt 1 playerTwoPositions).isSome = true := by
  decide!
/-! ## The elementary writes of a tick -/

theorem within_steps (track : Nat) : CommandSteps track Within where
  same := Within.same
  chain := fun _ _ _ h1 h2 => Within.chain h1 h2
  out := fun a o m => Within.out a [⟨some track, o, m⟩]
  cache := fun _ _ _ _ _ h => Within.cache h
  latch := Within.latch
  tempo := Within.tempo
  trackVolume := Within.trackVolume
  defaultVelocity := Within.defaultVelocity

theorem emit_within (p : Player) (t : Option Nat) (o : Int) (m : MidiMsg) :
    Within p (p.emit t o m) :=
  Within.out p [⟨t, o, m⟩]

theorem handleCommand_within {track note instrument command value : Nat}
    {loc loc1 : Locals} {p q : Player} (hv : value < 256)
    (h : handleCommand track note instrument command value loc p = some (loc1, q)) :
    Within p q := by
  unfold handleCommand at h
  split at h
  · cases h
    exact Within.same p
  · obtain ⟨ts, _, h1⟩ := Option.bind_eq_some.mp h
    obtain ⟨ic, _, h2⟩ := Option.bind_eq_some.mp h1
    dsimp only at h2
    have f1 : Within p (rememberCommand track command ts p) := by
      unfold rememberCommand
      split
      · exact Within.same p
      · exact Within.status p track _
    exact Within.chain f1 (handleSwitch_steps (within_steps track)
      (fun a _ _ _ => Within.status a track _)
      (fun a _ hv0 => Within.ticksPerLine a value (by omega) hv) h2)

theorem preScanPage_within {block : Block} {track page : Nat} {s t : Locals × Player}
    (h : preScanPage block track page s = some t) : Within s.2 t.2 := by
  unfold preScanPage at h
  dsimp only at h
  split at h
  · obtain ⟨ts, _, he⟩ := Option.map_eq_some'.mp h
    have f1 : Within s.2 (rememberCommand track (block.command s.2.line_ track page % 256)
        ts s.2) := by
      unfold rememberCommand
      split
      · exact Within.same _
      · exact Within.status _ track _
    split at he
    · subst he
      exact f1
    · split at he
      · subst he
        exact f1
      · subst he
        exact f1
  · cases h
    exact Within.same _

theorem preGate_within {track : Nat} {loc : Locals} {p q : Player}
    (h : preGate track loc p = some q) : Within p q := by
  unfold preGate at h
  split at h
  · obtain ⟨ts, _, he⟩ := Option.map_eq_some'.mp h
    split at he
    · subst he
      exact Within.chain (emit_within p _ _ _) (Within.status _ track _)
    · subst he
      exact Within.same p
  · cases h
    exact Within.same p

theorem rememberBase_within {track : Nat} {cell : Cell} {p q : Player}
    (h : rememberBase track cell p = some q) : Within p q := by
  unfold rememberBase at h
  split at h
  · obtain ⟨ts, _, he⟩ := Option.map_eq_some'.mp h
    subst he
    exact Within.status p track _
  · cases h
    exact Within.same p

theorem playNote_within {k : Int} {note vol u : Nat} {postpone : Bool} {p q : Player}
    (h : playNote k note vol u postpone p = some q) : Within p q := by
  unfold playNote at h
  obtain ⟨a, _, h1⟩ := Option.bind_eq_some.mp h
  cases a with
  | false =>
    rw [if_neg Bool.false_ne_true] at h1
    cases h1
    exact Within.same p
  | true =>
    rw [if_pos rfl] at h1
    obtain ⟨ts, _, h2⟩ := Option.bind_eq_some.mp h1
    dsimp only at h2
    have f1 : Within p (if ts.note ≠ -1 then
        p.emit (some u) ts.midiInterface (MidiMsg.noteOff ts.midiChannel ts.note 127)
      else p) := by
      split
      · exact emit_within p _ _ _
      · exact Within.same p
    generalize (if ts.note ≠ -1 then
        p.emit (some u) ts.midiInterface (MidiMsg.noteOff ts.midiChannel ts.note 127)
      else p) = p1 at h2 f1
    generalize (if ts.note ≠ -1 then { ts with note := -1 } else ts : TrackStatus) = tsa at h2
    split at h2
    · cases h2
      exact Within.chain f1 (Within.status p1 u _)
    · obtain ⟨t, _, h3⟩ := Option.bind_eq_some.mp h2
      split at h3
      · split at h3
        · cases h3
          exact Within.chain f1 (Within.chain (Within.status p1 u _) (Within.postponed _ _))
        · cases h3
          exact Within.chain f1 (Within.chain (Within.status p1 u _) (emit_within _ _ _ _))
      · cases h3
        exact Within.chain f1 (Within.status p1 u _)

theorem fireNote_within {track : Nat} {cell : Cell} {hadVolume : Bool} {loc : Locals}
    {p : Player} {r : Nat × Nat × Player}
    (h : fireNote track cell hadVolume loc p = some r) : Within p r.2.2 := by
  unfold fireNote at h
  split at h
  · obtain ⟨ts, _, h1⟩ := Option.bind_eq_some.mp h
    dsimp only at h1
    generalize (if cell.instrument = 0 then ((ts.instrument + 1) % 256).toNat
      else cell.instrument) = k at h1
    by_cases hk : k ≠ 0
    · rw [if_pos hk] at h1
      obtain ⟨p1, hp1, h2⟩ := Option.bind_eq_some.mp h1
      have f1 := playNote_within hp1
      split at h2
      · split at h2
        · cases h2
          exact f1
        · obtain ⟨ts1, _, he⟩ := Option.map_eq_some'.mp h2
          subst he
          exact Within.chain f1 (Within.status p1 track _)
      · cases h2
        exact f1
    · rw [if_neg hk] at h1
      cases h1
      exact Within.same p
  · cases h
    exact Within.same p

theorem extendHold_within {track note instrument : Nat} {p q : Player}
    (h : extendHold track note instrument p = some q) : Within p q := by
  unfold extendHold at h
  obtain ⟨ts, _, h1⟩ := Option.bind_eq_some.mp h
  split at h1
  · obtain ⟨x, _, h2⟩ := Option.map_eq_some'.mp h1
    split at h2
    · subst h2
      exact Within.status p track _
    · subst h2
      exact Within.same p
  · cases h1
    exact Within.same p

theorem loop_within {body : Nat → Locals × Player → Option (Locals × Player)}
    (hbody : ∀ i s t, body i s = some t → Within s.2 t.2) {n i : Nat}
    {s t : Locals × Player} (h : loopFrom body n i s = some t) : Within s.2 t.2 :=
  loopFrom_rel (fun (a b : Locals × Player) => Within a.2 b.2)
    (fun s => Within.same s.2) (fun _ _ _ x y => Within.chain x y) body hbody n i s t h

theorem arpeggioCommandPage_within {arpeggio : Block} {track note instrument page : Nat}
    {s t : Locals × Player}
    (h : arpeggioCommandPage arpeggio track note instrument page s = some t) :
    Within s.2 t.2 := by
  unfold arpeggioCommandPage at h
  obtain ⟨tsx, _, hc⟩ := Option.bind_eq_some.mp h
  exact @handleCommand_within _ _ _ _ _ _ t.1 _ t.2 (Nat.mod_lt _ (by decide)) hc

theorem blockCommandPage_within {block : Block} {track note instrument page : Nat}
    {s t : Locals × Player}
    (h : blockCommandPage block track note instrument page s = some t) :
    Within s.2 t.2 := by
  unfold blockCommandPage at h
  exact @handleCommand_within _ _ _ _ _ _ t.1 _ t.2 (Nat.mod_lt _ (by decide)) h

/-- The processing of one track in the track loop is made of elementary writes. -/
theorem runTrack_within {block : Block} {track : Nat} {p q : Player}
    (h : runTrack block track p = some q) : Within p q := by
  unfold runTrack at h
  obtain ⟨ts, _, h0⟩ := Option.bind_eq_some.mp h
  obtain ⟨a, _, h1⟩ := Option.bind_eq_some.mp h0
  cases a with
  | false =>
    rw [if_neg Bool.false_ne_true] at h1
    cases h1
    exact Within.same p
  | true =>
    rw [if_pos rfl] at h1
    obtain ⟨ct, _, h2⟩ := Option.bind_eq_some.mp h1
    dsimp only at h2
    have f0 : Within p (p.setTrackStatus track ct.2) := Within.status p track _
    generalize p.setTrackStatus track ct.2 = p1 at h2 f0
    obtain ⟨s1, hs1, h3⟩ := Option.bind_eq_some.mp h2
    have f1 : Within p1 s1.2 := by
      split at hs1
      · obtain ⟨sA, hsA, hg⟩ := Option.bind_eq_some.mp hs1
        obtain ⟨pG, hpG, he⟩ := Option.map_eq_some'.mp hg
        subst he
        exact Within.chain (loop_within (fun _ _ _ hb => preScanPage_within hb) hsA)
          (preGate_within hpG)
      · cases hs1
        exact Within.same p1
    obtain ⟨s2, hs2, h4⟩ := Option.bind_eq_some.mp h3
    have f2 : Within s1.2 s2.2 := by
      split at hs2
      · cases hs2
        exact Within.same _
      · exact loop_within (fun _ _ _ hb => arpeggioCommandPage_within hb) hs2
    obtain ⟨s3, hs3, h5⟩ := Option.bind_eq_some.mp h4
    have f3 : Within s2.2 s3.2 :=
      loop_within (fun _ _ _ hb => blockCommandPage_within hb) hs3
    obtain ⟨p4, hp4, h6⟩ := Option.bind_eq_some.mp h5
    obtain ⟨r, hr, h7⟩ := Option.bind_eq_some.mp h6
    exact Within.chain (Within.chain (Within.chain (Within.chain f0 f1) f2) f3)
      (Within.chain (rememberBase_within hp4)
        (Within.chain (fireNote_within hr) (extendHold_within h7)))

theorem holdTrack_within {u : Nat} {p q : Player} (h : holdTrack u p = some q) :
    Within p q := by
  unfold holdTrack at h
  obtain ⟨ts, _, he⟩ := Option.map_eq_some'.mp h
  subst he
  split
  · dsimp only
    split
    · exact Within.chain (emit_within p _ _ _) (Within.status _ u _)
    · exact Within.status p u _
  · exact Within.same p

theorem flushPostponed_within (p : Player) : Within p (flushPostponed p) :=
  Within.chain (Within.out p _) (Within.postponed _ [])

theorem players_within {body : Nat → Player → Option Player}
    (hbody : ∀ i s t, body i s = some t → Within s t) {n i : Nat}
    {s t : Player} (h : loopFrom body n i s = some t) : Within s t :=
  loopFrom_rel Within Within.same (fun _ _ _ x y => Within.chain x y) body hbody n i s t h

/-- The parts of "handle this tick": the calls of the tick itself (`pre`), the clamp of the
line, the track loop, the flush of the postponed notes and the hold loop. -/
theorem handleTick_parts {p q : Player} (h : handleTick p = some q) :
    ∃ block pre p4, p.song.block p.block_ = some block ∧
      (block.length ≤ p.line_ → block.length ≠ 0) ∧
      loopFrom (runTrack block) block.tracks 0
        { p with midiOut := p.midiOut ++ pre, line_ := p.cursor block } = some p4 ∧
      loopFrom holdTrack p4.song.maxTracks 0 (flushPostponed p4) = some q := by
  unfold handleTick at h
  dsimp only at h
  obtain ⟨block, hblock, h1⟩ := Option.bind_eq_some.mp h
  obtain ⟨p3, hp3, h2⟩ := Option.bind_eq_some.mp h1
  obtain ⟨p4, hp4, h3⟩ := Option.bind_eq_some.mp h2
  have key : ∀ pre : List Event,
      (if ({ p with midiOut := p.midiOut ++ pre } : Player).line_ ≥ block.length then
        (if block.length = 0 then none
          else some { ({ p with midiOut := p.midiOut ++ pre } : Player) with
            line_ := ({ p with midiOut := p.midiOut ++ pre } : Player).line_ % block.length })
      else some { p with midiOut := p.midiOut ++ pre }) = some p3 →
      (block.length ≤ p.line_ → block.length ≠ 0) ∧
        p3 = { p with midiOut := p.midiOut ++ pre, line_ := p.cursor block } := by
    intro pre hh
    unfold Player.cursor
    by_cases hl : p.line_ ≥ block.length
    · rw [if_pos hl] at hh
      rw [if_pos hl]
      split at hh
      · exact absurd hh (by simp)
      · rename_i h0
        cases hh
        exact ⟨fun _ => h0, rfl⟩
    · rw [if_neg hl] at hh
      rw [if_neg hl]
      cases hh
      exact ⟨fun hh => absurd hh hl, rfl⟩
  by_cases hsync : p.song.sendSync = true
  · rw [if_pos hsync] at hp3
    obtain ⟨k1, k2⟩ := key
      ((List.range p.outputs).map
        (fun o => Event.mk none (o : Int) (MidiMsg.setTick p.ticksSoFar)) ++
       (List.range p.outputs).map (fun o => Event.mk none (o : Int) MidiMsg.clock))
      (by
        rw [← hp3]
        simp only [List.append_assoc])
    subst k2
    exact ⟨block, _, p4, hblock, k1, hp4, h3⟩
  · rw [if_neg hsync] at hp3
    obtain ⟨k1, k2⟩ := key
      ((List.range p.outputs).map
        (fun o => Event.mk none (o : Int) (MidiMsg.setTick p.ticksSoFar))) hp3
    subst k2
    exact ⟨block, _, p4, hblock, k1, hp4, h3⟩

/-- "Handle this tick" is the clamp of the line followed by elementary writes. -/
theorem handleTick_within {p q : Player} (h : handleTick p = some q) :
    ∃ block, p.song.block p.block_ = some block ∧
      (block.length ≤ p.line_ → block.length ≠ 0) ∧
      Within { p with line_ := p.cursor block } q := by
  obtain ⟨block, pre, p4, h1, h2, h3, h4⟩ := handleTick_parts h
  refine ⟨block, h1, h2, ?_⟩
  have f0 : Within { p with line_ := p.cursor block }
      { p with midiOut := p.midiOut ++ pre, line_ := p.cursor block } :=
    Within.out { p with line_ := p.cursor block } pre
  exact Within.chain f0 (Within.chain (players_within (fun _ _ _ hb => runTrack_within hb) h3)
    (Within.chain (flushPostponed_within p4)
      (players_within (fun _ _ _ hb => holdTrack_within hb) h4)))
/-! ## What the elementary writes leave untouched -/

theorem setTrackVolume_keeps (s : Song) (n : Nat) (v : Int) :
    (s.setTrackVolume n v).blocks = s.blocks ∧ (s.setTrackVolume n v).sections = s.sections ∧
      (s.setTrackVolume n v).playseqs = s.playseqs ∧
      (s.setTrackVolume n v).maxTracks = s.maxTracks ∧
      (s.setTrackVolume n v).ticksPerLine = s.ticksPerLine := by
  unfold Song.setTrackVolume
  split
  · exact ⟨rfl, rfl, rfl, rfl, rfl⟩
  · refine ⟨rfl, rfl, rfl, ?_, rfl⟩
    unfold Song.maxTracks
    exact List.length_set _ _ _

theorem setDefaultVelocity_keeps (s : Song) (n v : Int) :
    (s.setDefaultVelocity n v).blocks = s.blocks ∧
      (s.setDefaultVelocity n v).sections = s.sections ∧
      (s.setDefaultVelocity n v).playseqs = s.playseqs ∧
      (s.setDefaultVelocity n v).maxTracks = s.maxTracks ∧
      (s.setDefaultVelocity n v).ticksPerLine = s.ticksPerLine := by
  unfold Song.setDefaultVelocity
  split
  · exact ⟨rfl, rfl, rfl, rfl, rfl⟩
  · exact ⟨rfl, rfl, rfl, rfl, rfl⟩

theorem steady_same (p : Player) : Steady p p :=
  ⟨rfl, rfl, rfl, rfl, rfl, rfl, rfl, rfl, rfl, rfl, rfl, rfl, rfl, rfl, rfl, rfl, Or.inl rfl⟩

theorem steady_chain {p q r : Player} (h1 : Steady p q) (h2 : Steady q r) : Steady p r where
  tick := h2.tick.trans h1.tick
  ticksSoFar := h2.ticksSoFar.trans h1.ticksSoFar
  line_ := h2.line_.trans h1.line_
  block_ := h2.block_.trans h1.block_
  position_ := h2.position_.trans h1.position_
  playseq_ := h2.playseq_.trans h1.playseq_
  section_ := h2.section_.trans h1.section_
  mode_ := h2.mode_.trans h1.mode_
  solo := h2.solo.trans h1.solo
  killThread := h2.killThread.trans h1.killThread
  killWhenLooped := h2.killWhenLooped.trans h1.killWhenLooped
  outputs := h2.outputs.trans h1.outputs
  blocks := h2.blocks.trans h1.blocks
  sections := h2.sections.trans h1.sections
  playseqs := h2.playseqs.trans h1.playseqs
  maxTracks := h2.maxTracks.trans h1.maxTracks
  ticksPerLine := by
    cases h2.ticksPerLine with
    | inl e =>
      rw [e]
      exact h1.ticksPerLine
    | inr b => exact Or.inr b

theorem steady_of_song {p q : Player} (h1 : q.tick = p.tick)
    (h2 : q.ticksSoFar = p.ticksSoFar) (h3 : q.line_ = p.line_) (h4 : q.block_ = p.block_)
    (h5 : q.position_ = p.position_) (h6 : q.playseq_ = p.playseq_)
    (h7 : q.section_ = p.section_) (h8 : q.mode_ = p.mode_) (h9 : q.solo = p.solo)
    (h10 : q.killThread = p.killThread) (h11 : q.killWhenLooped = p.killWhenLooped)
    (h12 : q.outputs = p.outputs)
    (hs : q.song.blocks = p.song.blocks ∧ q.song.sections = p.song.sections ∧
      q.song.playseqs = p.song.playseqs ∧ q.song.maxTracks = p.song.maxTracks ∧
      q.song.ticksPerLine = p.song.ticksPerLine) : Steady p q :=
  ⟨h1, h2, h3, h4, h5, h6, h7, h8, h9, h10, h11, h12, hs.1, hs.2.1, hs.2.2.1, hs.2.2.2.1,
    Or.inl hs.2.2.2.2⟩

theorem cacheSet_steady {p q : Player} {i j v : Int} (h : p.cacheSet i j v = some q) :
    Steady p q := by
  unfold Player.cacheSet at h
  split at h
  · cases h
  · split at h
    · cases h
    · split at h
      · cases h
        exact steady_of_song rfl rfl rfl rfl rfl rfl rfl rfl rfl rfl rfl rfl
          ⟨rfl, rfl, rfl, rfl, rfl⟩
      · cases h

/-- The elementary writes of a tick leave the tick counters, the cursors, the mode, the
flags and the structure of the song; the ticks per line stay or become a non-zero byte. -/
theorem within_steady {p q : Player} (h : Within p q) : Steady p q := by
  induction h with
  | same p => exact steady_same p
  | chain _ _ ih1 ih2 => exact steady_chain ih1 ih2
  | out p evs =>
    exact steady_of_song rfl rfl rfl rfl rfl rfl rfl rfl rfl rfl rfl rfl
      ⟨rfl, rfl, rfl, rfl, rfl⟩
  | cache hc => exact cacheSet_steady hc
  | latch p c v =>
    exact steady_of_song rfl rfl rfl rfl rfl rfl rfl rfl rfl rfl rfl rfl
      ⟨rfl, rfl, rfl, rfl, rfl⟩
  | ticksPerLine p v h1 h2 =>
    exact ⟨rfl, rfl, rfl, rfl, rfl, rfl, rfl, rfl, rfl, rfl, rfl, rfl, rfl, rfl, rfl, rfl,
      Or.inr ⟨h1, h2⟩⟩
  | tempo p v =>
    exact steady_of_song rfl rfl rfl rfl rfl rfl rfl rfl rfl rfl rfl rfl
      ⟨rfl, rfl, rfl, rfl, rfl⟩
  | trackVolume p n v =>
    exact steady_of_song rfl rfl rfl rfl rfl rfl rfl rfl rfl rfl rfl rfl
      (setTrackVolume_keeps p.song n v)
  | defaultVelocity p n v =>
    exact steady_of_song rfl rfl rfl rfl rfl rfl rfl rfl rfl rfl rfl rfl
      (setDefaultVelocity_keeps p.song n v)
  | status p track ts =>
    exact steady_of_song rfl rfl rfl rfl rfl rfl rfl rfl rfl rfl rfl rfl
      ⟨rfl, rfl, rfl, rfl, rfl⟩
  | postponed p ns =>
    exact steady_of_song rfl rfl rfl rfl rfl rfl rfl rfl rfl rfl rfl rfl
      ⟨rfl, rfl, rfl, rfl, rfl⟩
/-! ## The tick counters -/

theorem updateLocation_counters {p q : Player} (h : p.updateLocation = some q) :
    q.tick = p.tick ∧ q.ticksSoFar = p.ticksSoFar ∧ q.song = p.song := by
  unfold Player.updateLocation at h
  dsimp only at h
  obtain ⟨s0, h0, h1⟩ := Option.bind_eq_some.mp h
  obtain ⟨ps, h2, h3⟩ := Option.bind_eq_some.mp h1
  obtain ⟨b0, h4, h5⟩ := Option.bind_eq_some.mp h3
  cases h5
  exact ⟨rfl, rfl, rfl⟩

theorem nextPosition_counters {p : Player} {r : Player × Bool}
    (h : p.nextPosition = some r) :
    r.1.tick = p.tick ∧ r.1.ticksSoFar = p.ticksSoFar ∧ r.1.song = p.song := by
  unfold Player.nextPosition at h
  dsimp only at h
  obtain ⟨ps, _, he⟩ := Option.map_eq_some'.mp h
  subst he
  split
  · exact ⟨rfl, rfl, rfl⟩
  · exact ⟨rfl, rfl, rfl⟩

/-- The post commands leave the tick counters and the song. -/
theorem postCommands_counters {a : Player} {r : Player × Bool}
    (h : postCommands a = some r) :
    r.1.tick = a.tick ∧ r.1.ticksSoFar = a.ticksSoFar ∧ r.1.song = a.song := by
  unfold postCommands at h
  obtain ⟨x, hx, h1⟩ := Option.bind_eq_some.mp h
  have hx1 : x.1.tick = a.tick ∧ x.1.ticksSoFar = a.ticksSoFar ∧ x.1.song = a.song := by
    split at hx
    · split at hx
      · obtain ⟨y, hy, he⟩ := Option.map_eq_some'.mp hx
        subst he
        have hh := nextPosition_counters hy
        exact hh
      · cases hx
        exact ⟨rfl, rfl, rfl⟩
    · split at hx
      · obtain ⟨ps, _, he⟩ := Option.map_eq_some'.mp hx
        subst he
        split
        · exact ⟨rfl, rfl, rfl⟩
        · exact ⟨rfl, rfl, rfl⟩
      · split at hx
        · cases hx
          exact ⟨rfl, rfl, rfl⟩
        · obtain ⟨b, _, h2⟩ := Option.bind_eq_some.mp hx
          split at h2
          · split at h2
            · obtain ⟨y, hy, he⟩ := Option.map_eq_some'.mp h2
              subst he
              have hh := nextPosition_counters hy
              exact hh
            · cases h2
              exact ⟨rfl, rfl, rfl⟩
          · cases h2
            exact ⟨rfl, rfl, rfl⟩
  obtain ⟨x1, x2, x3⟩ := hx1
  dsimp only at h1
  split at h1
  · obtain ⟨y, hy, he⟩ := Option.map_eq_some'.mp h1
    subst he
    obtain ⟨u1, u2, u3⟩ := updateLocation_counters hy
    exact ⟨u1.trans x1, u2.trans x2, u3.trans x3⟩
  · cases h1
    exact ⟨x1, x2, x3⟩

/-- "Next tick": the advance increments `ticksSoFar` and sets the tick counter to its
successor modulo the ticks per line, which it leaves. -/
theorem advance_counters {q : Player} {r : Player × Bool} (h : advance q = some r) :
    q.song.ticksPerLine ≠ 0 ∧ r.1.ticksSoFar = (q.ticksSoFar + 1) % 2 ^ 32 ∧
      r.1.tick = ((q.tick + 1) % 2 ^ 32) % q.song.ticksPerLine ∧ r.1.song = q.song := by
  unfold advance at h
  split at h
  · cases h
  · rename_i h0
    dsimp only at h
    split at h
    · rename_i hw
      obtain ⟨a, ha, h1⟩ := Option.bind_eq_some.mp h
      have ea := advanceArpeggio_loop ha
      obtain ⟨c1, c2, c3⟩ := postCommands_counters h1
      refine ⟨h0, ?_, ?_, ?_⟩
      · rw [c2, ea]
      · rw [c1, ea]
      · rw [c3, ea]
    · cases h
      exact ⟨h0, rfl, rfl, rfl⟩

theorem handleTick_steady {p q : Player} (h : handleTick p = some q) :
    q.tick = p.tick ∧ q.ticksSoFar = p.ticksSoFar ∧ q.mode_ = p.mode_ ∧
      q.killThread = p.killThread ∧ q.killWhenLooped = p.killWhenLooped ∧
      (q.song.ticksPerLine = p.song.ticksPerLine ∨
        (1 ≤ q.song.ticksPerLine ∧ q.song.ticksPerLine < 256)) := by
  obtain ⟨block, _, _, hw⟩ := handleTick_within h
  have hs := within_steady hw
  exact ⟨hs.tick, hs.ticksSoFar, hs.mode_, hs.killThread, hs.killWhenLooped, hs.ticksPerLine⟩

/-- A tick step: the tick is handled with the tick counter as it is, then `ticksSoFar` is
incremented and the tick counter becomes its successor modulo the ticks per line in force
at the end of the tick. -/
theorem tickStep_counters {p : Player} {r : Player × Bool} (h : tickStep p = some r) :
    ∃ q, handleTick p = some q ∧ q.tick = p.tick ∧ q.ticksSoFar = p.ticksSoFar ∧
      (q.song.ticksPerLine = p.song.ticksPerLine ∨
        (1 ≤ q.song.ticksPerLine ∧ q.song.ticksPerLine < 256)) ∧
      r.1.ticksSoFar = (p.ticksSoFar + 1) % 2 ^ 32 ∧
      r.1.tick = ((p.tick + 1) % 2 ^ 32) % q.song.ticksPerLine ∧
      r.1.song.ticksPerLine = q.song.ticksPerLine ∧ 1 ≤ r.1.song.ticksPerLine ∧
      r.1.tick < r.1.song.ticksPerLine := by
  unfold tickStep at h
  obtain ⟨q, hq, hadv⟩ := Option.bind_eq_some.mp h
  obtain ⟨s1, s2, _, _, _, s3⟩ := handleTick_steady hq
  obtain ⟨a0, a1, a2, a3⟩ := advance_counters hadv
  have e : r.1.song.ticksPerLine = q.song.ticksPerLine := by rw [a3]
  refine ⟨q, hq, s1, s2, s3, by rw [a1, s2], by rw [a2, s1], e, by omega, ?_⟩
  rw [a2, e]
  exact Nat.mod_lt _ (by omega)

/-- The tick counters at the start of the `n`-th tick of a run. -/
theorem stateAt_counters :
    ∀ (n : Nat) (p s : Player), p.tick < p.song.ticksPerLine →
      p.song.ticksPerLine < 2 ^ 32 → p.ticksSoFar + n < 2 ^ 32 → stateAt n p = some s →
      s.ticksSoFar = p.ticksSoFar + n ∧ s.tick < s.song.ticksPerLine ∧
        s.song.ticksPerLine < 2 ^ 32 := by
  intro n
  induction n with
  | zero =>
    intro p s h1 h2 _ hs
    unfold stateAt at hs
    cases hs
    exact ⟨rfl, h1, h2⟩
  | succ j ih =>
    intro p s h1 h2 h3 hs
    obtain ⟨q, r, hq, hr, _, hj⟩ := stateAt_succ_inv hs
    have hstep : tickStep p = some r := by
      unfold tickStep
      rw [hq]
      exact hr
    obtain ⟨q1, hq1, c1, c2, c3, c4, c5, c6, c7, c8⟩ := tickStep_counters hstep
    rw [hq] at hq1
    cases hq1
    have e4 : r.1.ticksSoFar = p.ticksSoFar + 1 := by
      rw [c4]
      exact Nat.mod_eq_of_lt (by omega)
    have hb : r.1.song.ticksPerLine < 2 ^ 32 := by
      rw [c6]
      cases c3 with
      | inl e => rw [e]; exact h2
      | inr b => omega
    obtain ⟨i1, i2, i3⟩ := ih r.1 s c8 hb (by omega) hj
    exact ⟨by omega, i2, i3⟩

theorem counter_steps (track command value : Nat) :
    CommandSteps track (fun a b => b.tick = a.tick ∧
      (b.song.ticksPerLine = a.song.ticksPerLine ∨
        (command = CommandTicksPerLine ∧ value ≠ 0 ∧ b.song.ticksPerLine = value))) where
  same := fun _ => ⟨rfl, Or.inl rfl⟩
  chain := fun _ _ _ h1 h2 => by
    refine ⟨h2.1.trans h1.1, ?_⟩
    cases h2.2 with
    | inl e =>
      rw [e]
      exact h1.2
    | inr b => exact Or.inr b
  out := fun _ _ _ => ⟨rfl, Or.inl rfl⟩
  cache := fun _ _ _ _ _ h => by
    have hs := cacheSet_steady h
    refine ⟨hs.tick, ?_⟩
    unfold Player.cacheSet at h
    split at h
    · cases h
    · split at h
      · cases h
      · split at h
        · cases h
          exact Or.inl rfl
        · cases h
  latch := fun _ _ _ => ⟨rfl, Or.inl rfl⟩
  tempo := fun _ _ => ⟨rfl, Or.inl rfl⟩
  trackVolume := fun a n v => ⟨rfl, Or.inl (setTrackVolume_keeps a.song n v).2.2.2.2⟩
  defaultVelocity := fun a n v => ⟨rfl, Or.inl (setDefaultVelocity_keeps a.song n v).2.2.2.2⟩

/-- A command that is interpreted leaves the tick counter, and it leaves the ticks per line
unless it is a TicksPerLine command with a non-zero value. -/
theorem handleCommand_counters {track note instrument command value : Nat}
    {loc loc1 : Locals} {p q : Player} {ts : TrackStatus}
    (hts : p.trackStatuses[track]? = some ts)
    (h : handleCommand track note instrument command value loc p = some (loc1, q)) :
    q.tick = p.tick ∧
      (q.song.ticksPerLine = p.song.ticksPerLine ∨
        (effectiveCommand ts command value = CommandTicksPerLine ∧ value ≠ 0 ∧
          q.song.ticksPerLine = value)) := by
  unfold handleCommand at h
  split at h
  · cases h
    exact ⟨rfl, Or.inl rfl⟩
  · rw [hts] at h
    dsimp only [Option.bind] at h
    cases hic : commandTarget instrument ts p with
    | none =>
      rw [hic] at h
      exact absurd h (by simp)
    | some ic =>
      rw [hic] at h
      dsimp only at h
      have f1 : (rememberCommand track command ts p).tick = p.tick ∧
          (rememberCommand track command ts p).song = p.song := by
        unfold rememberCommand
        split
        · exact ⟨rfl, rfl⟩
        · exact ⟨rfl, rfl⟩
      obtain ⟨g1, g2⟩ := handleSwitch_steps
        (counter_steps track (effectiveCommand ts command value) value)
        (fun _ _ _ _ => ⟨rfl, Or.inl rfl⟩)
        (fun _ hc hv => ⟨rfl, Or.inr ⟨hc, hv, rfl⟩⟩) h
      rw [f1.1] at g1
      rw [f1.2] at g2
      exact ⟨g1, g2⟩

/-- C16 (amended): in a run (tick counter and `ticksSoFar` reset to 0 at its start, at
least one tick per line), at the start of the `n`-th tick (`n` below `2^32 - 1`)
`ticksSoFar` is `n` and the tick counter is below the ticks per line.  A tick step handles
the tick with the tick counter unchanged, then increases `ticksSoFar` by exactly 1 and sets
the tick counter to `(tick + 1) mod TPL` for the ticks-per-line value in force at the end
of the tick, which it leaves.  Each command interpreted within a tick leaves the tick
counter, and leaves the ticks per line unless it is a TicksPerLine command with a non-zero
value, which sets them to that value. -/
theorem tick_counters (p : Player) (n : Nat) (s : Player)
    (htpl : 1 ≤ p.song.ticksPerLine) (htpl2 : p.song.ticksPerLine < 2 ^ 32)
    (hn : n + 1 < 2 ^ 32)
    (hs : stateAt n { p with tick := 0, ticksSoFar := 0 } = some s) :
    s.ticksSoFar = n ∧ s.tick < s.song.ticksPerLine ∧
      (∀ r, tickStep s = some r →
        ∃ q, handleTick s = some q ∧ q.tick = s.tick ∧ q.ticksSoFar = s.ticksSoFar ∧
          r.1.ticksSoFar = s.ticksSoFar + 1 ∧
          r.1.tick = (s.tick + 1) % q.song.ticksPerLine ∧
          r.1.song.ticksPerLine = q.song.ticksPerLine ∧
          r.1.tick < r.1.song.ticksPerLine) ∧
      (∀ (track note instrument command value : Nat) (loc loc1 : Locals) (a b : Player)
        (ts : TrackStatus), a.trackStatuses[track]? = some ts →
        handleCommand track note instrument command value loc a = some (loc1, b) →
        b.tick = a.tick ∧
          (b.song.ticksPerLine = a.song.ticksPerLine ∨
            (effectiveCommand ts command value = CommandTicksPerLine ∧ value ≠ 0 ∧
              b.song.ticksPerLine = value))) := by
  obtain ⟨i1, i2, i3⟩ := stateAt_counters n { p with tick := 0, ticksSoFar := 0 } s
    (by show 0 < p.song.ticksPerLine; omega) htpl2 (by show 0 + n < 2 ^ 32; omega) hs
  have e1 : s.ticksSoFar = n := by
    rw [i1]
    show 0 + n = n
    omega
  refine ⟨e1, i2, ?_, ?_⟩
  · intro r hr
    obtain ⟨q, hq, c1, c2, _, c4, c5, c6, _, c8⟩ := tickStep_counters hr
    refine ⟨q, hq, c1, c2, ?_, ?_, c6, c8⟩
    · rw [c4]
      exact Nat.mod_eq_of_lt (by omega)
    · rw [c5, Nat.mod_eq_of_lt (by omega : s.tick + 1 < 2 ^ 32)]
  · intro track note instrument command value loc loc1 a b ts hts h
    exact handleCommand_counters hts h

/-- C16, witness: scenario S1 (six ticks per line).  At the start of the seventh tick of the
run `ticksSoFar` is 6 and the tick counter, 0 after the wrap, is below the ticks per line. -/
theorem tick_counters_witness :
    ((stateAt 6 { playerS1 with tick := 0, ticksSoFar := 0 }).getD playerS1).ticksSoFar = 6 ∧
      ((stateAt 6 { playerS1 with tick := 0, ticksSoFar := 0 }).getD playerS1).tick
        < ((stateAt 6 { playerS1 with tick := 0, ticksSoFar := 0 }).getD
            playerS1).song.ticksPerLine ∧
      (stateAt 6 { playerS1 with tick := 0, ticksSoFar := 0 }).map
          (fun s => (s.tick, s.song.ticksPerLine)) = some (0, 6) :=
  ⟨(tick_counters playerS1 6 _ (by decide) (by decide) (by decide)
      (getD_of_isSome playerS1 (by decide!))).1,
    (tick_counters playerS1 6 _ (by decide) (by decide) (by decide)
      (getD_of_isSome playerS1 (by decide!))).2.1,
    by decide!⟩

/-- C16, counterexample: the cell carries TicksPerLine with value 2 on command page 0,
EndBlock on page 1 and TicksPerLine with value 7 on page 2.  At the end of every tick there
are 7 ticks per line, so the tick counter reaches 5; in that tick the EndBlock command of
page 1, which compares the tick counter with the ticks per line, is interpreted when the
command of page 0 has set the ticks per line to 2: the tick counter, 5, is not below the
ticks-per-line value in force at that point. -/
theorem tick_not_below_ticks_per_line :
    (stateAt 5 playerTwoRates).map (fun s => (s.tick, s.song.ticksPerLine, s.ticksSoFar))
      = some (5, 7, 5) ∧
    ((stateAt 5 playerTwoRates).bind (fun s =>
        loopFrom (blockCommandPage blockTwoRates 0 0 0) 1 0 (⟨127, 0, -1, -1⟩, s))).map
        (fun r => (r.2.tick, r.2.song.ticksPerLine))
      = some (5, 2) ∧
    blockTwoRates.command 0 0 1 = CommandEndBlock := by
  decide!
/-! ## Cursor clamping -/

theorem bind_congr_some {α β : Type} {x : Option α} {f g : α → Option β}
    (h : ∀ a, x = some a → f a = g a) : x.bind f = x.bind g := by
  cases x with
  | none => rfl
  | some a => exact h a rfl

theorem loopFrom_congr {σ : Type} (I : σ → Prop) (f g : Nat → σ → Option σ)
    (hfg : ∀ i s, I s → f i s = g i s) (hI : ∀ i s t, I s → f i s = some t → I t) :
    ∀ (n i : Nat) (s : σ), I s → loopFrom f n i s = loopFrom g n i s := by
  intro n
  induction n with
  | zero =>
    intro i s _
    rfl
  | succ k ih =>
    intro i s hs
    unfold loopFrom
    rw [← hfg i s hs]
    exact bind_congr_some (fun t ht => ih (i + 1) t (hI i s t hs ht))

theorem readCell_reads {b b1 : Block} {line : Nat} (hb : b.sameLine b1 line) (track : Nat)
    (ts : TrackStatus) {p : Player} (hl : p.line_ = line) :
    readCell b1 track ts p = readCell b track ts p := by
  obtain ⟨_, _, _, hc⟩ := hb
  unfold readCell
  rw [hl, (hc track).1, (hc track).2.1]

theorem preScanPage_reads {b b1 : Block} {line : Nat} (hb : b.sameLine b1 line)
    (track page : Nat) {s : Locals × Player} (hl : s.2.line_ = line) :
    preScanPage b1 track page s = preScanPage b track page s := by
  obtain ⟨_, _, _, hc⟩ := hb
  unfold preScanPage
  rw [hl, ((hc track).2.2 page).1, ((hc track).2.2 page).2]

theorem blockCommandPage_reads {b b1 : Block} {line : Nat} (hb : b.sameLine b1 line)
    (track note instrument page : Nat) {s : Locals × Player} (hl : s.2.line_ = line) :
    blockCommandPage b1 track note instrument page s
      = blockCommandPage b track note instrument page s := by
  obtain ⟨_, _, _, hc⟩ := hb
  unfold blockCommandPage
  rw [hl, ((hc track).2.2 page).1, ((hc track).2.2 page).2]

/-- The processing of a track reads the block on the line of the cursor only: it gives the
same result for every block with the same dimensions and the same cells on that line. -/
theorem runTrack_reads {b b1 : Block} {line : Nat} (hb : b.sameLine b1 line) (track : Nat)
    {p : Player} (hl : p.line_ = line) : runTrack b1 track p = runTrack b track p := by
  have hpages : b1.commandPages = b.commandPages := hb.2.2.1
  unfold runTrack
  refine bind_congr_some (fun ts _ => bind_congr_some (fun a _ => ?_))
  cases a with
  | false => rfl
  | true =>
    rw [if_pos rfl, if_pos rfl, readCell_reads hb track ts hl]
    refine bind_congr_some (fun ct _ => ?_)
    dsimp only
    have hl1 : (p.setTrackStatus track ct.2).line_ = line := hl
    generalize p.setTrackStatus track ct.2 = p1 at hl1
    have hscan : loopFrom (preScanPage b1 track) b1.commandPages 0
          (({ volume := 127, delay := 0, repeat_ := -1, hold := -1 } : Locals), p1)
        = loopFrom (preScanPage b track) b.commandPages 0
          (({ volume := 127, delay := 0, repeat_ := -1, hold := -1 } : Locals), p1) := by
      rw [hpages]
      exact loopFrom_congr (fun (s : Locals × Player) => s.2.line_ = line) _ _
        (fun i s hs => preScanPage_reads hb track i hs)
        (fun i s t hs ht => by
          rw [preScanPage_reads hb track i hs] at ht
          exact (within_steady (preScanPage_within ht)).line_.trans hs)
        _ _ _ hl1
    rw [hscan]
    refine bind_congr_some (fun s1 hs1 => ?_)
    have hl2 : s1.2.line_ = line := by
      split at hs1
      · obtain ⟨sA, hsA, hg⟩ := Option.bind_eq_some.mp hs1
        obtain ⟨pG, hpG, he⟩ := Option.map_eq_some'.mp hg
        subst he
        exact ((within_steady (preGate_within hpG)).line_.trans
          (within_steady (loop_within (fun _ _ _ hx => preScanPage_within hx) hsA)).line_).trans
          hl1
      · cases hs1
        exact hl1
    refine bind_congr_some (fun s2 hs2 => ?_)
    have hl3 : s2.2.line_ = line := by
      split at hs2
      · cases hs2
        exact hl2
      · exact (within_steady
          (loop_within (fun _ _ _ hx => arpeggioCommandPage_within hx) hs2)).line_.trans hl2
    have hcmd : loopFrom (blockCommandPage b1 track ct.1.note ct.1.instrument)
          b1.commandPages 0 s2
        = loopFrom (blockCommandPage b track ct.1.note ct.1.instrument) b.commandPages 0 s2 := by
      rw [hpages]
      exact loopFrom_congr (fun (s : Locals × Player) => s.2.line_ = line) _ _
        (fun i s hs => blockCommandPage_reads hb track _ _ i hs)
        (fun i s t hs ht => by
          rw [blockCommandPage_reads hb track _ _ i hs] at ht
          exact (within_steady (blockCommandPage_within ht)).line_.trans hs)
        _ _ _ hl3
    rw [hcmd]

/-- The track loop reads the block on the line of the cursor only. -/
theorem trackLoop_reads {b b1 : Block} {line : Nat} (hb : b.sameLine b1 line)
    {p : Player} (hl : p.line_ = line) :
    loopFrom (runTrack b1) b1.tracks 0 p = loopFrom (runTrack b) b.tracks 0 p := by
  rw [hb.1]
  exact loopFrom_congr (fun (s : Player) => s.line_ = line) _ _
    (fun i s hs => runTrack_reads hb i hs)
    (fun i s t hs ht => by
      rw [runTrack_reads hb i hs] at ht
      exact (within_steady (runTrack_within ht)).line_.trans hs)
    _ _ _ hl

theorem clamp_last (x len : Nat) (h1 : 1 ≤ len) (h2 : len < 2 ^ 32) :
    (if x ≥ len then (len + 2 ^ 32 - 1) % 2 ^ 32 else x) = min x (len - 1) ∧
      (if x ≥ len then (len + 2 ^ 32 - 1) % 2 ^ 32 else x) < len := by
  split
  · constructor
    · omega
    · omega
  · constructor
    · omega
    · omega

theorem getElem?_of_lt {α : Type} {l : List α} {n : Nat} (h : n < l.length) :
    ∃ a, l[n]? = some a ∧ a ∈ l :=
  ⟨l[n], List.getElem?_eq_getElem h, List.getElem_mem h⟩

/-- `updateLocation` on a song with a section, a playing sequence, a block and no empty
playing sequence: it returns, and the cursors it leaves are in range. -/
theorem updateLocation_total (p : Player)
    (hs : p.song.sections ≠ []) (hp : p.song.playseqs ≠ []) (hb : p.song.blocks ≠ [])
    (hne : ∀ ps ∈ p.song.playseqs, ps.blocks ≠ [])
    (hp2 : p.song.playseqs.length < 2 ^ 32) (hb2 : p.song.blocks.length < 2 ^ 32) :
    ∃ q, p.updateLocation = some q ∧ q.song = p.song ∧
      q.section_ < q.song.sections.length ∧
      (∃ s0, q.song.section_ q.section_ = some s0 ∧
        q.playseq_ = min s0 (q.song.playseqs.length - 1)) ∧
      (∃ ps b0, q.song.playseq q.playseq_ = some ps ∧ q.position_ < ps.blocks.length ∧
        ps.blocks[q.position_]? = some b0 ∧
        q.block_ = min b0 (q.song.blocks.length - 1)) ∧
      q.block_ < q.song.blocks.length := by
  have ls : 0 < p.song.sections.length := List.length_pos.mpr hs
  have lp : 0 < p.song.playseqs.length := List.length_pos.mpr hp
  have lb : 0 < p.song.blocks.length := List.length_pos.mpr hb
  have h1 : (if p.section_ ≥ p.song.sections.length then 0 else p.section_)
      < p.song.sections.length := by
    split
    · exact ls
    · omega
  obtain ⟨s0, hs0, _⟩ := getElem?_of_lt h1
  obtain ⟨e2, h2⟩ := clamp_last s0 p.song.playseqs.length lp hp2
  obtain ⟨ps, hps, hmem⟩ := getElem?_of_lt h2
  have lps : 0 < ps.blocks.length := List.length_pos.mpr (hne ps hmem)
  have h3 : (if p.position_ ≥ ps.blocks.length then 0 else p.position_)
      < ps.blocks.length := by
    split
    · exact lps
    · omega
  obtain ⟨b0, hb0, _⟩ := getElem?_of_lt h3
  obtain ⟨e4, h4⟩ := clamp_last b0 p.song.blocks.length lb hb2
  refine ⟨{ p with
      section_ := if p.section_ ≥ p.song.sections.length then 0 else p.section_,
      playseq_ := if s0 ≥ p.song.playseqs.length
        then (p.song.playseqs.length + 2 ^ 32 - 1) % 2 ^ 32 else s0,
      position_ := if p.position_ ≥ ps.blocks.length then 0 else p.position_,
      block_ := if b0 ≥ p.song.blocks.length
        then (p.song.blocks.length + 2 ^ 32 - 1) % 2 ^ 32 else b0 },
    ?_, rfl, h1, ⟨s0, hs0, e2⟩, ⟨ps, b0, hps, h3, hb0, e4⟩, h4⟩
  unfold Player.updateLocation
  dsimp only
  unfold Song.section_
  rw [hs0]
  dsimp only [Option.bind]
  unfold Song.playseq
  rw [hps]
  dsimp only
  rw [hb0]

/-- C15: on a song with at least one section, one playing sequence and one block and no
empty playing sequence, for arbitrary cursors, `updateLocation` returns with the section
below the number of sections, the playing sequence the minimum of the section's playing
sequence and the last one, the position below the length of that playing sequence, and the
block the minimum of the block at that position and the last block, below the number of
blocks.  And a tick that is handled reduces the line modulo the length of the current
block before the track loop: the line is below the block length, and the track loop, which
makes all reads of cells, reads the cells of that line only (it gives the same result for
every block with the same dimensions and the same cells on that line). -/
theorem cursor_clamping (p : Player)
    (hs : p.song.sections ≠ []) (hp : p.song.playseqs ≠ []) (hb : p.song.blocks ≠ [])
    (hne : ∀ ps ∈ p.song.playseqs, ps.blocks ≠ [])
    (hp2 : p.song.playseqs.length < 2 ^ 32) (hb2 : p.song.blocks.length < 2 ^ 32) :
    (∃ q, p.updateLocation = some q ∧ q.song = p.song ∧
      q.section_ < q.song.sections.length ∧
      (∃ s0, q.song.section_ q.section_ = some s0 ∧
        q.playseq_ = min s0 (q.song.playseqs.length - 1)) ∧
      (∃ ps b0, q.song.playseq q.playseq_ = some ps ∧ q.position_ < ps.blocks.length ∧
        ps.blocks[q.position_]? = some b0 ∧
        q.block_ = min b0 (q.song.blocks.length - 1)) ∧
      q.block_ < q.song.blocks.length) ∧
    (∀ s t, handleTick s = some t →
      ∃ block pre p4, s.song.block s.block_ = some block ∧ s.cursor block < block.length ∧
        loopFrom (runTrack block) block.tracks 0
          { s with midiOut := s.midiOut ++ pre, line_ := s.cursor block } = some p4 ∧
        loopFrom holdTrack p4.song.maxTracks 0 (flushPostponed p4) = some t ∧
        ∀ block1, block.sameLine block1 (s.cursor block) →
          loopFrom (runTrack block1) block1.tracks 0
            { s with midiOut := s.midiOut ++ pre, line_ := s.cursor block } = some p4) := by
  refine ⟨updateLocation_total p hs hp hb hne hp2 hb2, ?_⟩
  intro s t ht
  obtain ⟨block, pre, p4, h1, h2, h3, h4⟩ := handleTick_parts ht
  refine ⟨block, pre, p4, h1, ?_, h3, h4, ?_⟩
  · unfold Player.cursor
    split
    · rename_i hl
      exact Nat.mod_lt _ (Nat.pos_of_ne_zero (h2 hl))
    · omega
  · intro block1 hsame
    rw [trackLoop_reads hsame rfl]
    exact h3

/-- C15, witness: the song of scenario S4 (one section, one playing sequence of two
positions, one block) with cursors out of range: `updateLocation` returns section 0,
playing sequence 0, position 0 and block 0. -/
theorem cursor_clamping_witness :
    (∃ q, playerAstray.updateLocation = some q ∧ q.song = playerAstray.song ∧
      q.section_ < q.song.sections.length ∧
      (∃ s0, q.song.section_ q.section_ = some s0 ∧
        q.playseq_ = min s0 (q.song.playseqs.length - 1)) ∧
      (∃ ps b0, q.song.playseq q.playseq_ = some ps ∧ q.position_ < ps.blocks.length ∧
        ps.blocks[q.position_]? = some b0 ∧
        q.block_ = min b0 (q.song.blocks.length - 1)) ∧
      q.block_ < q.song.blocks.length) ∧
    (playerAstray.updateLocation).map
        (fun q => (q.section_, q.playseq_, q.position_, q.block_)) = some (0, 0, 0, 0) :=
  ⟨(cursor_clamping playerAstray (by decide!) (by decide!) (fun h => by cases h)
      (by decide!) (by decide!) (by decide!)).1,
    by decide!⟩

/-! ## A cell that names a missing instrument -/

/-- An instrument byte larger than the number of instruments names no instrument. -/
theorem instrument_missing (s : Song) (instrument : Nat) (hmiss : s.instruments.length < instrument)
    (hbyte : instrument < 256) : s.instrument ((instrument : Int) - 1) = none := by
  unfold Song.instrument toUInt
  have h1 : (((instrument : Int) - 1) % 2 ^ 32).toNat = instrument - 1 := by omega
  rw [h1]
  exact List.getElem?_eq_none (by omega)

/-- C21: a cell whose instrument byte is larger than the number of instruments makes the
engine use the missing instrument.  With `ts` the status of the track: the interpretation
of a command with a non-zero command byte or value faults; the arpeggio lookup faults on
tick 0 of a line when the cell holds a note; the hold extension of tick 0 faults while a
hold time runs on the track.  Only `playNote` tests the instrument: it returns without a
note. -/
theorem missing_instrument_faults (p : Player) (block : Block)
    (track note instrument command value volume : Nat) (loc : Locals) (ts : TrackStatus)
    (hts : p.trackStatuses[track]? = some ts)
    (hmiss : p.song.instruments.length < instrument) (hbyte : instrument < 256)
    (hcell : block.instrument p.line_ track % 256 = instrument) :
    ((command ≠ 0 ∨ value ≠ 0) →
        handleCommand track note instrument command value loc p = none) ∧
      (block.note p.line_ track % 256 ≠ 0 → p.tick = 0 → readCell block track ts p = none) ∧
      (p.tick = 0 → 0 ≤ ts.hold → extendHold track 0 instrument p = none) ∧
      (p.audible track = some true →
        ∃ q, playNote ((instrument : Int) - 1) note volume track true p = some q ∧
          q.postponedNotes = p.postponedNotes) := by
  have hnone := instrument_missing p.song instrument hmiss hbyte
  have hpos : instrument ≠ 0 := by omega
  refine ⟨?_, ?_, ?_, ?_⟩
  · intro hcv
    unfold handleCommand
    have hc : ¬ (command = 0 ∧ value = 0) := by omega
    rw [if_neg hc, hts]
    simp only [Option.some_bind]
    unfold commandTarget
    rw [if_pos hpos, hnone]
    rfl
  · intro hn ht
    have hgt : instrument > 0 := by omega
    have hc : (0 : Int) ≤ (instrument : Int) - 1 ∧ (0 : Int) ≤ 0 := ⟨by omega, le_refl _⟩
    unfold readCell
    simp only [hcell, hn, ht, hgt, ne_eq, not_false_eq_true, and_self, if_true, hc, hnone,
      Option.map_none']
  · intro ht hh
    unfold extendHold
    rw [hts]
    simp only [Option.some_bind]
    have hc : p.tick = 0 ∧ True ∧ instrument > 0 ∧ 0 ≤ ts.hold :=
      ⟨ht, trivial, by omega, hh⟩
    rw [if_pos hc, hnone]
    rfl
  · intro ha
    unfold playNote
    rw [ha, Option.some_bind, if_pos rfl, hts, Option.some_bind]
    dsimp only
    have hsong : (if ts.note ≠ -1 then
        p.emit (some track) ts.midiInterface (MidiMsg.noteOff ts.midiChannel ts.note 127)
      else p).song = p.song := by
      split <;> rfl
    have hpost : (if ts.note ≠ -1 then
        p.emit (some track) ts.midiInterface (MidiMsg.noteOff ts.midiChannel ts.note 127)
      else p).postponedNotes = p.postponedNotes := by
      split <;> rfl
    generalize (if ts.note ≠ -1 then
        p.emit (some track) ts.midiInterface (MidiMsg.noteOff ts.midiChannel ts.note 127)
      else p) = p1 at hsong hpost
    rw [hsong, hnone]
    exact ⟨_, rfl, hpost⟩

/-- C21, instance: one instrument and the cell `{note=49, instrument=2, ProgramChange 5}`
on tick 0; and the ticks of the cells `{note=49, instrument=2}`, `{instrument=2,
ProgramChange 5}` and, while the hold time of a note runs, `{instrument=2}` do not
complete. -/
theorem missing_instrument_faults_witness :
    (handleCommand 0 49 2 CommandProgramChange 5 ⟨127, 0, -1, -1⟩
        (playerOneInstrument [(49, 2, CommandProgramChange, 5)]) = none ∧
      readCell (blockOfCells 1 [(49, 2, CommandProgramChange, 5)]) 0 freshStatus
        (playerOneInstrument [(49, 2, CommandProgramChange, 5)]) = none) ∧
      (handleTick (playerOneInstrument [(49, 2, 0, 0)])).isSome = false ∧
      (handleTick (playerOneInstrument [(0, 2, CommandProgramChange, 5)])).isSome = false ∧
      (stateAt 1 (playerOneInstrument [(49, 1, 0, 0), (0, 2, 0, 0)])).map
          (fun s => (s.trackStatuses.map (fun ts => ts.hold), (handleTick s).isSome))
        = some ([2], false) :=
  ⟨⟨(missing_instrument_faults (playerOneInstrument [(49, 2, CommandProgramChange, 5)])
        (blockOfCells 1 [(49, 2, CommandProgramChange, 5)]) 0 49 2 CommandProgramChange 5 127
        ⟨127, 0, -1, -1⟩ freshStatus (by decide!) (by decide!) (by decide) (by decide!)).1
        (Or.inl (by decide)),
      (missing_instrument_faults (playerOneInstrument [(49, 2, CommandProgramChange, 5)])
        (blockOfCells 1 [(49, 2, CommandProgramChange, 5)]) 0 49 2 CommandProgramChange 5 127
        ⟨127, 0, -1, -1⟩ freshStatus (by decide!) (by decide!) (by decide) (by decide!)).2.1
        (by decide!) (by decide!)⟩,
    by decide!, by decide!, by decide!⟩

/-! ## The track volume over a line -/

/-- C24: the interpolated TrackVolume command takes the volume that the previous tick left
as its origin, so the volume does not move linearly.  With 4 ticks per line, the volume 127
and the command value `0x80|27`, the volume after the four ticks is 102, 64, 36 and 27; the
linear movement is 102, 77, 52, 27.  On a tick before the last one the new volume is
`c + (t+1)*((v - c)/TPL)` in `float` arithmetic, for the current volume `c`. -/
theorem trackVolume_not_linear (track v : Nat) (p : Player) :
    handleTrackVolume track (0x80 + v) p
        = (p.song.track track).map (fun t =>
            if p.tick < tplMinus1 p.song.ticksPerLine then
              let v1 := interpolate t.volume t.volume v p.tick p.song.ticksPerLine
              { p with song := p.song.setTrackVolume track v1 }
            else { p with song := p.song.setTrackVolume track v }) ∧
      (List.range 5).map (fun k => (stateAt k playerVolumeRamp).map
          (fun s => s.song.tracks.map (fun t => t.volume)))
        = [some [127], some [102], some [64], some [36], some [27]] ∧
      (List.range 4).map (fun t => linearRamp 127 27 t 4) = [102, 77, 52, 27] := by
  refine ⟨?_, by decide!, by decide!⟩
  unfold handleTrackVolume
  have h : ¬ (0x80 + v < 0x80) := by omega
  rw [if_neg h]
  have e : (((0x80 + v : Nat) : Int) - 0x80) = (v : Int) := by push_cast; ring
  rw [e]

/-! ## The velocity of a note-on -/

/-- C28: a Velocity command with a value above 127 on a cell with a note gives a note-on
with a velocity above 127.  The cell `{note=49, instrument=1, Velocity 255}` with default
velocity, track volume and master volume 127 is played with velocity 255 (and with 200 for
the value 200); the test of `playNote` replaces negative velocities only. -/
theorem velocity_above_127 :
    (handleTick (playerLoud 255)).map (fun s => s.midiOut)
        = some [⟨none, 0, MidiMsg.setTick 0⟩, ⟨some 0, 0, MidiMsg.noteOn 0 48 255⟩] ∧
      (handleTick (playerLoud 200)).map (fun s => s.midiOut)
        = some [⟨none, 0, MidiMsg.setTick 0⟩, ⟨some 0, 0, MidiMsg.noteOn 0 48 200⟩] ∧
      resolveVolume 127 255 127 127 = 255 := by
  refine ⟨by decide!, by decide!, by decide!⟩

/-! ## The arpeggio line -/

/-- C29: a cell without note that names another instrument changes the instrument of the
track and leaves the arpeggio line.  In `playerTwoArpeggios` the track is on arpeggio line 2
of instrument 1 when line 2 of the block starts; the cell names instrument 2, whose
arpeggio has one line; on the second tick of the line the engine reads the arpeggio of
instrument 2 on line 2, past its length.  The line is reduced only by the advance at the
end of the line. -/
theorem arpeggio_line_past_length :
    (secondTickTwoArpeggios.tick, secondTickTwoArpeggios.line_,
        secondTickTwoArpeggios.trackStatuses.map (fun ts => (ts.instrument, ts.line)))
        = (1, 2, [(1, 2)]) ∧
      (secondTickTwoArpeggios.trackStatuses[0]?.bind fun ts =>
        (secondTickTwoArpeggios.song.block secondTickTwoArpeggios.block_).bind fun b =>
          (readCell b 0 ts secondTickTwoArpeggios).map
            fun ct => (ct.2.line, ct.1.arpeggio.map (fun a => a.length))) = some (2, some 1) ∧
      (stateAt 4 playerTwoArpeggios).map
          (fun s => (s.tick, s.line_, s.trackStatuses.map (fun ts => (ts.instrument, ts.line))))
        = some (0, 2, [(0, 2)]) ∧
      (stateAt 6 playerTwoArpeggios).map
          (fun s => (s.tick, s.line_, s.trackStatuses.map (fun ts => (ts.instrument, ts.line))))
        = some (0, 3, [(1, 0)]) := by
  refine ⟨by decide!, by decide!, by decide!, by decide!⟩

/-! ## Block play -/

/-- C30: the post command PlayseqPosition moves the position and calls `updateLocation` in
every mode.  In PlayBlock mode, from section 0, playing sequence 0, position 0, block 0: a
tick whose cell carries PlayseqPosition 1 ends on position 1 and block 1; with
PlayseqPosition 2 (past the end of the playing sequence) it ends on section 1, playing
sequence 1 and block 1. -/
theorem playBlock_cursor_moves :
    ((playerBlockJump 1).mode_, (playerBlockJump 1).section_, (playerBlockJump 1).playseq_,
        (playerBlockJump 1).position_, (playerBlockJump 1).block_)
        = (Mode.ModePlayBlock, 0, 0, 0, 0) ∧
      (tickStep (playerBlockJump 1)).map
          (fun r => (r.1.mode_, r.1.section_, r.1.playseq_, r.1.position_, r.1.block_, r.1.line_))
        = some (Mode.ModePlayBlock, 0, 0, 1, 1, 0) ∧
      (tickStep (playerBlockJump 2)).map
          (fun r => (r.1.mode_, r.1.section_, r.1.playseq_, r.1.position_, r.1.block_, r.1.line_))
        = some (Mode.ModePlayBlock, 1, 1, 0, 1, 0) := by
  refine ⟨by decide!, by decide!, by decide!⟩

/-! ## The note of an arpeggio -/

/-- The `(char)` casts of the arpeggio note and of the arpeggio base note do not change the
sum modulo 256. -/
theorem toChar_sub_mod (b a n : Int) :
    (b + (toChar a - toChar n)) % 256 = (b + (a - n)) % 256 := by
  unfold toChar
  split <;> split <;> omega

/-- The status that `readCell` returns differs from the given one in the line only. -/
theorem restart_instrument (c : Prop) [Decidable c] (ts : TrackStatus) :
    (if c then { ts with line := 0 } else ts : TrackStatus).instrument = ts.instrument := by
  split <;> rfl

/-- The line of the status that `readCell` returns. -/
theorem restart_line (c : Prop) [Decidable c] (ts : TrackStatus) :
    (if c then { ts with line := 0 } else ts : TrackStatus).line = (if c then 0 else ts.line) := by
  split <;> rfl

/-- C25 (amended): for a track whose arpeggio line `line` (0 on tick 0 of a cell with a
note) is not negative and whose effective instrument `eff` (the cell's instrument when the
cell holds a note and names one, else the instrument of the track) exists and has an
arpeggio block, with base note `b` (the cell's note, or the track's remembered base note
when the cell's note is empty), arpeggio cell `a` at the arpeggio line and arpeggio base
note `n`: the note the engine resolves is `(b + (a - n)) mod 256` when `a` is non-zero, which
is `b + (a - n)` when that sum lies in 0..255, and 0 (no note) when `a` is zero. -/
theorem arpeggio_note (block : Block) (track : Nat) (ts : TrackStatus) (p : Player)
    (instr : Instrument) (arpeggio : Block) (b a : Nat) (line eff : Int)
    (hb : b = if block.note p.line_ track % 256 ≠ 0 then block.note p.line_ track % 256
      else ts.baseNote)
    (hline : line = if block.note p.line_ track % 256 ≠ 0 ∧ p.tick = 0 then 0 else ts.line)
    (heff : eff = if block.note p.line_ track % 256 ≠ 0 ∧ block.instrument p.line_ track % 256 > 0
      then ((block.instrument p.line_ track % 256 : Nat) : Int) - 1 else ts.instrument)
    (hl : 0 ≤ line) (he : 0 ≤ eff)
    (hinstr : p.song.instrument eff = some instr) (harp : instr.arpeggio = some arpeggio)
    (ha : a = arpeggio.note (toUInt line) 0 % 256) :
    ∃ ct, readCell block track ts p = some ct ∧ ct.1.basenote = b ∧ ct.2.line = line ∧
      (ct.1.note : Int)
        = (if a ≠ 0 then ((b : Int) + ((a : Int) - instr.arpeggioBaseNote)) % 256 else 0) ∧
      (a ≠ 0 → 0 ≤ (b : Int) + ((a : Int) - instr.arpeggioBaseNote) →
        (b : Int) + ((a : Int) - instr.arpeggioBaseNote) < 256 →
        (ct.1.note : Int) = (b : Int) + ((a : Int) - instr.arpeggioBaseNote)) := by
  have key : ∃ ct, readCell block track ts p = some ct ∧ ct.1.basenote = b ∧ ct.2.line = line ∧
      (ct.1.note : Int)
        = (if a ≠ 0 then ((b : Int) + ((a : Int) - instr.arpeggioBaseNote)) % 256 else 0) := by
    unfold readCell
    dsimp only
    rw [restart_instrument, restart_line, ← hline, ← heff, if_pos ⟨he, hl⟩, hinstr,
      Option.map_some']
    simp only [harp]
    refine ⟨_, rfl, hb.symm, ?_, ?_⟩
    · dsimp only
      rw [restart_line, ← hline]
    · dsimp only
      rw [← ha, ← hb]
      by_cases h0 : a = 0
      · simp only [h0, ne_eq, not_true_eq_false, if_false, Nat.cast_zero]
      · simp only [h0, ne_eq, not_false_eq_true, if_true]
        rw [toChar_sub_mod]
        exact Int.toNat_of_nonneg (Int.emod_nonneg _ (by decide))
  obtain ⟨ct, h1, h2, h3, h4⟩ := key
  refine ⟨ct, h1, h2, h3, h4, ?_⟩
  intro h0 hlo hhi
  rw [h4, if_pos h0]
  exact Int.emod_eq_of_lt hlo hhi

/-- C25, instance: the cell `{note=61, instrument=1}` on tick 0 with the arpeggio note 52
and the arpeggio base note 49 resolves to the note 64. -/
theorem arpeggio_note_witness :
    ∃ ct, readCell (blockOfCells 1 [(61, 1, 0, 0)]) 0 freshStatus
        (playerOf (songOf 1 [0] [blockOfCells 1 [(61, 1, 0, 0)]] [arpeggioInstrument [52] 49] 1)
          Mode.ModePlaySong false) = some ct ∧ ct.1.basenote = 61 ∧ ct.2.line = 0 ∧
      (ct.1.note : Int) = 64 :=
  have h := arpeggio_note (blockOfCells 1 [(61, 1, 0, 0)]) 0 freshStatus
    (playerOf (songOf 1 [0] [blockOfCells 1 [(61, 1, 0, 0)]] [arpeggioInstrument [52] 49] 1)
      Mode.ModePlaySong false) (arpeggioInstrument [52] 49) (arpeggioOf [52]) 61 52 0 0
    (by decide!) (by decide!) (by decide!) (by decide) (by decide) (by rfl) (by rfl) (by decide!)
  h.imp fun _ hc => ⟨hc.1, hc.2.1, hc.2.2.1, hc.2.2.2.2 (by decide) (by decide!) (by decide!)⟩

/-- C25, counterexample: with the base note 1, the arpeggio note 1 and the arpeggio base
note 49 the sum `b + (a - n)` is -47; the engine resolves the note 209. -/
theorem arpeggio_note_wraps :
    (playerLowArpeggio.trackStatuses[0]?.bind fun ts =>
      (playerLowArpeggio.song.block 0).bind fun b =>
        (readCell b 0 ts playerLowArpeggio).map fun ct =>
          (ct.1.basenote, ct.1.arpeggio.map (fun a => a.note 0 0), ct.1.note))
        = some (1, some 1, 209) ∧
      (playerLowArpeggio.song.instrument 0).map (fun i => i.arpeggioBaseNote) = some 49 ∧
      ((1 : Int) + (1 - 49) = -47) := by
  refine ⟨by decide!, by decide!, by decide⟩

/-! ## Muted tracks -/

theorem Heard.refl_heard (p : Player) : Heard p p :=
  ⟨fun _ => rfl, rfl, fun _ _ => rfl, ⟨[], by simp, by simp⟩, ⟨[], by simp, by simp⟩⟩

theorem Heard.trans_heard {p q r : Player} (h1 : Heard p q) (h2 : Heard q r) : Heard p r := by
  obtain ⟨e1, a1, b1⟩ := h1.out
  obtain ⟨e2, a2, b2⟩ := h2.out
  obtain ⟨n1, c1, d1⟩ := h1.postponed
  obtain ⟨n2, c2, d2⟩ := h2.postponed
  refine ⟨fun u => by rw [h2.audible, h1.audible], by rw [h2.maxTracks, h1.maxTracks], ?_,
    ⟨e1 ++ e2, by rw [a2, a1, List.append_assoc], ?_⟩,
    ⟨n1 ++ n2, by rw [c2, c1, List.append_assoc], ?_⟩⟩
  · intro u hu
    rw [h2.silent u (by rw [h1.audible]; exact hu), h1.silent u hu]
  · intro e he
    rcases List.mem_append.mp he with h | h
    · exact b1 e h
    · obtain ⟨u, x, y⟩ := b2 e h
      exact ⟨u, x, by rw [← h1.audible]; exact y⟩
  · intro n hn
    rcases List.mem_append.mp hn with h | h
    · exact d1 n h
    · rw [← h1.audible]
      exact d2 n h

/-- The processing of an audible track that queues notes for itself only. -/
theorem Heard.of_track {v : Nat} {p q : Player} (h : TrackFrame v p q)
    (ha : p.audible v = some true)
    (hq : ∃ ns, q.postponedNotes = p.postponedNotes ++ ns ∧ ∀ n ∈ ns, n.track = v) :
    Heard p q := by
  obtain ⟨evs, a, b⟩ := h.out
  obtain ⟨ns, c, d⟩ := hq
  refine ⟨h.audible_eq_track, h.maxTracks_track, ?_, ⟨evs, a, ?_⟩, ⟨ns, c, ?_⟩⟩
  · intro u hu
    exact h.others u (fun hc => hu (by rw [hc]; exact ha))
  · intro e he
    exact ⟨v, b e he, ha⟩
  · intro n hn
    rw [d n hn]
    exact ha

theorem Heard.of_command {v : Nat} {p q : Player} (h : CommandFrame v p q)
    (ha : p.audible v = some true) : Heard p q :=
  Heard.of_track h.toTrackFrame ha ⟨[], by rw [h.postponedNotes, List.append_nil], by simp⟩

theorem Heard.status_heard {v : Nat} (p : Player) (ts : TrackStatus) (ha : p.audible v = some true) :
    Heard p (p.setTrackStatus v ts) :=
  Heard.of_track (TrackFrame.setTrackStatus_track v p ts) ha ⟨[], by simp [Player.setTrackStatus], by simp⟩

/-- The notes that `playNote` queues are annotated with its track. -/
theorem playNote_queue {k : Int} {note vol w : Nat} {postpone : Bool} {p q : Player}
    (h : playNote k note vol w postpone p = some q) :
    (p.audible w = some true ∨ q = p) ∧
      ∃ ns, q.postponedNotes = p.postponedNotes ++ ns ∧ ∀ n ∈ ns, n.track = w := by
  unfold playNote at h
  obtain ⟨a, ha, h1⟩ := Option.bind_eq_some.mp h
  cases a with
  | false =>
    rw [if_neg Bool.false_ne_true] at h1
    cases h1
    exact ⟨Or.inr rfl, [], by simp, by simp⟩
  | true =>
    refine ⟨Or.inl ha, ?_⟩
    rw [if_pos rfl] at h1
    obtain ⟨ts, _, h2⟩ := Option.bind_eq_some.mp h1
    dsimp only at h2
    have f1 : (if ts.note ≠ -1 then
        p.emit (some w) ts.midiInterface (MidiMsg.noteOff ts.midiChannel ts.note 127)
      else p).postponedNotes = p.postponedNotes := by
      split <;> rfl
    generalize (if ts.note ≠ -1 then
        p.emit (some w) ts.midiInterface (MidiMsg.noteOff ts.midiChannel ts.note 127)
      else p) = p1 at h2 f1
    generalize (if ts.note ≠ -1 then { ts with note := -1 } else ts : TrackStatus) = tsa at h2
    split at h2
    · cases h2
      exact ⟨[], by rw [← f1]; simp [Player.setTrackStatus], by simp⟩
    · obtain ⟨t, _, h3⟩ := Option.bind_eq_some.mp h2
      split at h3
      · split at h3
        · cases h3
          refine ⟨[_], by rw [← f1], ?_⟩
          intro n hn
          rw [List.mem_singleton] at hn
          rw [hn]
        · cases h3
          exact ⟨[], by rw [← f1]; simp [Player.setTrackStatus, Player.emit], by simp⟩
      · cases h3
        exact ⟨[], by rw [← f1]; simp [Player.setTrackStatus], by simp⟩

theorem playNote_heard {k : Int} {note vol w : Nat} {postpone : Bool} {p q : Player}
    (h : playNote k note vol w postpone p = some q) : Heard p q := by
  obtain ⟨ha, hq⟩ := playNote_queue h
  rcases ha with ha | ha
  · exact Heard.of_track (playNote_frame h) ha hq
  · rw [ha]
    exact Heard.refl_heard p

theorem rememberBase_heard {track : Nat} {cell : Cell} {p q : Player}
    (ha : p.audible track = some true) (h : rememberBase track cell p = some q) :
    Heard p q := by
  unfold rememberBase at h
  split at h
  · obtain ⟨ts, _, he⟩ := Option.map_eq_some'.mp h
    subst he
    exact Heard.status_heard p _ ha
  · cases h
    exact Heard.refl_heard p

theorem extendHold_heard {track note instrument : Nat} {p q : Player}
    (ha : p.audible track = some true) (h : extendHold track note instrument p = some q) :
    Heard p q := by
  unfold extendHold at h
  obtain ⟨ts, _, h1⟩ := Option.bind_eq_some.mp h
  split at h1
  · obtain ⟨x, _, h2⟩ := Option.map_eq_some'.mp h1
    split at h2
    · subst h2
      exact Heard.status_heard p _ ha
    · subst h2
      exact Heard.refl_heard p
  · cases h1
    exact Heard.refl_heard p

theorem fireNote_heard {track : Nat} {cell : Cell} {hadVolume : Bool} {loc : Locals}
    {p : Player} {r : Nat × Nat × Player} (ha : p.audible track = some true)
    (h : fireNote track cell hadVolume loc p = some r) : Heard p r.2.2 := by
  unfold fireNote at h
  split at h
  · obtain ⟨ts, _, h1⟩ := Option.bind_eq_some.mp h
    dsimp only at h1
    generalize (if cell.instrument = 0 then ((ts.instrument + 1) % 256).toNat
      else cell.instrument) = k at h1
    by_cases hk : k ≠ 0
    · rw [if_pos hk] at h1
      obtain ⟨p1, hp1, h2⟩ := Option.bind_eq_some.mp h1
      have f1 := playNote_heard hp1
      have ha1 : p1.audible track = some true := by rw [f1.audible]; exact ha
      split at h2
      · split at h2
        · cases h2
          exact f1
        · obtain ⟨ts1, _, he⟩ := Option.map_eq_some'.mp h2
          subst he
          exact f1.trans_heard (Heard.status_heard p1 _ ha1)
      · cases h2
        exact f1
    · rw [if_neg hk] at h1
      cases h1
      exact Heard.refl_heard p
  · cases h
    exact Heard.refl_heard p

/-- A loop of command interpretations for an audible track. -/
theorem commandLoop_heard {track : Nat} (body : Nat → Locals × Player → Option (Locals × Player))
    (hbody : ∀ i s t, body i s = some t → CommandFrame track s.2 t.2)
    {n i : Nat} {s t : Locals × Player} (ha : s.2.audible track = some true)
    (h : loopFrom body n i s = some t) : Heard s.2 t.2 :=
  Heard.of_command
    (loopFrom_rel (fun (a b : Locals × Player) => CommandFrame track a.2 b.2)
      (fun s => CommandFrame.refl track s.2) (fun _ _ _ x y => x.trans y) body hbody _ _ _ _ h) ha

/-- The processing of one track in the track loop makes calls and queues notes for audible
tracks only and leaves the status of every track that is not audible. -/
theorem runTrack_heard {block : Block} {track : Nat} {p q : Player}
    (h : runTrack block track p = some q) : Heard p q := by
  unfold runTrack at h
  obtain ⟨ts, _, h0⟩ := Option.bind_eq_some.mp h
  obtain ⟨a, ha, h1⟩ := Option.bind_eq_some.mp h0
  cases a with
  | false =>
    rw [if_neg Bool.false_ne_true] at h1
    cases h1
    exact Heard.refl_heard p
  | true =>
    rw [if_pos rfl] at h1
    obtain ⟨ct, _, h2⟩ := Option.bind_eq_some.mp h1
    dsimp only at h2
    have f0 : Heard p (p.setTrackStatus track ct.2) := Heard.status_heard p _ ha
    generalize p.setTrackStatus track ct.2 = p1 at h2 f0
    have a0 : p1.audible track = some true := by rw [f0.audible]; exact ha
    obtain ⟨s1, hs1, h3⟩ := Option.bind_eq_some.mp h2
    have f1 : Heard p1 s1.2 := by
      split at hs1
      · obtain ⟨sA, hsA, hg⟩ := Option.bind_eq_some.mp hs1
        obtain ⟨pG, hpG, he⟩ := Option.map_eq_some'.mp hg
        subst he
        have fA : Heard p1 sA.2 :=
          @commandLoop_heard track _ (fun _ _ _ hb => preScanPage_frame hb) _ _ (_, p1) _ a0 hsA
        exact fA.trans_heard (Heard.of_command (preGate_frame_any hpG)
          (by rw [fA.audible]; exact a0))
      · cases hs1
        exact Heard.refl_heard p1
    have a1 : s1.2.audible track = some true := by rw [f1.audible]; exact a0
    obtain ⟨s2, hs2, h4⟩ := Option.bind_eq_some.mp h3
    have f2 : Heard s1.2 s2.2 := by
      split at hs2
      · cases hs2
        exact Heard.refl_heard _
      · rename_i arpeggio _
        exact commandLoop_heard _
          (fun _ s t hb => by
            unfold arpeggioCommandPage at hb
            obtain ⟨tsx, _, hc⟩ := Option.bind_eq_some.mp hb
            exact @handleCommand_frame _ _ _ _ _ _ t.1 _ t.2 hc) a1 hs2
    have a2 : s2.2.audible track = some true := by rw [f2.audible]; exact a1
    obtain ⟨s3, hs3, h5⟩ := Option.bind_eq_some.mp h4
    have f3 : Heard s2.2 s3.2 :=
      commandLoop_heard _
        (fun _ s t hb => by
          unfold blockCommandPage at hb
          exact @handleCommand_frame _ _ _ _ _ _ t.1 _ t.2 hb) a2 hs3
    have a3 : s3.2.audible track = some true := by rw [f3.audible]; exact a2
    obtain ⟨p4, hp4, h6⟩ := Option.bind_eq_some.mp h5
    have f4 := rememberBase_heard a3 hp4
    have a4 : p4.audible track = some true := by rw [f4.audible]; exact a3
    obtain ⟨r, hr, h7⟩ := Option.bind_eq_some.mp h6
    have f5 := fireNote_heard a4 hr
    have a5 : r.2.2.audible track = some true := by rw [f5.audible]; exact a4
    exact ((((f0.trans_heard f1).trans_heard f2).trans_heard f3).trans_heard f4).trans_heard
      (f5.trans_heard (extendHold_heard a5 h7))

theorem callsOf_append (track : Nat) (a b : List Event) :
    callsOf track (a ++ b) = callsOf track a ++ callsOf track b := by
  unfold callsOf
  exact List.filter_append a b

theorem callsOf_nil_of {track : Nat} {evs : List Event}
    (h : ∀ e ∈ evs, e.track ≠ some track) : callsOf track evs = [] := by
  unfold callsOf
  rw [List.filter_eq_nil_iff]
  intro e he
  simp [h e he]

theorem callsOf_noteOffs {track : Nat} {evs : List Event}
    (h : ∀ e ∈ evs, e.msg.isNoteOff = true) : callsOf track evs = noteOffsOf track evs := by
  unfold callsOf noteOffsOf
  apply List.filter_congr
  intro e he
  rw [h e he, Bool.and_true]

/-- The hold loop makes note-offs only. -/
theorem holdLoop_offs {n i : Nat} {p q : Player} (h : loopFrom holdTrack n i p = some q) :
    ∃ evs, q.midiOut = p.midiOut ++ evs ∧ ∀ e ∈ evs, e.msg.isNoteOff = true := by
  refine loopFrom_rel
    (fun (a b : Player) => ∃ evs, b.midiOut = a.midiOut ++ evs ∧ ∀ e ∈ evs, e.msg.isNoteOff = true)
    (fun s => ⟨[], by simp, by simp⟩) ?_ holdTrack ?_ _ _ _ _ h
  · rintro a b c ⟨e1, a1, b1⟩ ⟨e2, a2, b2⟩
    refine ⟨e1 ++ e2, by rw [a2, a1, List.append_assoc], ?_⟩
    intro e he
    rcases List.mem_append.mp he with hh | hh
    · exact b1 e hh
    · exact b2 e hh
  · intro j s t hb
    unfold holdTrack at hb
    obtain ⟨ts, _, he⟩ := Option.map_eq_some'.mp hb
    subst he
    split
    · dsimp only
      split
      · refine ⟨[_], rfl, ?_⟩
        intro e he
        rw [List.mem_singleton] at he
        rw [he]
        rfl
      · exact ⟨[], by simp [Player.setTrackStatus], by simp⟩
    · exact ⟨[], by simp, by simp⟩

/-- The track loop makes calls and queues notes for audible tracks only. -/
theorem trackLoop_heard {block : Block} {n i : Nat} {p q : Player}
    (h : loopFrom (runTrack block) n i p = some q) : Heard p q :=
  loopFrom_rel Heard Heard.refl_heard (fun _ _ _ x y => x.trans_heard y) (runTrack block)
    (fun _ _ _ hb => runTrack_heard hb) _ _ _ _ h

/-- A track that is muted, or that is not solo while the solo summary is set, is not
audible. -/
theorem inaudible_of_flags {p : Player} {u : Nat} {t : Track}
    (hsolo : p.solo = p.song.tracks.any (fun x => x.solo))
    (htrack : p.song.track u = some t)
    (hmute : t.muted = true ∨ (p.song.tracks.any (fun x => x.solo) = true ∧ t.solo = false)) :
    p.audible u = some false := by
  unfold Player.audible
  rw [htrack, Option.map_some']
  rcases hmute with hm | ⟨hs, ht⟩
  · rw [hm]
    rfl
  · rw [hsolo, hs, ht]
    simp

/-- C22 (amended): in a tick step that starts with the solo summary equal to "some track
has solo = true" and with no postponed note left, for a track `u` that is muted, or that is
not solo while some track is solo, with status `ts` when the step starts: the only call that
the step makes for the track is the hold-expiry note-off of the note that sounds on it
(hold time 0 and note not -1 in `ts`), which the hold loop makes for every track; when no
hold time runs out on the track (as after `stopMuted`) the step makes no call for the track,
so no note-on and no note-off. -/
theorem muted_track_calls (p q : Player) (u : Nat) (t : Track) (ts : TrackStatus)
    (hsolo : p.solo = p.song.tracks.any (fun x => x.solo))
    (hpost : p.postponedNotes = [])
    (htrack : p.song.track u = some t)
    (hmute : t.muted = true ∨ (p.song.tracks.any (fun x => x.solo) = true ∧ t.solo = false))
    (hts : p.trackStatuses[u]? = some ts)
    (h : handleTick p = some q) :
    ∃ evs, q.midiOut = p.midiOut ++ evs ∧
      callsOf u evs = (if ts.hold = 0 ∧ ts.note ≠ -1
        then [⟨some u, ts.midiInterface, MidiMsg.noteOff ts.midiChannel ts.note 127⟩] else []) := by
  have hin := inaudible_of_flags hsolo htrack hmute
  obtain ⟨block, p3, p4, _, _, _, hsong, hsol, hst, hpo, ⟨evs0, ho0, hn0⟩, hloop, hhold⟩ :=
    handleTick_split h
  have hH : Heard p3 p4 := trackLoop_heard hloop
  have ha3 : ∀ v, p3.audible v = p.audible v := audible_of_eq hsong hsol
  have hin3 : p3.audible u ≠ some true := by
    rw [ha3, hin]
    exact fun hc => by cases hc
  obtain ⟨evsT, hoT, hnT⟩ := hH.out
  obtain ⟨ns, hq, hnq⟩ := hH.postponed
  have hts4 : (flushPostponed p4).trackStatuses[u]? = some ts := by
    have : (flushPostponed p4).trackStatuses = p4.trackStatuses := rfl
    rw [this, hH.silent u hin3, hst, hts]
  have hlt : u < p4.song.maxTracks := by
    rw [hH.maxTracks, hsong]
    exact lt_length_of_getElem? htrack
  obtain ⟨⟨evsH, hoH, hnH⟩, _, _⟩ :=
    holdLoop_own p4.song.maxTracks hlt ⟨ts, hts4, rfl, rfl, rfl, rfl⟩ hhold
  obtain ⟨evsH1, hoH1, hall⟩ := holdLoop_offs hhold
  have heq : evsH1 = evsH := List.append_cancel_left (hoH1.symm.trans hoH)
  subst heq
  have hflush : (flushPostponed p4).midiOut = p4.midiOut ++ p4.postponedNotes.map NoteOn.event :=
    rfl
  refine ⟨evs0 ++ evsT ++ p4.postponedNotes.map NoteOn.event ++ evsH1, ?_, ?_⟩
  · rw [hoH, hflush, hoT, ho0]
    simp only [List.append_assoc]
  · rw [callsOf_append, callsOf_append, callsOf_append, callsOf_noteOffs hall, hnH]
    have z0 : callsOf u evs0 = [] :=
      callsOf_nil_of (fun e he => by rw [hn0 e he]; exact fun hc => by cases hc)
    have zT : callsOf u evsT = [] := by
      refine callsOf_nil_of (fun e he hc => ?_)
      obtain ⟨v, hv, hav⟩ := hnT e he
      rw [hv] at hc
      cases hc
      exact hin3 hav
    have zF : callsOf u (p4.postponedNotes.map NoteOn.event) = [] := by
      refine callsOf_nil_of (fun e he hc => ?_)
      obtain ⟨n, hn, hne⟩ := List.mem_map.mp he
      rw [hq, hpo, hpost, List.nil_append] at hn
      have hav := hnq n hn
      subst hne
      have : n.track = u := Option.some.inj hc
      rw [this] at hav
      exact hin3 hav
    rw [z0, zT, zF]
    rfl

/-- C22, instance: the track of scenario S1 muted before the first tick (fresh status): the
tick completes and makes no call for the track. -/
theorem muted_track_calls_witness :
    ∃ evs, ((handleTick (playerS1.setMuted 0 true)).getD playerS1).midiOut
        = (playerS1.setMuted 0 true).midiOut ++ evs ∧ callsOf 0 evs = [] :=
  muted_track_calls (playerS1.setMuted 0 true)
    ((handleTick (playerS1.setMuted 0 true)).getD playerS1) 0 ⟨true, false, 127⟩ freshStatus
    (by decide!) (by decide!) (by decide!) (Or.inl rfl) (by decide!)
    (getD_of_isSome _ (by decide!))

/-- C22, counterexample: scenario S1 after its first tick, with the track then muted: the
solo summary is false as no track is solo, the track is muted, and the second tick makes
the note-off of the track's note when the hold time runs out. -/
theorem muted_track_note_off :
    (playerS1Muted.solo, playerS1Muted.song.tracks.any (fun x => x.solo),
        playerS1Muted.song.tracks.map (fun x => x.muted), playerS1Muted.postponedNotes)
        = (false, false, [true], []) ∧
      (handleTick playerS1Muted).map (fun s => s.midiOut.drop playerS1Muted.midiOut.length)
        = some [⟨none, 0, MidiMsg.setTick 1⟩, ⟨some 0, 0, MidiMsg.noteOff 0 48 127⟩] := by
  refine ⟨by decide!, by decide!⟩

/-! ## The order of the calls of a tick -/

theorem within_sync {p q : Player} (h : Within p q) :
    q.syncMode = p.syncMode ∧ q.externalSyncTicks = p.externalSyncTicks := by
  induction h with
  | same p => exact ⟨rfl, rfl⟩
  | chain _ _ ih1 ih2 => exact ⟨ih2.1.trans ih1.1, ih2.2.trans ih1.2⟩
  | out p evs => exact ⟨rfl, rfl⟩
  | cache hc =>
    unfold Player.cacheSet at hc
    split at hc
    · cases hc
    · split at hc
      · cases hc
      · split at hc
        · cases hc
          exact ⟨rfl, rfl⟩
        · cases hc
  | latch p c v => exact ⟨rfl, rfl⟩
  | ticksPerLine p v h1 h2 => exact ⟨rfl, rfl⟩
  | tempo p v => exact ⟨rfl, rfl⟩
  | trackVolume p n v => exact ⟨rfl, rfl⟩
  | defaultVelocity p n v => exact ⟨rfl, rfl⟩
  | status p track ts => exact ⟨rfl, rfl⟩
  | postponed p ns => exact ⟨rfl, rfl⟩

theorem updateLocation_sync {p q : Player} (h : p.updateLocation = some q) :
    q.syncMode = p.syncMode ∧ q.externalSyncTicks = p.externalSyncTicks ∧ q.mode_ = p.mode_ := by
  unfold Player.updateLocation at h
  dsimp only at h
  obtain ⟨s0, h0, h1⟩ := Option.bind_eq_some.mp h
  obtain ⟨ps, h2, h3⟩ := Option.bind_eq_some.mp h1
  obtain ⟨b0, h4, h5⟩ := Option.bind_eq_some.mp h3
  cases h5
  exact ⟨rfl, rfl, rfl⟩

theorem nextPosition_sync {p : Player} {r : Player × Bool} (h : p.nextPosition = some r) :
    r.1.syncMode = p.syncMode ∧ r.1.externalSyncTicks = p.externalSyncTicks ∧
      r.1.mode_ = p.mode_ := by
  unfold Player.nextPosition at h
  dsimp only at h
  obtain ⟨ps, _, he⟩ := Option.map_eq_some'.mp h
  subst he
  split
  · exact ⟨rfl, rfl, rfl⟩
  · exact ⟨rfl, rfl, rfl⟩

theorem postCommands_sync {a : Player} {r : Player × Bool} (h : postCommands a = some r) :
    r.1.syncMode = a.syncMode ∧ r.1.externalSyncTicks = a.externalSyncTicks ∧
      r.1.mode_ = a.mode_ := by
  unfold postCommands at h
  obtain ⟨x, hx, h1⟩ := Option.bind_eq_some.mp h
  have hx1 : x.1.syncMode = a.syncMode ∧ x.1.externalSyncTicks = a.externalSyncTicks ∧
      x.1.mode_ = a.mode_ := by
    split at hx
    · split at hx
      · obtain ⟨y, hy, he⟩ := Option.map_eq_some'.mp hx
        subst he
        have hh := nextPosition_sync hy
        exact hh
      · cases hx
        exact ⟨rfl, rfl, rfl⟩
    · split at hx
      · obtain ⟨ps, _, he⟩ := Option.map_eq_some'.mp hx
        subst he
        split
        · exact ⟨rfl, rfl, rfl⟩
        · exact ⟨rfl, rfl, rfl⟩
      · split at hx
        · cases hx
          exact ⟨rfl, rfl, rfl⟩
        · obtain ⟨b, _, h2⟩ := Option.bind_eq_some.mp hx
          split at h2
          · split at h2
            · obtain ⟨y, hy, he⟩ := Option.map_eq_some'.mp h2
              subst he
              have hh := nextPosition_sync hy
              exact hh
            · cases h2
              exact ⟨rfl, rfl, rfl⟩
          · cases h2
            exact ⟨rfl, rfl, rfl⟩
  obtain ⟨x1, x2, x3⟩ := hx1
  dsimp only at h1
  split at h1
  · obtain ⟨y, hy, he⟩ := Option.map_eq_some'.mp h1
    subst he
    obtain ⟨u1, u2, u3⟩ := updateLocation_sync hy
    exact ⟨u1.trans x1, u2.trans x2, u3.trans x3⟩
  · cases h1
    exact ⟨x1, x2, x3⟩

theorem advance_sync {q : Player} {r : Player × Bool} (h : advance q = some r) :
    r.1.syncMode = q.syncMode ∧ r.1.externalSyncTicks = q.externalSyncTicks ∧
      r.1.mode_ = q.mode_ := by
  unfold advance at h
  split at h
  · cases h
  · dsimp only at h
    split at h
    · obtain ⟨a, ha, h1⟩ := Option.bind_eq_some.mp h
      have ea := advanceArpeggio_loop ha
      obtain ⟨c1, c2, c3⟩ := postCommands_sync h1
      refine ⟨?_, ?_, ?_⟩
      · rw [c1, ea]
      · rw [c2, ea]
      · rw [c3, ea]
    · cases h
      exact ⟨rfl, rfl, rfl⟩

/-- A tick step leaves the sync mode, the credits and the mode. -/
theorem tickStep_sync {p : Player} {r : Player × Bool} (h : tickStep p = some r) :
    r.1.syncMode = p.syncMode ∧ r.1.externalSyncTicks = p.externalSyncTicks ∧
      r.1.mode_ = p.mode_ := by
  unfold tickStep at h
  obtain ⟨q, hq, hadv⟩ := Option.bind_eq_some.mp h
  obtain ⟨block, _, _, hw⟩ := handleTick_within hq
  obtain ⟨w1, w2⟩ := within_sync hw
  have w3 := (within_steady hw).mode_
  obtain ⟨a1, a2, a3⟩ := advance_sync hadv
  exact ⟨a1.trans w1, a2.trans w2, a3.trans w3⟩

/-- One credit granted in a playing mode and consumed leaves the state as it was. -/
theorem credit_roundtrip (p : Player) (hzero : p.externalSyncTicks = 0)
    (hmode : p.mode_ ≠ Mode.ModeIdle) :
    (if (p.externalSync 1).externalSyncTicks > 0 then
        { p.externalSync 1 with externalSyncTicks := (p.externalSync 1).externalSyncTicks - 1 }
      else p.externalSync 1) = p := by
  unfold Player.externalSync
  rw [if_pos hmode]
  cases p
  simp only at hzero
  subst hzero
  rfl

/-- A call without credit leaves the state as it was, and so does a call in Idle mode. -/
theorem no_credit (p : Player) (n : Nat) (hzero : p.externalSyncTicks = 0)
    (hn : n = 0 ∨ p.mode_ = Mode.ModeIdle) :
    (if (p.externalSync n).externalSyncTicks > 0 then
        { p.externalSync n with externalSyncTicks := (p.externalSync n).externalSyncTicks - 1 }
      else p.externalSync n) = p := by
  unfold Player.externalSync
  rcases hn with hn | hn
  · subst hn
    cases p
    simp only at hzero
    subst hzero
    split <;> rfl
  · have hm : ¬ (p.mode_ ≠ Mode.ModeIdle) := fun h => h hn
    rw [if_neg hm, if_neg (by omega)]

/-- The engine thread woken in state `p` (after the credit was granted and consumed, or
without credit): the tick is handled, and the thread waits again when the loop is not
left. -/
theorem woken_run (a p : Player) (n : Nat) (r : Player × Bool)
    (ha : (if a.externalSyncTicks > 0 then { a with externalSyncTicks := a.externalSyncTicks - 1 }
      else a) = p)
    (hsync : p.syncMode ≠ 0) (hzero : p.externalSyncTicks = 0) (hr : tickStep p = some r) :
    engineRun 2 ⟨a, SyncPoint.woken, n⟩
      = some ⟨r.1, if r.1.killThread ∨ (r.1.killWhenLooped ∧ r.2) then SyncPoint.left
          else SyncPoint.waiting, n + 1⟩ := by
  obtain ⟨k1, k2, _⟩ := tickStep_sync hr
  have hs : syncTick ⟨a, SyncPoint.woken, n⟩ = some (afterTick n r) := by
    unfold syncTick
    dsimp only
    rw [ha, hr]
    rfl
  have e1 : engineRun 2 ⟨a, SyncPoint.woken, n⟩ = engineRun 1 (afterTick n r) := by
    show (if SyncPoint.woken = SyncPoint.waiting ∨ SyncPoint.woken = SyncPoint.left then _
      else (engineStep ⟨a, SyncPoint.woken, n⟩).bind (engineRun 1)) = _
    rw [if_neg (by decide)]
    show (syncTick ⟨a, SyncPoint.woken, n⟩).bind (engineRun 1) = _
    rw [hs]
    rfl
  rw [e1]
  unfold afterTick
  by_cases hk : r.1.killThread ∨ (r.1.killWhenLooped ∧ r.2)
  · rw [if_pos hk, if_pos hk]
    show (if SyncPoint.left = SyncPoint.waiting ∨ SyncPoint.left = SyncPoint.left then _
      else _) = _
    rw [if_pos (Or.inr rfl)]
  · rw [if_neg hk, if_neg hk]
    show (if SyncPoint.top = SyncPoint.waiting ∨ SyncPoint.top = SyncPoint.left then _
      else (engineStep ⟨r.1, SyncPoint.top, n + 1⟩).bind (engineRun 0)) = _
    rw [if_neg (by decide)]
    have e2 : engineStep ⟨r.1, SyncPoint.top, n + 1⟩ = some ⟨r.1, SyncPoint.waiting, n + 1⟩ := by
      show (if r.1.syncMode ≠ 0 then
        (if r.1.externalSyncTicks = 0 then some _ else _) else _) = _
      rw [if_pos (by rw [k1]; exact hsync), if_pos (by rw [k2]; exact hzero)]
    rw [e2]
    rfl

/-- The run of `k` calls `externalSync(1)`, each made while the engine thread waits. -/
theorem syncCalls_run :
    ∀ (k : Nat) (p s : Player) (n : Nat), p.syncMode ≠ 0 → p.mode_ ≠ Mode.ModeIdle →
      p.externalSyncTicks = 0 → stateAt k p = some s →
      syncCalls 2 k ⟨p, SyncPoint.waiting, n⟩ = some ⟨s, SyncPoint.waiting, n + k⟩ ∧
        s.externalSyncTicks = 0 := by
  intro k
  induction k with
  | zero =>
    intro p s n _ _ hz hs
    unfold stateAt at hs
    cases hs
    exact ⟨rfl, hz⟩
  | succ j ih =>
    intro p s n hsync hmode hzero hs
    simp only [stateAt] at hs
    obtain ⟨r, hr, h1⟩ := Option.bind_eq_some.mp hs
    split at h1
    · exact absurd h1 (by simp)
    · rename_i hk
      obtain ⟨k1, k2, k3⟩ := tickStep_sync hr
      have hcall : syncCall 2 1 ⟨p, SyncPoint.waiting, n⟩ = some ⟨r.1, SyncPoint.waiting, n + 1⟩ := by
        unfold syncCall
        dsimp only
        rw [if_pos rfl, woken_run _ p n r (credit_roundtrip p hzero hmode) hsync hzero hr,
          if_neg hk]
      obtain ⟨i1, i2⟩ := ih r.1 s (n + 1) (by rw [k1]; exact hsync) (by rw [k3]; exact hmode)
        (by rw [k2]; exact hzero) h1
      refine ⟨?_, i2⟩
      simp only [syncCalls]
      rw [hcall, Option.some_bind, i1]
      have e : n + 1 + j = n + (j + 1) := by omega
      rw [e]

/-- C26 (amended): with external sync on and the engine thread waiting with zero credits:
after `k` calls `externalSync(1)` in a playing mode (the `k` ticks completing without
leaving the loop) the engine has processed exactly `k` ticks, one for each credit, and waits
again with zero credits.  A wake-up that grants no credit (`externalSync(0)`, or any
`externalSync` call made in Idle mode, which leaves the credit count) makes the engine
process one tick without a credit: the wait is not repeated after the wake-up. -/
theorem sync_credits (p s : Player) (k : Nat)
    (hsync : p.syncMode ≠ 0) (hmode : p.mode_ ≠ Mode.ModeIdle)
    (hzero : p.externalSyncTicks = 0) (hrun : stateAt k p = some s) :
    (syncCalls 2 k ⟨p, SyncPoint.waiting, 0⟩ = some ⟨s, SyncPoint.waiting, k⟩ ∧
        s.externalSyncTicks = 0) ∧
      ∀ (a : Player) (n : Nat) (r : Player × Bool), a.syncMode ≠ 0 →
        a.externalSyncTicks = 0 → (n = 0 ∨ a.mode_ = Mode.ModeIdle) → tickStep a = some r →
        ∃ e, syncCall 2 n ⟨a, SyncPoint.waiting, 0⟩ = some e ∧ e.player = r.1 ∧
          e.processed = 1 ∧ e.player.externalSyncTicks = 0 := by
  constructor
  · have h := syncCalls_run k p s 0 hsync hmode hzero hrun
    rw [Nat.zero_add] at h
    exact h
  · intro a n r hs hz hn hr
    refine ⟨⟨r.1, if r.1.killThread ∨ (r.1.killWhenLooped ∧ r.2) then SyncPoint.left
      else SyncPoint.waiting, 0 + 1⟩, ?_, rfl, rfl, ?_⟩
    · unfold syncCall
      dsimp only
      rw [if_pos rfl, woken_run _ a 0 r (no_credit a n hz hn) hs hz hr]
    · rw [(tickStep_sync hr).2.1]
      exact hz

/-- C26, instance: scenario S1 with external sync on: three calls `externalSync(1)` make the
engine process three ticks. -/
theorem sync_credits_witness :
    (syncCalls 2 3 ⟨playerS1Sync, SyncPoint.waiting, 0⟩
        = some ⟨(stateAt 3 playerS1Sync).getD playerS1Sync, SyncPoint.waiting, 3⟩ ∧
      ((stateAt 3 playerS1Sync).getD playerS1Sync).externalSyncTicks = 0) ∧
      ((stateAt 3 playerS1Sync).getD playerS1Sync).ticksSoFar = 3 :=
  ⟨(sync_credits playerS1Sync ((stateAt 3 playerS1Sync).getD playerS1Sync) 3 (by decide!)
      (by decide!) (by decide!) (getD_of_isSome _ (by decide!))).1, by decide!⟩

/-- C26, counterexample: scenario S1 with external sync on, the engine waiting with zero
credits: a call `externalSync(0)` makes the engine handle a tick (the note-on of the cell
is made), and so does a call `externalSync(1)` made in Idle mode; the credit count is 0
before and after. -/
theorem wake_without_credit :
    (syncCall 2 0 ⟨playerS1Sync, SyncPoint.waiting, 0⟩).map
        (fun e => (e.processed, e.player.ticksSoFar, e.player.externalSyncTicks, e.point,
          e.player.midiOut))
        = some (1, 1, 0, SyncPoint.waiting,
          [⟨none, 0, MidiMsg.setTick 0⟩, ⟨some 0, 0, MidiMsg.noteOn 0 48 100⟩]) ∧
      (syncCall 2 1 ⟨{ playerS1Sync with mode_ := Mode.ModeIdle }, SyncPoint.waiting, 0⟩).map
        (fun e => (e.processed, e.player.ticksSoFar, e.player.externalSyncTicks, e.point))
        = some (1, 1, 0, SyncPoint.waiting) := by
  refine ⟨by decide!, by decide!⟩

/-! ## The export run of a song without commands -/

theorem Plain.refl_plain (p : Player) : Plain p p := rfl

theorem Plain.trans_plain {p q r : Player} (h1 : Plain p q) (h2 : Plain q r) : Plain p r := by
  unfold Plain at *
  rw [h2]
  rw [h1]

/-- What a plain step leaves. -/
theorem Plain.fields {p q : Player} (h : Plain p q) :
    q.song = p.song ∧ q.section_ = p.section_ ∧ q.playseq_ = p.playseq_ ∧
      q.position_ = p.position_ ∧ q.block_ = p.block_ ∧ q.line_ = p.line_ ∧ q.tick = p.tick ∧
      q.mode_ = p.mode_ ∧ q.ticksSoFar = p.ticksSoFar ∧ q.killThread = p.killThread ∧
      q.postCommand = p.postCommand ∧ q.killWhenLooped = p.killWhenLooped ∧ q.solo = p.solo ∧
      q.outputs = p.outputs := by
  unfold Plain at h
  refine ⟨?_, ?_, ?_, ?_, ?_, ?_, ?_, ?_, ?_, ?_, ?_, ?_, ?_, ?_⟩ <;> rw [h]

theorem Plain.status_plain (p : Player) (track : Nat) (ts : TrackStatus) :
    Plain p (p.setTrackStatus track ts) := rfl

theorem Plain.emit_plain (p : Player) (t : Option Nat) (o : Int) (m : MidiMsg) :
    Plain p (p.emit t o m) := rfl

theorem statuses_of_eq {p q : Player} (h1 : q.song = p.song)
    (h2 : q.trackStatuses = p.trackStatuses) (hs : Statuses p) : Statuses q := by
  unfold Statuses at *
  rw [h1, h2]
  exact hs

theorem statuses_set {p : Player} (track : Nat) {ts : TrackStatus} (hs : Statuses p)
    (hv : validStatus p.song ts) : Statuses (p.setTrackStatus track ts) := by
  unfold Statuses Player.setTrackStatus at *
  refine ⟨by rw [← hs.1]; exact List.length_set _ _ _, ?_⟩
  intro x hx
  rcases List.mem_or_eq_of_mem_set hx with h | h
  · exact hs.2 x h
  · rw [h]
    exact hv

theorem statuses_get {p : Player} (hs : Statuses p) {track : Nat}
    (ht : track < p.song.tracks.length) :
    ∃ ts, p.trackStatuses[track]? = some ts ∧ validStatus p.song ts := by
  obtain ⟨ts, h1, h2⟩ := @getElem?_of_lt _ p.trackStatuses track (by rw [hs.1]; exact ht)
  exact ⟨ts, h1, hs.2 ts h2⟩

theorem instrument_exists (s : Song) (k : Int) (h0 : 0 ≤ k) (h1 : k < s.instruments.length)
    (h2 : k < 2 ^ 32) : ∃ i, s.instrument k = some i ∧ i ∈ s.instruments ∧ toUInt k = k := by
  have e : toUInt k = k.toNat := by
    unfold toUInt
    congr 1
    exact Int.emod_eq_of_lt h0 h2
  have hlt : toUInt k < s.instruments.length := by
    rw [e]
    omega
  obtain ⟨i, hi, hm⟩ := getElem?_of_lt hlt
  refine ⟨i, hi, hm, ?_⟩
  rw [e]
  exact Int.toNat_of_nonneg h0

theorem readCell_total {block : Block} {track : Nat} {ts : TrackStatus} {p : Player}
    (hs : PlainSong p.song)
    (hb : ∀ line track, block.instrument line track % 256 ≤ p.song.instruments.length)
    (hts : validStatus p.song ts) :
    ∃ ct, readCell block track ts p = some ct ∧ validStatus p.song ct.2 ∧
      ct.1.instrument ≤ p.song.instruments.length ∧ ct.1.instrument < 256 ∧
      (∀ a, ct.1.arpeggio = some a → a.noCommands) := by
  have hlt : block.instrument p.line_ track % 256 < 256 := Nat.mod_lt _ (by decide)
  have hv1 : validStatus p.song
      (if block.note p.line_ track % 256 ≠ 0 ∧ p.tick = 0 then { ts with line := 0 } else ts) := by
    split
    · exact hts
    · exact hts
  unfold readCell
  dsimp only
  rw [restart_instrument]
  generalize (if block.note p.line_ track % 256 ≠ 0 ∧ p.tick = 0 then { ts with line := 0 }
    else ts : TrackStatus) = ts1 at hv1 ⊢
  have hk : 0 ≤ (if block.note p.line_ track % 256 ≠ 0 ∧
        block.instrument p.line_ track % 256 > 0
        then ((block.instrument p.line_ track % 256 : Nat) : Int) - 1 else ts.instrument) →
      ∃ i, p.song.instrument (if block.note p.line_ track % 256 ≠ 0 ∧
        block.instrument p.line_ track % 256 > 0
        then ((block.instrument p.line_ track % 256 : Nat) : Int) - 1 else ts.instrument) = some i
        ∧ i ∈ p.song.instruments := by
    intro h0
    have hh := hb p.line_ track
    obtain ⟨_, t2, t3⟩ := hts
    by_cases hi : block.note p.line_ track % 256 ≠ 0 ∧ block.instrument p.line_ track % 256 > 0
    · rw [if_pos hi]
      obtain ⟨i, a, b, _⟩ := instrument_exists p.song
        (((block.instrument p.line_ track % 256 : Nat) : Int) - 1) (by omega) (by omega) (by omega)
      exact ⟨i, a, b⟩
    · rw [if_neg hi] at h0 ⊢
      obtain ⟨i, a, b, _⟩ := instrument_exists p.song ts.instrument h0 t3 (by omega)
      exact ⟨i, a, b⟩
  generalize (if block.note p.line_ track % 256 ≠ 0 ∧
        block.instrument p.line_ track % 256 > 0
        then ((block.instrument p.line_ track % 256 : Nat) : Int) - 1 else ts.instrument) = k
    at hk ⊢
  by_cases hc : 0 ≤ k ∧ 0 ≤ ts1.line
  · rw [if_pos hc]
    obtain ⟨i, hi, hm⟩ := hk hc.1
    rw [hi, Option.map_some']
    cases ha : i.arpeggio with
    | none =>
      refine ⟨_, rfl, hv1, hb _ _, hlt, ?_⟩
      intro a h
      cases h
    | some arp =>
      refine ⟨_, rfl, hv1, hb _ _, hlt, ?_⟩
      intro a h
      cases h
      exact (hs.arpeggios i hm arp ha).2
  · rw [if_neg hc]
    refine ⟨_, rfl, hv1, hb _ _, hlt, ?_⟩
    intro a h
    cases h

theorem loopFrom_fixed {σ : Type} (body : Nat → σ → Option σ) (s : σ)
    (h : ∀ i, body i s = some s) : ∀ n i, loopFrom body n i s = some s := by
  intro n
  induction n with
  | zero => intro i; rfl
  | succ n ih =>
    intro i
    simp only [loopFrom]
    rw [h i]
    exact ih (i + 1)

theorem preScanPage_idle {block : Block} (hb : block.noCommands) (track page : Nat)
    (s : Locals × Player) : preScanPage block track page s = some s := by
  unfold preScanPage
  dsimp only
  rw [if_neg]
  intro h
  rcases h with h | h
  · exact h (hb _ _ _).1
  · exact h (hb _ _ _).2

theorem blockCommandPage_idle {block : Block} (hb : block.noCommands)
    (track note instrument page : Nat) (s : Locals × Player) :
    blockCommandPage block track note instrument page s = some s := by
  unfold blockCommandPage handleCommand
  rw [if_pos ⟨(hb _ _ _).1, (hb _ _ _).2⟩]

theorem arpeggioCommandPage_idle {arpeggio : Block} (hb : arpeggio.noCommands)
    (track note instrument page : Nat) (s : Locals × Player) {ts : TrackStatus}
    (hts : s.2.trackStatuses[track]? = some ts) :
    arpeggioCommandPage arpeggio track note instrument page s = some s := by
  unfold arpeggioCommandPage handleCommand
  rw [hts, Option.some_bind, if_pos ⟨(hb _ _ _).1, (hb _ _ _).2⟩]

theorem preGate_total {track : Nat} {loc : Locals} {p : Player} (hs : Statuses p)
    (ht : track < p.song.tracks.length) :
    ∃ q, preGate track loc p = some q ∧ Plain p q ∧ Statuses q := by
  obtain ⟨ts, hts, hv⟩ := statuses_get hs ht
  unfold preGate
  split
  · rw [hts, Option.map_some']
    split
    · exact ⟨_, rfl, rfl, statuses_set track (statuses_of_eq rfl rfl hs) hv⟩
    · exact ⟨_, rfl, rfl, hs⟩
  · exact ⟨_, rfl, rfl, hs⟩

theorem rememberBase_total {track : Nat} {cell : Cell} {p : Player} (hs : Statuses p)
    (ht : track < p.song.tracks.length) (hc : cell.instrument ≤ p.song.instruments.length)
    (hc2 : cell.instrument < 256) :
    ∃ q, rememberBase track cell p = some q ∧ Plain p q ∧ Statuses q := by
  obtain ⟨ts, hts, hv⟩ := statuses_get hs ht
  unfold rememberBase
  split
  · rw [hts, Option.map_some']
    refine ⟨_, rfl, rfl, statuses_set track hs ?_⟩
    obtain ⟨v1, v2, v3⟩ := hv
    unfold validStatus
    dsimp only
    split
    · omega
    · exact ⟨v1, v2, v3⟩
  · exact ⟨_, rfl, rfl, hs⟩

theorem toUInt_valid (s : Song) (k : Int) (hk0 : 0 ≤ k) (hk : k < 255) {i : Instrument}
    (hi : s.instrument k = some i) {ts : TrackStatus} (hts : ts.instrument = toUInt k) :
    validStatus s ts := by
  have e : toUInt k = k.toNat := by
    unfold toUInt
    congr 1
    exact Int.emod_eq_of_lt hk0 (by omega)
  have hlt : toUInt k < s.instruments.length := lt_length_of_getElem? hi
  unfold validStatus
  rw [hts, e]
  rw [e] at hlt
  omega

theorem playNote_total {k : Int} {note vol w : Nat} {p : Player} (hs : Statuses p)
    (hw : w < p.song.tracks.length) (hk0 : 0 ≤ k) (hk : k < 255) :
    ∃ q, playNote k note vol w true p = some q ∧ Plain p q ∧ Statuses q := by
  obtain ⟨ts, hts, hv⟩ := statuses_get hs hw
  obtain ⟨t, ht, _⟩ := @getElem?_of_lt _ p.song.tracks w hw
  have ha : p.audible w = some (!t.muted && (!p.solo || (p.solo && t.solo))) := by
    unfold Player.audible Song.track
    rw [ht]
    rfl
  unfold playNote
  rw [ha, Option.some_bind]
  split
  · rw [hts, Option.some_bind]
    dsimp only
    have f1 : Plain p (if ts.note ≠ -1 then
        p.emit (some w) ts.midiInterface (MidiMsg.noteOff ts.midiChannel ts.note 127)
      else p) ∧ Statuses (if ts.note ≠ -1 then
        p.emit (some w) ts.midiInterface (MidiMsg.noteOff ts.midiChannel ts.note 127)
      else p) := by
      split
      · exact ⟨rfl, statuses_of_eq rfl rfl hs⟩
      · exact ⟨rfl, hs⟩
    have f2 : validStatus p.song (if ts.note ≠ -1 then { ts with note := -1 } else ts) := by
      split
      · exact hv
      · exact hv
    generalize (if ts.note ≠ -1 then
        p.emit (some w) ts.midiInterface (MidiMsg.noteOff ts.midiChannel ts.note 127)
      else p) = p1 at f1 ⊢
    generalize (if ts.note ≠ -1 then { ts with note := -1 } else ts : TrackStatus) = tsa at f2 ⊢
    obtain ⟨g1, g2⟩ := f1
    have hsong : p1.song = p.song := g1.fields.1
    rw [← hsong] at f2
    cases hi : p1.song.instrument k with
    | none => exact ⟨_, rfl, g1.trans_plain rfl, statuses_set w g2 f2⟩
    | some instr =>
      have htr : p1.song.track w = some t := by
        rw [hsong]
        exact ht
      dsimp only
      rw [htr, Option.some_bind]
      have f3 : ∀ {x : TrackStatus}, x.instrument = toUInt k → validStatus p1.song x :=
        fun h => toUInt_valid p1.song k hk0 hk hi h
      split
      · rw [if_pos rfl]
        refine ⟨_, rfl, g1.trans_plain rfl, ?_⟩
        refine statuses_of_eq (p := p1.setTrackStatus w _) rfl rfl ?_
        apply statuses_set w g2
        exact f3 rfl
      · refine ⟨_, rfl, g1.trans_plain rfl, ?_⟩
        apply statuses_set w g2
        exact f3 rfl
  · exact ⟨_, rfl, rfl, hs⟩

theorem fireNote_total {track : Nat} {cell : Cell} {hadVolume : Bool} {loc : Locals}
    {p : Player} (hs : Statuses p) (ht : track < p.song.tracks.length)
    (hc : cell.instrument ≤ p.song.instruments.length) (hc2 : cell.instrument < 256) :
    ∃ r, fireNote track cell hadVolume loc p = some r ∧ Plain p r.2.2 ∧ Statuses r.2.2 ∧
      r.2.1 ≤ p.song.instruments.length ∧ r.2.1 < 256 := by
  obtain ⟨ts, hts, hv⟩ := statuses_get hs ht
  unfold fireNote
  split
  · rw [hts, Option.some_bind]
    dsimp only
    have hkk : (if cell.instrument = 0 then ((ts.instrument + 1) % 256).toNat
        else cell.instrument) ≤ p.song.instruments.length ∧
        (if cell.instrument = 0 then ((ts.instrument + 1) % 256).toNat
        else cell.instrument) < 256 := by
      obtain ⟨v1, v2, v3⟩ := hv
      split
      · omega
      · exact ⟨hc, hc2⟩
    generalize (if cell.instrument = 0 then ((ts.instrument + 1) % 256).toNat
      else cell.instrument) = k at hkk ⊢
    by_cases hk : k ≠ 0
    · rw [if_pos hk]
      obtain ⟨p1, hp1, g1, g2⟩ := @playNote_total ((k : Int) - 1) (cell.note - 1)
        (loc.volume % 256) (track % 256) p hs
        (lt_of_le_of_lt (Nat.mod_le _ _) ht) (by omega) (by omega)
      rw [hp1, Option.some_bind]
      have hsong : p1.song = p.song := g1.fields.1
      have ht1 : track < p1.song.tracks.length := by rw [hsong]; exact ht
      obtain ⟨ts1, hts1, hv1⟩ := statuses_get g2 ht1
      split
      · cases hi : p1.song.instrument ((k : Int) - 1) with
        | none => exact ⟨_, rfl, g1, g2, hkk.1, hkk.2⟩
        | some instr =>
          dsimp only
          rw [hts1, Option.map_some']
          refine ⟨_, rfl, g1.trans_plain rfl, statuses_set track g2 ?_, hkk.1, hkk.2⟩
          split
          · exact hv1
          · exact hv1
      · exact ⟨_, rfl, g1, g2, hkk.1, hkk.2⟩
    · rw [if_neg hk]
      exact ⟨_, rfl, rfl, hs, hkk.1, hkk.2⟩
  · exact ⟨_, rfl, rfl, hs, hc, hc2⟩

theorem extendHold_total {track note instrument : Nat} {p : Player} (hs : Statuses p)
    (ht : track < p.song.tracks.length) (hc : instrument ≤ p.song.instruments.length)
    (hc2 : instrument < 256) :
    ∃ q, extendHold track note instrument p = some q ∧ Plain p q ∧ Statuses q := by
  obtain ⟨ts, hts, hv⟩ := statuses_get hs ht
  unfold extendHold
  rw [hts, Option.some_bind]
  split
  · rename_i hcond
    obtain ⟨i, hi, _, _⟩ := instrument_exists p.song ((instrument : Int) - 1)
      (by omega) (by omega) (by omega)
    rw [hi, Option.map_some']
    split
    · exact ⟨_, rfl, rfl, statuses_set track hs hv⟩
    · exact ⟨_, rfl, rfl, hs⟩
  · exact ⟨_, rfl, rfl, hs⟩

/-- The processing of one track of a block without commands: it completes and changes the
track statuses, the output log and the postponed notes only. -/
theorem runTrack_total {block : Block} {track : Nat} {p : Player} (hsong : PlainSong p.song)
    (hb : block.noCommands)
    (hbi : ∀ line track, block.instrument line track % 256 ≤ p.song.instruments.length)
    (hs : Statuses p) (ht : track < p.song.tracks.length) :
    ∃ q, runTrack block track p = some q ∧ Plain p q ∧ Statuses q := by
  obtain ⟨ts, hts, hv⟩ := statuses_get hs ht
  obtain ⟨t, htr, _⟩ := @getElem?_of_lt _ p.song.tracks track ht
  have ha : p.audible track = some (!t.muted && (!p.solo || (p.solo && t.solo))) := by
    unfold Player.audible Song.track
    rw [htr]
    rfl
  obtain ⟨ct, hct, hv1, hci, hci2, harp⟩ := @readCell_total block track ts p hsong hbi hv
  obtain ⟨⟨bn, ins, nt, arp⟩, ts1⟩ := ct
  dsimp only at hv1 hci hci2 harp
  unfold runTrack
  rw [hts, Option.some_bind, ha, Option.some_bind]
  split
  · rw [hct, Option.some_bind]
    dsimp only
    have g0 : Statuses (p.setTrackStatus track ts1) := statuses_set track hs hv1
    have f0 : Plain p (p.setTrackStatus track ts1) := rfl
    generalize p.setTrackStatus track ts1 = p1 at g0 f0 ⊢
    have ht1 : track < p1.song.tracks.length := by rw [f0.fields.1]; exact ht
    -- the scan for Retrigger and Delay and the stop of the sounding note
    have h1 : ∃ p2, (if nt ≠ 0 then
          (loopFrom (preScanPage block track) block.commandPages 0
            (({ volume := 127, delay := 0, repeat_ := -1, hold := -1 } : Locals), p1)).bind fun s =>
            (preGate track s.1 s.2).map fun p2 => (s.1, p2)
        else some (({ volume := 127, delay := 0, repeat_ := -1, hold := -1 } : Locals), p1))
          = some (({ volume := 127, delay := 0, repeat_ := -1, hold := -1 } : Locals), p2) ∧
        Plain p1 p2 ∧ Statuses p2 := by
      split
      · rw [loopFrom_fixed _ _ (fun i => preScanPage_idle hb track i _), Option.some_bind]
        obtain ⟨p2, e, a, b⟩ := @preGate_total track
          ({ volume := 127, delay := 0, repeat_ := -1, hold := -1 } : Locals) p1 g0 ht1
        dsimp only
        rw [e]
        exact ⟨p2, rfl, a, b⟩
      · exact ⟨p1, rfl, rfl, g0⟩
    obtain ⟨p2, e1, f1, g1⟩ := h1
    rw [e1, Option.some_bind]
    have ht2 : track < p2.song.tracks.length := by rw [f1.fields.1]; exact ht1
    obtain ⟨ts2, hts2, _⟩ := statuses_get g1 ht2
    have hso2 : p2.song = p.song := f1.fields.1.trans f0.fields.1
    obtain ⟨p4, e4, f4, g4⟩ := @rememberBase_total track ⟨bn, ins, nt, arp⟩ p2 g1 ht2
      (by rw [hso2]; exact hci) hci2
    have hso4 : p4.song = p.song := f4.fields.1.trans hso2
    have ht4 : track < p4.song.tracks.length := by rw [hso4]; exact ht
    obtain ⟨r, e5, f5, g5, k5, k6⟩ := @fireNote_total track ⟨bn, ins, nt, arp⟩
      (decide (127 > 0)) ({ volume := 127, delay := 0, repeat_ := -1, hold := -1 } : Locals)
      p4 g4 ht4 (by rw [hso4]; exact hci) hci2
    have hso5 : r.2.2.song = p.song := f5.fields.1.trans hso4
    obtain ⟨q, e6, f6, g6⟩ := @extendHold_total track r.1 r.2.1 r.2.2 g5
      (by rw [hso5]; exact ht) (by rw [hso5, ← hso4]; exact k5) k6
    refine ⟨q, ?_, (((f0.trans_plain f1).trans_plain f4).trans_plain f5).trans_plain f6, g6⟩
    -- the commands of the arpeggio and of the block
    rcases arp with _ | a
    · dsimp only
      rw [Option.some_bind]
      dsimp only
      rw [loopFrom_fixed _ _ (fun i => blockCommandPage_idle hb track nt ins i _),
        Option.some_bind]
      dsimp only
      rw [e4, Option.some_bind, e5, Option.some_bind, e6]
    · dsimp only
      rw [loopFrom_fixed _ _
        (fun i => arpeggioCommandPage_idle (harp a rfl) track nt ins i _ hts2), Option.some_bind]
      dsimp only
      rw [loopFrom_fixed _ _ (fun i => blockCommandPage_idle hb track nt ins i _),
        Option.some_bind]
      dsimp only
      rw [e4, Option.some_bind, e5, Option.some_bind, e6]
  · exact ⟨p, rfl, rfl, hs⟩

theorem holdTrack_total {track : Nat} {p : Player} (hs : Statuses p)
    (ht : track < p.song.tracks.length) :
    ∃ q, holdTrack track p = some q ∧ Plain p q ∧ Statuses q := by
  obtain ⟨ts, hts, hv⟩ := statuses_get hs ht
  unfold holdTrack
  rw [hts, Option.map_some']
  split
  · dsimp only
    split
    · exact ⟨_, rfl, rfl, statuses_set track (statuses_of_eq rfl rfl hs) hv⟩
    · exact ⟨_, rfl, rfl, statuses_set track hs hv⟩
  · exact ⟨_, rfl, rfl, hs⟩

/-- A counted loop whose body completes on every state that satisfies an invariant. -/
theorem loopFrom_total {σ : Type} (I : σ → Prop) (R : σ → σ → Prop) (hrefl : ∀ s, R s s)
    (htrans : ∀ a b c, R a b → R b c → R a c) (body : Nat → σ → Option σ) :
    ∀ (n i : Nat) (s : σ),
      (∀ j a, i ≤ j → j < i + n → I a → ∃ b, body j a = some b ∧ R a b ∧ I b) → I s →
      ∃ t, loopFrom body n i s = some t ∧ R s t ∧ I t := by
  intro n
  induction n with
  | zero =>
    intro i s _ hI
    exact ⟨s, rfl, hrefl s, hI⟩
  | succ n ih =>
    intro i s hbody hI
    obtain ⟨m, hm, r1, i1⟩ := hbody i s (le_refl i) (by omega) hI
    obtain ⟨t, ht, r2, i2⟩ := ih (i + 1) m
      (fun j a h1 h2 hIa => hbody j a (by omega) (by omega) hIa) i1
    refine ⟨t, ?_, htrans _ _ _ r1 r2, i2⟩
    simp only [loopFrom]
    rw [hm]
    exact ht

/-- "Handle this tick" on a block without commands: it completes and changes the track
statuses, the output log and the postponed notes only. -/
theorem handleTick_total {p : Player} {block : Block} (hsong : PlainSong p.song)
    (hs : Statuses p) (hblock : p.song.block p.block_ = some block)
    (hline : p.line_ < block.length) :
    ∃ q, handleTick p = some q ∧ Plain p q ∧ Statuses q := by
  have hmem : block ∈ p.song.blocks := List.getElem?_mem hblock
  obtain ⟨_, _, b3, b4, b5⟩ := hsong.blocks block hmem
  unfold handleTick
  dsimp only
  rw [hblock, Option.some_bind]
  have hI : ∀ a : Player, Plain p a ∧ Statuses a →
      PlainSong a.song ∧ a.song.tracks.length = p.song.tracks.length ∧
        a.song.instruments.length = p.song.instruments.length := by
    intro a h
    rw [h.1.fields.1]
    exact ⟨hsong, rfl, rfl⟩
  have hloop : ∀ s : Player, Plain p s → Statuses s →
      ∃ q, ((loopFrom (runTrack block) block.tracks 0 s).bind fun p4 =>
          loopFrom holdTrack p4.song.maxTracks 0 (flushPostponed p4)) = some q ∧
        Plain p q ∧ Statuses q := by
    intro s f0 g0
    obtain ⟨p4, e4, f4, g4⟩ := loopFrom_total (fun a => Plain p a ∧ Statuses a) (fun _ _ => True)
      (fun _ => trivial) (fun _ _ _ _ _ => trivial) (runTrack block) block.tracks 0 s
      (fun j a _ hj hIa => by
        obtain ⟨k1, k2, k3⟩ := hI a hIa
        obtain ⟨b, hb1, hb2, hb3⟩ := @runTrack_total block j a k1 b4
          (by rw [k3]; exact b5) hIa.2 (by rw [k2]; omega)
        exact ⟨b, hb1, trivial, hIa.1.trans_plain hb2, hb3⟩) ⟨f0, g0⟩
    rw [e4, Option.some_bind]
    have f5 : Plain p (flushPostponed p4) := g4.1.trans_plain rfl
    have g5 : Statuses (flushPostponed p4) := statuses_of_eq rfl rfl g4.2
    obtain ⟨q, e6, _, g6⟩ := loopFrom_total (fun a => Plain p a ∧ Statuses a) (fun _ _ => True)
      (fun _ => trivial) (fun _ _ _ _ _ => trivial) holdTrack p4.song.maxTracks 0
      (flushPostponed p4)
      (fun j a _ hj hIa => by
        obtain ⟨k1, k2, k3⟩ := hI a hIa
        obtain ⟨b, hb1, hb2, hb3⟩ := @holdTrack_total j a hIa.2 (by
          rw [k2]
          have := (hI p4 g4).2.1
          unfold Song.maxTracks at hj
          omega)
        exact ⟨b, hb1, trivial, hIa.1.trans_plain hb2, hb3⟩) ⟨f5, g5⟩
    exact ⟨q, e6, g6.1, g6.2⟩
  rw [if_neg (by
    split
    · exact fun h => absurd hline (Nat.not_lt.mpr h)
    · exact fun h => absurd hline (Nat.not_lt.mpr h))]
  rw [Option.some_bind]
  split
  · exact hloop _ rfl (statuses_of_eq rfl rfl hs)
  · exact hloop _ rfl (statuses_of_eq rfl rfl hs)

theorem playseq_of_blocks {s : Song} {n pos b : Nat} (h : (s.playseqBlocks n)[pos]? = some b) :
    ∃ ps, s.playseq n = some ps ∧ ps.blocks = s.playseqBlocks n ∧ ps ∈ s.playseqs := by
  unfold Song.playseqBlocks at h ⊢
  unfold Song.playseq
  cases hp : s.playseqs[n]? with
  | none =>
    rw [hp] at h
    simp at h
  | some ps => exact ⟨ps, rfl, rfl, List.getElem?_mem hp⟩

theorem block_of_length {s : Song} {b line : Nat} (h : line < s.blockLength b) :
    ∃ block, s.block b = some block ∧ block.length = s.blockLength b ∧ block ∈ s.blocks := by
  unfold Song.blockLength at h ⊢
  unfold Song.block
  cases hb : s.blocks[b]? with
  | none =>
    rw [hb] at h
    simp at h
  | some block => exact ⟨block, rfl, rfl, List.getElem?_mem hb⟩

theorem blockLength_pos {s : Song} (hs : PlainSong s) {b : Nat} (hb : b < s.blocks.length) :
    1 ≤ s.blockLength b ∧ s.blockLength b < 2 ^ 32 := by
  obtain ⟨block, h1, h2⟩ := getElem?_of_lt hb
  obtain ⟨k1, k2, _⟩ := hs.blocks block h2
  unfold Song.blockLength
  rw [h1]
  exact ⟨k1, k2⟩

/-- `updateLocation` on cursors in range: the playing sequence of the section and the block
at the position. -/
theorem updateLocation_export {p : Player} {s0 b0 : Nat} (hsong : PlainSong p.song)
    (h1 : p.song.sections[p.section_]? = some s0)
    (h2 : (p.song.playseqBlocks s0)[p.position_]? = some b0) :
    p.updateLocation = some { p with playseq_ := s0, block_ := b0 } := by
  obtain ⟨ps, hps, hpb, hmem⟩ := playseq_of_blocks h2
  have l1 : p.section_ < p.song.sections.length := lt_length_of_getElem? h1
  have l2 : s0 < p.song.playseqs.length := hsong.sections.2.2 s0 (List.getElem?_mem h1)
  rw [← hpb] at h2
  have l3 : p.position_ < ps.blocks.length := lt_length_of_getElem? h2
  have l4 : b0 < p.song.blocks.length := (hsong.playseqs ps hmem).2.2 b0 (List.getElem?_mem h2)
  unfold Player.updateLocation
  dsimp only
  rw [if_neg (by omega)]
  unfold Song.section_
  rw [h1, Option.some_bind, if_neg (by omega), hps, Option.some_bind, if_neg (by omega), h2,
    Option.some_bind, if_neg (by omega)]

/-- The line wrap without post command inside the block. -/
theorem postCommands_stay {a : Player} {b : Block} (hpc : a.postCommand = 0)
    (hb : a.song.block a.block_ = some b) (hl : a.line_ < b.length) :
    postCommands a = some ({ a with postCommand := 0, postValue := 0 }, false) := by
  unfold postCommands
  rw [if_neg (by rw [hpc]; decide), if_neg (by rw [hpc]; decide),
    if_neg (by rw [hpc]; decide), hb, Option.some_bind, if_neg (by omega), Option.some_bind]
  dsimp only
  rw [if_neg (by decide)]

/-- The line wrap without post command at the end of the block, in PlaySong mode: the
cursor moves to the next position, or to the next section, or to the start of the song. -/
theorem postCommands_wrap {a : Player} {b : Block} {ps : Playseq} (pos sec : Nat) (lp : Bool)
    (hpc : a.postCommand = 0)
    (hmode : a.mode_ = Mode.ModePlaySong) (hb : a.song.block a.block_ = some b)
    (hl : a.line_ ≥ b.length) (hps : a.song.playseq a.playseq_ = some ps)
    (hpos : pos = if (a.position_ + 1) % 2 ^ 32 ≥ ps.blocks.length then 0
      else (a.position_ + 1) % 2 ^ 32)
    (hsec : sec = if (a.position_ + 1) % 2 ^ 32 ≥ ps.blocks.length then
        (if (a.section_ + 1) % 2 ^ 32 ≥ a.song.sections.length then 0
          else (a.section_ + 1) % 2 ^ 32)
      else a.section_)
    (hlp : lp = (decide ((a.position_ + 1) % 2 ^ 32 ≥ ps.blocks.length) &&
          decide ((a.section_ + 1) % 2 ^ 32 ≥ a.song.sections.length))) :
    postCommands a =
      (Player.updateLocation
        { a with line_ := 0, postCommand := 0, postValue := 0, position_ := pos,
                 section_ := sec }).map (fun p2 => (p2, lp)) := by
  subst hpos hsec hlp
  unfold postCommands
  rw [if_neg (by rw [hpc]; decide), if_neg (by rw [hpc]; decide),
    if_neg (by rw [hpc]; decide), hb, Option.some_bind, if_pos hl, if_pos hmode]
  unfold Player.nextPosition
  dsimp only
  rw [hps, Option.map_some', Option.map_some', Option.some_bind]
  by_cases hw : (a.position_ + 1) % 2 ^ 32 ≥ ps.blocks.length
  · simp only [hw, decide_True, if_true, Player.nextSection, Bool.true_and]
    by_cases hsn : (a.section_ + 1) % 2 ^ 32 ≥ a.song.sections.length
    · simp only [hsn, decide_True, if_true]
    · simp only [hsn, decide_False, if_false, if_true, Bool.false_eq_true]
  · simp only [hw, decide_False, if_false, if_true, Bool.false_eq_true, Bool.false_and]

theorem advanceArpeggio_total {track : Nat} {p : Player} (hsong : PlainSong p.song)
    (hs : Statuses p) (ht : track < p.song.tracks.length) :
    ∃ q, advanceArpeggio track p = some q ∧ Plain p q ∧ Statuses q := by
  obtain ⟨ts, hts, hv⟩ := statuses_get hs ht
  unfold advanceArpeggio
  rw [hts, Option.some_bind]
  split
  · rename_i hc
    obtain ⟨i, hi, hm, _⟩ := instrument_exists p.song ts.instrument hc.1 hv.2.2
      (by have := hv.2.1; omega)
    rw [hi, Option.some_bind]
    cases ha : i.arpeggio with
    | none => exact ⟨_, rfl, rfl, hs⟩
    | some arp =>
      dsimp only
      rw [if_neg (hsong.arpeggios i hm arp ha).1]
      exact ⟨_, rfl, rfl, statuses_set track hs hv⟩
  · exact ⟨_, rfl, rfl, hs⟩

theorem advanceLoop_total {p : Player} (hsong : PlainSong p.song) (hs : Statuses p) :
    ∃ q, loopFrom advanceArpeggio p.song.maxTracks 0 p = some q ∧ Plain p q ∧ Statuses q := by
  obtain ⟨q, e, _, f, g⟩ := loopFrom_total (fun a => Plain p a ∧ Statuses a) (fun _ _ => True)
    (fun _ => trivial) (fun _ _ _ _ _ => trivial) advanceArpeggio p.song.maxTracks 0 p
    (fun j a _ hj hIa => by
      have hso : a.song = p.song := hIa.1.fields.1
      obtain ⟨b, hb1, hb2, hb3⟩ := @advanceArpeggio_total j a (by rw [hso]; exact hsong) hIa.2
        (by rw [hso]; unfold Song.maxTracks at hj; omega)
      exact ⟨b, hb1, trivial, hIa.1.trans_plain hb2, hb3⟩) ⟨rfl, hs⟩
  exact ⟨q, e, f, g⟩

theorem stopNotes_total {p : Player} (hs : Statuses p) :
    ∃ q, stopNotes p = some q ∧ Plain p q ∧ Statuses q := by
  unfold stopNotes
  obtain ⟨q, e, _, f, g⟩ := loopFrom_total (fun a => Plain p a ∧ Statuses a) (fun _ _ => True)
    (fun _ => trivial) (fun _ _ _ _ _ => trivial) stopNotesTrack p.song.maxTracks 0 p
    (fun j a _ hj hIa => by
      have hso : a.song = p.song := hIa.1.fields.1
      obtain ⟨ts, hts, hv⟩ := @statuses_get a hIa.2 j
        (by rw [hso]; unfold Song.maxTracks at hj; omega)
      have hr : validStatus a.song ts.reset := by
        unfold validStatus TrackStatus.reset
        dsimp only
        have := hv.2.2
        omega
      unfold stopNotesTrack
      rw [hts, Option.map_some']
      dsimp only
      split
      · exact ⟨_, rfl, trivial, hIa.1.trans_plain rfl,
          statuses_set j (statuses_of_eq rfl rfl hIa.2) hr⟩
      · exact ⟨_, rfl, trivial, hIa.1.trans_plain rfl, statuses_set j hIa.2 hr⟩) ⟨rfl, hs⟩
  exact ⟨q, e, f, g⟩

theorem sum_drop {l : List Nat} {n x : Nat} (f : Nat → Nat) (h : l[n]? = some x) :
    ((l.drop n).map f).sum = f x + ((l.drop (n + 1)).map f).sum := by
  have hlt : n < l.length := lt_length_of_getElem? h
  have hx : l[n] = x := by
    rw [List.getElem?_eq_getElem hlt] at h
    exact Option.some.inj h
  rw [List.drop_eq_getElem_cons hlt, List.map_cons, List.sum_cons, hx]

theorem sum_drop_end {l : List Nat} {n : Nat} (f : Nat → Nat) (h : l.length ≤ n) :
    ((l.drop n).map f).sum = 0 := by
  rw [List.drop_eq_nil_of_le h]
  rfl

/-- The start of a section of a plain song: its playing sequence and its first block. -/
theorem section_start {s : Song} (hs : PlainSong s) {sec : Nat} (h : sec < s.sections.length) :
    ∃ s0 b0, s.sections[sec]? = some s0 ∧ (s.playseqBlocks s0)[0]? = some b0 ∧
      b0 < s.blocks.length := by
  obtain ⟨s0, h1, m1⟩ := getElem?_of_lt h
  have l2 := hs.sections.2.2 s0 m1
  obtain ⟨ps, h2, m2⟩ := getElem?_of_lt l2
  obtain ⟨k1, _, k3⟩ := hs.playseqs ps m2
  have l3 : 0 < ps.blocks.length := List.length_pos.mpr k1
  obtain ⟨b0, h3, m3⟩ := getElem?_of_lt l3
  refine ⟨s0, b0, h1, ?_, k3 b0 m3⟩
  unfold Song.playseqBlocks
  rw [h2]
  exact h3

theorem ExportState.of_plain {p q : Player} (hx : ExportState p) (h : Plain p q)
    (hs : Statuses q) : ExportState q := by
  obtain ⟨f1, f2, f3, f4, f5, f6, f7, f8, f9, f10, f11, f12, f13, f14⟩ := h.fields
  constructor
  · rw [f8]; exact hx.mode
  · rw [f12]; exact hx.killWhenLooped
  · rw [f10]; exact hx.killThread
  · rw [f11]; exact hx.postCommand
  · exact hs
  · rw [f1, f2, f3]; exact hx.section_
  · rw [f1, f3, f4, f5]; exact hx.position_
  · rw [f1, f5, f6]; exact hx.line_
  · rw [f1, f7]; exact hx.tick

theorem remainingTicks_plain {p q : Player} (h : Plain p q) :
    remainingTicks q = remainingTicks p := by
  obtain ⟨f1, f2, f3, f4, f5, f6, f7, _⟩ := h.fields
  unfold remainingTicks
  rw [f1, f2, f3, f4, f5, f6, f7]

/-- The cursor after a line wrap at the end of a block lands on section `sec` and position
`pos`: `updateLocation` completes, the state is a state of the export run, and the ticks
that remain are those of the block, of the rest of the playing sequence and of the rest of
the sections. -/
theorem landing {a : Player} (hsong : PlainSong a.song) (hmode : a.mode_ = Mode.ModePlaySong)
    (hkwl : a.killWhenLooped = true) (hkill : a.killThread = false) (hstat : Statuses a)
    (htick : a.tick = 0) (sec pos s0 b0 : Nat) (h1 : a.song.sections[sec]? = some s0)
    (h2 : (a.song.playseqBlocks s0)[pos]? = some b0) :
    ∃ r, Player.updateLocation
        { a with line_ := 0, postCommand := 0, postValue := 0, position_ := pos, section_ := sec }
          = some r ∧
      r.song = a.song ∧ r.ticksSoFar = a.ticksSoFar ∧ ExportState r ∧
      remainingTicks r = a.song.ticksPerLine * a.song.blockLength b0 +
        a.song.ticksPerLine *
          (((a.song.playseqBlocks s0).drop (pos + 1)).map a.song.blockLength).sum +
        a.song.ticksPerLine * ((a.song.sections.drop (sec + 1)).map a.song.playseqLines).sum := by
  obtain ⟨ps, hps, hpb, hmem⟩ := playseq_of_blocks h2
  have h2' := h2
  rw [← hpb] at h2'
  have l4 : b0 < a.song.blocks.length :=
    (hsong.playseqs ps hmem).2.2 b0 (List.getElem?_mem h2')
  obtain ⟨k1, k2⟩ := blockLength_pos hsong l4
  obtain ⟨t1, t2⟩ := hsong.ticks
  have e := @updateLocation_export
    { a with line_ := 0, postCommand := 0, postValue := 0, position_ := pos, section_ := sec }
    s0 b0 hsong h1 h2
  refine ⟨_, e, rfl, rfl, ⟨hmode, hkwl, hkill, rfl, statuses_of_eq rfl rfl hstat, h1, h2, k1,
    ?_⟩, ?_⟩
  · show a.tick < a.song.ticksPerLine
    omega
  · unfold remainingTicks
    dsimp only
    rw [htick]
    have e1 : a.song.blockLength b0 = (a.song.blockLength b0 - 0 - 1) + 1 := by omega
    generalize a.song.blockLength b0 - 0 - 1 = m at e1
    rw [e1, Nat.mul_succ]
    omega

/-- The advance after a tick of the export run: the tick counters move; at the end of a
line the cursor moves on; the song loops exactly when one tick remained. -/
theorem advance_export {q : Player} (hsong : PlainSong q.song) (hx : ExportState q) :
    ∃ r, advance q = some r ∧ r.1.song = q.song ∧
      r.1.ticksSoFar = (q.ticksSoFar + 1) % 2 ^ 32 ∧ r.1.killThread = false ∧
      r.1.killWhenLooped = true ∧ Statuses r.1 ∧
      ((remainingTicks q = 1 ∧ r.2 = true) ∨
        (r.2 = false ∧ ExportState r.1 ∧ remainingTicks r.1 + 1 = remainingTicks q)) := by
  obtain ⟨t1, t2⟩ := hsong.ticks
  have htk := hx.tick
  have hmod : (q.tick + 1) % 2 ^ 32 = q.tick + 1 := Nat.mod_eq_of_lt (by omega)
  unfold advance
  rw [if_neg (by omega)]
  dsimp only
  rw [hmod]
  by_cases hlast : q.tick + 1 = q.song.ticksPerLine
  · rw [hlast, Nat.mod_self, if_pos rfl]
    obtain ⟨a, e, f, g⟩ := @advanceLoop_total
      { q with ticksSoFar := (q.ticksSoFar + 1) % 2 ^ 32, tick := 0,
               line_ := (q.line_ + 1) % 2 ^ 32 } hsong (statuses_of_eq rfl rfl hx.statuses)
    dsimp only at e
    rw [e, Option.some_bind]
    obtain ⟨f1, f2, f3, f4, f5, f6, f7, f8, f9, f10, f11, f12, _, _⟩ := f.fields
    dsimp only at f1 f2 f3 f4 f5 f6 f7 f8 f9 f10 f11 f12
    have hsa : PlainSong a.song := by rw [f1]; exact hsong
    obtain ⟨block, hblk, hlen, hbm⟩ := block_of_length hx.line_
    have hbl : q.block_ < q.song.blocks.length := by
      unfold Song.block at hblk
      exact lt_length_of_getElem? hblk
    obtain ⟨_, k2⟩ := blockLength_pos hsong hbl
    have hline := hx.line_
    have hlm : (q.line_ + 1) % 2 ^ 32 = q.line_ + 1 := Nat.mod_eq_of_lt (by omega)
    rw [hlm] at f6
    have hba : a.song.block a.block_ = some block := by rw [f1, f5]; exact hblk
    have hpa : a.postCommand = 0 := by rw [f11]; exact hx.postCommand
    have hma : a.mode_ = Mode.ModePlaySong := by rw [f8]; exact hx.mode
    have hka : a.killThread = false := by rw [f10]; exact hx.killThread
    have hwa : a.killWhenLooped = true := by rw [f12]; exact hx.killWhenLooped
    by_cases hin : q.line_ + 1 < block.length
    · -- inside the block
      refine ⟨_, postCommands_stay hpa hba (by rw [f6]; exact hin), f1, f9, hka, hwa,
        statuses_of_eq rfl rfl g, Or.inr ⟨rfl, ?_, ?_⟩⟩
      · refine ⟨hma, hwa, hka, rfl, statuses_of_eq rfl rfl g, ?_, ?_, ?_, ?_⟩
        · show a.song.sections[a.section_]? = some a.playseq_
          rw [f1, f2, f3]
          exact hx.section_
        · show (a.song.playseqBlocks a.playseq_)[a.position_]? = some a.block_
          rw [f1, f3, f4, f5]
          exact hx.position_
        · show a.line_ < a.song.blockLength a.block_
          rw [f1, f5, f6, ← hlen]
          exact hin
        · show a.tick < a.song.ticksPerLine
          rw [f1, f7]
          omega
      · unfold remainingTicks
        dsimp only
        rw [f1, f2, f3, f4, f5, f6, f7, ← hlen]
        have e1 : block.length - q.line_ - 1 = (block.length - (q.line_ + 1) - 1) + 1 := by
          omega
        rw [e1, Nat.mul_succ]
        omega
    · -- the end of the block
      have hend : block.length = q.line_ + 1 := by omega
      obtain ⟨ps, hps, hpb, hpm⟩ := playseq_of_blocks hx.position_
      have hpos := hx.position_
      rw [← hpb] at hpos
      have lpos : q.position_ < ps.blocks.length := lt_length_of_getElem? hpos
      have lps : ps.blocks.length < 2 ^ 32 := (hsong.playseqs ps hpm).2.1
      have hpm1 : (a.position_ + 1) % 2 ^ 32 = q.position_ + 1 := by
        rw [f4]
        exact Nat.mod_eq_of_lt (by omega)
      have hsec := hx.section_
      have lsec : q.section_ < q.song.sections.length := lt_length_of_getElem? hsec
      have lss : q.song.sections.length < 2 ^ 32 := hsong.sections.2.1
      have hsm1 : (a.section_ + 1) % 2 ^ 32 = q.section_ + 1 := by
        rw [f2]
        exact Nat.mod_eq_of_lt (by omega)
      have hpsa : a.song.playseq a.playseq_ = some ps := by rw [f1, f3]; exact hps
      have hrq : remainingTicks q = 1 +
          q.song.ticksPerLine *
            (((q.song.playseqBlocks q.playseq_).drop (q.position_ + 1)).map
              q.song.blockLength).sum +
          q.song.ticksPerLine *
            ((q.song.sections.drop (q.section_ + 1)).map q.song.playseqLines).sum := by
        unfold remainingTicks
        rw [← hlen, hend]
        have z : q.line_ + 1 - q.line_ - 1 = 0 := by omega
        rw [z, Nat.mul_zero]
        omega
      by_cases hw : q.position_ + 1 < ps.blocks.length
      · -- the next position
        obtain ⟨b1, hb1, _⟩ := getElem?_of_lt hw
        rw [hpb] at hb1
        obtain ⟨r, er, r1, r2, r3, r4⟩ := landing hsa hma hwa hka g f7 q.section_
          (q.position_ + 1) q.playseq_ b1 (by rw [f1]; exact hsec) (by rw [f1]; exact hb1)
        have ew := postCommands_wrap (q.position_ + 1) q.section_ false hpa hma hba
          (by rw [f6]; omega) hpsa (by rw [hpm1, if_neg (by omega)])
          (by rw [hpm1, if_neg (by omega), f2])
          (by rw [hpm1]; simp only [decide_eq_false (show ¬ (q.position_ + 1 ≥ ps.blocks.length) by omega), Bool.false_and])
        rw [er, Option.map_some'] at ew
        refine ⟨_, ew, r1.trans f1, r2.trans f9, r3.killThread, r3.killWhenLooped, r3.statuses,
          Or.inr ⟨rfl, r3, ?_⟩⟩
        rw [r4, hrq, f1, sum_drop q.song.blockLength hb1]
        rw [Nat.mul_add]
        omega
      · by_cases hsn : q.section_ + 1 < q.song.sections.length
        · -- the next section
          obtain ⟨s1, b1, hs1, hb1, _⟩ := section_start hsong hsn
          obtain ⟨r, er, r1, r2, r3, r4⟩ := landing hsa hma hwa hka g f7 (q.section_ + 1)
            0 s1 b1 (by rw [f1]; exact hs1) (by rw [f1]; exact hb1)
          have ew := postCommands_wrap 0 (q.section_ + 1) false hpa hma hba
            (by rw [f6]; omega) hpsa (by rw [hpm1, if_pos (by omega)])
            (by rw [hpm1, if_pos (by omega), hsm1, f1, if_neg (by omega)])
            (by rw [hpm1, hsm1, f1]; simp only [decide_eq_false (show ¬ (q.section_ + 1 ≥ q.song.sections.length) by omega), Bool.and_false])
          rw [er, Option.map_some'] at ew
          refine ⟨_, ew, r1.trans f1, r2.trans f9, r3.killThread, r3.killWhenLooped,
            r3.statuses, Or.inr ⟨rfl, r3, ?_⟩⟩
          rw [r4, hrq, f1, sum_drop_end q.song.blockLength (show (q.song.playseqBlocks q.playseq_).length ≤ q.position_ + 1 by rw [← hpb]; omega),
            sum_drop q.song.playseqLines hs1]
          have e0 : q.song.playseqLines s1 = q.song.blockLength b1 +
              (((q.song.playseqBlocks s1).drop (0 + 1)).map q.song.blockLength).sum := by
            unfold Song.playseqLines
            rw [← sum_drop q.song.blockLength hb1]
            rfl
          rw [e0, Nat.mul_add, Nat.mul_add, Nat.mul_zero]
          omega
        · -- the end of the song
          have l0 : 0 < q.song.sections.length := by omega
          obtain ⟨s1, b1, hs1, hb1, _⟩ := section_start hsong l0
          obtain ⟨r, er, r1, r2, r3, r4⟩ := landing hsa hma hwa hka g f7 0
            0 s1 b1 (by rw [f1]; exact hs1) (by rw [f1]; exact hb1)
          have ew := postCommands_wrap 0 0 true hpa hma hba
            (by rw [f6]; omega) hpsa (by rw [hpm1, if_pos (by omega)])
            (by rw [hpm1, if_pos (by omega), hsm1, f1, if_pos (by omega)])
            (by rw [hpm1, hsm1, f1]; simp only [decide_eq_true (show q.position_ + 1 ≥ ps.blocks.length by omega), decide_eq_true (show q.section_ + 1 ≥ q.song.sections.length by omega), Bool.and_self])
          rw [er, Option.map_some'] at ew
          refine ⟨_, ew, r1.trans f1, r2.trans f9, r3.killThread, r3.killWhenLooped,
            r3.statuses, Or.inl ⟨?_, rfl⟩⟩
          rw [hrq, sum_drop_end q.song.blockLength (show (q.song.playseqBlocks q.playseq_).length ≤ q.position_ + 1 by rw [← hpb]; omega),
            sum_drop_end q.song.playseqLines (show q.song.sections.length ≤ q.section_ + 1 by omega)]
          omega
  · have hlt : (q.tick + 1) % q.song.ticksPerLine = q.tick + 1 := Nat.mod_eq_of_lt (by omega)
    rw [hlt, if_neg (by omega)]
    refine ⟨_, rfl, rfl, rfl, hx.killThread, hx.killWhenLooped,
      statuses_of_eq rfl rfl hx.statuses, Or.inr ⟨rfl, ?_, ?_⟩⟩
    · exact ⟨hx.mode, hx.killWhenLooped, hx.killThread, hx.postCommand,
        statuses_of_eq rfl rfl hx.statuses, hx.section_, hx.position_, hx.line_,
        by show q.tick + 1 < q.song.ticksPerLine; omega⟩
    · unfold remainingTicks
      dsimp only
      omega

/-- A tick step of the export run of a song without commands: it completes; the song
loops exactly when one tick remained, else one tick less remains. -/
theorem tickStep_export {p : Player} (hsong : PlainSong p.song) (hx : ExportState p) :
    ∃ r, tickStep p = some r ∧ r.1.song = p.song ∧
      r.1.ticksSoFar = (p.ticksSoFar + 1) % 2 ^ 32 ∧ r.1.killThread = false ∧
      r.1.killWhenLooped = true ∧ Statuses r.1 ∧
      ((remainingTicks p = 1 ∧ r.2 = true) ∨
        (r.2 = false ∧ ExportState r.1 ∧ remainingTicks r.1 + 1 = remainingTicks p)) := by
  obtain ⟨block, hblk, hlen, _⟩ := block_of_length hx.line_
  obtain ⟨q, e, f, g⟩ := handleTick_total hsong hx.statuses hblk (by rw [hlen]; exact hx.line_)
  have hxq : ExportState q := hx.of_plain f g
  have hso : q.song = p.song := f.fields.1
  obtain ⟨r, er, r1, r2, r3, r4, r5, r6⟩ := @advance_export q (by rw [hso]; exact hsong) hxq
  refine ⟨r, ?_, r1.trans hso, ?_, r3, r4, r5, ?_⟩
  · unfold tickStep
    rw [e, Option.some_bind, er]
  · rw [r2, f.fields.2.2.2.2.2.2.2.2.1]
  · rw [remainingTicks_plain f] at r6
    exact r6

/-- The loop of the export run: it is left after as many ticks as remain. -/
theorem runLoop_export :
    ∀ (n : Nat) (p : Player), PlainSong p.song → ExportState p → remainingTicks p = n + 1 →
      ∃ r, runLoop (n + 1) p = some r ∧ r.ticksSoFar = (p.ticksSoFar + (n + 1)) % 2 ^ 32 ∧
        Statuses r ∧ r.song = p.song := by
  intro n
  induction n with
  | zero =>
    intro p hsong hx hrem
    obtain ⟨r, e, r1, r2, r3, r4, r5, r6⟩ := tickStep_export hsong hx
    rcases r6 with ⟨_, hl⟩ | ⟨_, hx1, hr1⟩
    · refine ⟨r.1, ?_, r2, r5, r1⟩
      simp only [runLoop]
      rw [e, Option.some_bind, if_pos (Or.inr ⟨r4, hl⟩)]
    · have := hx1.tick
      unfold remainingTicks at hr1 hrem
      omega
  | succ m ih =>
    intro p hsong hx hrem
    obtain ⟨r, e, r1, r2, r3, r4, r5, r6⟩ := tickStep_export hsong hx
    rcases r6 with ⟨h1, _⟩ | ⟨hl, hx1, hr1⟩
    · omega
    · obtain ⟨s, es, s1, s2, s3⟩ := ih r.1 (by rw [r1]; exact hsong) hx1 (by omega)
      refine ⟨s, ?_, ?_, s2, s3.trans r1⟩
      · simp only [runLoop] at es ⊢
        rw [e, Option.some_bind, if_neg (by
          rw [r3, hl]
          simp)]
        exact es
      · rw [s1, r2]
        omega

theorem plainSong_interfaces {s : Song} (hs : PlainSong s) (k : Int) :
    PlainSong (s.setAllMidiInterfaces k) := by
  refine ⟨hs.ticks, hs.sections, hs.playseqs, ?_, ?_⟩
  · intro b hb
    obtain ⟨a1, a2, a3, a4, a5⟩ := hs.blocks b hb
    refine ⟨a1, a2, a3, a4, ?_⟩
    intro line track
    have := a5 line track
    unfold Song.setAllMidiInterfaces
    simpa using this
  · intro i hi a ha
    unfold Song.setAllMidiInterfaces at hi
    obtain ⟨i0, h0, h1⟩ := List.mem_map.mp hi
    subst h1
    exact hs.arpeggios i0 h0 a ha

/-- The ticks that remain at the start of the song are the export ticks of the
specification. -/
theorem remainingTicks_start {p : Player} (hsong : PlainSong p.song)
    (hsec : p.section_ = 0) (hpos : p.position_ = 0) (hline : p.line_ = 0) (htick : p.tick = 0)
    (hseq : p.song.sections[0]? = some p.playseq_)
    (hblock : (p.song.playseqBlocks p.playseq_)[0]? = some p.block_) :
    remainingTicks p = exportTicks p.song ∧ 1 ≤ exportTicks p.song ∧
      0 < p.song.blockLength p.block_ := by
  obtain ⟨ps, hps, hpb, hmem⟩ := playseq_of_blocks hblock
  have hb' := hblock
  rw [← hpb] at hb'
  have l4 : p.block_ < p.song.blocks.length :=
    (hsong.playseqs ps hmem).2.2 _ (List.getElem?_mem hb')
  obtain ⟨k1, _⟩ := blockLength_pos hsong l4
  obtain ⟨t1, _⟩ := hsong.ticks
  have e1 : (p.song.sections.map p.song.playseqLines).sum = p.song.playseqLines p.playseq_ +
      ((p.song.sections.drop (0 + 1)).map p.song.playseqLines).sum := by
    rw [← sum_drop p.song.playseqLines hseq]
    rfl
  have e2 : p.song.playseqLines p.playseq_ = p.song.blockLength p.block_ +
      (((p.song.playseqBlocks p.playseq_).drop (0 + 1)).map p.song.blockLength).sum := by
    unfold Song.playseqLines
    rw [← sum_drop p.song.blockLength hblock]
    rfl
  have e3 : p.song.blockLength p.block_ = (p.song.blockLength p.block_ - 0 - 1) + 1 := by omega
  have hrem : remainingTicks p = exportTicks p.song := by
    unfold remainingTicks exportTicks
    rw [hsec, hpos, hline, htick, e1, e2, Nat.mul_add, Nat.mul_add]
    generalize p.song.blockLength p.block_ - 0 - 1 = m at e3
    rw [e3, Nat.mul_succ]
    omega
  refine ⟨hrem, ?_, k1⟩
  rw [← hrem]
  unfold remainingTicks
  rw [htick]
  omega

/-- The tick count of C27 where the fault of its failing input cannot occur: for a song
whose sections, playing sequences and blocks are non-empty and reference each other in range, with constant ticks per line `TPL ≥ 1` and cells without
commands, whose cells name instruments of the song only and whose arpeggio blocks are
non-empty and without commands (`PlainSong`), played by a player with one valid status for
each track, no stop requested and no post command latched: the export run
(`playWithoutScheduling`) started at section 0, position 0, line 0 terminates, and the final
`ticksSoFar` is `TPL` times the sum of the lengths of the blocks at all positions of the
playing sequences of all sections (modulo `2^32`, the width of the counter). -/
theorem export_tick_count (p : Player) (hsong : PlainSong p.song)
    (hsec : p.section_ = 0) (hpos : p.position_ = 0) (hline : p.line_ = 0)
    (hseq : p.song.sections[0]? = some p.playseq_)
    (hblock : (p.song.playseqBlocks p.playseq_)[0]? = some p.block_)
    (hpost : p.postCommand = 0) (hkill : p.killThread = false) (hst : Statuses p) :
    ∃ r, playWithoutScheduling (exportTicks p.song) p = some r ∧
      r.ticksSoFar = exportTicks p.song % 2 ^ 32 ∧
      (exportTicks p.song < 2 ^ 32 → r.ticksSoFar = exportTicks p.song) := by
  have hs1 := plainSong_interfaces hsong 0
  have hexp : exportTicks (p.song.setAllMidiInterfaces 0) = exportTicks p.song := rfl
  obtain ⟨hrem, hone, hlen⟩ := @remainingTicks_start
    { p with
      mode_ := Mode.ModePlaySong, killWhenLooped := true,
      song := p.song.setAllMidiInterfaces 0, tick := 0, ticksSoFar := 0,
      midiOut := p.midiOut ++ [⟨none, 0, MidiMsg.tempo (p.song.setAllMidiInterfaces 0).tempo⟩] }
    hs1 hsec hpos hline rfl hseq hblock
  have hst1 : Statuses
      { p with
        mode_ := Mode.ModePlaySong, killWhenLooped := true,
        song := p.song.setAllMidiInterfaces 0, tick := 0, ticksSoFar := 0,
        midiOut := p.midiOut ++ [⟨none, 0, MidiMsg.tempo (p.song.setAllMidiInterfaces 0).tempo⟩] } := by
    unfold Statuses validStatus Song.setAllMidiInterfaces
    dsimp only
    rw [List.length_map]
    exact hst
  have hx : ExportState
      { p with
        mode_ := Mode.ModePlaySong, killWhenLooped := true,
        song := p.song.setAllMidiInterfaces 0, tick := 0, ticksSoFar := 0,
        midiOut := p.midiOut ++ [⟨none, 0, MidiMsg.tempo (p.song.setAllMidiInterfaces 0).tempo⟩] } :=
    ⟨rfl, rfl, hkill, hpost, hst1, by rw [hsec]; exact hseq, by rw [hpos]; exact hblock,
      by rw [hline]; exact hlen, hs1.ticks.1⟩
  obtain ⟨n, hn⟩ : ∃ n, exportTicks p.song = n + 1 := ⟨exportTicks p.song - 1, by
    rw [hexp] at hone
    omega⟩
  obtain ⟨r, er, r1, r2, r3⟩ := runLoop_export n _ hs1 hx (by rw [hrem, hexp, hn])
  obtain ⟨r4, e4, f4, g4⟩ := stopNotes_total r2
  obtain ⟨r5, e5, f5, g5⟩ := stopNotes_total g4
  have hticks : r5.ticksSoFar = exportTicks p.song % 2 ^ 32 := by
    rw [f5.fields.2.2.2.2.2.2.2.2.1, f4.fields.2.2.2.2.2.2.2.2.1, r1, hn]
    dsimp only
    rw [Nat.zero_add]
  refine ⟨r5, ?_, hticks, ?_⟩
  · unfold playWithoutScheduling run
    dsimp only
    rw [hn]
    unfold Player.emit
    dsimp only
    rw [er, Option.some_bind, e4, Option.some_bind, e5]
  · intro hlt
    rw [hticks, Nat.mod_eq_of_lt hlt]

/-- A block built by `blockOfCells` from cells without commands that name instruments up to
`n` has no commands and names instruments up to `n`. -/
theorem blockOfCells_plain (tracks n : Nat) (cells : List (Nat × Nat × Nat × Nat))
    (h : ∀ c ∈ cells, c.2.1 % 256 ≤ n ∧ c.2.2.1 % 256 = 0 ∧ c.2.2.2 % 256 = 0) :
    (blockOfCells tracks cells).noCommands ∧
      ∀ line track, (blockOfCells tracks cells).instrument line track % 256 ≤ n := by
  have key : ∀ line, (cells.getD line (0, 0, 0, 0)).2.1 % 256 ≤ n ∧
      (cells.getD line (0, 0, 0, 0)).2.2.1 % 256 = 0 ∧
      (cells.getD line (0, 0, 0, 0)).2.2.2 % 256 = 0 := by
    intro line
    rw [List.getD_eq_getElem?_getD]
    cases hc : cells[line]? with
    | none => exact ⟨Nat.zero_le _, rfl, rfl⟩
    | some c => exact h c (List.getElem?_mem hc)
  constructor
  · intro line track page
    unfold blockOfCells
    dsimp only
    split
    · exact ⟨(key line).2.1, (key line).2.2⟩
    · exact ⟨rfl, rfl⟩
  · intro line track
    unfold blockOfCells
    dsimp only
    split
    · exact (key line).1
    · exact Nat.zero_le _

/-- The song of scenario S1 is a plain song. -/
theorem plainSong_S1 : PlainSong songS1 := by
  obtain ⟨b1, b2⟩ := blockOfCells_plain 1 1 [(49, 1, 0, 0)] (by decide)
  refine ⟨by decide, by decide, by decide, ?_, ?_⟩
  · intro b hb
    have hb1 : b = blockOfCells 1 [(49, 1, 0, 0)] := by
      simpa [songS1, songOf] using hb
    subst hb1
    exact ⟨by decide, by decide, by decide, b1, b2⟩
  · intro i hi a ha
    have hi1 : i = plainInstrument 100 0 1 := by
      simpa [songS1, songOf] using hi
    subst hi1
    cases ha

/-- The fresh track statuses of `playerOf` are valid. -/
theorem statuses_playerOf (song : Song) (mode : Mode) (k : Bool) :
    Statuses (playerOf song mode k) := by
  refine ⟨List.length_replicate _ _, ?_⟩
  intro ts hts
  have e : ts = freshStatus := List.eq_of_mem_replicate hts
  subst e
  unfold validStatus freshStatus TrackStatus.create TrackStatus.reset
  dsimp only
  omega

/-- The tick count of an export run, instance: the export run of scenario S1 (one block of one line, 6 ticks per line)
terminates after 6 tick steps. -/
theorem export_tick_count_witness :
    (∃ r, playWithoutScheduling (exportTicks playerS1.song) playerS1 = some r ∧
      r.ticksSoFar = exportTicks playerS1.song % 2 ^ 32 ∧
      (exportTicks playerS1.song < 2 ^ 32 → r.ticksSoFar = exportTicks playerS1.song)) ∧
      exportTicks playerS1.song = 6 ∧
      (playWithoutScheduling 6 playerS1).map (fun r => r.ticksSoFar) = some 6 :=
  ⟨export_tick_count playerS1 plainSong_S1 rfl rfl rfl (by decide!) (by decide!) rfl rfl
      (statuses_playerOf _ _ _),
    by decide!, by decide!⟩

/-- C27, evaluation at the failing input: one section, one playing sequence, one block of
one line, one tick per line, no command, one instrument; the cell `{note=49, instrument=2}`
names a missing instrument.  The song is as C27 asks and the run starts at section 0,
position 0, line 0; the tick count of C27 is 1; the export run faults in its first tick
(the arpeggio lookup dereferences the missing instrument), whatever the fuel, so it neither
terminates nor leaves a tick count. -/
theorem export_faults_on_missing_instrument :
    exportTicks (playerOneInstrument [(49, 2, 0, 0)]).song = 1 ∧
      ((playerOneInstrument [(49, 2, 0, 0)]).section_, (playerOneInstrument [(49, 2, 0, 0)]).position_,
        (playerOneInstrument [(49, 2, 0, 0)]).line_) = (0, 0, 0) ∧
      (playWithoutScheduling 1 (playerOneInstrument [(49, 2, 0, 0)])).isSome = false ∧
      ¬ ∃ fuel, (playWithoutScheduling fuel (playerOneInstrument [(49, 2, 0, 0)])).isSome = true := by
  refine ⟨by decide!, by decide!, by decide!, ?_⟩
  rintro ⟨fuel, h⟩
  have h1 : (tickStep
      { (playerOneInstrument [(49, 2, 0, 0)]) with
        mode_ := Mode.ModePlaySong, killWhenLooped := true,
        song := (playerOneInstrument [(49, 2, 0, 0)]).song.setAllMidiInterfaces 0,
        tick := 0, ticksSoFar := 0,
        midiOut := (playerOneInstrument [(49, 2, 0, 0)]).midiOut ++
          [⟨none, 0, MidiMsg.tempo
            ((playerOneInstrument [(49, 2, 0, 0)]).song.setAllMidiInterfaces 0).tempo⟩] }).isSome
      = false := by decide!
  have h2 := Option.not_isSome_iff_eq_none.mp (by rw [h1]; exact Bool.false_ne_true)
  unfold playWithoutScheduling run at h
  dsimp only at h
  unfold Player.emit at h
  dsimp only at h
  cases fuel with
  | zero => simp [runLoop] at h
  | succ k =>
    simp only [runLoop] at h
    rw [h2] at h
    simp at h

end Tutka
